import Mathlib

/-!
# PlexHive: difficulty retargeting and Hive proof verification

A shallow embedding of `src/pow.cpp` (the retargeting functions and `CheckHiveProof`).

Conventions of the embedding

* `arith_uint256` values are natural numbers below `2 ^ 256`; every operation that can
  leave that range reduces modulo `2 ^ 256`.
* `int`, `int64_t` values are integers (`Int`); the places where the C++ converts them to
  an unsigned machine type (`uint32_t`, `uint64_t`, `unsigned int`) carry the reduction
  explicitly.
* A `const CBlockIndex*` is the list made of the entry followed by its ancestors
  (`pprev` is the tail); the null pointer is the empty list.
* A function that can hit a failed `assert`, a null dereference, an out-of-range index or
  a thrown `uint_error` returns `Option`; `none` is that failure.
-/

namespace PlexHive

/-! ## 256-bit arithmetic -/

/-- Modulus of `arith_uint256`. -/
def U256 : Nat := 2 ^ 256

/-- Modelled from the spec: the scan of `base_uint::bits()` (arith_uint256.cpp is not among
the sources): number of binary digits, by halving. -/
def bitsAux : Nat → Nat → Nat
  | 0, _ => 0
  | fuel + 1, x => if x = 0 then 0 else bitsAux fuel (x / 2) + 1

/-- Modelled from the spec: `base_uint<256>::bits()` of arith_uint256.cpp, which is not
among the sources: the position of the highest set bit plus one, `0` for zero. -/
def bits (x : Nat) : Nat := bitsAux 256 (x % U256)

/-- Modelled from the spec: `arith_uint256::SetCompact` (arith_uint256.cpp is not among the
sources), the Bitcoin-style compact decoding: one exponent byte, a 23-bit mantissa,
the sign bit in the top mantissa bit. The value is reduced to 256 bits. -/
def SetCompact (nCompact : Nat) : Nat :=
  let nSize := (nCompact / 2 ^ 24) % 256
  let nWord := nCompact % 2 ^ 23
  if nSize ≤ 3 then nWord / 2 ^ (8 * (3 - nSize))
  else (nWord * 2 ^ (8 * (nSize - 3))) % U256

/-- Modelled from the spec: the mantissa word `nWord` of `arith_uint256::SetCompact`
after its in-place shift, as the flags read it. -/
def compactWord (nCompact : Nat) : Nat :=
  let nSize := (nCompact / 2 ^ 24) % 256
  let nWord := nCompact % 2 ^ 23
  if nSize ≤ 3 then nWord / 2 ^ (8 * (3 - nSize)) else nWord

/-- Modelled from the spec: the `pfNegative` output of `arith_uint256::SetCompact`:
`nWord != 0 && (nCompact & 0x00800000) != 0`. -/
def SetCompactNegative (nCompact : Nat) : Bool :=
  compactWord nCompact != 0 && (nCompact / 2 ^ 23) % 2 == 1

/-- Modelled from the spec: the `pfOverflow` output of `arith_uint256::SetCompact`:
`nWord != 0 && (nSize > 34 || (nWord > 0xff && nSize > 33) || (nWord > 0xffff && nSize > 32))`. -/
def SetCompactOverflow (nCompact : Nat) : Bool :=
  let nSize := (nCompact / 2 ^ 24) % 256
  let nWord := compactWord nCompact
  nWord != 0 && (decide (nSize > 34) || (decide (nWord > 0xff) && decide (nSize > 33))
    || (decide (nWord > 0xffff) && decide (nSize > 32)))

/-- Modelled from the spec: `arith_uint256::GetCompact()` (arith_uint256.cpp is not among
the sources) with `fNegative = false`: the canonical compact encoding. The mantissa is
below `2 ^ 24` and the size byte sits above it, so the bitwise `|` is an addition. -/
def GetCompact (x : Nat) : Nat :=
  let nSize := (bits x + 7) / 8
  let nCompact :=
    if nSize ≤ 3 then ((x % U256) * 2 ^ (8 * (3 - nSize))) % 2 ^ 32
    else ((x % U256) / 2 ^ (8 * (nSize - 3))) % 2 ^ 32
  if (nCompact / 2 ^ 23) % 2 = 1 then nCompact / 2 ^ 8 + (nSize + 1) * 2 ^ 24
  else nCompact + nSize * 2 ^ 24

/-- Modelled from the spec: `UintToArith256`, the 256-bit value held by a `uint256`. -/
def UintToArith256 (x : Nat) : Nat := x % U256

/-- Modelled from the spec: `base_uint::operator*=(uint32_t)` of arith_uint256.h (not
among the sources), the overload C++ selects for an `int`, `int64_t` or `unsigned int`
right operand: the operand is converted to `uint32_t` and the product is reduced to
256 bits. -/
def mulU32 (a : Nat) (b : Int) : Nat := (a * (b % 2 ^ 32).toNat) % U256

/-- Modelled from the spec: `base_uint::operator/=(const base_uint&)` of arith_uint256.h
(not among the sources) with an integer right operand, which reaches it through the
`uint64_t` constructor; `none` is the thrown `uint_error("Division by zero")`. -/
def divU64 (a : Nat) (b : Int) : Option Nat :=
  if (b % 2 ^ 64).toNat = 0 then none else some (a / (b % 2 ^ 64).toNat)

/-- Modelled from the spec: `base_uint::operator+=` of arith_uint256.h (not among the
sources), the sum reduced to 256 bits. -/
def addU256 (a b : Nat) : Nat := (a + b) % U256

/-- Conversion of an integer to `int` (two's complement, 32 bits). -/
def toInt32 (x : Int) : Int :=
  if x % 2 ^ 32 < 2 ^ 31 then x % 2 ^ 32 else x % 2 ^ 32 - 2 ^ 32

/-- Conversion of an integer to `uint32_t`. -/
def toUInt32 (x : Int) : Nat := (x % 2 ^ 32).toNat

/-! ## Chain index and consensus parameters -/

/-- A `CBlockIndex` as the core reads it: `nHeight`, `nTime`, `nBits`, `nVersion`, and
the two classifications of its header, `IsHiveMined(params)` and `GetPoWType()`
(block.h is not among the sources, so both are carried as fields). -/
structure CBlockIndex where
  nHeight : Int
  nTime : Nat
  nBits : Nat
  nVersion : Int
  IsHiveMined : Bool
  GetPoWType : Nat
  deriving DecidableEq, Repr

/-- A `const CBlockIndex*`: the entry followed by its ancestors; `[]` is `nullptr`. -/
abbrev Chain := List CBlockIndex

/-- Embedding of `GetBlockTime()`: the time stamp as `int64_t`. -/
def CBlockIndex.GetBlockTime (b : CBlockIndex) : Int := (b.nTime : Int)

/-- Embedding of `Consensus::Params` as far as `pow.cpp` reads it. The activation tests
`IsHiveEnabled`, `IsHive11Enabled`, `IsMinotaurXEnabled` (validation.cpp, not among the
sources) and `DifficultyAdjustmentInterval()`, `GetBeeCost` (not among the sources) are
carried as parameters. -/
structure Params where
  powLimit : Nat
  powLimitSHA : Nat
  powLimitHive : Nat
  powTypeLimits : Nat → Nat
  NUM_BLOCK_TYPES : Nat
  nPowTargetSpacing : Int
  nPowTargetTimespan : Int
  DifficultyAdjustmentInterval : Int
  fPowAllowMinDifficultyBlocks : Bool
  fPowNoRetargeting : Bool
  lwmaAveragingWindow : Int
  lastScryptBlock : Int
  minHiveCheckBlock : Int
  hiveDifficultyWindow : Int
  hiveBlockSpacingTarget : Int
  hiveTargetAdjustAggression : Int
  maxConsecutiveHiveBlocks : Int
  beeGestationBlocks : Int
  beeLifespanBlocks : Int
  minBeeCost : Int
  communityContribFactor : Int
  IsHiveEnabled : Chain → Bool
  IsHive11Enabled : Chain → Bool
  IsMinotaurXEnabled : Chain → Bool
  GetBeeCost : Int → Int

/-- A chain is structurally valid when every entry of height `h > 0` is followed by its
predecessor of height `h - 1` and the last entry, the genesis, has height `0`. -/
def ValidChain : Chain → Prop
  | [] => True
  | [b] => b.nHeight = 0
  | b :: c :: rest => b.nHeight = c.nHeight + 1 ∧ ValidChain (c :: rest)

/-- Structural validity is decidable. -/
instance ValidChain.instDecidable : (c : Chain) → Decidable (ValidChain c)
  | [] => isTrue trivial
  | [b] => inferInstanceAs (Decidable (b.nHeight = 0))
  | b :: c :: rest =>
    have := ValidChain.instDecidable (c :: rest)
    inferInstanceAs (Decidable (b.nHeight = c.nHeight + 1 ∧ ValidChain (c :: rest)))

/-- Floor compact value `powLimit.GetCompact()` of a 256-bit floor. -/
def limitCompact (limit : Nat) : Nat := GetCompact (UintToArith256 limit)

/-- The closing clamp `if (bn > bnPowLimit) bn = bnPowLimit; return bn.GetCompact();`. -/
def clampCompact (bn limit : Nat) : Nat :=
  if bn > UintToArith256 limit then GetCompact (UintToArith256 limit) else GetCompact bn

/-! ## GetNextWorkRequiredLWMA (pow.cpp 31-118) -/

/-- Outcome of the window walk of `GetNextWorkRequiredLWMA` (lines 60-82). -/
inductive LwmaWalk where
  | assertFailed
  | forkpoint
  | window (oldestFirst : List CBlockIndex)
  deriving DecidableEq, Repr

/-- The `while (blocksFound < N)` walk, lines 60-82. `need` is `N - blocksFound > 0`,
`acc` is `wantedBlocks` read from its back (oldest collected block first). The first
entry of a returned window is the block `blockPreviousTimestamp` ends on. -/
def lwmaWalk (powType : Nat) : Nat → Chain → List CBlockIndex → LwmaWalk
  | _, [], _ => LwmaWalk.assertFailed
  | need, b :: prev, acc =>
    if b.nVersion ≥ 0x20000000 then LwmaWalk.forkpoint
    else if b.IsHiveMined || b.GetPoWType != powType then
      match prev with
      | [] => LwmaWalk.assertFailed
      | _ :: _ => lwmaWalk powType need prev acc
    else if need ≤ 1 then LwmaWalk.window (b :: acc)
    else
      match prev with
      | [] => LwmaWalk.assertFailed
      | _ :: _ => lwmaWalk powType (need - 1) prev (b :: acc)

/-- State of the forward loop, lines 87-108. -/
structure LwmaAcc where
  previousTimestamp : Int
  j : Int
  sumWeightedSolvetimes : Int
  avgTarget : Nat
  deriving DecidableEq, Repr

/-- One iteration of the forward loop, lines 88-107; `none` is a division by zero. -/
def lwmaStep (T N k : Int) (st : LwmaAcc) (block : CBlockIndex) : Option LwmaAcc :=
  let thisTimestamp :=
    if block.GetBlockTime > st.previousTimestamp then block.GetBlockTime
    else st.previousTimestamp + 1
  let solvetime := min (6 * T) (thisTimestamp - st.previousTimestamp)
  let j := st.j + 1
  match divU64 (SetCompact block.nBits) N with
  | none => none
  | some q =>
    match divU64 q k with
    | none => none
    | some q2 =>
      some { previousTimestamp := thisTimestamp, j := j,
             sumWeightedSolvetimes := st.sumWeightedSolvetimes + solvetime * j,
             avgTarget := addU256 st.avgTarget q2 }

/-- The forward loop over the window, oldest block first. -/
def lwmaLoop (T N k : Int) : List CBlockIndex → LwmaAcc → Option LwmaAcc
  | [], st => some st
  | b :: rest, st =>
    match lwmaStep T N k st b with
    | none => none
    | some st2 => lwmaLoop T N k rest st2

/-- Lines 83-117 for a collected window (`wanted` oldest first) whose walk ended on an
entry of time `startTime`. -/
def lwmaFinish (T N k : Int) (limit : Nat) (startTime : Int) (wanted : List CBlockIndex) :
    Option Nat :=
  match lwmaLoop T N k wanted
      { previousTimestamp := startTime, j := 0, sumWeightedSolvetimes := 0, avgTarget := 0 } with
  | none => none
  | some st =>
    let nextTarget := mulU32 st.avgTarget st.sumWeightedSolvetimes
    if nextTarget > UintToArith256 limit then some (limitCompact limit)
    else some (GetCompact nextTarget)

/-- Embedding of `GetNextWorkRequiredLWMA(pindexLast, pblock, params, powType)`; `pblockTime` is
`pblock->GetBlockTime()`. -/
def GetNextWorkRequiredLWMA (pindexLast : Chain) (pblockTime : Int) (params : Params)
    (powType : Nat) : Option Nat :=
  match pindexLast with
  | [] => none
  | tip :: _ =>
    let limit := params.powTypeLimits powType
    let T := params.nPowTargetSpacing * 2
    let N := params.lwmaAveragingWindow
    let k := Int.tdiv (N * (N + 1) * T) 2
    let height := tip.nHeight
    if params.fPowAllowMinDifficultyBlocks && decide (pblockTime > tip.GetBlockTime + T * 10) then
      some (limitCompact limit)
    else if height < N then some (limitCompact limit)
    else if N ≤ 0 then lwmaFinish T N k limit tip.GetBlockTime []
    else
      match lwmaWalk powType N.toNat pindexLast [] with
      | LwmaWalk.assertFailed => none
      | LwmaWalk.forkpoint => some (limitCompact limit)
      | LwmaWalk.window [] => none
      | LwmaWalk.window (oldest :: rest) =>
        lwmaFinish T N k limit oldest.GetBlockTime (oldest :: rest)

/-! ## DarkGravityWave (pow.cpp 123-190) -/

/-- The loop `while (p->GetBlockHeader().IsHiveMined(params)) { assert(p->pprev); p = p->pprev; }`
of lines 134-138 and 150-154; `none` is the failed assertion (or a null `p`). -/
def skipHive : Chain → Option Chain
  | [] => none
  | b :: prev =>
    if b.IsHiveMined then
      match prev with
      | [] => none
      | _ :: _ => skipHive prev
    else some (b :: prev)

/-- The `for (nCountBlocks = 1; nCountBlocks <= nPastBlocks; nCountBlocks++)` loop of
lines 148-168; `left` is the number of iterations still to run. Returns the running
average and the entry `pindex` ends on. -/
def dgwLoop (nPastBlocks : Nat) : Nat → Nat → Chain → Nat → Option (Nat × Chain)
  | 0, _, pindex, avg => some (avg, pindex)
  | left + 1, nCountBlocks, pindex, avg =>
    match skipHive pindex with
    | none => none
    | some [] => none
    | some (b :: prev) =>
      let bnTarget := SetCompact b.nBits
      let avg2 :=
        if nCountBlocks = 1 then bnTarget
        else (addU256 (mulU32 avg nCountBlocks) bnTarget) / (nCountBlocks + 1)
      if nCountBlocks ≠ nPastBlocks then
        match prev with
        | [] => none
        | _ :: _ => dgwLoop nPastBlocks left (nCountBlocks + 1) prev avg2
      else dgwLoop nPastBlocks left (nCountBlocks + 1) (b :: prev) avg2

/-- Lines 170-189: the retarget step from the running average and the two time stamps. -/
def dgwRetarget (params : Params) (bnPastTargetAvg : Nat) (lastTime firstTime : Int) :
    Option Nat :=
  let nPastBlocks : Int := 24
  let nActualTimespan := lastTime - firstTime
  let nTargetTimespan := nPastBlocks * params.nPowTargetSpacing
  let a1 := if nActualTimespan < Int.tdiv nTargetTimespan 3 then Int.tdiv nTargetTimespan 3
            else nActualTimespan
  let a2 := if a1 > nTargetTimespan * 3 then nTargetTimespan * 3 else a1
  match divU64 (mulU32 bnPastTargetAvg a2) nTargetTimespan with
  | none => none
  | some bnNew => some (clampCompact bnNew params.powLimitSHA)

/-- Embedding of `DarkGravityWave(pindexLast, pblock, params)`. -/
def DarkGravityWave (pindexLast : Chain) (pblockTime : Int) (params : Params) : Option Nat :=
  match pindexLast with
  | [] => none
  | tip :: _ =>
    if params.fPowAllowMinDifficultyBlocks &&
        decide (pblockTime > tip.GetBlockTime + params.nPowTargetSpacing * 10) then
      some (limitCompact params.powLimitSHA)
    else
      match (if params.IsHive11Enabled pindexLast then skipHive pindexLast else some pindexLast) with
      | none => none
      | some [] => some (limitCompact params.powLimitSHA)
      | some (last :: prev) =>
        if last.nHeight - params.lastScryptBlock < 24 then some (limitCompact params.powLimitSHA)
        else
          match dgwLoop 24 24 1 (last :: prev) 0 with
          | none => none
          | some (_, []) => none
          | some (avg, first :: _) =>
            dgwRetarget params avg last.GetBlockTime first.GetBlockTime

/-! ## Legacy retarget (pow.cpp 193-281) -/

/-- Embedding of `CalculateNextWorkRequired(pindexLast, nFirstBlockTime, params)`, lines 250-281.
`bits() - 1` is computed in `unsigned int`. -/
def CalculateNextWorkRequired (pindexLast : CBlockIndex) (nFirstBlockTime : Int)
    (params : Params) : Option Nat :=
  if params.fPowNoRetargeting then some pindexLast.nBits
  else
    let t0 := pindexLast.GetBlockTime - nFirstBlockTime
    let t1 := if t0 < Int.tdiv params.nPowTargetTimespan 4
              then Int.tdiv params.nPowTargetTimespan 4 else t0
    let nActualTimespan := if t1 > params.nPowTargetTimespan * 4
                           then params.nPowTargetTimespan * 4 else t1
    let bnOld := SetCompact pindexLast.nBits
    let bnPowLimit := UintToArith256 params.powLimit
    let fShift := decide (bits bnOld > (bits bnPowLimit + 2 ^ 32 - 1) % 2 ^ 32)
    let bn1 := if fShift then bnOld / 2 else bnOld
    match divU64 (mulU32 bn1 nActualTimespan) params.nPowTargetTimespan with
    | none => none
    | some bn2 =>
      let bn3 := if fShift then (bn2 * 2) % U256 else bn2
      some (clampCompact bn3 params.powLimit)

/-- The walk of lines 223-226 back to the last block that is not a special
minimum-difficulty block. -/
def lastNonMinDifficulty (interval : Int) (nProofOfWorkLimit : Nat) : Chain → Option Nat
  | [] => none
  | [b] => some b.nBits
  | b :: c :: rest =>
    if Int.tmod b.nHeight interval ≠ 0 ∧ b.nBits = nProofOfWorkLimit then
      lastNonMinDifficulty interval nProofOfWorkLimit (c :: rest)
    else some b.nBits

/-- Embedding of `GetNextWorkRequiredLTC(pindexLast, pblock, params)`, lines 205-247. A zero
adjustment interval makes the `%` undefined: `none`. -/
def GetNextWorkRequiredLTC (pindexLast : Chain) (pblockTime : Int) (params : Params) :
    Option Nat :=
  match pindexLast with
  | [] => none
  | tip :: _ =>
    let interval := params.DifficultyAdjustmentInterval
    let nProofOfWorkLimit := limitCompact params.powLimit
    if interval = 0 then none
    else if Int.tmod (tip.nHeight + 1) interval ≠ 0 then
      if params.fPowAllowMinDifficultyBlocks then
        if pblockTime > tip.GetBlockTime + params.nPowTargetSpacing * 2 then
          some nProofOfWorkLimit
        else lastNonMinDifficulty interval nProofOfWorkLimit pindexLast
      else some tip.nBits
    else
      let blockstogoback :=
        if tip.nHeight + 1 ≠ interval then interval else interval - 1
      match pindexLast.drop blockstogoback.toNat with
      | [] => none
      | pindexFirst :: _ => CalculateNextWorkRequired tip pindexFirst.GetBlockTime params

/-- Embedding of `GetNextWorkRequired(pindexLast, pblock, params)`, lines 193-202. -/
def GetNextWorkRequired (pindexLast : Chain) (pblockTime : Int) (params : Params) :
    Option Nat :=
  match pindexLast with
  | [] => none
  | tip :: _ =>
    if tip.nHeight ≥ params.lastScryptBlock then DarkGravityWave pindexLast pblockTime params
    else GetNextWorkRequiredLTC pindexLast pblockTime params

/-! ## CheckProofOfWork (pow.cpp 283-306) -/

/-- The loop of lines 292-295: the largest of the first `n` per-type floors. -/
def highestPowLimit (powTypeLimits : Nat → Nat) : Nat → Nat
  | 0 => 0
  | n + 1 =>
    let powLimit := highestPowLimit powTypeLimits n
    if UintToArith256 (powTypeLimits n) > powLimit then UintToArith256 (powTypeLimits n)
    else powLimit

/-- Embedding of `CheckProofOfWork(hash, nBits, params)`. -/
def CheckProofOfWork (hash nBits : Nat) (params : Params) : Bool :=
  let bnTarget := SetCompact nBits
  let powLimit := highestPowLimit params.powTypeLimits params.NUM_BLOCK_TYPES
  if SetCompactNegative nBits || bnTarget == 0 || SetCompactOverflow nBits
      || decide (bnTarget > powLimit) then false
  else if UintToArith256 hash > bnTarget then false
  else true

/-! ## Hive retargeting (pow.cpp 309-432) -/

/-- Counters of the backward walks of the two moving-average Hive retargets. -/
structure HiveAcc where
  beeHashTarget : Nat
  hiveBlockCount : Int
  totalBlockCount : Int
  deriving DecidableEq, Repr

/-- Body of the walks, lines 318-323 and 354-359, applied to the entry `b`. -/
def hiveAccStep (b : CBlockIndex) (st : HiveAcc) : HiveAcc :=
  if b.IsHiveMined then
    { beeHashTarget := addU256 st.beeHashTarget (SetCompact b.nBits),
      hiveBlockCount := st.hiveBlockCount + 1,
      totalBlockCount := st.totalBlockCount + 1 }
  else { st with totalBlockCount := st.totalBlockCount + 1 }

/-- The `while` walk of `GetNextHive11WorkRequired`, lines 317-324. -/
def hive11Walk (params : Params) : Chain → HiveAcc → HiveAcc
  | b :: c :: rest, st =>
    if st.hiveBlockCount < params.hiveDifficultyWindow ∧ b.nHeight ≥ params.minHiveCheckBlock then
      hive11Walk params (c :: rest) (hiveAccStep b st)
    else st
  | _, st => st

/-- Lines 331-341 and 367-377: average the found targets and rescale by the number of
blocks walked. The divisor is `int targetTotalBlockCount = hiveBlockCount *
params.hiveBlockSpacingTarget` (lines 334 and 370): the product is kept in 32 bits. -/
def hiveRescale (params : Params) (st : HiveAcc) : Option Nat :=
  match divU64 st.beeHashTarget st.hiveBlockCount with
  | none => none
  | some avg =>
    let targetTotalBlockCount := toInt32 (st.hiveBlockCount * params.hiveBlockSpacingTarget)
    match divU64 (mulU32 avg st.totalBlockCount) targetTotalBlockCount with
    | none => none
    | some t => some (clampCompact t params.powLimitHive)

/-- Embedding of `GetNextHive11WorkRequired(pindexLast, params)`, lines 309-342. -/
def GetNextHive11WorkRequired (pindexLast : Chain) (params : Params) : Option Nat :=
  match pindexLast with
  | [] => none
  | _ :: _ =>
    let st := hive11Walk params pindexLast
      { beeHashTarget := 0, hiveBlockCount := 0, totalBlockCount := 0 }
    if st.hiveBlockCount = 0 then some (limitCompact params.powLimitHive)
    else hiveRescale params st

/-- The `while` walk of `GetNextHive12WorkRequired`, lines 353-360. -/
def hive12Walk (params : Params) : Chain → HiveAcc → HiveAcc
  | b :: c :: rest, st =>
    if st.hiveBlockCount < params.hiveDifficultyWindow ∧
        params.IsMinotaurXEnabled (b :: c :: rest) = true then
      hive12Walk params (c :: rest) (hiveAccStep b st)
    else st
  | _, st => st

/-- Embedding of `GetNextHive12WorkRequired(pindexLast, params)`, lines 345-378. -/
def GetNextHive12WorkRequired (pindexLast : Chain) (params : Params) : Option Nat :=
  match pindexLast with
  | [] => none
  | _ :: _ =>
    let st := hive12Walk params pindexLast
      { beeHashTarget := 0, hiveBlockCount := 0, totalBlockCount := 0 }
    if st.hiveBlockCount < params.hiveDifficultyWindow then
      some (limitCompact params.powLimitHive)
    else hiveRescale params st

/-- The `while (true)` walk of the carry-forward retarget, lines 397-412: `none` when the
walk runs out (floor), else the compact target of the last Hive block and the number of
ordinary blocks above it. -/
def hive10Walk (params : Params) : Chain → Int → Option (Nat × Int)
  | b :: c :: rest, numPowBlocks =>
    if b.nHeight < params.minHiveCheckBlock then none
    else if b.IsHiveMined then some (b.nBits, numPowBlocks)
    else hive10Walk params (c :: rest) (numPowBlocks + 1)
  | _, _ => none

/-- Embedding of `GetNextHiveWorkRequired(pindexLast, params)`, lines 381-432. The
interval, the multiplier and the divisor of lines 421-423 are computed in `int`. -/
def GetNextHiveWorkRequired (pindexLast : Chain) (params : Params) : Option Nat :=
  match pindexLast with
  | [] => none
  | _ :: _ =>
    if params.IsMinotaurXEnabled pindexLast then GetNextHive12WorkRequired pindexLast params
    else if params.IsHive11Enabled pindexLast then GetNextHive11WorkRequired pindexLast params
    else
      match hive10Walk params pindexLast 0 with
      | none => some (limitCompact params.powLimitHive)
      | some (nBits, numPowBlocks) =>
        if numPowBlocks = 0 then some (GetCompact 0)
        else if params.hiveBlockSpacingTarget = 0 then none
        else
          let interval :=
            toInt32 (Int.tdiv params.hiveTargetAdjustAggression params.hiveBlockSpacingTarget)
          let num :=
            toInt32 ((interval - 1) * params.hiveBlockSpacingTarget + numPowBlocks + numPowBlocks)
          match divU64 (mulU32 (SetCompact nBits) num)
              (toInt32 ((interval + 1) * params.hiveBlockSpacingTarget)) with
          | none => none
          | some t => some (clampCompact t params.powLimitHive)

/-! ## CheckHiveProof (pow.cpp 548-863) -/

/-- Outcome of one gate of the verifier: undefined behaviour or a failed assertion
(`crash`), `return false` (`reject`), or the values the gate hands on (`pass`). -/
inductive Gate (α : Type) where
  | crash
  | reject
  | pass (a : α)
  deriving DecidableEq, Repr

/-- Sequencing of gates: the first `crash` or `reject` ends the run. -/
def Gate.bind {α β : Type} (g : Gate α) (f : α → Gate β) : Gate β :=
  match g with
  | Gate.crash => Gate.crash
  | Gate.reject => Gate.reject
  | Gate.pass a => f a

/-- A byte string (`CScript`, `std::string`, signature). -/
abbrev Bytes := List Nat

/-- A `CTxOut`. -/
structure CTxOut where
  nValue : Int
  scriptPubKey : Bytes
  deriving DecidableEq, Repr

/-- A `CTransaction` as the verifier reads it. -/
structure CTransaction where
  IsCoinBase : Bool
  vout : List CTxOut
  deriving DecidableEq, Repr

/-- A `CBlock` as the verifier reads it. -/
structure CBlock where
  hashPrevBlock : Nat
  vtx : List CTransaction
  deriving DecidableEq, Repr

/-- Modelled from the spec: `CTxDestination`, the variant of script/standard.h (not among
the sources); `IsValidDestination` holds for every alternative but the first. -/
inductive CTxDestination where
  | CNoDestination
  | CKeyID (id : Nat)
  | CScriptID (id : Nat)
  | WitnessV0ScriptHash (id : Nat)
  | WitnessV0KeyHash (id : Nat)
  | WitnessUnknown (id : Nat)
  deriving DecidableEq, Repr

/-- Modelled from the spec: `IsValidDestination(dest)` of script/standard.cpp (not among
the sources): `dest.which() != 0`. -/
def IsValidDestination : CTxDestination → Bool
  | CTxDestination.CNoDestination => false
  | _ => true

/-- Embedding of `boost::get<CKeyID>(&dest)`. -/
def getKeyID : CTxDestination → Option Nat
  | CTxDestination.CKeyID id => some id
  | _ => none

/-- Modelled from the spec: the `Coin` of coins.h (not among the sources), an unspent
output with the height of its block; the height is the 31-bit field
`uint32_t nHeight : 31`, so only `nHeight % 2 ^ 31` is ever read. -/
structure Coin where
  nValue : Int
  scriptPubKey : Bytes
  nHeight : Nat
  deriving DecidableEq, Repr

/-- The external collaborators of `CheckHiveProof` (block index, UTXO view, block
database scan, script and key functions, hashes, opcodes), none of them among the
sources. `GetCoin txid n` is `pcoinsTip && pcoinsTip->GetCoin(COutPoint(txid, n), coin)`;
`GetTxByHashAndHeight` returns the transaction and the index entry `foundAt` with its
ancestors. -/
structure HiveEnv where
  OP_RETURN : Nat
  OP_BEE : Nat
  OP_TRUE : Nat
  mapBlockIndex : Nat → Chain
  chainActive : Nat → Chain
  IsBCT : CTransaction → Bool
  GetDeterministicRandString : Chain → Bytes
  hiveHash : Bytes → Bytes → Nat → Nat
  MinotaurHashArbitrary : Bytes → Bytes → Nat → Nat
  messageHash : Bytes → Nat
  RecoverCompact : Nat → Bytes → Option Nat
  ExtractDestination : Bytes → Option CTxDestination
  IsBCTScript : Bytes → Option Bytes
  scriptPubKeyCF : Bytes
  GetCoin : Bytes → Nat → Option Coin
  GetTxByHashAndHeight : Bytes → Nat → Chain → Option (CTransaction × CBlockIndex × Chain)

/-- Embedding of `ReadLE32(&script[off])`; `none` when a byte is outside the script. -/
def ReadLE32 (script : Bytes) (off : Nat) : Option Nat :=
  match script[off]?, script[off + 1]?, script[off + 2]?, script[off + 3]? with
  | some b0, some b1, some b2, some b3 =>
    some (b0 % 256 + (b1 % 256) * 2 ^ 8 + (b2 % 256) * 2 ^ 16 + (b3 % 256) * 2 ^ 24)
  | _, _, _, _ => none

/-- The decoded proof of the coinbase output 0 (lines 631-646 and 681). -/
structure AltProofPayload where
  beeNonce : Nat
  bctClaimedHeight : Nat
  communityContrib : Bool
  txidStr : Bytes
  messageSig : Bytes
  deriving DecidableEq, Repr

/-- Lines 555-565: the predecessor entry; `blockHeight = pindexPrev->nHeight + 1` is read
before the null test, so an absent entry is a null dereference. -/
def hivePredecessor (env : HiveEnv) (pblock : CBlock) : Gate Chain :=
  match env.mapBlockIndex pblock.hashPrevBlock with
  | [] => Gate.crash
  | b :: prev => Gate.pass (b :: prev)

/-- The loop of lines 579-583: the number of Hive blocks at the tip; `none` is the
failed `assert(pindexTemp->pprev)`. -/
def hiveBlocksAtTip : Chain → Int → Option Int
  | [], _ => none
  | b :: prev, n =>
    if b.IsHiveMined then
      match prev with
      | [] => none
      | _ :: _ => hiveBlocksAtTip prev (n + 1)
    else some n

/-- Lines 570-593: Hive is enabled and the run of Hive blocks is not too long. -/
def hiveRunGate (params : Params) (pindexPrev : Chain) : Gate Unit :=
  match pindexPrev with
  | [] => Gate.crash
  | tip :: _ =>
    if !params.IsHiveEnabled pindexPrev then Gate.reject
    else if params.IsHive11Enabled pindexPrev then
      match hiveBlocksAtTip pindexPrev 0 with
      | none => Gate.crash
      | some n => if n ≥ params.maxConsecutiveHiveBlocks then Gate.reject else Gate.pass ()
    else if tip.IsHiveMined then Gate.reject
    else Gate.pass ()

/-- Lines 596-628: no bonding transaction after the coinbase, and a well-formed
coinbase; hands on the script of output 0 and output 1. -/
def coinbaseGate (env : HiveEnv) (pblock : CBlock) : Gate (Bytes × CTxOut) :=
  if (pblock.vtx.drop 1).any env.IsBCT then Gate.reject
  else
    match pblock.vtx with
    | [] => Gate.crash
    | txCoinbase :: _ =>
      if !txCoinbase.IsCoinBase then Gate.reject
      else if txCoinbase.vout.length < 2 ∨ txCoinbase.vout.length > 3 then Gate.reject
      else
        match txCoinbase.vout with
        | vout0 :: vout1 :: _ =>
          if vout0.scriptPubKey.length < 144 then Gate.reject
          else
            match vout0.scriptPubKey[0]?, vout0.scriptPubKey[1]? with
            | some b0, some b1 =>
              if b0 ≠ env.OP_RETURN ∨ b1 ≠ env.OP_BEE then Gate.reject
              else Gate.pass (vout0.scriptPubKey, vout1)
            | _, _ => Gate.crash
        | _ => Gate.crash

/-- Lines 631-646 and 681: the fixed-offset reads of the payload. -/
def parsePayload (env : HiveEnv) (script : Bytes) : Gate AltProofPayload :=
  match ReadLE32 script 3, ReadLE32 script 8, script[12]? with
  | some beeNonce, some bctClaimedHeight, some flag =>
    if script.length < 144 then Gate.crash
    else
      Gate.pass { beeNonce := beeNonce, bctClaimedHeight := bctClaimedHeight,
                  communityContrib := decide (flag = env.OP_TRUE),
                  txidStr := (script.drop 14).take 64,
                  messageSig := (script.drop 79).take 65 }
  | _, _, _ => Gate.crash

/-- Lines 652-678: the bee hash must be strictly below the current Hive target. -/
def beeHashGate (env : HiveEnv) (params : Params) (pindexPrev : Chain)
    (payload : AltProofPayload) : Gate Unit :=
  let deterministicRandString := env.GetDeterministicRandString pindexPrev
  match GetNextHiveWorkRequired pindexPrev params with
  | none => Gate.crash
  | some nBits =>
    let beeHashTarget := SetCompact nBits
    let beeHash :=
      if !params.IsMinotaurXEnabled pindexPrev then
        UintToArith256 (env.hiveHash deterministicRandString payload.txidStr payload.beeNonce)
      else
        UintToArith256
          (env.MinotaurHashArbitrary deterministicRandString payload.txidStr payload.beeNonce)
    if beeHash ≥ beeHashTarget then Gate.reject else Gate.pass ()

/-- Lines 685-715: the honey destination of output 1 and the signature over the hash
of the deterministic random string. -/
def honeyGate (env : HiveEnv) (pindexPrev : Chain) (payload : AltProofPayload)
    (vout1 : CTxOut) : Gate CTxDestination :=
  match env.ExtractDestination vout1.scriptPubKey with
  | none => Gate.reject
  | some honeyDestination =>
    if !IsValidDestination honeyDestination then Gate.reject
    else
      match getKeyID honeyDestination with
      | none => Gate.reject
      | some keyID =>
        let mhash := env.messageHash (env.GetDeterministicRandString pindexPrev)
        match env.RecoverCompact mhash payload.messageSig with
        | none => Gate.reject
        | some pubkeyID =>
          if pubkeyID ≠ keyID then Gate.reject else Gate.pass honeyDestination

/-- What lines 732-751 establish about the bonding output. -/
structure BctLookup where
  bctValue : Int
  bctScriptPubKey : Bytes
  bctFoundHeight : Nat
  bctWasMinotaurXEnabled : Bool
  bct : Option CTransaction
  deriving DecidableEq, Repr

/-- Lines 732-751: the UTXO set first, the block database as the fallback. -/
def lookupBct (env : HiveEnv) (params : Params) (pindexPrev : Chain)
    (payload : AltProofPayload) : Gate BctLookup :=
  match env.GetCoin payload.txidStr 0 with
  | some coin =>
    let bctFoundHeight := coin.nHeight % 2 ^ 31
    Gate.pass { bctValue := coin.nValue, bctScriptPubKey := coin.scriptPubKey,
                bctFoundHeight := bctFoundHeight,
                bctWasMinotaurXEnabled := params.IsMinotaurXEnabled (env.chainActive bctFoundHeight),
                bct := none }
  | none =>
    match env.GetTxByHashAndHeight payload.txidStr payload.bctClaimedHeight pindexPrev with
    | none => Gate.reject
    | some (bct, foundAt, foundAtPrev) =>
      match bct.vout with
      | [] => Gate.crash
      | vout0 :: _ =>
        Gate.pass { bctValue := vout0.nValue, bctScriptPubKey := vout0.scriptPubKey,
                    bctFoundHeight := toUInt32 foundAt.nHeight,
                    bctWasMinotaurXEnabled := params.IsMinotaurXEnabled (foundAt :: foundAtPrev),
                    bct := some bct }

/-- Lines 757-782: the donation output, from the transaction when it is at hand, else
from the UTXO set, else from the block database. -/
def lookupDonation (env : HiveEnv) (pindexPrev : Chain) (payload : AltProofPayload)
    (bct : Option CTransaction) : Gate Int :=
  let fromTx (tx : CTransaction) : Gate Int :=
    match tx.vout with
    | _ :: vout1 :: _ =>
      if vout1.scriptPubKey ≠ env.scriptPubKeyCF then Gate.reject else Gate.pass vout1.nValue
    | _ => Gate.reject
  match bct with
  | some tx => fromTx tx
  | none =>
    match env.GetCoin payload.txidStr 1 with
    | some coin =>
      if coin.scriptPubKey ≠ env.scriptPubKeyCF then Gate.reject else Gate.pass coin.nValue
    | none =>
      match env.GetTxByHashAndHeight payload.txidStr payload.bctClaimedHeight pindexPrev with
      | none => Gate.reject
      | some (tx, _, _) => fromTx tx

/-- The donation in the words of the spec, resolved like the bond: the UTXO entry of
`(txid, 1)` when that lookup succeeds, else output 1 of the transaction that
`GetTxByHashAndHeight(txid, claimed height)` finds; a found output whose script is not
the community fund's, a transaction with fewer than 2 outputs and a failure of both
lookups reject. -/
def donationSpec (env : HiveEnv) (pindexPrev : Chain) (payload : AltProofPayload) : Gate Int :=
  match env.GetCoin payload.txidStr 1 with
  | some coin =>
    if coin.scriptPubKey ≠ env.scriptPubKeyCF then Gate.reject else Gate.pass coin.nValue
  | none =>
    match env.GetTxByHashAndHeight payload.txidStr payload.bctClaimedHeight pindexPrev with
    | none => Gate.reject
    | some (tx, _, _) =>
      match tx.vout[1]? with
      | none => Gate.reject
      | some vout1 =>
        if vout1.scriptPubKey ≠ env.scriptPubKeyCF then Gate.reject
        else Gate.pass vout1.nValue

/-- The UTXO set and the block database show one view of the bond (section 5 of the
spec): when the block database finds the bond transaction and the UTXO set holds the
outpoint `(txid, 1)`, the UTXO entry is output 1 of that transaction. -/
def ConsistentView (env : HiveEnv) (pindexPrev : Chain) (payload : AltProofPayload) : Prop :=
  match env.GetTxByHashAndHeight payload.txidStr payload.bctClaimedHeight pindexPrev,
      env.GetCoin payload.txidStr 1 with
  | some (tx, _, _), some coin =>
    tx.vout[1]? = some { nValue := coin.nValue, scriptPubKey := coin.scriptPubKey }
  | _, _ => True

instance ConsistentView.instDecidable (env : HiveEnv) (pindexPrev : Chain)
    (payload : AltProofPayload) : Decidable (ConsistentView env pindexPrev payload) := by
  unfold ConsistentView
  split <;> infer_instance

/-- Lines 784-797: the donation must equal the expected amount; on success the value
paid grows by the donation. A zero contribution factor is a division by zero. -/
def donationGate (communityContribFactor : Int) (bctWasMinotaurXEnabled : Bool)
    (bctValue donationAmount : Int) : Gate Int :=
  if communityContribFactor = 0 then Gate.crash
  else
    let expected0 := Int.tdiv (bctValue + donationAmount) communityContribFactor
    let expectedDonationAmount :=
      if bctWasMinotaurXEnabled then expected0 + expected0 / 2 else expected0
    if donationAmount ≠ expectedDonationAmount then Gate.reject
    else Gate.pass (bctValue + donationAmount)

/-- The bond as resolved by lines 717-799: value paid, script, found height. -/
structure BondRecord where
  bctValue : Int
  bctScriptPubKey : Bytes
  bctFoundHeight : Nat
  deriving DecidableEq, Repr

/-- Lines 717-799: resolution of the bond, with the donation folded in when the
community-contribution flag is set. -/
def resolveBond (env : HiveEnv) (params : Params) (pindexPrev : Chain)
    (payload : AltProofPayload) : Gate BondRecord :=
  (lookupBct env params pindexPrev payload).bind fun found =>
    if payload.communityContrib then
      (lookupDonation env pindexPrev payload found.bct).bind fun donationAmount =>
        (donationGate params.communityContribFactor found.bctWasMinotaurXEnabled
            found.bctValue donationAmount).bind fun bctValue =>
          Gate.pass { bctValue := bctValue, bctScriptPubKey := found.bctScriptPubKey,
                      bctFoundHeight := found.bctFoundHeight }
    else
      Gate.pass { bctValue := found.bctValue, bctScriptPubKey := found.bctScriptPubKey,
                  bctFoundHeight := found.bctFoundHeight }

/-- Line 807: `int bctDepth = blockHeight - bctFoundHeight;` with `int blockHeight` and
`uint32_t bctFoundHeight`: the difference is taken in `unsigned int` and converted back. -/
def bctDepth (blockHeight : Int) (bctFoundHeight : Nat) : Int :=
  toInt32 (blockHeight - (bctFoundHeight : Int))

/-- Lines 806-815: the maturity window. -/
def maturityGate (params : Params) (blockHeight : Int) (bctFoundHeight : Nat) : Gate Unit :=
  if bctDepth blockHeight bctFoundHeight < params.beeGestationBlocks then Gate.reject
  else if bctDepth blockHeight bctFoundHeight >
      params.beeGestationBlocks + params.beeLifespanBlocks then Gate.reject
  else Gate.pass ()

/-- Lines 817-834: the bond script commits to the claimed honey destination. -/
def honeyMatchGate (env : HiveEnv) (bctScriptPubKey : Bytes)
    (honeyDestination : CTxDestination) : Gate Unit :=
  match env.IsBCTScript bctScriptPubKey with
  | none => Gate.reject
  | some scriptPubKeyHoney =>
    match env.ExtractDestination scriptPubKeyHoney with
    | none => Gate.reject
    | some honeyDestinationBCT =>
      if honeyDestination ≠ honeyDestinationBCT then Gate.reject else Gate.pass ()

/-- Lines 836-857: the bee count `unsigned int beeCount = bctValue / beeCost` and the
nonce test. A zero bee cost that gets past the two value tests is a division by zero. -/
def beeCountGate (minBeeCost beeCost bctValue : Int) (beeNonce : Nat) : Gate Unit :=
  if bctValue < minBeeCost then Gate.reject
  else if bctValue < beeCost then Gate.reject
  else if beeCost = 0 then Gate.crash
  else if beeNonce ≥ toUInt32 (Int.tdiv bctValue beeCost) then Gate.reject
  else Gate.pass ()

/-- Lines 801-857: the gates on the resolved bond. -/
def bondGates (env : HiveEnv) (params : Params) (blockHeight : Int)
    (payload : AltProofPayload) (honeyDestination : CTxDestination) (bond : BondRecord) :
    Gate Unit :=
  if bond.bctFoundHeight ≠ payload.bctClaimedHeight then Gate.reject
  else
    (maturityGate params blockHeight bond.bctFoundHeight).bind fun _ =>
      (honeyMatchGate env bond.bctScriptPubKey honeyDestination).bind fun _ =>
        beeCountGate params.minBeeCost (params.GetBeeCost (toInt32 bond.bctFoundHeight))
          bond.bctValue payload.beeNonce

/-- The gates of `CheckHiveProof` in source order. -/
def hiveProofGates (env : HiveEnv) (pblock : CBlock) (params : Params) : Gate Unit :=
  (hivePredecessor env pblock).bind fun pindexPrev =>
    (hiveRunGate params pindexPrev).bind fun _ =>
      (coinbaseGate env pblock).bind fun cb =>
        (parsePayload env cb.1).bind fun payload =>
          (beeHashGate env params pindexPrev payload).bind fun _ =>
            (honeyGate env pindexPrev payload cb.2).bind fun honeyDestination =>
              (resolveBond env params pindexPrev payload).bind fun bond =>
                match pindexPrev with
                | [] => Gate.crash
                | tip :: _ =>
                  bondGates env params (tip.nHeight + 1) payload honeyDestination bond

/-- Embedding of `CheckHiveProof(pblock, consensusParams)`: `none` is undefined behaviour or a failed
assertion, `some b` is the returned boolean. -/
def CheckHiveProof (env : HiveEnv) (pblock : CBlock) (params : Params) : Option Bool :=
  match hiveProofGates env pblock params with
  | Gate.crash => none
  | Gate.reject => some false
  | Gate.pass _ => some true

/-! ## Concrete parameters and chains -/

/-- A small parameter set: spacing 150 s, adjustment interval 4, averaging window 3,
Hive window 2; Hive 1.1 from height 10 and MinotaurX from height 20 on. -/
def demoParams : Params where
  powLimit := 2 ^ 236 - 1
  powLimitSHA := 2 ^ 226 - 1
  powLimitHive := 2 ^ 252 - 1
  powTypeLimits := fun i => if i = 0 then 2 ^ 224 - 1 else 2 ^ 236 - 1
  NUM_BLOCK_TYPES := 2
  nPowTargetSpacing := 150
  nPowTargetTimespan := 600
  DifficultyAdjustmentInterval := 4
  fPowAllowMinDifficultyBlocks := false
  fPowNoRetargeting := false
  lwmaAveragingWindow := 3
  lastScryptBlock := 100
  minHiveCheckBlock := 1
  hiveDifficultyWindow := 2
  hiveBlockSpacingTarget := 2
  hiveTargetAdjustAggression := 30
  maxConsecutiveHiveBlocks := 2
  beeGestationBlocks := 48
  beeLifespanBlocks := 672
  minBeeCost := 10000
  communityContribFactor := 10
  IsHiveEnabled := fun c => match c with
    | [] => false
    | b :: _ => decide (b.nHeight ≥ 1)
  IsHive11Enabled := fun c => match c with
    | [] => false
    | b :: _ => decide (b.nHeight ≥ 10)
  IsMinotaurXEnabled := fun c => match c with
    | [] => false
    | b :: _ => decide (b.nHeight ≥ 20)
  GetBeeCost := fun _ => 10000

/-- An ordinary (not Hive-mined) entry of PoW type 0 and version 1. -/
def powBlock (nHeight : Int) (nTime nBits : Nat) : CBlockIndex :=
  { nHeight := nHeight, nTime := nTime, nBits := nBits, nVersion := 1,
    IsHiveMined := false, GetPoWType := 0 }

/-- A Hive-mined entry. -/
def hiveBlock (nHeight : Int) (nTime nBits : Nat) : CBlockIndex :=
  { nHeight := nHeight, nTime := nTime, nBits := nBits, nVersion := 1,
    IsHiveMined := true, GetPoWType := 0 }

/-- A two-entry chain whose tip stores the compact target `0x2000ffff`, above the
legacy floor. -/
def looseChain : Chain := [powBlock 1 150 0x2000ffff, powBlock 0 0 0x1e0fffff]

/-- A two-entry chain whose stored targets are within the legacy floor. -/
def tightChain : Chain := [powBlock 1 150 0x1e0ffff0, powBlock 0 0 0x1e0ffff0]

/-- Number of entries of a chain that are not Hive-mined. -/
def powCount (chain : Chain) : Nat := (chain.filter fun b => !b.IsHiveMined).length

/-- Number of entries of a chain that the LWMA walk collects for `powType`: not
Hive-mined and of that PoW type. -/
def wantedCount (powType : Nat) (chain : Chain) : Nat :=
  (chain.filter fun b => !(b.IsHiveMined || b.GetPoWType != powType)).length

/-- A four-entry structurally valid chain whose blocks are all ordinary blocks of
version 1 and PoW type 0; a retarget for PoW type 1 finds no block of its type in it. -/
def otherTypeChain : Chain :=
  [powBlock 3 450 0x1e0ffff0, powBlock 2 300 0x1e0ffff0, powBlock 1 150 0x1e0ffff0,
   powBlock 0 0 0x1e0ffff0]

/-- A valid three-entry chain whose tip is Hive-mined, below the Hive 1.1 activation of
`demoParams`. -/
def hiveTipChain : Chain :=
  [hiveBlock 2 300 0x1e0ffff0, powBlock 1 150 0x1e0ffff0, powBlock 0 0 0x1e0ffff0]

/-- The coinbase output-0 script of a Hive proof: `OP_RETURN OP_BEE`, the nonce, the
claimed bond height, the contribution flag, a 64-character txid and a 65-byte
signature, each behind its size byte: 144 bytes. -/
def proofScript (nonce height flag : Nat) : Bytes :=
  [0x6a, 0xc1, 4, nonce % 256, nonce / 2 ^ 8 % 256, nonce / 2 ^ 16 % 256, nonce / 2 ^ 24 % 256,
   4, height % 256, height / 2 ^ 8 % 256, height / 2 ^ 16 % 256, height / 2 ^ 24 % 256,
   flag, 64] ++ List.replicate 64 0x61 ++ [65] ++ List.replicate 65 0

/-- A candidate Hive block on predecessor hash 7: a coinbase with the proof script and a
honey output. -/
def demoBlock (nonce height flag : Nat) : CBlock :=
  { hashPrevBlock := 7,
    vtx := [{ IsCoinBase := true,
              vout := [{ nValue := 0, scriptPubKey := proofScript nonce height flag },
                       { nValue := 50, scriptPubKey := [0x76] }] }] }

/-- The predecessor chain of `demoBlock`: four ordinary blocks, heights 3 to 0. -/
def verifierChain : Chain :=
  [powBlock 3 450 0x1e0ffff0, powBlock 2 300 0x1e0ffff0, powBlock 1 150 0x1e0ffff0,
   powBlock 0 0 0x1e0ffff0]

/-- Collaborators for the examples: the UTXO set holds the bond output with value
`bctValue` at height `foundHeight` and, when `donation` is given, the community-fund
output; the honey script `[0x76]` pays key 42, which also signs. -/
def demoEnv (bctValue : Int) (foundHeight : Nat) (donation : Option Int) : HiveEnv where
  OP_RETURN := 0x6a
  OP_BEE := 0xc1
  OP_TRUE := 0x51
  mapBlockIndex := fun h => if h = 7 then verifierChain else []
  chainActive := fun _ => []
  IsBCT := fun _ => false
  GetDeterministicRandString := fun _ => [1, 2, 3]
  hiveHash := fun _ _ _ => 1
  MinotaurHashArbitrary := fun _ _ _ => 1
  messageHash := fun _ => 99
  RecoverCompact := fun _ _ => some 42
  ExtractDestination := fun s => if s = [0x76] then some (CTxDestination.CKeyID 42) else none
  IsBCTScript := fun s => if s = [0xb0] then some [0x76] else none
  scriptPubKeyCF := [0xcf]
  GetCoin := fun _ n =>
    if n = 0 then some { nValue := bctValue, scriptPubKey := [0xb0], nHeight := foundHeight }
    else donation.map fun d => { nValue := d, scriptPubKey := [0xcf], nHeight := foundHeight }
  GetTxByHashAndHeight := fun _ _ _ => none

/-- The payload that `proofScript nonce height flag` decodes to. -/
def demoPayload (nonce height : Nat) (flag : Bool) : AltProofPayload :=
  { beeNonce := nonce, bctClaimedHeight := height, communityContrib := flag,
    txidStr := List.replicate 64 0x61, messageSig := List.replicate 65 0 }

/-- Parameters of the verifier examples: gestation 2, lifespan 5, bee cost 100. -/
def verifierParams : Params :=
  { demoParams with
    beeGestationBlocks := 2, beeLifespanBlocks := 5, minBeeCost := 100,
    GetBeeCost := fun _ => 100 }

/-- The expected donation of lines 785-789: `(bctValue + donationAmount) /
communityContribFactor`, plus half of it when MinotaurX was enabled at the bond. -/
def expectedDonation (communityContribFactor : Int) (bctWasMinotaurXEnabled : Bool)
    (bctValue donationAmount : Int) : Int :=
  if bctWasMinotaurXEnabled then
    Int.tdiv (bctValue + donationAmount) communityContribFactor +
      Int.tdiv (bctValue + donationAmount) communityContribFactor / 2
  else Int.tdiv (bctValue + donationAmount) communityContribFactor

/-- The share `target / N / k` that one window block adds to `avgTarget` (line 107). -/
def lwmaTerm (N k : Int) (b : CBlockIndex) : Nat :=
  SetCompact b.nBits / N.toNat / k.toNat

/-- The pre-divided window average of `GetNextWorkRequiredLWMA`: the sum of the shares
of the window blocks. -/
def lwmaAvgTarget (N k : Int) (w : List CBlockIndex) : Nat := (w.map (lwmaTerm N k)).sum

/-- Time stamps in steady state: the blocks of `w` (oldest first) carry the times
`t0`, `t0 + S`, `t0 + 2 S`, ... -/
def SteadyTimes (S : Int) : Int → List CBlockIndex → Prop
  | _, [] => True
  | t0, b :: rest => b.GetBlockTime = t0 ∧ SteadyTimes S (t0 + S) rest

instance SteadyTimes.instDecidable (S : Int) :
    (t0 : Int) → (l : List CBlockIndex) → Decidable (SteadyTimes S t0 l)
  | _, [] => isTrue trivial
  | t0, b :: rest =>
    have := SteadyTimes.instDecidable S (t0 + S) rest
    (inferInstance : Decidable (b.GetBlockTime = t0 ∧ SteadyTimes S (t0 + S) rest))

/-- A valid four-entry chain of PoW type 0 with constant target `0x1c0fffff` and time
stamps exactly `nPowTargetSpacing = 150` apart. -/
def steadyChain : Chain :=
  [powBlock 3 450 0x1c0fffff, powBlock 2 300 0x1c0fffff, powBlock 1 150 0x1c0fffff,
   powBlock 0 0 0x1c0fffff]

/-- The window of `steadyChain` for averaging window 3, oldest block first. -/
def steadyWindow : List CBlockIndex :=
  [powBlock 1 150 0x1c0fffff, powBlock 2 300 0x1c0fffff, powBlock 3 450 0x1c0fffff]

/-- The clamped time span of `DarkGravityWave` in the words of the spec: the actual
span limited to `[T / 3, 3 T]`. -/
def clampTimespan (nTargetTimespan nActualTimespan : Int) : Int :=
  max (nTargetTimespan / 3) (min nActualTimespan (nTargetTimespan * 3))

/-- Parameters under which `DarkGravityWave` applies from genesis on. -/
def dgwParams : Params := { demoParams with lastScryptBlock := 0 }

/-- A valid chain of 25 ordinary blocks, heights 24 to 0, all storing `nBits`; block `i`
below the tip has time `150 i`, the tip has time `tipTime`. -/
def dgwChain (nBits tipTime : Nat) : Chain :=
  powBlock 24 tipTime nBits ::
    (List.range 24).reverse.map fun (i : Nat) => powBlock (Int.ofNat i) (150 * i) nBits

/-- A candidate block without any transaction, on predecessor hash 7. -/
def emptyBlock : CBlock := { hashPrevBlock := 7, vtx := [] }

/-- A well-formed candidate block whose predecessor hash 8 is not in the block index of
`demoEnv`. -/
def orphanBlock : CBlock := { demoBlock 1 1 0 with hashPrevBlock := 8 }

/-- The parameters `demoParams` with the minimum-difficulty escape configured. -/
def stallParams : Params := { demoParams with fPowAllowMinDifficultyBlocks := true }

/-- The number of consecutive Hive-mined blocks ending at the head of the chain, in the
words of the spec. -/
def hiveRun (chain : Chain) : Nat := (chain.takeWhile fun b => b.IsHiveMined).length

/-- A chain past the Hive 1.1 activation of `demoParams` (height 10) and before its
MinotaurX activation (height 20), with a Hive-mined tip on an ordinary block. -/
def lateHiveChain : Chain := [hiveBlock 12 1800 0x1e0ffff0, powBlock 11 1650 0x1e0ffff0]

/-- A bonding transaction of value 900 whose output 1 pays 100 to the community fund. -/
def drillTx : CTransaction :=
  { IsCoinBase := false,
    vout := [{ nValue := 900, scriptPubKey := [0xb0] }, { nValue := 100, scriptPubKey := [0xcf] }] }

/-- Collaborators as in `demoEnv`, except that the UTXO set has no entry for output 0
of the bond (it is spent) and still holds its output 1, and the block database finds
`drillTx` at height 1. -/
def drillEnv : HiveEnv :=
  { demoEnv 900 1 (some 100) with
    GetCoin := fun _ n =>
      if n = 1 then some { nValue := 100, scriptPubKey := [0xcf], nHeight := 1 } else none
    GetTxByHashAndHeight := fun _ _ _ =>
      some (drillTx, powBlock 1 150 0x1e0ffff0, [powBlock 0 0 0x1e0ffff0]) }

/-- A chain below the Hive 1.1 activation of `demoParams` whose last Hive-mined block,
one ordinary block under the tip, stores the Hive floor `0x200fffff`. -/
def floorHiveChain : Chain :=
  [powBlock 3 450 0x1e0ffff0, hiveBlock 2 300 0x200fffff, powBlock 1 150 0x1e0ffff0,
   powBlock 0 0 0x1e0ffff0]

/-- The clamped time span of `CalculateNextWorkRequired` in the words of the spec: the
actual span limited to `[T / 4, 4 T]`. -/
def retargetClamp (nTargetTimespan nActualTimespan : Int) : Int :=
  max (nTargetTimespan / 4) (min nActualTimespan (4 * nTargetTimespan))

/-- The rescaled target of `CalculateNextWorkRequired` in the words of the spec, over
the unbounded naturals: `old * a / T` when `bits(old) <= bits(powLimit) - 1`, else
`2 * (old / 2 * a / T)`. -/
def retargetSpec (old : Nat) (a T : Int) (bnPowLimit : Nat) : Nat :=
  if bits old ≤ bits bnPowLimit - 1 then old * a.toNat / T.toNat
  else 2 * (old / 2 * a.toNat / T.toNat)

/-- Lines 268-270 of `CalculateNextWorkRequired`: the value that is multiplied by the
time span, the old target shifted right when `bnNew.bits() > bnPowLimit.bits() - 1`. -/
def retargetOperand (bnOld bnPowLimit : Nat) : Nat :=
  if bits bnOld > (bits bnPowLimit + 2 ^ 32 - 1) % 2 ^ 32 then bnOld / 2 else bnOld

/-- The parameters `demoParams` with the floor `2 ^ 255 - 1`. -/
def wideParams : Params := { demoParams with powLimit := 2 ^ 255 - 1 }

/-- A canonical (minimal) non-negative, non-overflowing compact value in the words of
the spec: zero, or a 32-bit value whose sign bit is clear, whose mantissa cannot be
moved up by a byte (it is at least `2 ^ 15`: a zero leading byte only where the next bit
is set), whose mantissa has no bits below the unit for a size below 3, and whose
unpacking does not set the overflow flag. -/
def CanonicalCompact (c : Nat) : Prop :=
  c = 0 ∨ (c < 2 ^ 32 ∧ c % 2 ^ 24 < 2 ^ 23 ∧ 2 ^ 15 ≤ c % 2 ^ 24 ∧
    (c / 2 ^ 24 ≤ 3 → 2 ^ (8 * (3 - c / 2 ^ 24)) ∣ c % 2 ^ 24) ∧
    SetCompactOverflow c = false)

instance (c : Nat) : Decidable (CanonicalCompact c) := by
  unfold CanonicalCompact
  infer_instance

/-- Number of Hive-mined entries of a list of entries (the count `h` of the spec). -/
def hiveCount (l : List CBlockIndex) : Nat := (l.filter fun b => b.IsHiveMined).length

/-- Sum of the unpacked targets of the Hive-mined entries of a list of entries, over the
unbounded naturals. -/
def hiveSum (l : List CBlockIndex) : Nat :=
  ((l.filter fun b => b.IsHiveMined).map fun b => SetCompact b.nBits).sum

/-- A chain whose tip and whose entry of height 1 are Hive-mined at the floor
`0x200fffff`, with 15 ordinary blocks between them. -/
def sparseHiveChain : Chain :=
  hiveBlock 17 2550 0x200fffff ::
    ((List.range 15).reverse.map fun (i : Nat) =>
      powBlock (Int.ofNat (i + 2)) (150 * (i + 2)) 0x1e0ffff0) ++
    [hiveBlock 1 150 0x200fffff, powBlock 0 0 0x1e0ffff0]

/-- A chain inside the MinotaurX activation of `demoParams` (height 20) with two
Hive-mined blocks among its three most recent entries. -/
def lockedChain : Chain :=
  [hiveBlock 23 3450 0x1e0ffff0, powBlock 22 3300 0x1e0ffff0, hiveBlock 21 3150 0x1e0ffff0,
   powBlock 20 3000 0x1e0ffff0, powBlock 19 2850 0x1e0ffff0]

/-- A valid five-entry chain of PoW type 0 whose entry of height 3 is Hive-mined. -/
def mixedChain : Chain :=
  [powBlock 4 600 0x1c0fffff, hiveBlock 3 450 0x1c0fffff, powBlock 2 300 0x1c0fffff,
   powBlock 1 150 0x1c0fffff, powBlock 0 0 0x1c0fffff]

/-- The solve-times of a window (oldest block first) in the words of the spec: the
difference of each time stamp to the previous one, the previous one plus one standing in
for a time stamp that does not advance, each limited to `clampAt`. -/
def lwmaSolvetimes (clampAt : Int) : Int → List CBlockIndex → List Int
  | _, [] => []
  | previousTimestamp, b :: rest =>
    let thisTimestamp :=
      if b.GetBlockTime > previousTimestamp then b.GetBlockTime else previousTimestamp + 1
    min clampAt (thisTimestamp - previousTimestamp) :: lwmaSolvetimes clampAt thisTimestamp rest

/-- The weighted sum `W` of the spec: the solve-times weighted `j + 1`, `j + 2`, ... from
the oldest on. -/
def weightedSum : Int → List Int → Int
  | _, [] => 0
  | j, s :: rest => s * (j + 1) + weightedSum (j + 1) rest

/-- One step of the running average of `DarkGravityWave` in the words of the spec, over
the unbounded naturals: `avg_1 = t_1`, `avg_n = (avg_{n-1} * n + t_n) / (n + 1)`. -/
def dgwAvgStep (n avg t : Nat) : Nat := if n = 1 then t else (avg * n + t) / (n + 1)

/-- The running average of the spec over the targets `t_n, t_{n+1}, ...` (newest
first), from the average `avg` of the targets before them. -/
def dgwAvgFrom : Nat → Nat → List Nat → Nat
  | _, avg, [] => avg
  | n, avg, t :: ts => dgwAvgFrom (n + 1) (dgwAvgStep n avg t) ts

/-- The unpacked targets of the entries of a list that are not Hive-mined. -/
def powTargets (l : List CBlockIndex) : List Nat :=
  (l.filter fun b => !b.IsHiveMined).map fun b => SetCompact b.nBits

/-- A valid chain of 25 ordinary blocks, heights 24 to 0, spaced 150 s apart; the tip
stores the target 2400 (`0x02096000`) and every other block the target 24
(`0x01180000`). -/
def skewChain : Chain :=
  powBlock 24 3600 0x02096000 ::
    (List.range 24).reverse.map fun (i : Nat) => powBlock (Int.ofNat i) (150 * i) 0x01180000

/-- The parameters `dgwParams` with the minimum-difficulty escape configured. -/
def dgwStallParams : Params := { dgwParams with fPowAllowMinDifficultyBlocks := true }

/-! ## Backward walks as fuelled loops -/

/-- Outcome of one loop iteration at an entry: the walk ends with a result, or the
pointer steps to `pprev` with a new loop state. -/
inductive WalkStep (σ ρ : Type) where
  | done (r : ρ)
  | move (s : σ)

/-- The result of a step, given the result `f` of the walk continued from `pprev`. -/
def WalkStep.finish {σ ρ : Type} (f : σ → ρ) : WalkStep σ ρ → ρ
  | WalkStep.done r => r
  | WalkStep.move s => f s

/-- A pointer loop run with a budget of visited entries: `body b prev s` is one
iteration at the entry `b` whose `pprev` is `prev`, `atNull` is the outcome at a null
pointer, and `none` means that the budget ran out before the loop ended. -/
def walkFuel {σ ρ : Type} (body : CBlockIndex → Chain → σ → WalkStep σ ρ) (atNull : σ → ρ) :
    Nat → Chain → σ → Option ρ
  | _, [], s => some (atNull s)
  | 0, _ :: _, _ => none
  | fuel + 1, b :: prev, s =>
    match body b prev s with
    | WalkStep.done r => some r
    | WalkStep.move s2 => walkFuel body atNull fuel prev s2

/-- One iteration of the `while (blocksFound < N)` loop of pow.cpp 60-82; the state is
`N - blocksFound` and `wantedBlocks`. -/
def lwmaBody (powType : Nat) (b : CBlockIndex) (prev : Chain) (s : Nat × List CBlockIndex) :
    WalkStep (Nat × List CBlockIndex) LwmaWalk :=
  if b.nVersion ≥ 0x20000000 then WalkStep.done LwmaWalk.forkpoint
  else if b.IsHiveMined || b.GetPoWType != powType then
    match prev with
    | [] => WalkStep.done LwmaWalk.assertFailed
    | _ :: _ => WalkStep.move s
  else if s.1 ≤ 1 then WalkStep.done (LwmaWalk.window (b :: s.2))
  else
    match prev with
    | [] => WalkStep.done LwmaWalk.assertFailed
    | _ :: _ => WalkStep.move (s.1 - 1, b :: s.2)

/-- One iteration of the hive-skipping `while` loop of pow.cpp 134-138. -/
def skipHiveBody (b : CBlockIndex) (prev : Chain) (_ : Unit) : WalkStep Unit (Option Chain) :=
  if b.IsHiveMined then
    match prev with
    | [] => WalkStep.done none
    | _ :: _ => WalkStep.move ()
  else WalkStep.done (some (b :: prev))

/-- The `for` loop of pow.cpp 148-168 with its inner hive-skipping `while` loop, one
visited entry at a time; the state is `nCountBlocks` and `bnPastTargetAvg`. -/
def dgwBody (nPastBlocks : Nat) (b : CBlockIndex) (prev : Chain) (s : Nat × Nat) :
    WalkStep (Nat × Nat) (Option (Nat × Chain)) :=
  if b.IsHiveMined then
    match prev with
    | [] => WalkStep.done none
    | _ :: _ => WalkStep.move s
  else
    let bnTarget := SetCompact b.nBits
    let avg2 :=
      if s.1 = 1 then bnTarget
      else (addU256 (mulU32 s.2 s.1) bnTarget) / (s.1 + 1)
    if s.1 ≠ nPastBlocks then
      match prev with
      | [] => WalkStep.done none
      | _ :: _ => WalkStep.move (s.1 + 1, avg2)
    else WalkStep.done (some (avg2, b :: prev))

/-- One iteration of the `while` loop of pow.cpp 224-225. -/
def lastNonMinBody (interval : Int) (nProofOfWorkLimit : Nat) (b : CBlockIndex) (prev : Chain)
    (_ : Unit) : WalkStep Unit (Option Nat) :=
  match prev with
  | [] => WalkStep.done (some b.nBits)
  | _ :: _ =>
    if Int.tmod b.nHeight interval ≠ 0 ∧ b.nBits = nProofOfWorkLimit then WalkStep.move ()
    else WalkStep.done (some b.nBits)

/-- One iteration of `for (int i = 0; pindexFirst && i < blockstogoback; i++)` of
pow.cpp 241-242; the state is `blockstogoback - i`. -/
def gobackBody (b : CBlockIndex) (prev : Chain) (left : Nat) : WalkStep Nat Chain :=
  if left = 0 then WalkStep.done (b :: prev) else WalkStep.move (left - 1)

/-- One iteration of the `while (true)` loop of pow.cpp 397-412. -/
def hive10Body (params : Params) (b : CBlockIndex) (prev : Chain) (numPowBlocks : Int) :
    WalkStep Int (Option (Nat × Int)) :=
  match prev with
  | [] => WalkStep.done none
  | _ :: _ =>
    if b.nHeight < params.minHiveCheckBlock then WalkStep.done none
    else if b.IsHiveMined then WalkStep.done (some (b.nBits, numPowBlocks))
    else WalkStep.move (numPowBlocks + 1)

/-- One iteration of the `while` loop of pow.cpp 317-324. -/
def hive11Body (params : Params) (b : CBlockIndex) (prev : Chain) (st : HiveAcc) :
    WalkStep HiveAcc HiveAcc :=
  match prev with
  | [] => WalkStep.done st
  | _ :: _ =>
    if st.hiveBlockCount < params.hiveDifficultyWindow ∧ b.nHeight ≥ params.minHiveCheckBlock then
      WalkStep.move (hiveAccStep b st)
    else WalkStep.done st

/-- One iteration of the `while` loop of pow.cpp 353-360. -/
def hive12Body (params : Params) (b : CBlockIndex) (prev : Chain) (st : HiveAcc) :
    WalkStep HiveAcc HiveAcc :=
  match prev with
  | [] => WalkStep.done st
  | _ :: _ =>
    if st.hiveBlockCount < params.hiveDifficultyWindow ∧
        params.IsMinotaurXEnabled (b :: prev) = true then
      WalkStep.move (hiveAccStep b st)
    else WalkStep.done st

/-- One iteration of the `while` loop of pow.cpp 579-583 in `CheckHiveProof`. -/
def hiveBlocksAtTipBody (b : CBlockIndex) (prev : Chain) (n : Int) :
    WalkStep Int (Option Int) :=
  if b.IsHiveMined then
    match prev with
    | [] => WalkStep.done none
    | _ :: _ => WalkStep.move (n + 1)
  else WalkStep.done (some n)

/-- The parameters `demoParams` with a Hive difficulty window of 9 blocks. -/
def denseParams : Params := { demoParams with hiveDifficultyWindow := 9 }

/-- A valid chain of 19 entries, heights 18 to 0, whose entries of odd height are
Hive-mined at the floor `0x200fffff`. -/
def denseHiveChain : Chain :=
  (List.range 19).reverse.map fun (i : Nat) =>
    if i % 2 = 1 then hiveBlock (Int.ofNat i) (150 * i) 0x200fffff
    else powBlock (Int.ofNat i) (150 * i) 0x1e0ffff0

/-- A valid chain of five entries whose tip and whose entry of height 1 are Hive-mined at
the floor `0x200fffff`. -/
def shortHiveChain : Chain :=
  [hiveBlock 4 600 0x200fffff, powBlock 3 450 0x1e0ffff0, powBlock 2 300 0x1e0ffff0,
   hiveBlock 1 150 0x200fffff, powBlock 0 0 0x1e0ffff0]

/-- The `while` loop of `GetNextHive11WorkRequired` (pow.cpp 317-324) on the chain
`walked ++ stop :: more` runs its body on exactly the entries of `walked`: at each of
them fewer than `hiveDifficultyWindow` Hive-mined entries have been found and the height
is at least `minHiveCheckBlock` (a predecessor exists), and at `stop` the condition
fails. -/
def Hive11Walked (params : Params) (walked : List CBlockIndex) (stop : CBlockIndex)
    (more : Chain) : Prop :=
  (∀ k, k < walked.length →
    (hiveCount (walked.take k) : Int) < params.hiveDifficultyWindow) ∧
  (∀ e ∈ walked, e.nHeight ≥ params.minHiveCheckBlock) ∧
  (¬ ((hiveCount walked : Int) < params.hiveDifficultyWindow) ∨
    more = [] ∨ stop.nHeight < params.minHiveCheckBlock)

instance Hive11Walked.instDecidable (params : Params) (walked : List CBlockIndex)
    (stop : CBlockIndex) (more : Chain) : Decidable (Hive11Walked params walked stop more) := by
  unfold Hive11Walked
  infer_instance

/-- The `while` loop of `GetNextHive12WorkRequired` (pow.cpp 353-360) on the chain
`walked ++ stop :: more` runs its body on exactly the entries of `walked`: at each of
them fewer than `hiveDifficultyWindow` Hive-mined entries have been found and
`IsMinotaurXEnabled` holds (a predecessor exists), and at `stop` the condition fails. -/
def Hive12Walked (params : Params) (walked : List CBlockIndex) (stop : CBlockIndex)
    (more : Chain) : Prop :=
  (∀ k, k < walked.length →
    (hiveCount (walked.take k) : Int) < params.hiveDifficultyWindow) ∧
  (∀ k, k < walked.length →
    params.IsMinotaurXEnabled (walked.drop k ++ stop :: more) = true) ∧
  (¬ ((hiveCount walked : Int) < params.hiveDifficultyWindow) ∨
    more = [] ∨ params.IsMinotaurXEnabled (stop :: more) = false)

instance Hive12Walked.instDecidable (params : Params) (walked : List CBlockIndex)
    (stop : CBlockIndex) (more : Chain) : Decidable (Hive12Walked params walked stop more) := by
  unfold Hive12Walked
  infer_instance

/-! ## GetNetworkHiveInfo (pow.cpp 435-545) -/

/-- Modelled from the spec: `BeePopGraphPoint` of pow.h (not among the sources), one
entry of the global `beePopGraph` array: two `int` populations. -/
structure BeePopGraphPoint where
  immaturePop : Int
  maturePop : Int
  deriving DecidableEq, Repr

/-- The external collaborators of `GetNetworkHiveInfo`, none of them among the sources:
`Tip` is `chainActive.Tip()`, `haveData` is `nStatus & BLOCK_HAVE_DATA` and `nTx` the
transaction count of an index entry, `IsBCT tx` is `tx->IsBCT(params, scriptPubKeyBCF,
&beeFeePaid)` with the fee it reports, and the two typical spacings are the fields of
`Consensus::Params` that only this function reads. -/
structure ScanEnv where
  Tip : Chain
  GetBlockSubsidy : Int → Int
  hiveBlockSpacingTargetTypical : Int
  hiveBlockSpacingTargetTypical_1_1 : Int
  IsInitialBlockDownload : Bool
  fHavePruned : Bool
  haveData : Chain → Bool
  nTx : Chain → Nat
  ReadBlockFromDisk : Chain → Option CBlock
  IsBCT : CTransaction → Option Int
  scriptPubKeyCF : Bytes

/-- The reference parameters of `GetNetworkHiveInfo` (four `int&` totals and a
`CAmount&`) and the global array `BeePopGraphPoint beePopGraph[1024*40]` of pow.cpp 22,
carried as a function of the index: only the indices `0 <= q < 40960` are entries of
the array. -/
structure HiveInfo where
  immatureBees : Int
  immatureBCTs : Int
  matureBees : Int
  matureBCTs : Int
  potentialLifespanRewards : Int
  beePopGraph : Int → BeePopGraphPoint

/-- Line 496: `int beeCount = beeFeePaid / beeCost;`, narrowed to `int`. A zero bee cost
is a division by zero (outer `none`). -/
def scanBeeCountOf (beeCost beeFeePaid : Int) : Option (Option Int) :=
  if beeCost = 0 then none else some (some (toInt32 (Int.tdiv beeFeePaid beeCost)))

/-- Lines 485-496 for one transaction of the block at `pindexPrev`: the outer `none` is a
division by zero, `some none` a transaction that is not counted (not a bonding
transaction, or `continue`), `some (some beeCount)` a counted one. -/
def scanBeeCount (env : ScanEnv) (params : Params) (pindexPrev : Chain) (beeCost : Int)
    (tx : CTransaction) : Option (Option Int) :=
  match env.IsBCT tx with
  | none => some none
  | some beeFeePaid =>
    match tx.vout[1]? with
    | none => scanBeeCountOf beeCost beeFeePaid
    | some out1 =>
      if out1.scriptPubKey = env.scriptPubKeyCF then
        if params.communityContribFactor = 0 then none
        else
          let donationAmount := out1.nValue
          let expected0 := Int.tdiv (beeFeePaid + donationAmount) params.communityContribFactor
          let expectedDonationAmount :=
            if params.IsMinotaurXEnabled pindexPrev then expected0 + expected0 / 2
            else expected0
          if donationAmount ≠ expectedDonationAmount then some none
          else scanBeeCountOf beeCost (beeFeePaid + donationAmount)
      else scanBeeCountOf beeCost beeFeePaid

/-- The update `beePopGraph[graphPos].immaturePop += beeCount` (or `maturePop`) on an
`int` field: the sum is kept in 32 bits. -/
def addPop (g : Int → BeePopGraphPoint) (graphPos : Int) (immature : Bool) (beeCount : Int) :
    Int → BeePopGraphPoint :=
  fun q =>
    if q = graphPos then
      if immature then { g q with immaturePop := toInt32 ((g q).immaturePop + beeCount) }
      else { g q with maturePop := toInt32 ((g q).maturePop + beeCount) }
    else g q

/-- The loop `for (int j = beeBornBlock; j < beeDiesBlock; j++)` of lines 523-531; the
first argument is the number of rounds left. `graphPos` is an `int`. The positions
written are below `totalBeeLifespan`, which the reset loop of lines 455-458 has run over
before. -/
def graphLoop (tipHeight totalBeeLifespan beeMaturesBlock beeCount : Int) :
    Nat → Int → (Int → BeePopGraphPoint) → (Int → BeePopGraphPoint)
  | 0, _, g => g
  | n + 1, j, g =>
    let graphPos := toInt32 (j - tipHeight)
    let g2 :=
      if graphPos > 0 ∧ graphPos < totalBeeLifespan then
        addPop g graphPos (decide (j < beeMaturesBlock)) beeCount
      else g
    graphLoop tipHeight totalBeeLifespan beeMaturesBlock beeCount n (j + 1) g2

/-- Lines 484-533 for one transaction of the block at `pindexPrev`, reached in round `i`
of the scan; `none` is a division by zero. The totals are `int&`: each `+=` and `++` is
kept in 32 bits, and so are `totalBeeLifespan`, `beeMaturesBlock` and `beeDiesBlock`. -/
def scanTx (env : ScanEnv) (params : Params) (recalcGraph : Bool) (pindexPrev : Chain)
    (i blockHeight tipHeight : Int) (st : HiveInfo) (tx : CTransaction) : Option HiveInfo :=
  let totalBeeLifespan := toInt32 (params.beeLifespanBlocks + params.beeGestationBlocks)
  match scanBeeCount env params pindexPrev (params.GetBeeCost blockHeight) tx with
  | none => none
  | some none => some st
  | some (some beeCount) =>
    let st1 :=
      if i < params.beeGestationBlocks then
        { st with immatureBees := toInt32 (st.immatureBees + beeCount),
                  immatureBCTs := toInt32 (st.immatureBCTs + 1) }
      else
        { st with matureBees := toInt32 (st.matureBees + beeCount),
                  matureBCTs := toInt32 (st.matureBCTs + 1) }
    if recalcGraph then
      let beeBornBlock := blockHeight
      let beeMaturesBlock := toInt32 (beeBornBlock + params.beeGestationBlocks)
      let beeDiesBlock := toInt32 (beeMaturesBlock + params.beeLifespanBlocks)
      some { st1 with
        beePopGraph := graphLoop tipHeight totalBeeLifespan beeMaturesBlock beeCount
          (beeDiesBlock - beeBornBlock).toNat beeBornBlock st1.beePopGraph }
    else some st1

/-- The loop `for (const auto& tx : block.vtx)` of lines 483-534. -/
def scanTxs (env : ScanEnv) (params : Params) (recalcGraph : Bool) (pindexPrev : Chain)
    (i blockHeight tipHeight : Int) : List CTransaction → HiveInfo → Option HiveInfo
  | [], st => some st
  | tx :: more, st =>
    match scanTx env params recalcGraph pindexPrev i blockHeight tipHeight st tx with
    | none => none
    | some st2 => scanTxs env params recalcGraph pindexPrev i blockHeight tipHeight more st2

/-- The loop `for (int i = 0; i < totalBeeLifespan; i++)` of lines 469-542; the first
argument is the number of rounds left. `none` is a crash (division by zero), the
boolean is the value returned. -/
def scanLoop (env : ScanEnv) (params : Params) (recalcGraph : Bool) (tipHeight : Int) :
    Nat → Int → Chain → HiveInfo → Option (Bool × HiveInfo)
  | 0, _, _, st => some (true, st)
  | _ + 1, _, [], _ => none
  | n + 1, i, b :: prev, st =>
    if env.fHavePruned && !env.haveData (b :: prev) && decide (env.nTx (b :: prev) > 0) then
      some (false, st)
    else
      let scanned : Option (Option HiveInfo) :=
        if !b.IsHiveMined then
          match env.ReadBlockFromDisk (b :: prev) with
          | none => some none
          | some block =>
            match scanTxs env params recalcGraph (b :: prev) i b.nHeight tipHeight
                block.vtx st with
            | none => none
            | some st2 => some (some st2)
        else some (some st)
      match scanned with
      | none => none
      | some none => some (false, st)
      | some (some st2) =>
        match prev with
        | [] => some (true, st2)
        | _ :: _ => scanLoop env params recalcGraph tipHeight n (i + 1) prev st2

/-- Embedding of `GetNetworkHiveInfo(immatureBees, immatureBCTs, matureBees, matureBCTs,
potentialLifespanRewards, consensusParams, recalcGraph)`; `graph0` is `beePopGraph` on
entry. `none` is a crash: the failed `assert(pindexPrev != nullptr)`, a division by
zero, or the reset loop of lines 455-458 writing past the 40960 entries of
`beePopGraph`. -/
def GetNetworkHiveInfo (env : ScanEnv) (params : Params) (recalcGraph : Bool)
    (graph0 : Int → BeePopGraphPoint) : Option (Bool × HiveInfo) :=
  let totalBeeLifespan := toInt32 (params.beeLifespanBlocks + params.beeGestationBlocks)
  match env.Tip with
  | [] => none
  | tip :: _ =>
    let tipHeight := tip.nHeight
    let blockReward0 := env.GetBlockSubsidy tip.nHeight
    let blockReward :=
      if params.IsMinotaurXEnabled env.Tip then blockReward0 + blockReward0 / 2
      else blockReward0
    let typical :=
      if params.IsHive11Enabled env.Tip then env.hiveBlockSpacingTargetTypical_1_1
      else env.hiveBlockSpacingTargetTypical
    if typical = 0 then none
    else if recalcGraph && decide (totalBeeLifespan > 1024 * 40) then none
    else
      let potentialLifespanRewards := Int.tdiv (params.beeLifespanBlocks * blockReward) typical
      let graph1 : Int → BeePopGraphPoint :=
        if recalcGraph then
          fun q => if 0 ≤ q ∧ q < totalBeeLifespan then ⟨0, 0⟩ else graph0 q
        else graph0
      let st0 : HiveInfo := ⟨0, 0, 0, 0, potentialLifespanRewards, graph1⟩
      if env.IsInitialBlockDownload then some (false, st0)
      else scanLoop env params recalcGraph tipHeight totalBeeLifespan.toNat 0 env.Tip st0

/-- The entries of the scan in the words of the spec: the entry `i` below the tip, for
`i` from the given start, at most `n` of them. -/
def scannedEntries : Nat → Int → Chain → List (Int × Chain)
  | 0, _, _ => []
  | _ + 1, _, [] => []
  | n + 1, i, b :: prev => (i, b :: prev) :: scannedEntries n (i + 1) prev

/-- The unit count of a bonding transaction in the words of the spec; `none` for a
transaction that is not counted: not a bonding transaction, or one whose community-fund
output differs from the expected donation. -/
def specUnits (env : ScanEnv) (params : Params) (pindexPrev : Chain) (blockHeight : Int)
    (tx : CTransaction) : Option Int :=
  match env.IsBCT tx with
  | none => none
  | some fee =>
    match tx.vout[1]? with
    | none => some (Int.tdiv fee (params.GetBeeCost blockHeight))
    | some out1 =>
      if out1.scriptPubKey = env.scriptPubKeyCF then
        if out1.nValue ≠ expectedDonation params.communityContribFactor
            (params.IsMinotaurXEnabled pindexPrev) fee out1.nValue then none
        else some (Int.tdiv (fee + out1.nValue) (params.GetBeeCost blockHeight))
      else some (Int.tdiv fee (params.GetBeeCost blockHeight))

/-- A counted bonding transaction: found `i` entries below the tip, in the block of
height `height`, worth `units`. -/
structure CountedBct where
  i : Int
  height : Int
  units : Int
  deriving DecidableEq, Repr

/-- The counted bonding transactions of one scanned entry, in the words of the spec:
none for a Hive-mined block. -/
def countedInEntry (env : ScanEnv) (params : Params) (i : Int) : Chain → List CountedBct
  | [] => []
  | b :: prev =>
    if b.IsHiveMined then []
    else
      match env.ReadBlockFromDisk (b :: prev) with
      | none => []
      | some block =>
        block.vtx.filterMap fun tx =>
          (specUnits env params (b :: prev) b.nHeight tx).map fun u => ⟨i, b.nHeight, u⟩

/-- The counted bonding transactions of the scan, in scan order. -/
def countedBcts (env : ScanEnv) (params : Params) : List (Int × Chain) → List CountedBct
  | [] => []
  | e :: more => countedInEntry env params e.1 e.2 ++ countedBcts env params more

/-- What a counted bonding transaction adds to `immatureBees` in the words of the spec. -/
def immBeesOf (params : Params) (c : CountedBct) : Int :=
  if c.i < params.beeGestationBlocks then c.units else 0

/-- What a counted bonding transaction adds to `immatureBCTs`. -/
def immBCTsOf (params : Params) (c : CountedBct) : Int :=
  if c.i < params.beeGestationBlocks then 1 else 0

/-- What a counted bonding transaction adds to `matureBees`. -/
def matBeesOf (params : Params) (c : CountedBct) : Int :=
  if c.i < params.beeGestationBlocks then 0 else c.units

/-- What a counted bonding transaction adds to `matureBCTs`. -/
def matBCTsOf (params : Params) (c : CountedBct) : Int :=
  if c.i < params.beeGestationBlocks then 0 else 1

/-- What a counted bonding transaction adds to the immature population at graph
position `p` in the words of the spec: its units when `0 < p < gestation + lifespan` and
`j = p + tipHeight` lies in `[h, h + gestation + lifespan)` with `j < h + gestation`. -/
def graphImmOf (params : Params) (tipHeight p : Int) (c : CountedBct) : Int :=
  if 0 < p ∧ p < params.beeLifespanBlocks + params.beeGestationBlocks ∧
      c.height ≤ p + tipHeight ∧
      p + tipHeight < c.height + params.beeGestationBlocks + params.beeLifespanBlocks ∧
      p + tipHeight < c.height + params.beeGestationBlocks then c.units
  else 0

/-- What a counted bonding transaction adds to the mature population at graph position
`p`: as `graphImmOf`, with `j >= h + gestation`. -/
def graphMatOf (params : Params) (tipHeight p : Int) (c : CountedBct) : Int :=
  if 0 < p ∧ p < params.beeLifespanBlocks + params.beeGestationBlocks ∧
      c.height ≤ p + tipHeight ∧
      p + tipHeight < c.height + params.beeGestationBlocks + params.beeLifespanBlocks ∧
      ¬ (p + tipHeight < c.height + params.beeGestationBlocks) then c.units
  else 0

/-- The block data of a scanned entry is readable: the entry is not a pruned block with
transactions, and the block of an entry that is not Hive-mined is read from disk and has
a non-zero bee cost. -/
def ScanReadable (env : ScanEnv) (params : Params) : Chain → Prop
  | [] => True
  | b :: prev =>
    (env.fHavePruned && !env.haveData (b :: prev) && decide (env.nTx (b :: prev) > 0)) = false ∧
    (b.IsHiveMined = false →
      (env.ReadBlockFromDisk (b :: prev)).isSome = true ∧ params.GetBeeCost b.nHeight ≠ 0)

instance ScanReadable.instDecidable (env : ScanEnv) (params : Params) :
    (c : Chain) → Decidable (ScanReadable env params c)
  | [] => isTrue trivial
  | b :: prev =>
    inferInstanceAs (Decidable
      ((env.fHavePruned && !env.haveData (b :: prev) && decide (env.nTx (b :: prev) > 0)) = false ∧
      (b.IsHiveMined = false →
        (env.ReadBlockFromDisk (b :: prev)).isSome = true ∧ params.GetBeeCost b.nHeight ≠ 0)))

/-- An `int` cell that held `old` holds `new` after additions that sum to `d`, each
kept in 32 bits: `new` is `old + d` up to a multiple of `2 ^ 32`, and in `int` range if
`old` was. -/
def CellAdds (old new d : Int) : Prop :=
  (new - old - d) % 2 ^ 32 = 0 ∧
  (-2 ^ 31 ≤ old ∧ old < 2 ^ 31 → -2 ^ 31 ≤ new ∧ new < 2 ^ 31)

/-- The state `st2` is the state `st` after the counted bonding transactions `l`: each
adds to the totals and, with `recalcGraph`, to the graph positions inside
`(0, gestation + lifespan)` what the spec says, in 32-bit arithmetic; nothing else
changes. -/
def ScanAdds (params : Params) (recalcGraph : Bool) (tipHeight : Int) (st st2 : HiveInfo)
    (l : List CountedBct) : Prop :=
  CellAdds st.immatureBees st2.immatureBees (l.map (immBeesOf params)).sum ∧
  CellAdds st.immatureBCTs st2.immatureBCTs (l.map (immBCTsOf params)).sum ∧
  CellAdds st.matureBees st2.matureBees (l.map (matBeesOf params)).sum ∧
  CellAdds st.matureBCTs st2.matureBCTs (l.map (matBCTsOf params)).sum ∧
  st2.potentialLifespanRewards = st.potentialLifespanRewards ∧
  (recalcGraph = false → ∀ p, st2.beePopGraph p = st.beePopGraph p) ∧
  (∀ p, ¬ (0 < p ∧ p < params.beeLifespanBlocks + params.beeGestationBlocks) →
    st2.beePopGraph p = st.beePopGraph p) ∧
  (recalcGraph = true → ∀ p,
    CellAdds (st.beePopGraph p).immaturePop (st2.beePopGraph p).immaturePop
      (l.map (graphImmOf params tipHeight p)).sum ∧
    CellAdds (st.beePopGraph p).maturePop (st2.beePopGraph p).maturePop
      (l.map (graphMatOf params tipHeight p)).sum)

/-- Collaborators for the scan examples: the tip of height 3 holds a coinbase, a bond of
fee 900 with the matching donation 100 and a bond of fee `tipFee` without donation; the
entry of height 2 is Hive-mined; the block of height 1 holds a bond whose donation 50
does not match and a bond of fee 250. A bond is a transaction whose output 0 pays the
script `[0xb0]`; its fee is the value of that output. -/
def scanEnv (tipFee : Int) : ScanEnv where
  Tip := [powBlock 3 450 0x1e0ffff0, hiveBlock 2 300 0x1e0ffff0, powBlock 1 150 0x1e0ffff0,
    powBlock 0 0 0x1e0ffff0]
  GetBlockSubsidy := fun _ => 5000
  hiveBlockSpacingTargetTypical := 3
  hiveBlockSpacingTargetTypical_1_1 := 2
  IsInitialBlockDownload := false
  fHavePruned := false
  haveData := fun _ => true
  nTx := fun _ => 1
  ReadBlockFromDisk := fun c =>
    match c with
    | [] => none
    | b :: _ =>
      if b.nHeight = 3 then
        some { hashPrevBlock := 2,
               vtx := [{ IsCoinBase := true, vout := [{ nValue := 50, scriptPubKey := [0x76] }] },
                       { IsCoinBase := false,
                         vout := [{ nValue := 900, scriptPubKey := [0xb0] },
                                  { nValue := 100, scriptPubKey := [0xcf] }] },
                       { IsCoinBase := false,
                         vout := [{ nValue := tipFee, scriptPubKey := [0xb0] }] }] }
      else if b.nHeight = 1 then
        some { hashPrevBlock := 0,
               vtx := [{ IsCoinBase := false,
                         vout := [{ nValue := 900, scriptPubKey := [0xb0] },
                                  { nValue := 50, scriptPubKey := [0xcf] }] },
                       { IsCoinBase := false,
                         vout := [{ nValue := 250, scriptPubKey := [0xb0] },
                                  { nValue := 7, scriptPubKey := [0x76] }] }] }
      else some { hashPrevBlock := 0, vtx := [] }
  IsBCT := fun tx =>
    match tx.vout with
    | [] => none
    | o :: _ => if o.scriptPubKey = [0xb0] then some o.nValue else none
  scriptPubKeyCF := [0xcf]

/-- The graph with no population anywhere. -/
def emptyGraph : Int → BeePopGraphPoint := fun _ => ⟨0, 0⟩

/-! ## Theorems -/

set_option maxRecDepth 4000

/-! ### Machine integers -/

theorem toInt32_of_bounds (x : Int) (h0 : -2 ^ 31 ≤ x) (h1 : x < 2 ^ 31) : toInt32 x = x := by
  unfold toInt32
  split <;> omega

/-! ### Compact encoding -/

theorem bitsAux_le (fuel x : Nat) : bitsAux fuel x ≤ fuel := by
  induction fuel generalizing x with
  | zero => simp [bitsAux]
  | succ n ih =>
    unfold bitsAux
    split
    · omega
    · have := ih (x / 2); omega

theorem lt_two_pow_bitsAux (fuel x : Nat) (h : x < 2 ^ fuel) : x < 2 ^ bitsAux fuel x := by
  induction fuel generalizing x with
  | zero => simp [bitsAux] at *; omega
  | succ n ih =>
    unfold bitsAux
    split
    · rename_i hx; subst hx; simp
    · have h2 : x / 2 < 2 ^ n := by
        rw [pow_succ] at h; omega
      have := ih (x / 2) h2
      rw [pow_succ]; omega

theorem mod_U256_lt (x : Nat) : x % U256 < 2 ^ 256 := Nat.mod_lt _ (by unfold U256; positivity)

theorem bits_le (x : Nat) : bits x ≤ 256 := bitsAux_le _ _

theorem lt_two_pow_bits (x : Nat) : x % U256 < 2 ^ bits x :=
  lt_two_pow_bitsAux 256 _ (mod_U256_lt x)

/-- Decoding of an encoding whose sign bit is clear. -/
theorem SetCompact_enc (m s : Nat) (hm : m < 2 ^ 23) (hs : s < 256) :
    SetCompact (m + s * 2 ^ 24) =
      if s ≤ 3 then m / 2 ^ (8 * (3 - s)) else (m * 2 ^ (8 * (s - 3))) % U256 := by
  have h1 : (m + s * 2 ^ 24) / 2 ^ 24 % 256 = s := by omega
  have h2 : (m + s * 2 ^ 24) % 2 ^ 23 = m := by omega
  simp only [SetCompact, h1, h2]

theorem SetCompactNegative_enc (m s : Nat) (hm : m < 2 ^ 23) :
    SetCompactNegative (m + s * 2 ^ 24) = false := by
  have h1 : (m + s * 2 ^ 24) / 2 ^ 23 % 2 = 0 := by omega
  simp only [SetCompactNegative, h1]
  simp

/-- Shape of the canonical encoding: a mantissa below `2 ^ 23` and a size byte, whose
decoding does not exceed the encoded value. -/
theorem GetCompact_form (x : Nat) :
    ∃ m s, GetCompact x = m + s * 2 ^ 24 ∧ m < 2 ^ 23 ∧ s ≤ 33 ∧
      (if s ≤ 3 then m / 2 ^ (8 * (3 - s)) else m * 2 ^ (8 * (s - 3))) ≤ x % U256 := by
  have hb := bits_le x
  have hy := lt_two_pow_bits x
  generalize hn : (bits x + 7) / 8 = n at *
  have hn32 : n ≤ 32 := by omega
  have hy2 : x % U256 < 2 ^ (8 * n) :=
    lt_of_lt_of_le hy (Nat.pow_le_pow_right (by norm_num) (by omega))
  unfold GetCompact
  simp only [hn]
  generalize x % U256 = y at *
  by_cases h3 : n ≤ 3
  · simp only [h3, if_true]
    split_ifs with hbit
    · refine ⟨y * 2 ^ (8 * (3 - n)) % 2 ^ 32 / 2 ^ 8, n + 1, rfl, ?_, by omega, ?_⟩
      · interval_cases n <;> norm_num at hy2 hbit ⊢ <;> omega
      · interval_cases n <;> norm_num at hy2 hbit ⊢ <;> omega
    · refine ⟨y * 2 ^ (8 * (3 - n)) % 2 ^ 32, n, rfl, ?_, by omega, ?_⟩
      · interval_cases n <;> norm_num at hy2 hbit ⊢ <;> omega
      · interval_cases n <;> norm_num at hy2 hbit ⊢ <;> omega
  · simp only [h3, if_false]
    have hlt : y / 2 ^ (8 * (n - 3)) < 2 ^ 24 := by
      apply Nat.div_lt_of_lt_mul
      rw [← pow_add]
      have : 8 * (n - 3) + 24 = 8 * n := by omega
      rw [this]; exact hy2
    have hmod : y / 2 ^ (8 * (n - 3)) % 2 ^ 32 = y / 2 ^ (8 * (n - 3)) :=
      Nat.mod_eq_of_lt (by omega)
    rw [hmod]
    generalize hq : y / 2 ^ (8 * (n - 3)) = q at *
    have hqle : q * 2 ^ (8 * (n - 3)) ≤ y := by rw [← hq]; exact Nat.div_mul_le_self _ _
    split_ifs with hbit
    · refine ⟨q / 2 ^ 8, n + 1, rfl, by omega, by omega, ?_⟩
      have h4 : ¬ (n + 1 ≤ 3) := by omega
      simp only [h4, if_false]
      have e : 8 * (n + 1 - 3) = 8 + 8 * (n - 3) := by omega
      rw [e, pow_add, ← mul_assoc]
      calc q / 2 ^ 8 * 2 ^ 8 * 2 ^ (8 * (n - 3))
          ≤ q * 2 ^ (8 * (n - 3)) := Nat.mul_le_mul_right _ (Nat.div_mul_le_self _ _)
        _ ≤ y := hqle
    · refine ⟨q, n, rfl, by omega, by omega, ?_⟩
      simp only [h3, if_false]
      exact hqle

theorem SetCompact_GetCompact_le (x : Nat) : SetCompact (GetCompact x) ≤ x % U256 := by
  obtain ⟨m, s, h, hm, hs, hle⟩ := GetCompact_form x
  rw [h, SetCompact_enc m s hm (by omega)]
  split_ifs with h3
  · simpa [h3] using hle
  · simp only [h3, if_false] at hle
    exact le_trans (Nat.mod_le _ _) hle

theorem SetCompactNegative_GetCompact (x : Nat) : SetCompactNegative (GetCompact x) = false := by
  obtain ⟨m, s, h, hm, -, -⟩ := GetCompact_form x
  rw [h]; exact SetCompactNegative_enc m s hm


theorem SetCompact_limitCompact_le (limit : Nat) :
    SetCompact (limitCompact limit) ≤ UintToArith256 limit := by
  unfold limitCompact
  refine le_trans (SetCompact_GetCompact_le _) ?_
  exact Nat.mod_le _ _

theorem SetCompact_clampCompact_le (bn limit : Nat) :
    SetCompact (clampCompact bn limit) ≤ UintToArith256 limit := by
  unfold clampCompact
  split_ifs with h
  · exact SetCompact_limitCompact_le limit
  · exact le_trans (SetCompact_GetCompact_le _) (le_trans (Nat.mod_le _ _) (not_lt.mp h))

theorem SetCompact_GetCompact_zero : SetCompact (GetCompact 0) = 0 := by
  have := SetCompact_GetCompact_le 0
  simpa using this

/-! ### Results stay within the floor -/

theorem lwmaFinish_le (T N k : Int) (limit : Nat) (t0 : Int) (w : List CBlockIndex) (c : Nat)
    (h : lwmaFinish T N k limit t0 w = some c) : SetCompact c ≤ UintToArith256 limit := by
  unfold lwmaFinish at h
  split at h
  · exact absurd h (by simp)
  · dsimp only at h
    split at h
    · cases h; exact SetCompact_limitCompact_le limit
    · rename_i hgt
      cases h
      exact le_trans (SetCompact_GetCompact_le _) (le_trans (Nat.mod_le _ _) (not_lt.mp hgt))

theorem GetNextWorkRequiredLWMA_le (chain : Chain) (t : Int) (params : Params) (powType c : Nat)
    (h : GetNextWorkRequiredLWMA chain t params powType = some c) :
    SetCompact c ≤ UintToArith256 (params.powTypeLimits powType) := by
  unfold GetNextWorkRequiredLWMA at h
  try dsimp only at h
  (repeat' split at h) <;> first
    | contradiction
    | (cases h; exact SetCompact_limitCompact_le _)
    | exact lwmaFinish_le _ _ _ _ _ _ _ h

theorem dgwRetarget_le (params : Params) (avg : Nat) (a b : Int) (c : Nat)
    (h : dgwRetarget params avg a b = some c) :
    SetCompact c ≤ UintToArith256 params.powLimitSHA := by
  unfold dgwRetarget at h
  try dsimp only at h
  split at h
  · exact absurd h (by simp)
  · cases h; exact SetCompact_clampCompact_le _ _

theorem DarkGravityWave_le (chain : Chain) (t : Int) (params : Params) (c : Nat)
    (h : DarkGravityWave chain t params = some c) :
    SetCompact c ≤ UintToArith256 params.powLimitSHA := by
  unfold DarkGravityWave at h
  try dsimp only at h
  (repeat' split at h) <;> first
    | contradiction
    | (cases h; exact SetCompact_limitCompact_le _)
    | exact dgwRetarget_le _ _ _ _ _ h

theorem hiveRescale_le (params : Params) (st : HiveAcc) (c : Nat)
    (h : hiveRescale params st = some c) :
    SetCompact c ≤ UintToArith256 params.powLimitHive := by
  unfold hiveRescale at h
  try dsimp only at h
  (repeat' split at h) <;> first
    | contradiction
    | (cases h; exact SetCompact_clampCompact_le _ _)

theorem GetNextHive12WorkRequired_le (chain : Chain) (params : Params) (c : Nat)
    (h : GetNextHive12WorkRequired chain params = some c) :
    SetCompact c ≤ UintToArith256 params.powLimitHive := by
  unfold GetNextHive12WorkRequired at h
  split at h
  · contradiction
  · dsimp only at h
    split at h
    · cases h; exact SetCompact_limitCompact_le _
    · exact hiveRescale_le _ _ _ h

theorem GetNextHive11WorkRequired_le (chain : Chain) (params : Params) (c : Nat)
    (h : GetNextHive11WorkRequired chain params = some c) :
    SetCompact c ≤ UintToArith256 params.powLimitHive := by
  unfold GetNextHive11WorkRequired at h
  split at h
  · contradiction
  · dsimp only at h
    split at h
    · cases h; exact SetCompact_limitCompact_le _
    · exact hiveRescale_le _ _ _ h

theorem GetNextHiveWorkRequired_le (chain : Chain) (params : Params) (c : Nat)
    (h : GetNextHiveWorkRequired chain params = some c) :
    SetCompact c ≤ UintToArith256 params.powLimitHive := by
  unfold GetNextHiveWorkRequired at h
  split at h
  · contradiction
  · split at h
    · exact GetNextHive12WorkRequired_le _ _ _ h
    · split at h
      · exact GetNextHive11WorkRequired_le _ _ _ h
      · split at h
        · cases h; exact SetCompact_limitCompact_le _
        · split at h
          · cases h; rw [SetCompact_GetCompact_zero]; exact Nat.zero_le _
          · split at h
            · contradiction
            · dsimp only at h
              split at h
              · contradiction
              · cases h; exact SetCompact_clampCompact_le _ _

theorem lastNonMinDifficulty_mem (interval : Int) (lim : Nat) (chain : Chain) (c : Nat)
    (h : lastNonMinDifficulty interval lim chain = some c) : ∃ b ∈ chain, b.nBits = c := by
  induction chain with
  | nil => simp [lastNonMinDifficulty] at h
  | cons b rest ih =>
    cases rest with
    | nil =>
      simp only [lastNonMinDifficulty, Option.some.injEq] at h
      exact ⟨b, by simp, h⟩
    | cons d rest2 =>
      unfold lastNonMinDifficulty at h
      split_ifs at h
      · obtain ⟨x, hx, hxc⟩ := ih h
        exact ⟨x, List.mem_cons_of_mem _ hx, hxc⟩
      · simp only [Option.some.injEq] at h
        exact ⟨b, by simp, h⟩

theorem CalculateNextWorkRequired_le (tip : CBlockIndex) (t : Int) (params : Params) (c : Nat)
    (hstored : SetCompact tip.nBits ≤ UintToArith256 params.powLimit)
    (h : CalculateNextWorkRequired tip t params = some c) :
    SetCompact c ≤ UintToArith256 params.powLimit := by
  unfold CalculateNextWorkRequired at h
  try dsimp only at h
  (repeat' split at h) <;> first
    | contradiction
    | (cases h; exact hstored)
    | (cases h; exact SetCompact_clampCompact_le _ _)

theorem GetNextWorkRequiredLTC_le (chain : Chain) (t : Int) (params : Params) (c : Nat)
    (hstored : ∀ b ∈ chain, SetCompact b.nBits ≤ UintToArith256 params.powLimit)
    (h : GetNextWorkRequiredLTC chain t params = some c) :
    SetCompact c ≤ UintToArith256 params.powLimit := by
  unfold GetNextWorkRequiredLTC at h
  split at h
  · exact absurd h (by simp)
  · rename_i tip rest
    try dsimp only at h
    (repeat' split at h) <;> first
      | contradiction
      | (cases h; exact SetCompact_limitCompact_le _)
      | (cases h; exact hstored tip (by simp))
      | exact CalculateNextWorkRequired_le _ _ _ _ (hstored tip (by simp)) h
      | (obtain ⟨b, hb, hbc⟩ := lastNonMinDifficulty_mem _ _ _ _ h
         rw [← hbc]; exact hstored b hb)

theorem GetNextWorkRequired_le (chain : Chain) (t : Int) (params : Params) (c : Nat)
    (hstored : ∀ b ∈ chain, SetCompact b.nBits ≤ UintToArith256 params.powLimit)
    (h : GetNextWorkRequired chain t params = some c) :
    ∀ tip rest, chain = tip :: rest →
      SetCompact c ≤ UintToArith256
        (if tip.nHeight ≥ params.lastScryptBlock then params.powLimitSHA else params.powLimit) := by
  intro tip rest hc
  subst hc
  unfold GetNextWorkRequired at h
  dsimp only at h
  split at h
  · rename_i hge
    rw [if_pos hge]; exact DarkGravityWave_le _ _ _ _ h
  · rename_i hge
    rw [if_neg hge]; exact GetNextWorkRequiredLTC_le _ _ _ _ hstored h

/-! ### C1 -/

/-- C1, as stated, fails: off an adjustment boundary the legacy branch of
`GetNextWorkRequired` hands back the tip's stored `nBits` unchanged, here `0x2000ffff`,
which unpacks to a value above `powLimit`. -/
theorem C1_stored_target_above_floor :
    GetNextWorkRequired looseChain 300 demoParams = some 0x2000ffff ∧
      ¬ SetCompact 0x2000ffff ≤ UintToArith256 demoParams.powLimit := by
  decide

/-- C1, amended: every compact target the retargeting engine computes
(`GetNextWorkRequiredLWMA`, `DarkGravityWave`, the three variants of
`GetNextHiveWorkRequired`, `CalculateNextWorkRequired` with retargeting enabled) unpacks to
a value that is at most the algorithm's floor; the legacy paths hand back stored `nBits`
unchanged, so `GetNextWorkRequiredLTC` and `GetNextWorkRequired` stay within the floor
when the stored targets of the chain do. -/
theorem C1_retarget_within_floor (chain : Chain) (t : Int) (params : Params)
    (powType c : Nat) :
    (GetNextWorkRequiredLWMA chain t params powType = some c →
      SetCompact c ≤ UintToArith256 (params.powTypeLimits powType)) ∧
    (DarkGravityWave chain t params = some c →
      SetCompact c ≤ UintToArith256 params.powLimitSHA) ∧
    (GetNextHiveWorkRequired chain params = some c →
      SetCompact c ≤ UintToArith256 params.powLimitHive) ∧
    (params.fPowNoRetargeting = false → ∀ tip t0,
      CalculateNextWorkRequired tip t0 params = some c →
      SetCompact c ≤ UintToArith256 params.powLimit) ∧
    ((∀ b ∈ chain, SetCompact b.nBits ≤ UintToArith256 params.powLimit) →
      (GetNextWorkRequiredLTC chain t params = some c →
        SetCompact c ≤ UintToArith256 params.powLimit) ∧
      (GetNextWorkRequired chain t params = some c → ∀ tip rest, chain = tip :: rest →
        SetCompact c ≤ UintToArith256
          (if tip.nHeight ≥ params.lastScryptBlock then params.powLimitSHA
           else params.powLimit))) := by
  refine ⟨GetNextWorkRequiredLWMA_le _ _ _ _ _, DarkGravityWave_le _ _ _ _,
    GetNextHiveWorkRequired_le _ _ _, ?_, ?_⟩
  · intro hno tip t0 h
    unfold CalculateNextWorkRequired at h
    rw [hno] at h
    simp only [Bool.false_eq_true, if_false] at h
    split at h
    · contradiction
    · cases h; exact SetCompact_clampCompact_le _ _
  · intro hstored
    exact ⟨GetNextWorkRequiredLTC_le _ _ _ _ hstored, GetNextWorkRequired_le _ _ _ _ hstored⟩

/-- Witness of C1: on `tightChain` the legacy branch returns the stored `0x1e0ffff0`,
within `powLimit`. -/
theorem C1_retarget_within_floor_witness :
    (∀ b ∈ tightChain, SetCompact b.nBits ≤ UintToArith256 demoParams.powLimit) ∧
      GetNextWorkRequired tightChain 300 demoParams = some 0x1e0ffff0 ∧
      SetCompact 0x1e0ffff0 ≤ UintToArith256 demoParams.powLimit :=
  ⟨by decide, by decide,
    by
      have h := ((C1_retarget_within_floor tightChain 300 demoParams 0 0x1e0ffff0).2.2.2.2
        (by decide)).2 (by decide) (powBlock 1 150 0x1e0ffff0) [powBlock 0 0 0x1e0ffff0] rfl
      simpa [demoParams, powBlock] using h⟩

/-! ### Totality of the retargeting functions -/

theorem divU64_isSome (a : Nat) (b : Int) (h0 : 0 < b) (h1 : b < 2 ^ 64) :
    ∃ q, divU64 a b = some q := by
  unfold divU64
  have hb : b % 2 ^ 64 = b := Int.emod_eq_of_lt (le_of_lt h0) h1
  rw [hb]
  have : b.toNat ≠ 0 := by omega
  simp [this]

theorem ValidChain_length (rest : Chain) (tip : CBlockIndex)
    (hv : ValidChain (tip :: rest)) :
    (((tip :: rest).length : Nat) : Int) = tip.nHeight + 1 := by
  induction rest generalizing tip with
  | nil => simp [ValidChain] at hv; simp [hv]
  | cons d r2 ih =>
    obtain ⟨h1, h2⟩ := hv
    have := ih d h2
    simp only [List.length_cons] at this ⊢
    push_cast at this ⊢
    omega

theorem wantedCount_cons_skip (powType : Nat) (b : CBlockIndex) (prev : Chain)
    (hw : (b.IsHiveMined || b.GetPoWType != powType) = true) :
    wantedCount powType (b :: prev) = wantedCount powType prev := by
  unfold wantedCount
  rw [List.filter_cons_of_neg (by simp only [hw]; decide)]

theorem wantedCount_cons_take (powType : Nat) (b : CBlockIndex) (prev : Chain)
    (hw : ¬ (b.IsHiveMined || b.GetPoWType != powType) = true) :
    wantedCount powType (b :: prev) = wantedCount powType prev + 1 := by
  unfold wantedCount
  rw [List.filter_cons_of_pos (by simpa using hw)]
  simp

theorem lwmaLoop_isSome (T N k : Int) (hN0 : 0 < N) (hN1 : N < 2 ^ 64) (hk0 : 0 < k)
    (hk1 : k < 2 ^ 64) (w : List CBlockIndex) (st : LwmaAcc) :
    ∃ st2, lwmaLoop T N k w st = some st2 := by
  induction w generalizing st with
  | nil => exact ⟨st, rfl⟩
  | cons b rest ih =>
    unfold lwmaLoop lwmaStep
    obtain ⟨q, hq⟩ := divU64_isSome (SetCompact b.nBits) N hN0 hN1
    obtain ⟨q2, hq2⟩ := divU64_isSome q k hk0 hk1
    simp only [hq, hq2]
    exact ih _

theorem lwmaFinish_isSome (T N k : Int) (hN0 : 0 < N) (hN1 : N < 2 ^ 64) (hk0 : 0 < k)
    (hk1 : k < 2 ^ 64) (limit : Nat) (t0 : Int) (w : List CBlockIndex) :
    ∃ c, lwmaFinish T N k limit t0 w = some c := by
  unfold lwmaFinish
  obtain ⟨st, hst⟩ := lwmaLoop_isSome T N k hN0 hN1 hk0 hk1 w
    { previousTimestamp := t0, j := 0, sumWeightedSolvetimes := 0, avgTarget := 0 }
  rw [hst]
  dsimp only
  split
  · exact ⟨_, rfl⟩
  · exact ⟨_, rfl⟩

theorem lwmaWalk_ne_assertFailed (powType : Nat) (chain : Chain) (need : Nat)
    (acc : List CBlockIndex)
    (h : (∃ b ∈ chain, b.nVersion ≥ 0x20000000) ∨ (1 ≤ need ∧ need ≤ wantedCount powType chain)) :
    lwmaWalk powType need chain acc = LwmaWalk.forkpoint ∨
      ∃ o w, lwmaWalk powType need chain acc = LwmaWalk.window (o :: w) := by
  induction chain generalizing need acc with
  | nil =>
    rcases h with ⟨b, hb, _⟩ | ⟨h1, h2⟩
    · cases hb
    · simp [wantedCount] at h2; omega
  | cons b prev ih =>
    unfold lwmaWalk
    by_cases hv : b.nVersion ≥ 0x20000000
    · left; rw [if_pos hv]
    · rw [if_neg hv]
      have hfork : (∃ x ∈ b :: prev, x.nVersion ≥ 0x20000000) →
          ∃ x ∈ prev, x.nVersion ≥ 0x20000000 := by
        rintro ⟨x, hx, hxv⟩
        rcases List.mem_cons.mp hx with rfl | hx
        · exact absurd hxv hv
        · exact ⟨x, hx, hxv⟩
      by_cases hw : (b.IsHiveMined || b.GetPoWType != powType) = true
      · rw [if_pos hw]
        have h2 : (∃ x ∈ prev, x.nVersion ≥ 0x20000000) ∨
            (1 ≤ need ∧ need ≤ wantedCount powType prev) := by
          rcases h with hf | ⟨h1, h2⟩
          · exact Or.inl (hfork hf)
          · right
            refine ⟨h1, ?_⟩
            rw [← wantedCount_cons_skip powType b prev hw]; exact h2
        cases prev with
        | nil =>
          rcases h2 with ⟨x, hx, _⟩ | ⟨h1, h2⟩
          · cases hx
          · simp [wantedCount] at h2; omega
        | cons d r => exact ih need acc h2
      · rw [if_neg hw]
        by_cases hn : need ≤ 1
        · right; rw [if_pos hn]; exact ⟨b, acc, rfl⟩
        · rw [if_neg hn]
          have h2 : (∃ x ∈ prev, x.nVersion ≥ 0x20000000) ∨
              (1 ≤ need - 1 ∧ need - 1 ≤ wantedCount powType prev) := by
            rcases h with hf | ⟨h1, h2⟩
            · exact Or.inl (hfork hf)
            · right
              refine ⟨by omega, ?_⟩
              have := wantedCount_cons_take powType b prev hw
              omega
          cases prev with
          | nil =>
            rcases h2 with ⟨x, hx, _⟩ | ⟨h1, h2⟩
            · cases hx
            · simp [wantedCount] at h2; omega
          | cons d r => exact ih (need - 1) (b :: acc) h2

theorem GetNextWorkRequiredLWMA_isSome (tip : CBlockIndex) (rest : Chain) (t : Int)
    (params : Params) (powType : Nat)
    (hs : 0 < params.nPowTargetSpacing) (hN : 0 < params.lwmaAveragingWindow)
    (hk : params.lwmaAveragingWindow * (params.lwmaAveragingWindow + 1) *
      params.nPowTargetSpacing < 2 ^ 63)
    (hwalk : (∃ b ∈ tip :: rest, b.nVersion ≥ 0x20000000) ∨
      params.lwmaAveragingWindow.toNat ≤ wantedCount powType (tip :: rest)) :
    ∃ c, GetNextWorkRequiredLWMA (tip :: rest) t params powType = some c := by
  have hkeq : Int.tdiv (params.lwmaAveragingWindow * (params.lwmaAveragingWindow + 1) *
      (params.nPowTargetSpacing * 2)) 2 =
      params.lwmaAveragingWindow * (params.lwmaAveragingWindow + 1) *
        params.nPowTargetSpacing := by
    rw [← mul_assoc]; exact Int.mul_tdiv_cancel _ (by norm_num)
  have hN1 : 0 < params.lwmaAveragingWindow + 1 := by omega
  have hk0 : 0 < params.lwmaAveragingWindow * (params.lwmaAveragingWindow + 1) *
      params.nPowTargetSpacing := mul_pos (mul_pos hN hN1) hs
  have hNle : params.lwmaAveragingWindow ≤ params.lwmaAveragingWindow *
      (params.lwmaAveragingWindow + 1) * params.nPowTargetSpacing := by
    have h1 : params.lwmaAveragingWindow * 1 ≤
        params.lwmaAveragingWindow * (params.lwmaAveragingWindow + 1) :=
      mul_le_mul_of_nonneg_left (by omega) (le_of_lt hN)
    have h2 : params.lwmaAveragingWindow * (params.lwmaAveragingWindow + 1) * 1 ≤
        params.lwmaAveragingWindow * (params.lwmaAveragingWindow + 1) *
          params.nPowTargetSpacing :=
      mul_le_mul_of_nonneg_left (by omega) (le_of_lt (mul_pos hN hN1))
    omega
  have hfin := fun t0 w => lwmaFinish_isSome (params.nPowTargetSpacing * 2)
    params.lwmaAveragingWindow
    (Int.tdiv (params.lwmaAveragingWindow * (params.lwmaAveragingWindow + 1) *
      (params.nPowTargetSpacing * 2)) 2) hN (by omega) (by rw [hkeq]; exact hk0)
    (by rw [hkeq]; omega) (params.powTypeLimits powType) t0 w
  unfold GetNextWorkRequiredLWMA
  dsimp only
  split
  · exact ⟨_, rfl⟩
  · split
    · exact ⟨_, rfl⟩
    · split
      · exact hfin _ _
      · have hw := lwmaWalk_ne_assertFailed powType (tip :: rest)
          params.lwmaAveragingWindow.toNat [] (by
            rcases hwalk with hf | hc
            · exact Or.inl hf
            · exact Or.inr ⟨by omega, hc⟩)
        rcases hw with hw | ⟨o, w, hw⟩
        · rw [hw]; exact ⟨_, rfl⟩
        · rw [hw]; exact hfin _ _

theorem powCount_cons_hive (b : CBlockIndex) (prev : Chain) (h : b.IsHiveMined = true) :
    powCount (b :: prev) = powCount prev := by
  unfold powCount
  rw [List.filter_cons_of_neg (by simp [h])]

theorem powCount_cons_pow (b : CBlockIndex) (prev : Chain) (h : b.IsHiveMined = false) :
    powCount (b :: prev) = powCount prev + 1 := by
  unfold powCount
  rw [List.filter_cons_of_pos (by simp [h])]
  simp

theorem powCount_nil : powCount [] = 0 := rfl

theorem skipHive_spec (chain : Chain) (h : 1 ≤ powCount chain) :
    ∃ b prev, skipHive chain = some (b :: prev) ∧ b.IsHiveMined = false ∧
      powCount (b :: prev) = powCount chain := by
  induction chain with
  | nil => simp [powCount_nil] at h
  | cons b prev ih =>
    unfold skipHive
    by_cases hb : b.IsHiveMined = true
    · rw [if_pos hb]
      rw [powCount_cons_hive b prev hb] at h ⊢
      cases prev with
      | nil => simp [powCount_nil] at h
      | cons d r => exact ih h
    · rw [if_neg hb]
      exact ⟨b, prev, rfl, by simpa using hb, rfl⟩

theorem dgwLoop_isSome (left n : Nat) (chain : Chain) (avg : Nat)
    (hne : chain ≠ []) (hn : n + left = 25) (hc : left ≤ powCount chain) :
    ∃ a b r, dgwLoop 24 left n chain avg = some (a, b :: r) := by
  induction left generalizing n chain avg with
  | zero =>
    cases chain with
    | nil => exact absurd rfl hne
    | cons b r => exact ⟨avg, b, r, rfl⟩
  | succ left ih =>
    unfold dgwLoop
    obtain ⟨b, prev, hs, hb, hp⟩ := skipHive_spec chain (by omega)
    rw [hs]
    dsimp only
    rw [powCount_cons_pow b prev hb] at hp
    by_cases h24 : n = 24
    · rw [if_neg (by simpa using h24)]
      have hl : left = 0 := by omega
      subst hl
      exact ih (n + 1) (b :: prev) _ (by simp) (by omega) (by omega)
    · rw [if_pos h24]
      cases prev with
      | nil => rw [powCount_nil] at hp; omega
      | cons d r => exact ih (n + 1) (d :: r) _ (by simp) (by omega) (by omega)

theorem dgwRetarget_isSome (params : Params) (avg : Nat) (a b : Int)
    (hs0 : 0 < params.nPowTargetSpacing) (hs1 : params.nPowTargetSpacing < 2 ^ 31) :
    ∃ c, dgwRetarget params avg a b = some c := by
  unfold dgwRetarget
  dsimp only
  obtain ⟨q, hq⟩ := divU64_isSome
    (mulU32 avg (if (if a - b < Int.tdiv (24 * params.nPowTargetSpacing) 3
        then Int.tdiv (24 * params.nPowTargetSpacing) 3 else a - b) >
          24 * params.nPowTargetSpacing * 3
      then 24 * params.nPowTargetSpacing * 3
      else if a - b < Int.tdiv (24 * params.nPowTargetSpacing) 3
        then Int.tdiv (24 * params.nPowTargetSpacing) 3 else a - b))
    (24 * params.nPowTargetSpacing) (by omega) (by omega)
  rw [hq]
  exact ⟨_, rfl⟩

theorem DarkGravityWave_isSome (tip : CBlockIndex) (rest : Chain) (t : Int) (params : Params)
    (hs0 : 0 < params.nPowTargetSpacing) (hs1 : params.nPowTargetSpacing < 2 ^ 31)
    (hc : 24 ≤ powCount (tip :: rest)) :
    ∃ c, DarkGravityWave (tip :: rest) t params = some c := by
  unfold DarkGravityWave
  dsimp only
  split
  · exact ⟨_, rfl⟩
  · have hskip : ∃ b prev, (if params.IsHive11Enabled (tip :: rest) = true
        then skipHive (tip :: rest) else some (tip :: rest)) = some (b :: prev) ∧
        24 ≤ powCount (b :: prev) := by
      split
      · obtain ⟨b, prev, h1, _, h3⟩ := skipHive_spec (tip :: rest) (by omega)
        exact ⟨b, prev, h1, by omega⟩
      · exact ⟨tip, rest, rfl, hc⟩
    obtain ⟨b, prev, h1, h2⟩ := hskip
    rw [h1]
    dsimp only
    split
    · exact ⟨_, rfl⟩
    · obtain ⟨a, f, r, hl⟩ := dgwLoop_isSome 24 1 (b :: prev) 0 (by simp) rfl h2
      rw [hl]
      exact dgwRetarget_isSome params _ _ _ hs0 hs1

theorem hiveAccStep_count (b : CBlockIndex) (st : HiveAcc) :
    st.hiveBlockCount ≤ (hiveAccStep b st).hiveBlockCount ∧
      (hiveAccStep b st).hiveBlockCount ≤ st.hiveBlockCount + 1 := by
  unfold hiveAccStep
  split <;> simp

theorem hive11Walk_count (params : Params) (chain : Chain) (st : HiveAcc)
    (h0 : 0 ≤ st.hiveBlockCount) (h1 : st.hiveBlockCount ≤ params.hiveDifficultyWindow) :
    0 ≤ (hive11Walk params chain st).hiveBlockCount ∧
      (hive11Walk params chain st).hiveBlockCount ≤ params.hiveDifficultyWindow := by
  induction chain generalizing st with
  | nil => unfold hive11Walk; exact ⟨h0, h1⟩
  | cons b rest ih =>
    cases rest with
    | nil => unfold hive11Walk; exact ⟨h0, h1⟩
    | cons d r =>
      unfold hive11Walk
      split
      · rename_i hc
        have := hiveAccStep_count b st
        exact ih _ (by omega) (by omega)
      · exact ⟨h0, h1⟩

theorem hive12Walk_count (params : Params) (chain : Chain) (st : HiveAcc)
    (h0 : 0 ≤ st.hiveBlockCount) (h1 : st.hiveBlockCount ≤ params.hiveDifficultyWindow) :
    0 ≤ (hive12Walk params chain st).hiveBlockCount ∧
      (hive12Walk params chain st).hiveBlockCount ≤ params.hiveDifficultyWindow := by
  induction chain generalizing st with
  | nil => unfold hive12Walk; exact ⟨h0, h1⟩
  | cons b rest ih =>
    cases rest with
    | nil => unfold hive12Walk; exact ⟨h0, h1⟩
    | cons d r =>
      unfold hive12Walk
      split
      · rename_i hc
        have := hiveAccStep_count b st
        exact ih _ (by omega) (by omega)
      · exact ⟨h0, h1⟩

theorem hiveRescale_isSome (params : Params) (st : HiveAcc)
    (hc0 : 0 < st.hiveBlockCount) (hs0 : 0 < params.hiveBlockSpacingTarget)
    (hp1 : st.hiveBlockCount * params.hiveBlockSpacingTarget < 2 ^ 31) :
    ∃ c, hiveRescale params st = some c := by
  unfold hiveRescale
  have hp0 : 0 < st.hiveBlockCount * params.hiveBlockSpacingTarget := mul_pos hc0 hs0
  have hc1 : st.hiveBlockCount < 2 ^ 64 := by
    have : st.hiveBlockCount * 1 ≤ st.hiveBlockCount * params.hiveBlockSpacingTarget :=
      Int.mul_le_mul_of_nonneg_left (by omega) (le_of_lt hc0)
    omega
  obtain ⟨q, hq⟩ := divU64_isSome st.beeHashTarget st.hiveBlockCount hc0 hc1
  rw [hq]
  dsimp only
  rw [toInt32_of_bounds _ (by omega) hp1]
  obtain ⟨q2, hq2⟩ := divU64_isSome (mulU32 q st.totalBlockCount) _ hp0 (by omega)
  rw [hq2]
  exact ⟨_, rfl⟩

theorem GetNextHiveWorkRequired_isSome (tip : CBlockIndex) (rest : Chain) (params : Params)
    (hs0 : 0 < params.hiveBlockSpacingTarget) (hw0 : 0 < params.hiveDifficultyWindow)
    (hws : params.hiveDifficultyWindow * params.hiveBlockSpacingTarget < 2 ^ 31)
    (ha0 : 0 ≤ params.hiveTargetAdjustAggression)
    (ha1 : params.hiveTargetAdjustAggression + params.hiveBlockSpacingTarget < 2 ^ 31) :
    ∃ c, GetNextHiveWorkRequired (tip :: rest) params = some c := by
  have hprod : ∀ c : Int, c ≤ params.hiveDifficultyWindow →
      c * params.hiveBlockSpacingTarget < 2 ^ 31 := by
    intro c hc
    have : c * params.hiveBlockSpacingTarget ≤
        params.hiveDifficultyWindow * params.hiveBlockSpacingTarget :=
      Int.mul_le_mul_of_nonneg_right hc (le_of_lt hs0)
    omega
  unfold GetNextHiveWorkRequired
  dsimp only
  split
  · unfold GetNextHive12WorkRequired
    dsimp only
    have hcnt := hive12Walk_count params (tip :: rest)
      { beeHashTarget := 0, hiveBlockCount := 0, totalBlockCount := 0 } (le_refl _)
      (le_of_lt hw0)
    split
    · exact ⟨_, rfl⟩
    · exact hiveRescale_isSome params _ (by omega) hs0 (hprod _ hcnt.2)
  · split
    · unfold GetNextHive11WorkRequired
      dsimp only
      have hcnt := hive11Walk_count params (tip :: rest)
        { beeHashTarget := 0, hiveBlockCount := 0, totalBlockCount := 0 } (le_refl _)
        (le_of_lt hw0)
      split
      · exact ⟨_, rfl⟩
      · exact hiveRescale_isSome params _ (by omega) hs0 (hprod _ hcnt.2)
    · split
      · exact ⟨_, rfl⟩
      · split
        · exact ⟨_, rfl⟩
        · rw [if_neg (by omega)]
          have hi : Int.tdiv params.hiveTargetAdjustAggression params.hiveBlockSpacingTarget
              = params.hiveTargetAdjustAggression / params.hiveBlockSpacingTarget :=
            Int.tdiv_eq_ediv ha0 (le_of_lt hs0)
          have hi0 : 0 ≤ params.hiveTargetAdjustAggression / params.hiveBlockSpacingTarget :=
            Int.ediv_nonneg ha0 (le_of_lt hs0)
          have hi1 : params.hiveTargetAdjustAggression / params.hiveBlockSpacingTarget ≤
              params.hiveTargetAdjustAggression := Int.ediv_le_self _ ha0
          have hi2 : params.hiveTargetAdjustAggression / params.hiveBlockSpacingTarget *
              params.hiveBlockSpacingTarget ≤ params.hiveTargetAdjustAggression :=
            Int.ediv_mul_le _ (by omega)
          rw [hi, toInt32_of_bounds (params.hiveTargetAdjustAggression /
            params.hiveBlockSpacingTarget) (by omega) (by omega)]
          have hp0 : 0 < (params.hiveTargetAdjustAggression / params.hiveBlockSpacingTarget + 1)
              * params.hiveBlockSpacingTarget := mul_pos (by omega) hs0
          have hp1 : (params.hiveTargetAdjustAggression / params.hiveBlockSpacingTarget + 1)
              * params.hiveBlockSpacingTarget < 2 ^ 31 := by
            rw [add_mul, one_mul]
            omega
          rw [toInt32_of_bounds ((params.hiveTargetAdjustAggression /
            params.hiveBlockSpacingTarget + 1) * params.hiveBlockSpacingTarget)
            (by omega) hp1]
          obtain ⟨q, hq⟩ := divU64_isSome (mulU32 (SetCompact ‹Nat›)
            (toInt32 ((params.hiveTargetAdjustAggression / params.hiveBlockSpacingTarget - 1) *
              params.hiveBlockSpacingTarget + ‹Int› + ‹Int›))) _ hp0 (by omega)
          rw [hq]
          exact ⟨_, rfl⟩

theorem lastNonMinDifficulty_isSome (interval : Int) (lim : Nat) (tip : CBlockIndex)
    (rest : Chain) : ∃ c, lastNonMinDifficulty interval lim (tip :: rest) = some c := by
  induction rest generalizing tip with
  | nil => exact ⟨_, rfl⟩
  | cons d r ih =>
    unfold lastNonMinDifficulty
    split
    · exact ih d
    · exact ⟨_, rfl⟩

theorem CalculateNextWorkRequired_isSome (tip : CBlockIndex) (t0 : Int) (params : Params)
    (h0 : 0 < params.nPowTargetTimespan) (h1 : params.nPowTargetTimespan < 2 ^ 63) :
    ∃ c, CalculateNextWorkRequired tip t0 params = some c := by
  unfold CalculateNextWorkRequired
  split
  · exact ⟨_, rfl⟩
  · dsimp only
    obtain ⟨q, hq⟩ := divU64_isSome
      (mulU32
        (if decide (bits (SetCompact tip.nBits) >
            (bits (UintToArith256 params.powLimit) + 2 ^ 32 - 1) % 2 ^ 32) = true
          then SetCompact tip.nBits / 2 else SetCompact tip.nBits)
        (if (if tip.GetBlockTime - t0 < Int.tdiv params.nPowTargetTimespan 4
            then Int.tdiv params.nPowTargetTimespan 4 else tip.GetBlockTime - t0) >
              params.nPowTargetTimespan * 4
          then params.nPowTargetTimespan * 4
          else if tip.GetBlockTime - t0 < Int.tdiv params.nPowTargetTimespan 4
            then Int.tdiv params.nPowTargetTimespan 4 else tip.GetBlockTime - t0))
      params.nPowTargetTimespan h0 (by omega)
    rw [hq]
    exact ⟨_, rfl⟩

theorem goback_le_height (h I : Int) (hh : 0 ≤ h) (hI : 0 < I)
    (hmod : Int.tmod (h + 1) I = 0) :
    (if h + 1 ≠ I then I else I - 1) ≤ h := by
  rw [Int.tmod_eq_emod (by omega) (le_of_lt hI)] at hmod
  obtain ⟨m, hm⟩ := Int.dvd_of_emod_eq_zero hmod
  split
  · rename_i hne
    have hm1 : m ≠ 1 := by
      intro h1; rw [h1, mul_one] at hm; exact hne hm
    have hm0 : 0 < m := by
      by_contra hcon
      have : I * m ≤ 0 := mul_nonpos_of_nonneg_of_nonpos (le_of_lt hI) (by omega)
      omega
    have : I * 2 ≤ I * m := mul_le_mul_of_nonneg_left (by omega) (le_of_lt hI)
    omega
  · rename_i heq
    have : h + 1 = I := by
      by_contra hcon; exact heq hcon
    omega

theorem ValidChain_height_nonneg (rest : Chain) (tip : CBlockIndex)
    (hv : ValidChain (tip :: rest)) : 0 ≤ tip.nHeight := by
  have := ValidChain_length rest tip hv
  have h2 : (0 : Int) ≤ ((tip :: rest).length : Nat) := Int.natCast_nonneg _
  simp only [List.length_cons] at this h2
  push_cast at this h2
  omega

theorem GetNextWorkRequiredLTC_isSome (tip : CBlockIndex) (rest : Chain) (t : Int)
    (params : Params) (hv : ValidChain (tip :: rest))
    (hI : 0 < params.DifficultyAdjustmentInterval)
    (h0 : 0 < params.nPowTargetTimespan) (h1 : params.nPowTargetTimespan < 2 ^ 63) :
    ∃ c, GetNextWorkRequiredLTC (tip :: rest) t params = some c := by
  unfold GetNextWorkRequiredLTC
  dsimp only
  rw [if_neg (by omega)]
  split
  · split
    · split
      · exact ⟨_, rfl⟩
      · exact lastNonMinDifficulty_isSome _ _ tip rest
    · exact ⟨_, rfl⟩
  · rename_i hmod
    have hmod2 : Int.tmod (tip.nHeight + 1) params.DifficultyAdjustmentInterval = 0 := by
      by_contra hcon; exact hmod hcon
    have hh := ValidChain_height_nonneg rest tip hv
    have hgo := goback_le_height tip.nHeight params.DifficultyAdjustmentInterval hh hI hmod2
    have hlen := ValidChain_length rest tip hv
    generalize hg : (if tip.nHeight + 1 ≠ params.DifficultyAdjustmentInterval
      then params.DifficultyAdjustmentInterval
      else params.DifficultyAdjustmentInterval - 1) = g at hgo ⊢
    have hdrop : List.drop g.toNat (tip :: rest) ≠ [] := by
      intro hnil
      rw [List.drop_eq_nil_iff] at hnil
      have : ((tip :: rest).length : Int) ≤ (g.toNat : Int) := by exact_mod_cast hnil
      omega
    cases hd : List.drop g.toNat (tip :: rest) with
    | nil => exact absurd hd hdrop
    | cons f r => exact CalculateNextWorkRequired_isSome _ _ _ h0 h1

theorem hiveAccStep_pow (b : CBlockIndex) (st : HiveAcc) (h : b.IsHiveMined = false) :
    (hiveAccStep b st).hiveBlockCount = st.hiveBlockCount := by
  unfold hiveAccStep
  simp [h]

theorem hive11Walk_noHive (params : Params) (chain : Chain) (st : HiveAcc)
    (h : ∀ b ∈ chain, b.IsHiveMined = false) :
    (hive11Walk params chain st).hiveBlockCount = st.hiveBlockCount := by
  induction chain generalizing st with
  | nil => unfold hive11Walk; rfl
  | cons b rest ih =>
    cases rest with
    | nil => unfold hive11Walk; rfl
    | cons d r =>
      unfold hive11Walk
      split
      · rw [ih _ (fun x hx => h x (List.mem_cons_of_mem _ hx))]
        exact hiveAccStep_pow b st (h b (by simp))
      · rfl

theorem hive12Walk_noHive (params : Params) (chain : Chain) (st : HiveAcc)
    (h : ∀ b ∈ chain, b.IsHiveMined = false) :
    (hive12Walk params chain st).hiveBlockCount = st.hiveBlockCount := by
  induction chain generalizing st with
  | nil => unfold hive12Walk; rfl
  | cons b rest ih =>
    cases rest with
    | nil => unfold hive12Walk; rfl
    | cons d r =>
      unfold hive12Walk
      split
      · rw [ih _ (fun x hx => h x (List.mem_cons_of_mem _ hx))]
        exact hiveAccStep_pow b st (h b (by simp))
      · rfl

theorem hive10Walk_noHive (params : Params) (chain : Chain) (n : Int)
    (h : ∀ b ∈ chain, b.IsHiveMined = false) : hive10Walk params chain n = none := by
  induction chain generalizing n with
  | nil => unfold hive10Walk; rfl
  | cons b rest ih =>
    cases rest with
    | nil => unfold hive10Walk; rfl
    | cons d r =>
      unfold hive10Walk
      split
      · rfl
      · rw [if_neg (by simp [h b (by simp)])]
        exact ih _ (fun x hx => h x (List.mem_cons_of_mem _ hx))

theorem GetNextHiveWorkRequired_noHive (tip : CBlockIndex) (rest : Chain) (params : Params)
    (hw0 : 0 < params.hiveDifficultyWindow)
    (h : ∀ b ∈ tip :: rest, b.IsHiveMined = false) :
    GetNextHiveWorkRequired (tip :: rest) params = some (limitCompact params.powLimitHive) := by
  unfold GetNextHiveWorkRequired
  dsimp only
  split
  · unfold GetNextHive12WorkRequired
    dsimp only
    rw [hive12Walk_noHive params _ _ h]
    rw [if_pos hw0]
  · split
    · unfold GetNextHive11WorkRequired
      dsimp only
      rw [hive11Walk_noHive params _ _ h]
      rw [if_pos rfl]
    · rw [hive10Walk_noHive params _ _ h]

theorem GetNextWorkRequiredLWMA_short (tip : CBlockIndex) (rest : Chain) (t : Int)
    (params : Params) (powType : Nat) (h : tip.nHeight < params.lwmaAveragingWindow) :
    GetNextWorkRequiredLWMA (tip :: rest) t params powType =
      some (limitCompact (params.powTypeLimits powType)) := by
  unfold GetNextWorkRequiredLWMA
  dsimp only
  split
  · rfl
  · rfl

theorem skipHive_pow (tip : CBlockIndex) (rest : Chain) (h : tip.IsHiveMined = false) :
    skipHive (tip :: rest) = some (tip :: rest) := by
  unfold skipHive
  simp [h]

theorem DarkGravityWave_short (tip : CBlockIndex) (rest : Chain) (t : Int) (params : Params)
    (hp : tip.IsHiveMined = false) (h : tip.nHeight - params.lastScryptBlock < 24) :
    DarkGravityWave (tip :: rest) t params = some (limitCompact params.powLimitSHA) := by
  unfold DarkGravityWave
  dsimp only
  split
  · rfl
  · rw [skipHive_pow tip rest hp]
    simp only [ite_self]
    rw [if_pos h]

/-! ### C2 -/

/-- C2: the code departs from the claim. `otherTypeChain` is structurally valid, no entry
of it is at the fork boundary (version below `0x20000000`) and the spacings and windows
of `demoParams` are positive, yet `GetNextWorkRequiredLWMA` for PoW type 1 skips every
entry as being of the wrong type, walks past the genesis entry and reaches the failed
`assert (blockPreviousTimestamp->pprev)` of line 69. -/
theorem C2_lwma_walk_runs_out :
    ValidChain otherTypeChain ∧ (∀ b ∈ otherTypeChain, b.nVersion < 0x20000000) ∧
      0 < demoParams.nPowTargetSpacing ∧ 0 < demoParams.lwmaAveragingWindow ∧
      0 < demoParams.hiveBlockSpacingTarget ∧ 0 < demoParams.hiveDifficultyWindow ∧
      GetNextWorkRequiredLWMA otherTypeChain 450 demoParams 1 = none := by
  decide

/-- Where the retargets of C2 do return: on every structurally valid chain, with positive
spacings and window sizes in machine range, `GetNextHiveWorkRequired` (all three variants) and the legacy
branch `GetNextWorkRequiredLTC` return a compact target and no assertion fails;
`GetNextWorkRequiredLWMA` does so when the chain holds an entry of version at least
`0x20000000` or at least `N` blocks of the requested type that are not Hive-mined, and
`DarkGravityWave` (hence `GetNextWorkRequired`) when the chain holds at least 24 entries
that are not Hive-mined. A tip lower than the LWMA window, a tip that is not Hive-mined
and less than 24 blocks past `lastScryptBlock`, and a chain without Hive-mined blocks
yield the floor. -/
theorem C2_retarget_total (tip : CBlockIndex) (rest : Chain) (t : Int) (params : Params)
    (powType : Nat) (hv : ValidChain (tip :: rest))
    (hs0 : 0 < params.nPowTargetSpacing) (hs1 : params.nPowTargetSpacing < 2 ^ 31)
    (hT0 : 0 < params.nPowTargetTimespan) (hT1 : params.nPowTargetTimespan < 2 ^ 63)
    (hI : 0 < params.DifficultyAdjustmentInterval)
    (hN : 0 < params.lwmaAveragingWindow)
    (hk : params.lwmaAveragingWindow * (params.lwmaAveragingWindow + 1) *
      params.nPowTargetSpacing < 2 ^ 63)
    (hh0 : 0 < params.hiveBlockSpacingTarget) (hw0 : 0 < params.hiveDifficultyWindow)
    (hws : params.hiveDifficultyWindow * params.hiveBlockSpacingTarget < 2 ^ 31)
    (ha0 : 0 ≤ params.hiveTargetAdjustAggression)
    (ha1 : params.hiveTargetAdjustAggression + params.hiveBlockSpacingTarget < 2 ^ 31) :
    (∃ c, GetNextHiveWorkRequired (tip :: rest) params = some c) ∧
    (∃ c, GetNextWorkRequiredLTC (tip :: rest) t params = some c) ∧
    (((∃ b ∈ tip :: rest, b.nVersion ≥ 0x20000000) ∨
        params.lwmaAveragingWindow.toNat ≤ wantedCount powType (tip :: rest)) →
      ∃ c, GetNextWorkRequiredLWMA (tip :: rest) t params powType = some c) ∧
    (24 ≤ powCount (tip :: rest) →
      (∃ c, DarkGravityWave (tip :: rest) t params = some c) ∧
      (∃ c, GetNextWorkRequired (tip :: rest) t params = some c)) ∧
    (tip.nHeight < params.lwmaAveragingWindow →
      GetNextWorkRequiredLWMA (tip :: rest) t params powType =
        some (limitCompact (params.powTypeLimits powType))) ∧
    (tip.IsHiveMined = false → tip.nHeight - params.lastScryptBlock < 24 →
      DarkGravityWave (tip :: rest) t params = some (limitCompact params.powLimitSHA)) ∧
    ((∀ b ∈ tip :: rest, b.IsHiveMined = false) →
      GetNextHiveWorkRequired (tip :: rest) params =
        some (limitCompact params.powLimitHive)) := by
  refine ⟨GetNextHiveWorkRequired_isSome tip rest params hh0 hw0 hws ha0 ha1,
    GetNextWorkRequiredLTC_isSome tip rest t params hv hI hT0 hT1,
    GetNextWorkRequiredLWMA_isSome tip rest t params powType hs0 hN hk, ?_,
    GetNextWorkRequiredLWMA_short tip rest t params powType,
    DarkGravityWave_short tip rest t params,
    GetNextHiveWorkRequired_noHive tip rest params hw0⟩
  intro hc
  have hd := DarkGravityWave_isSome tip rest t params hs0 hs1 hc
  refine ⟨hd, ?_⟩
  unfold GetNextWorkRequired
  dsimp only
  split
  · exact hd
  · exact GetNextWorkRequiredLTC_isSome tip rest t params hv hI hT0 hT1

/-- Instance of `C2_retarget_total`: `tightChain` with `demoParams` meets every
hypothesis; the Hive retarget returns the floor there. -/
theorem C2_retarget_total_witness :
    ValidChain tightChain ∧
      GetNextHiveWorkRequired tightChain demoParams =
        some (limitCompact demoParams.powLimitHive) :=
  ⟨by decide,
    (C2_retarget_total (powBlock 1 150 0x1e0ffff0) [powBlock 0 0 0x1e0ffff0] 300 demoParams 0
      (by decide) (by decide) (by decide) (by decide) (by decide) (by decide) (by decide)
      (by decide) (by decide) (by decide) (by decide) (by decide)
      (by decide)).2.2.2.2.2.2 (by decide)⟩

/-! ### Sign of the results -/

theorem SetCompactNegative_limitCompact (limit : Nat) :
    SetCompactNegative (limitCompact limit) = false :=
  SetCompactNegative_GetCompact _

theorem SetCompactNegative_clampCompact (bn limit : Nat) :
    SetCompactNegative (clampCompact bn limit) = false := by
  unfold clampCompact
  split
  · exact SetCompactNegative_GetCompact _
  · exact SetCompactNegative_GetCompact _

theorem lwmaFinish_nonneg (T N k : Int) (limit : Nat) (t0 : Int) (w : List CBlockIndex)
    (c : Nat) (h : lwmaFinish T N k limit t0 w = some c) : SetCompactNegative c = false := by
  unfold lwmaFinish at h
  split at h
  · contradiction
  · dsimp only at h
    split at h
    · cases h; exact SetCompactNegative_limitCompact _
    · cases h; exact SetCompactNegative_GetCompact _

theorem GetNextWorkRequiredLWMA_nonneg (chain : Chain) (t : Int) (params : Params)
    (powType c : Nat) (h : GetNextWorkRequiredLWMA chain t params powType = some c) :
    SetCompactNegative c = false := by
  unfold GetNextWorkRequiredLWMA at h
  try dsimp only at h
  (repeat' split at h) <;> first
    | contradiction
    | (cases h; exact SetCompactNegative_limitCompact _)
    | exact lwmaFinish_nonneg _ _ _ _ _ _ _ h

theorem dgwRetarget_nonneg (params : Params) (avg : Nat) (a b : Int) (c : Nat)
    (h : dgwRetarget params avg a b = some c) : SetCompactNegative c = false := by
  unfold dgwRetarget at h
  try dsimp only at h
  split at h
  · contradiction
  · cases h; exact SetCompactNegative_clampCompact _ _

theorem DarkGravityWave_nonneg (chain : Chain) (t : Int) (params : Params) (c : Nat)
    (h : DarkGravityWave chain t params = some c) : SetCompactNegative c = false := by
  unfold DarkGravityWave at h
  try dsimp only at h
  (repeat' split at h) <;> first
    | contradiction
    | (cases h; exact SetCompactNegative_limitCompact _)
    | exact dgwRetarget_nonneg _ _ _ _ _ h

theorem hiveRescale_nonneg (params : Params) (st : HiveAcc) (c : Nat)
    (h : hiveRescale params st = some c) : SetCompactNegative c = false := by
  unfold hiveRescale at h
  try dsimp only at h
  (repeat' split at h) <;> first
    | contradiction
    | (cases h; exact SetCompactNegative_clampCompact _ _)

theorem GetNextHiveWorkRequired_nonneg (chain : Chain) (params : Params) (c : Nat)
    (h : GetNextHiveWorkRequired chain params = some c) : SetCompactNegative c = false := by
  unfold GetNextHiveWorkRequired at h
  split at h
  · contradiction
  · split at h
    · unfold GetNextHive12WorkRequired at h
      dsimp only at h
      split at h
      · cases h; exact SetCompactNegative_limitCompact _
      · exact hiveRescale_nonneg _ _ _ h
    · split at h
      · unfold GetNextHive11WorkRequired at h
        dsimp only at h
        split at h
        · cases h; exact SetCompactNegative_limitCompact _
        · exact hiveRescale_nonneg _ _ _ h
      · split at h
        · cases h; exact SetCompactNegative_limitCompact _
        · split at h
          · cases h; exact SetCompactNegative_GetCompact _
          · split at h
            · contradiction
            · dsimp only at h
              split at h
              · contradiction
              · cases h; exact SetCompactNegative_clampCompact _ _

theorem GetCompact_zero : GetCompact 0 = 0 := by decide

/-! ### C3 -/

/-- C3, as stated, fails: below the Hive 1.1 activation the carry-forward retarget
returns the compact value `0` when the tip itself is Hive-mined (the `bnImpossible`
return of line 416), and `0` unpacks to zero. -/
theorem C3_carry_forward_returns_zero :
    GetNextHiveWorkRequired hiveTipChain demoParams = some 0 ∧ SetCompact 0 = 0 := by
  decide

/-- C3, amended: no retargeting function (`GetNextWorkRequiredLWMA`, `DarkGravityWave`,
`GetNextHiveWorkRequired` in its three variants, `CalculateNextWorkRequired` with
retargeting enabled) returns a compact target that unpacks as negative. A zero target
is possible: the carry-forward variant returns `0` whenever the tip is Hive-mined, has
a predecessor and is not below `minHiveCheckBlock`. -/
theorem C3_retarget_never_negative (chain : Chain) (t : Int) (params : Params)
    (powType c : Nat) :
    (GetNextWorkRequiredLWMA chain t params powType = some c →
      SetCompactNegative c = false) ∧
    (DarkGravityWave chain t params = some c → SetCompactNegative c = false) ∧
    (GetNextHiveWorkRequired chain params = some c → SetCompactNegative c = false) ∧
    (params.fPowNoRetargeting = false → ∀ tip t0,
      CalculateNextWorkRequired tip t0 params = some c → SetCompactNegative c = false) ∧
    (∀ tip next rest, chain = tip :: next :: rest →
      params.IsMinotaurXEnabled chain = false → params.IsHive11Enabled chain = false →
      tip.IsHiveMined = true → params.minHiveCheckBlock ≤ tip.nHeight →
      GetNextHiveWorkRequired chain params = some 0 ∧ SetCompact 0 = 0) := by
  refine ⟨GetNextWorkRequiredLWMA_nonneg _ _ _ _ _, DarkGravityWave_nonneg _ _ _ _,
    GetNextHiveWorkRequired_nonneg _ _ _, ?_, ?_⟩
  · intro hno tip t0 h
    unfold CalculateNextWorkRequired at h
    rw [hno] at h
    simp only [Bool.false_eq_true, if_false] at h
    split at h
    · contradiction
    · cases h; exact SetCompactNegative_clampCompact _ _
  · intro tip next rest hc hm h11 hh hmin
    subst hc
    refine ⟨?_, by decide⟩
    unfold GetNextHiveWorkRequired
    simp only [hm, h11, Bool.false_eq_true, if_false]
    unfold hive10Walk
    rw [if_neg (by omega), if_pos hh]
    simp [GetCompact_zero]

/-- Witness of C3: on `hiveTipChain` the carry-forward variant returns `0`, which does
not unpack as negative. -/
theorem C3_retarget_never_negative_witness :
    GetNextHiveWorkRequired hiveTipChain demoParams = some 0 ∧
      SetCompactNegative 0 = false :=
  ⟨by decide,
    (C3_retarget_never_negative hiveTipChain 0 demoParams 0 0).2.2.1 (by decide)⟩

/-! ### Inversion of the verifier's gates -/

theorem Gate.bind_eq_pass {α β : Type} (g : Gate α) (f : α → Gate β) (b : β) :
    g.bind f = Gate.pass b ↔ ∃ a, g = Gate.pass a ∧ f a = Gate.pass b := by
  cases g with
  | crash => simp [Gate.bind]
  | reject => simp [Gate.bind]
  | pass a => simp [Gate.bind]

theorem Gate.bind_pass {α β : Type} (a : α) (f : α → Gate β) :
    (Gate.pass a).bind f = f a := rfl

theorem hivePredecessor_pass (env : HiveEnv) (pblock : CBlock) (c : Chain)
    (h : hivePredecessor env pblock = Gate.pass c) :
    ∃ tip prev, c = tip :: prev ∧ env.mapBlockIndex pblock.hashPrevBlock = tip :: prev := by
  unfold hivePredecessor at h
  split at h
  · cases h
  · rename_i b prev heq
    cases h
    exact ⟨b, prev, rfl, heq⟩

theorem hiveRunGate_pass (params : Params) (tip : CBlockIndex) (prev : Chain)
    (h : hiveRunGate params (tip :: prev) = Gate.pass ()) :
    params.IsHiveEnabled (tip :: prev) = true ∧
      (params.IsHive11Enabled (tip :: prev) = true →
        ∃ n, hiveBlocksAtTip (tip :: prev) 0 = some n ∧ n < params.maxConsecutiveHiveBlocks) ∧
      (params.IsHive11Enabled (tip :: prev) = false → tip.IsHiveMined = false) := by
  unfold hiveRunGate at h
  dsimp only at h
  split at h
  · cases h
  · rename_i hen
    refine ⟨by simpa using hen, ?_⟩
    split at h
    · rename_i h11
      split at h
      · cases h
      · rename_i n hn
        split at h
        · cases h
        · rename_i hlt
          exact ⟨fun _ => ⟨n, hn, by omega⟩, fun hf => by rw [hf] at h11; cases h11⟩
    · rename_i h11
      split at h
      · cases h
      · rename_i hh
        exact ⟨fun ht => absurd ht h11, fun _ => by simpa using hh⟩

theorem coinbaseGate_pass (env : HiveEnv) (pblock : CBlock) (script : Bytes) (out1 : CTxOut)
    (h : coinbaseGate env pblock = Gate.pass (script, out1)) :
    (∀ tx ∈ pblock.vtx.drop 1, env.IsBCT tx = false) ∧
      ∃ txCoinbase txs vout0 more,
        pblock.vtx = txCoinbase :: txs ∧ txCoinbase.IsCoinBase = true ∧
        txCoinbase.vout = vout0 :: out1 :: more ∧ more.length ≤ 1 ∧
        vout0.scriptPubKey = script ∧ 144 ≤ script.length ∧
        script[0]? = some env.OP_RETURN ∧ script[1]? = some env.OP_BEE := by
  unfold coinbaseGate at h
  split at h
  · cases h
  · rename_i hbct
    refine ⟨by simpa using hbct, ?_⟩
    split at h
    · cases h
    · rename_i txCoinbase txs hvtx
      split at h
      · cases h
      · rename_i hcb
        split at h
        · cases h
        · rename_i hlen
          split at h
          · rename_i vout0 vout1 more hvout
            split at h
            · cases h
            · rename_i h144
              split at h
              · rename_i b0 b1 hb0 hb1
                split at h
                · cases h
                · rename_i hop
                  simp only [Gate.pass.injEq, Prod.mk.injEq] at h
                  obtain ⟨hs, ho⟩ := h
                  subst hs; subst ho
                  rw [hvout] at hlen
                  simp only [List.length_cons] at hlen
                  have hop1 : b0 = env.OP_RETURN := by
                    by_contra hc; exact hop (Or.inl hc)
                  have hop2 : b1 = env.OP_BEE := by
                    by_contra hc; exact hop (Or.inr hc)
                  exact ⟨txCoinbase, txs, vout0, more, hvtx, by simpa using hcb, hvout,
                    by omega, rfl, by omega, by rw [hb0, hop1], by rw [hb1, hop2]⟩
              · cases h
          · cases h

theorem beeHashGate_pass (env : HiveEnv) (params : Params) (pindexPrev : Chain)
    (payload : AltProofPayload) (h : beeHashGate env params pindexPrev payload = Gate.pass ()) :
    ∃ nBits, GetNextHiveWorkRequired pindexPrev params = some nBits ∧
      UintToArith256
        ((if params.IsMinotaurXEnabled pindexPrev then env.MinotaurHashArbitrary
          else env.hiveHash) (env.GetDeterministicRandString pindexPrev) payload.txidStr
            payload.beeNonce) < SetCompact nBits := by
  unfold beeHashGate at h
  dsimp only at h
  split at h
  · cases h
  · rename_i nBits hn
    refine ⟨nBits, hn, ?_⟩
    cases hm : params.IsMinotaurXEnabled pindexPrev
    · rw [hm] at h
      simp only [Bool.not_false, if_true, Bool.false_eq_true, if_false] at h ⊢
      split at h
      · cases h
      · omega
    · rw [hm] at h
      simp only [Bool.not_true, Bool.false_eq_true, if_false, if_true] at h ⊢
      split at h
      · cases h
      · omega

theorem honeyGate_pass (env : HiveEnv) (pindexPrev : Chain) (payload : AltProofPayload)
    (vout1 : CTxOut) (d : CTxDestination)
    (h : honeyGate env pindexPrev payload vout1 = Gate.pass d) :
    ∃ keyID, d = CTxDestination.CKeyID keyID ∧
      env.ExtractDestination vout1.scriptPubKey = some (CTxDestination.CKeyID keyID) ∧
      env.RecoverCompact (env.messageHash (env.GetDeterministicRandString pindexPrev))
        payload.messageSig = some keyID := by
  unfold honeyGate at h
  split at h
  · cases h
  · rename_i dest hd
    split at h
    · cases h
    · split at h
      · cases h
      · rename_i keyID hk
        dsimp only at h
        split at h
        · cases h
        · rename_i pubkeyID hr
          split at h
          · cases h
          · rename_i hne
            cases h
            have hkey : d = CTxDestination.CKeyID keyID := by
              cases d <;> simp [getKeyID] at hk
              rw [hk]
            have hp : pubkeyID = keyID := by
              by_contra hc; exact hne hc
            subst hkey
            exact ⟨keyID, rfl, hd, by rw [hr, hp]⟩

theorem maturityGate_pass (params : Params) (blockHeight : Int) (found : Nat)
    (h : maturityGate params blockHeight found = Gate.pass ()) :
    params.beeGestationBlocks ≤ bctDepth blockHeight found ∧
      bctDepth blockHeight found ≤ params.beeGestationBlocks + params.beeLifespanBlocks := by
  unfold maturityGate at h
  split at h
  · cases h
  · split at h
    · cases h
    · constructor <;> omega

theorem honeyMatchGate_pass (env : HiveEnv) (script : Bytes) (d : CTxDestination)
    (h : honeyMatchGate env script d = Gate.pass ()) :
    ∃ scriptPubKeyHoney, env.IsBCTScript script = some scriptPubKeyHoney ∧
      env.ExtractDestination scriptPubKeyHoney = some d := by
  unfold honeyMatchGate at h
  split at h
  · cases h
  · rename_i s hs
    split at h
    · cases h
    · rename_i d2 hd2
      split at h
      · cases h
      · rename_i hne
        have : d = d2 := by
          by_contra hc; exact hne hc
        exact ⟨s, hs, by rw [hd2, this]⟩

theorem beeCountGate_pass (minBeeCost beeCost bctValue : Int) (beeNonce : Nat)
    (h : beeCountGate minBeeCost beeCost bctValue beeNonce = Gate.pass ()) :
    minBeeCost ≤ bctValue ∧ beeCost ≤ bctValue ∧ beeCost ≠ 0 ∧
      beeNonce < toUInt32 (Int.tdiv bctValue beeCost) := by
  unfold beeCountGate at h
  split at h
  · cases h
  · split at h
    · cases h
    · split at h
      · cases h
      · split at h
        · cases h
        · refine ⟨by omega, by omega, by assumption, by omega⟩

/-- Everything an accepted block has passed, gate by gate. -/
theorem CheckHiveProof_accept (env : HiveEnv) (pblock : CBlock) (params : Params)
    (h : CheckHiveProof env pblock params = some true) :
    ∃ tip prev script vout1 payload honeyDestination bond,
      hivePredecessor env pblock = Gate.pass (tip :: prev) ∧
      hiveRunGate params (tip :: prev) = Gate.pass () ∧
      coinbaseGate env pblock = Gate.pass (script, vout1) ∧
      parsePayload env script = Gate.pass payload ∧
      beeHashGate env params (tip :: prev) payload = Gate.pass () ∧
      honeyGate env (tip :: prev) payload vout1 = Gate.pass honeyDestination ∧
      resolveBond env params (tip :: prev) payload = Gate.pass bond ∧
      bond.bctFoundHeight = payload.bctClaimedHeight ∧
      maturityGate params (tip.nHeight + 1) bond.bctFoundHeight = Gate.pass () ∧
      honeyMatchGate env bond.bctScriptPubKey honeyDestination = Gate.pass () ∧
      beeCountGate params.minBeeCost (params.GetBeeCost (toInt32 bond.bctFoundHeight))
        bond.bctValue payload.beeNonce = Gate.pass () := by
  unfold CheckHiveProof at h
  split at h
  · cases h
  · cases h
  · rename_i u hg
    cases u
    unfold hiveProofGates at hg
    obtain ⟨c, h1, hg⟩ := (Gate.bind_eq_pass _ _ _).mp hg
    obtain ⟨tip, prev, hc, -⟩ := hivePredecessor_pass env pblock c h1
    subst hc
    obtain ⟨u2, h2, hg⟩ := (Gate.bind_eq_pass _ _ _).mp hg
    cases u2
    obtain ⟨cb, h3, hg⟩ := (Gate.bind_eq_pass _ _ _).mp hg
    obtain ⟨payload, h4, hg⟩ := (Gate.bind_eq_pass _ _ _).mp hg
    obtain ⟨u5, h5, hg⟩ := (Gate.bind_eq_pass _ _ _).mp hg
    cases u5
    obtain ⟨hd, h6, hg⟩ := (Gate.bind_eq_pass _ _ _).mp hg
    obtain ⟨bond, h7, hg⟩ := (Gate.bind_eq_pass _ _ _).mp hg
    dsimp only at hg
    unfold bondGates at hg
    split at hg
    · cases hg
    · rename_i hfound
      obtain ⟨u8, h8, hg⟩ := (Gate.bind_eq_pass _ _ _).mp hg
      cases u8
      obtain ⟨u9, h9, hg⟩ := (Gate.bind_eq_pass _ _ _).mp hg
      cases u9
      refine ⟨tip, prev, cb.1, cb.2, payload, hd, bond, h1, h2, h3, h4, h5, h6, h7, ?_, h8, h9, hg⟩
      by_contra hc
      exact hfound hc

/-! ### C4 -/

/-- C4: `CheckHiveProof` returns `true` only if every gate holds: the predecessor is in
the block index and Hive is enabled at it; no transaction after the first is a bonding
transaction; transaction 0 is a coinbase with 2 or 3 outputs whose output-0 script has at
least 144 bytes and starts `OP_RETURN OP_BEE`; the bee hash of (seed string, bond txid,
nonce) is strictly below the unpacked `GetNextHiveWorkRequired` of the predecessor;
output 1 yields a key-hash destination whose key id is the one recovered from the
signature over the hash of the seed string; the bond is resolved, its script is a
bonding script committing to that same destination; and the height, maturity, value and
nonce checks pass. -/
theorem C4_accept_only_if_all_gates (env : HiveEnv) (pblock : CBlock) (params : Params)
    (h : CheckHiveProof env pblock params = some true) :
    ∃ tip prev txCoinbase txs vout0 vout1 more payload keyID bond nBits honeyScript,
      env.mapBlockIndex pblock.hashPrevBlock = tip :: prev ∧
      params.IsHiveEnabled (tip :: prev) = true ∧
      (∀ tx ∈ pblock.vtx.drop 1, env.IsBCT tx = false) ∧
      pblock.vtx = txCoinbase :: txs ∧ txCoinbase.IsCoinBase = true ∧
      txCoinbase.vout = vout0 :: vout1 :: more ∧ more.length ≤ 1 ∧
      144 ≤ vout0.scriptPubKey.length ∧
      vout0.scriptPubKey[0]? = some env.OP_RETURN ∧
      vout0.scriptPubKey[1]? = some env.OP_BEE ∧
      parsePayload env vout0.scriptPubKey = Gate.pass payload ∧
      GetNextHiveWorkRequired (tip :: prev) params = some nBits ∧
      UintToArith256
        ((if params.IsMinotaurXEnabled (tip :: prev) then env.MinotaurHashArbitrary
          else env.hiveHash) (env.GetDeterministicRandString (tip :: prev)) payload.txidStr
            payload.beeNonce) < SetCompact nBits ∧
      env.ExtractDestination vout1.scriptPubKey = some (CTxDestination.CKeyID keyID) ∧
      env.RecoverCompact (env.messageHash (env.GetDeterministicRandString (tip :: prev)))
        payload.messageSig = some keyID ∧
      resolveBond env params (tip :: prev) payload = Gate.pass bond ∧
      env.IsBCTScript bond.bctScriptPubKey = some honeyScript ∧
      env.ExtractDestination honeyScript = some (CTxDestination.CKeyID keyID) ∧
      bond.bctFoundHeight = payload.bctClaimedHeight ∧
      params.beeGestationBlocks ≤ bctDepth (tip.nHeight + 1) bond.bctFoundHeight ∧
      bctDepth (tip.nHeight + 1) bond.bctFoundHeight ≤
        params.beeGestationBlocks + params.beeLifespanBlocks ∧
      params.minBeeCost ≤ bond.bctValue ∧
      params.GetBeeCost (toInt32 bond.bctFoundHeight) ≤ bond.bctValue ∧
      payload.beeNonce <
        toUInt32 (Int.tdiv bond.bctValue (params.GetBeeCost (toInt32 bond.bctFoundHeight))) := by
  obtain ⟨tip, prev, script, vout1, payload, hd, bond, h1, h2, h3, h4, h5, h6, h7, h8, h9, h10,
    h11⟩ := CheckHiveProof_accept env pblock params h
  obtain ⟨tip2, prev2, hc, hmap⟩ := hivePredecessor_pass env pblock _ h1
  cases hc
  obtain ⟨hen, -, -⟩ := hiveRunGate_pass params tip prev h2
  obtain ⟨hbct, txCoinbase, txs, vout0, more, hvtx, hcb, hvout, hmore, hscr, h144, hop0, hop1⟩ :=
    coinbaseGate_pass env pblock script vout1 h3
  obtain ⟨nBits, hn, hlt⟩ := beeHashGate_pass env params _ payload h5
  obtain ⟨keyID, hk, hext, hrec⟩ := honeyGate_pass env _ payload vout1 hd h6
  subst hk
  obtain ⟨hm1, hm2⟩ := maturityGate_pass params _ _ h9
  obtain ⟨honeyScript, hs1, hs2⟩ := honeyMatchGate_pass env _ _ h10
  obtain ⟨hb1, hb2, -, hb4⟩ := beeCountGate_pass _ _ _ _ h11
  subst hscr
  exact ⟨tip, prev, txCoinbase, txs, vout0, vout1, more, payload, keyID, bond, nBits,
    honeyScript, hmap, hen, hbct, hvtx, hcb, hvout, hmore, h144, hop0, hop1, h4, hn, hlt, hext,
    hrec, h7, hs1, hs2, h8, hm1, hm2, hb1, hb2, hb4⟩

/-- Witness of C4: `demoBlock 1 1 0` is accepted (bond of value 250 found at height 1,
bee cost 100, nonce 1), so the gates of C4 hold for it; among them the bond height
matches the claimed one. -/
theorem C4_accept_only_if_all_gates_witness :
    CheckHiveProof (demoEnv 250 1 none) (demoBlock 1 1 0) verifierParams = some true ∧
      ∃ payload bond,
        resolveBond (demoEnv 250 1 none) verifierParams
          ((demoEnv 250 1 none).mapBlockIndex 7) payload = Gate.pass bond ∧
        bond.bctFoundHeight = payload.bctClaimedHeight := by
  refine ⟨by decide, ?_⟩
  obtain ⟨tip, prev, _, _, _, _, _, payload, _, bond, _, _, hmap, _, _, _, _, _, _, _, _, _, _,
    _, _, _, _, hres, _, _, hfound, _⟩ :=
    C4_accept_only_if_all_gates (demoEnv 250 1 none) (demoBlock 1 1 0) verifierParams
      (by decide)
  refine ⟨payload, bond, ?_, hfound⟩
  have : (demoBlock 1 1 0).hashPrevBlock = 7 := rfl
  rw [this] at hmap
  rw [hmap]; exact hres

/-! ### C5 -/

theorem toUInt32_le (q : Int) (hq : 0 ≤ q) : (toUInt32 q : Int) ≤ q := by
  unfold toUInt32
  have h1 : (0 : Int) ≤ q % 2 ^ 32 := Int.emod_nonneg _ (by norm_num)
  rw [Int.toNat_of_nonneg h1]
  omega

theorem beeCountGate_reject (minBeeCost beeCost bctValue : Int) (beeNonce : Nat)
    (hcost : 0 < beeCost)
    (h : bctValue < minBeeCost ∨ bctValue < beeCost ∨ bctValue / beeCost ≤ (beeNonce : Int)) :
    beeCountGate minBeeCost beeCost bctValue beeNonce = Gate.reject := by
  unfold beeCountGate
  split
  · rfl
  · split
    · rfl
    · rw [if_neg (by omega)]
      rename_i h1 h2
      have hq : bctValue / beeCost ≤ (beeNonce : Int) := by
        rcases h with h | h | h
        · exact absurd h h1
        · exact absurd h h2
        · exact h
      have hv : 0 ≤ bctValue := by omega
      rw [Int.tdiv_eq_ediv hv (le_of_lt hcost)]
      have hq0 : 0 ≤ bctValue / beeCost := Int.ediv_nonneg hv (le_of_lt hcost)
      have := toUInt32_le _ hq0
      rw [if_pos (by omega)]

/-- C5: with unit count `bctValue / beeCost` (integer division, `beeCost > 0`), the
bee-count gate rejects a bond value below `minBeeCost` or below one bee's cost and
rejects every nonce that is at least the unit count; an accepted block has passed that
gate, whatever its hash, so it has a resolved bond of sufficient value and a nonce below
the unit count at the bond height. In the scenario cost 100, value 250 the unit count is
2, nonce 2 is rejected and nonce 1 passes the gate. -/
theorem C5_nonce_below_bee_count (env : HiveEnv) (pblock : CBlock) (params : Params)
    (hcost : ∀ height, 0 < params.GetBeeCost height) :
    (∀ (minBeeCost beeCost bctValue : Int) (beeNonce : Nat), 0 < beeCost →
      (bctValue < minBeeCost ∨ bctValue < beeCost ∨ bctValue / beeCost ≤ (beeNonce : Int)) →
      beeCountGate minBeeCost beeCost bctValue beeNonce = Gate.reject) ∧
    (CheckHiveProof env pblock params = some true →
      ∃ tip prev script vout1 payload bond,
        env.mapBlockIndex pblock.hashPrevBlock = tip :: prev ∧
        coinbaseGate env pblock = Gate.pass (script, vout1) ∧
        parsePayload env script = Gate.pass payload ∧
        resolveBond env params (tip :: prev) payload = Gate.pass bond ∧
        params.minBeeCost ≤ bond.bctValue ∧
        params.GetBeeCost (toInt32 bond.bctFoundHeight) ≤ bond.bctValue ∧
        (payload.beeNonce : Int) <
          bond.bctValue / params.GetBeeCost (toInt32 bond.bctFoundHeight)) ∧
    ((250 : Int) / 100 = 2 ∧ ∀ minBeeCost : Int, minBeeCost ≤ 250 →
      beeCountGate minBeeCost 100 250 2 = Gate.reject ∧
      beeCountGate minBeeCost 100 250 1 = Gate.pass ()) := by
  refine ⟨fun a b c d => beeCountGate_reject a b c d, ?_, by decide, ?_⟩
  · intro h
    obtain ⟨tip, prev, script, vout1, payload, hd, bond, h1, h2, h3, h4, h5, h6, h7, h8, h9,
      h10, h11⟩ := CheckHiveProof_accept env pblock params h
    obtain ⟨tip2, prev2, hc, hmap⟩ := hivePredecessor_pass env pblock _ h1
    cases hc
    obtain ⟨hb1, hb2, -, hb4⟩ := beeCountGate_pass _ _ _ _ h11
    refine ⟨tip, prev, script, vout1, payload, bond, hmap, h3, h4, h7, hb1, hb2, ?_⟩
    have hc := hcost (toInt32 bond.bctFoundHeight)
    have hv : 0 ≤ bond.bctValue := by omega
    rw [Int.tdiv_eq_ediv hv (le_of_lt hc)] at hb4
    have := toUInt32_le _ (Int.ediv_nonneg hv (le_of_lt hc))
    omega
  · intro m hm
    constructor
    · exact beeCountGate_reject m 100 250 2 (by norm_num) (Or.inr (Or.inr (by decide)))
    · unfold beeCountGate
      rw [if_neg (by omega)]
      decide

/-- Witness of C5: with bee cost 100 and a bond of value 250 the block with nonce 2 is
rejected and the block with nonce 1 is accepted, its nonce below the unit count. -/
theorem C5_nonce_below_bee_count_witness :
    CheckHiveProof (demoEnv 250 1 none) (demoBlock 2 1 0) verifierParams = some false ∧
      CheckHiveProof (demoEnv 250 1 none) (demoBlock 1 1 0) verifierParams = some true ∧
      ∃ (payload : AltProofPayload) (bond : BondRecord), (payload.beeNonce : Int) <
        bond.bctValue / verifierParams.GetBeeCost (toInt32 bond.bctFoundHeight) := by
  refine ⟨by decide, by decide, ?_⟩
  obtain ⟨_, _, _, _, payload, bond, _, _, _, _, _, _, hlt⟩ :=
    (C5_nonce_below_bee_count (demoEnv 250 1 none) (demoBlock 1 1 0) verifierParams
      (fun _ => by show (0 : Int) < 100; decide)).2.1 (by decide)
  exact ⟨payload, bond, hlt⟩

/-! ### C8 -/

/-- C8: when the predecessor, the coinbase payload and the bond are resolved and the
height at which the bond was found (UTXO entry or fallback scan) differs from the height
claimed in the payload, `CheckHiveProof` never returns `true`: whatever it returns is
`false`. -/
theorem C8_height_mismatch_rejects (env : HiveEnv) (pblock : CBlock) (params : Params)
    (tip : CBlockIndex) (prev : Chain) (script : Bytes) (vout1 : CTxOut)
    (payload : AltProofPayload) (bond : BondRecord)
    (hprev : env.mapBlockIndex pblock.hashPrevBlock = tip :: prev)
    (hcb : coinbaseGate env pblock = Gate.pass (script, vout1))
    (hpay : parsePayload env script = Gate.pass payload)
    (hbond : resolveBond env params (tip :: prev) payload = Gate.pass bond)
    (hne : bond.bctFoundHeight ≠ payload.bctClaimedHeight) :
    ∀ b, CheckHiveProof env pblock params = some b → b = false := by
  intro b hb
  cases b with
  | false => rfl
  | true =>
    exfalso
    obtain ⟨tip2, prev2, script2, vout2, payload2, hd, bond2, h1, h2, h3, h4, h5, h6, h7, h8,
      -, -, -⟩ := CheckHiveProof_accept env pblock params hb
    obtain ⟨tip3, prev3, hc, hmap⟩ := hivePredecessor_pass env pblock _ h1
    cases hc
    rw [hprev] at hmap
    cases hmap
    rw [hcb] at h3
    cases h3
    rw [hpay] at h4
    cases h4
    rw [hbond] at h7
    cases h7
    exact hne h8

/-- Witness of C8: the bond sits at height 1 while the payload claims height 2; the
block is rejected. -/
theorem C8_height_mismatch_rejects_witness :
    CheckHiveProof (demoEnv 250 1 none) (demoBlock 1 2 0) verifierParams = some false ∧
      ∀ b, CheckHiveProof (demoEnv 250 1 none) (demoBlock 1 2 0) verifierParams = some b →
        b = false :=
  ⟨by decide,
    C8_height_mismatch_rejects (demoEnv 250 1 none) (demoBlock 1 2 0) verifierParams
      (powBlock 3 450 0x1e0ffff0)
      [powBlock 2 300 0x1e0ffff0, powBlock 1 150 0x1e0ffff0, powBlock 0 0 0x1e0ffff0]
      (proofScript 1 2 0) { nValue := 50, scriptPubKey := [0x76] }
      (demoPayload 1 2 false)
      { bctValue := 250, bctScriptPubKey := [0xb0], bctFoundHeight := 1 }
      (by decide) (by decide) (by decide) (by decide) (by decide)⟩

/-! ### C6 -/

theorem donationGate_spec (factor : Int) (mx : Bool) (bctValue donationAmount : Int)
    (hf : factor ≠ 0) :
    donationGate factor mx bctValue donationAmount =
      if donationAmount = expectedDonation factor mx bctValue donationAmount
      then Gate.pass (bctValue + donationAmount) else Gate.reject := by
  unfold donationGate expectedDonation
  rw [if_neg hf]
  cases mx
  · simp only [Bool.false_eq_true, if_false]
    by_cases h : donationAmount = Int.tdiv (bctValue + donationAmount) factor
    · rw [if_neg (not_not.mpr h), if_pos h]
    · rw [if_pos h, if_neg h]
  · simp only [if_true]
    by_cases h : donationAmount = Int.tdiv (bctValue + donationAmount) factor +
        Int.tdiv (bctValue + donationAmount) factor / 2
    · rw [if_neg (not_not.mpr h), if_pos h]
    · rw [if_pos h, if_neg h]

theorem resolveBond_contrib (env : HiveEnv) (params : Params) (pindexPrev : Chain)
    (payload : AltProofPayload) (bond : BondRecord)
    (hflag : payload.communityContrib = true)
    (h : resolveBond env params pindexPrev payload = Gate.pass bond) :
    ∃ found donationAmount,
      lookupBct env params pindexPrev payload = Gate.pass found ∧
      lookupDonation env pindexPrev payload found.bct = Gate.pass donationAmount ∧
      donationGate params.communityContribFactor found.bctWasMinotaurXEnabled found.bctValue
        donationAmount = Gate.pass bond.bctValue ∧
      bond.bctValue = found.bctValue + donationAmount := by
  unfold resolveBond at h
  obtain ⟨found, h1, h⟩ := (Gate.bind_eq_pass _ _ _).mp h
  rw [if_pos hflag] at h
  obtain ⟨d, h2, h⟩ := (Gate.bind_eq_pass _ _ _).mp h
  obtain ⟨v, h3, h⟩ := (Gate.bind_eq_pass _ _ _).mp h
  cases h
  refine ⟨found, d, h1, h2, h3, ?_⟩
  by_cases hf : params.communityContribFactor = 0
  · unfold donationGate at h3
    rw [if_pos hf] at h3
    cases h3
  · rw [donationGate_spec _ _ _ _ hf] at h3
    split at h3
    · cases h3; rfl
    · cases h3

/-- C6, as stated, fails in its scenario: with a bond output of value 1000 and factor 10
the expected donation for a donation of 100 is `(1000 + 100) / 10 = 110`, so the donation
of 100 is rejected before the upgrade, and 150 is rejected after it (expected 172); the
block paying 100 is rejected, the block paying 111 is accepted. -/
theorem C6_donation_100_rejected :
    donationGate 10 false 1000 100 = Gate.reject ∧
      donationGate 10 true 1000 150 = Gate.reject ∧
      CheckHiveProof (demoEnv 1000 1 (some 100)) (demoBlock 1 1 0x51) verifierParams
        = some false ∧
      CheckHiveProof (demoEnv 1000 1 (some 111)) (demoBlock 1 1 0x51) verifierParams
        = some true := by
  decide

/-- C6, amended: when the community-contribution flag is set, a resolved bond has passed
the donation test: the donation equals `(bctValue + donation) / communityContribFactor`,
increased by half of itself (rounded down) when MinotaurX was enabled at the bond, any
other amount rejects, and the donation is added to the value paid. In the scenario where
the total paid `bctValue + donation` is 1000 and the factor is 10, the donation must be
100 before the upgrade and 150 after it; 99 and 101 are rejected. -/
theorem C6_donation_amount (env : HiveEnv) (pblock : CBlock) (params : Params)
    (hfactor : params.communityContribFactor ≠ 0) :
    (∀ (mx : Bool) (bctValue donationAmount : Int),
      donationGate params.communityContribFactor mx bctValue donationAmount =
        if donationAmount = expectedDonation params.communityContribFactor mx bctValue
            donationAmount
        then Gate.pass (bctValue + donationAmount) else Gate.reject) ∧
    (CheckHiveProof env pblock params = some true →
      ∃ tip prev script vout1 payload bond,
        env.mapBlockIndex pblock.hashPrevBlock = tip :: prev ∧
        coinbaseGate env pblock = Gate.pass (script, vout1) ∧
        parsePayload env script = Gate.pass payload ∧
        resolveBond env params (tip :: prev) payload = Gate.pass bond ∧
        (payload.communityContrib = true →
          ∃ found donationAmount,
            lookupBct env params (tip :: prev) payload = Gate.pass found ∧
            lookupDonation env (tip :: prev) payload found.bct = Gate.pass donationAmount ∧
            donationAmount = expectedDonation params.communityContribFactor
              found.bctWasMinotaurXEnabled found.bctValue donationAmount ∧
            bond.bctValue = found.bctValue + donationAmount)) ∧
    (∀ bctValue donationAmount : Int, bctValue + donationAmount = 1000 →
      (donationGate 10 false bctValue donationAmount = Gate.pass 1000 ↔ donationAmount = 100) ∧
      (donationGate 10 true bctValue donationAmount = Gate.pass 1000 ↔ donationAmount = 150) ∧
      (donationAmount = 99 ∨ donationAmount = 101 →
        donationGate 10 false bctValue donationAmount = Gate.reject ∧
        donationGate 10 true bctValue donationAmount = Gate.reject)) := by
  refine ⟨fun mx v d => donationGate_spec _ mx v d hfactor, ?_, ?_⟩
  · intro hacc
    obtain ⟨tip, prev, script, vout1, payload, hd, bond, g1, g2, g3, g4, g5, g6, g7, -, -, -,
      -⟩ := CheckHiveProof_accept env pblock params hacc
    obtain ⟨tip2, prev2, hc, hmap⟩ := hivePredecessor_pass env pblock _ g1
    cases hc
    refine ⟨tip, prev, script, vout1, payload, bond, hmap, g3, g4, g7, ?_⟩
    intro hflag
    obtain ⟨found, d, h1, h2, h3, h4⟩ := resolveBond_contrib env params (tip :: prev) payload
      bond hflag g7
    refine ⟨found, d, h1, h2, ?_, h4⟩
    rw [donationGate_spec _ _ _ _ hfactor] at h3
    split at h3
    · assumption
    · cases h3
  · intro v d hsum
    have e1 : expectedDonation 10 false v d = 100 := by
      unfold expectedDonation; rw [hsum]; decide
    have e2 : expectedDonation 10 true v d = 150 := by
      unfold expectedDonation; rw [hsum]; decide
    rw [donationGate_spec 10 false v d (by decide), donationGate_spec 10 true v d (by decide),
      e1, e2, hsum]
    refine ⟨?_, ?_, ?_⟩
    · constructor
      · intro h; split at h
        · assumption
        · cases h
      · intro h; rw [if_pos h]
    · constructor
      · intro h; split at h
        · assumption
        · cases h
      · intro h; rw [if_pos h]
    · intro h
      constructor
      · rw [if_neg (by omega)]
      · rw [if_neg (by omega)]

/-- Witness of C6: with factor 10, a bond output of 900 and the flag set, the donation
of 100 is accepted and folded into the value paid, 1000. -/
theorem C6_donation_amount_witness :
    CheckHiveProof (demoEnv 900 1 (some 100)) (demoBlock 1 1 0x51) verifierParams = some true ∧
      ∃ (payload : AltProofPayload) (bond : BondRecord) (found : BctLookup)
        (donationAmount : Int),
        resolveBond (demoEnv 900 1 (some 100)) verifierParams verifierChain payload =
          Gate.pass bond ∧
        payload.communityContrib = true ∧ found.bctValue = 900 ∧ donationAmount = 100 ∧
        bond.bctValue = found.bctValue + donationAmount := by
  refine ⟨by decide, ?_⟩
  obtain ⟨tip, prev, script, vout1, payload, bond, hmap, hcb, hpay, hres, hdon⟩ :=
    (C6_donation_amount (demoEnv 900 1 (some 100)) (demoBlock 1 1 0x51) verifierParams
      (by decide)).2.1 (by decide)
  have hmap2 : tip :: prev = verifierChain := by
    rw [← hmap]; rfl
  have hcb2 : script = proofScript 1 1 0x51 := by
    have : coinbaseGate (demoEnv 900 1 (some 100)) (demoBlock 1 1 0x51) =
        Gate.pass (proofScript 1 1 0x51, { nValue := 50, scriptPubKey := [0x76] }) := by decide
    rw [this] at hcb
    cases hcb; rfl
  subst hcb2
  have hpay2 : payload = demoPayload 1 1 true := by
    have : parsePayload (demoEnv 900 1 (some 100)) (proofScript 1 1 0x51) =
        Gate.pass (demoPayload 1 1 true) := by decide
    rw [this] at hpay
    cases hpay; rfl
  subst hpay2
  rw [hmap2] at hres hdon
  obtain ⟨found, d, h1, h2, h3, h4⟩ := hdon rfl
  have hf : lookupBct (demoEnv 900 1 (some 100)) verifierParams verifierChain
      (demoPayload 1 1 true) =
      Gate.pass ⟨900, [0xb0], 1, false, none⟩ := by decide
  rw [hf] at h1
  cases h1
  have hd : lookupDonation (demoEnv 900 1 (some 100)) verifierChain
      (demoPayload 1 1 true) none = Gate.pass 100 := by decide
  rw [hd] at h2
  cases h2
  exact ⟨_, bond, _, 100, hres, rfl, rfl, rfl, h4⟩

/-! ### C7 -/

theorem bctDepth_eq (blockHeight : Int) (found : Nat)
    (h0 : -2 ^ 31 ≤ blockHeight - (found : Int)) (h1 : blockHeight - (found : Int) < 2 ^ 31) :
    bctDepth blockHeight found = blockHeight - (found : Int) := by
  unfold bctDepth toInt32
  split <;> omega

theorem maturityGate_iff (params : Params) (blockHeight : Int) (found : Nat) :
    maturityGate params blockHeight found = Gate.pass () ↔
      params.beeGestationBlocks ≤ bctDepth blockHeight found ∧
        bctDepth blockHeight found ≤ params.beeGestationBlocks + params.beeLifespanBlocks := by
  constructor
  · exact maturityGate_pass params blockHeight found
  · rintro ⟨h1, h2⟩
    unfold maturityGate
    rw [if_neg (by omega), if_neg (by omega)]

theorem maturityGate_reject (params : Params) (blockHeight : Int) (found : Nat)
    (h : ¬ (params.beeGestationBlocks ≤ bctDepth blockHeight found ∧
        bctDepth blockHeight found ≤ params.beeGestationBlocks + params.beeLifespanBlocks)) :
    maturityGate params blockHeight found = Gate.reject := by
  unfold maturityGate
  split
  · rfl
  · split
    · rfl
    · exfalso; apply h; constructor <;> omega

theorem lookupBct_drill_height (env : HiveEnv) (params : Params) (pindexPrev : Chain)
    (payload : AltProofPayload) (found : BctLookup) (tx : CTransaction)
    (foundAt : CBlockIndex) (foundAtPrev : Chain)
    (hcoin : env.GetCoin payload.txidStr 0 = none)
    (htx : env.GetTxByHashAndHeight payload.txidStr payload.bctClaimedHeight pindexPrev =
      some (tx, foundAt, foundAtPrev))
    (h0 : 0 ≤ foundAt.nHeight) (h1 : foundAt.nHeight < 2 ^ 31)
    (hl : lookupBct env params pindexPrev payload = Gate.pass found) :
    (found.bctFoundHeight : Int) = foundAt.nHeight := by
  unfold lookupBct at hl
  rw [hcoin, htx] at hl
  dsimp only at hl
  cases hv : tx.vout with
  | nil => rw [hv] at hl; cases hl
  | cons a r =>
    rw [hv] at hl
    cases hl
    dsimp only
    unfold toUInt32
    omega

/-- C7: for a candidate block height (a non-negative `int`) and a bond height as the
code can hold it in its `uint32_t` (the 31-bit height of a `Coin`, or the non-negative
`int` height of an index entry: below `2 ^ 31`), with
`depth = blockHeight - bctFoundHeight` the maturity gate passes exactly when
`gestation ≤ depth ≤ gestation + lifespan` and rejects otherwise: it rejects at
`gestation - 1` and at `gestation + lifespan + 1`, passes at `gestation` and at
`gestation + lifespan` (lifespan not negative), and rejects a bond height above the
block height (gestation not negative); the bond height that `lookupBct` takes from the
UTXO set is below `2 ^ 31`, the one it takes from the block database is the height of
the index entry found, and every block that `CheckHiveProof` accepts has passed this
gate at its own height and bond height. -/
theorem C7_maturity_window (params : Params) (blockHeight : Int) (bctFoundHeight : Nat)
    (hb0 : 0 ≤ blockHeight) (hb1 : blockHeight < 2 ^ 31)
    (hf : (bctFoundHeight : Int) < 2 ^ 31) :
    (maturityGate params blockHeight bctFoundHeight = Gate.pass () ↔
      params.beeGestationBlocks ≤ blockHeight - (bctFoundHeight : Int) ∧
        blockHeight - (bctFoundHeight : Int) ≤
          params.beeGestationBlocks + params.beeLifespanBlocks) ∧
    (¬ (params.beeGestationBlocks ≤ blockHeight - (bctFoundHeight : Int) ∧
        blockHeight - (bctFoundHeight : Int) ≤
          params.beeGestationBlocks + params.beeLifespanBlocks) →
      maturityGate params blockHeight bctFoundHeight = Gate.reject) ∧
    (blockHeight - (bctFoundHeight : Int) = params.beeGestationBlocks - 1 →
      maturityGate params blockHeight bctFoundHeight = Gate.reject) ∧
    (blockHeight - (bctFoundHeight : Int) =
        params.beeGestationBlocks + params.beeLifespanBlocks + 1 →
      maturityGate params blockHeight bctFoundHeight = Gate.reject) ∧
    (0 ≤ params.beeLifespanBlocks →
      (blockHeight - (bctFoundHeight : Int) = params.beeGestationBlocks →
        maturityGate params blockHeight bctFoundHeight = Gate.pass ()) ∧
      (blockHeight - (bctFoundHeight : Int) =
          params.beeGestationBlocks + params.beeLifespanBlocks →
        maturityGate params blockHeight bctFoundHeight = Gate.pass ())) ∧
    (0 ≤ params.beeGestationBlocks → blockHeight < (bctFoundHeight : Int) →
      maturityGate params blockHeight bctFoundHeight = Gate.reject) ∧
    (∀ (env : HiveEnv) (pindexPrev : Chain) (payload : AltProofPayload) (coin : Coin)
      (found : BctLookup), env.GetCoin payload.txidStr 0 = some coin →
      lookupBct env params pindexPrev payload = Gate.pass found →
      (found.bctFoundHeight : Int) < 2 ^ 31) ∧
    (∀ (env : HiveEnv) (pindexPrev : Chain) (payload : AltProofPayload) (found : BctLookup)
      (tx : CTransaction) (foundAt : CBlockIndex) (foundAtPrev : Chain),
      env.GetCoin payload.txidStr 0 = none →
      env.GetTxByHashAndHeight payload.txidStr payload.bctClaimedHeight pindexPrev =
        some (tx, foundAt, foundAtPrev) →
      0 ≤ foundAt.nHeight → foundAt.nHeight < 2 ^ 31 →
      lookupBct env params pindexPrev payload = Gate.pass found →
      (found.bctFoundHeight : Int) = foundAt.nHeight) ∧
    (∀ (env : HiveEnv) (pblock : CBlock), CheckHiveProof env pblock params = some true →
      ∃ tip prev script vout1 payload bond,
        env.mapBlockIndex pblock.hashPrevBlock = tip :: prev ∧
        coinbaseGate env pblock = Gate.pass (script, vout1) ∧
        parsePayload env script = Gate.pass payload ∧
        resolveBond env params (tip :: prev) payload = Gate.pass bond ∧
        maturityGate params (tip.nHeight + 1) bond.bctFoundHeight = Gate.pass ()) := by
  have hd := bctDepth_eq blockHeight bctFoundHeight (by omega) (by omega)
  have hiff := maturityGate_iff params blockHeight bctFoundHeight
  have hrej := maturityGate_reject params blockHeight bctFoundHeight
  rw [hd] at hiff hrej
  refine ⟨hiff, hrej, ?_, ?_, ?_, ?_, ?_, ?_, ?_⟩
  · intro h; apply hrej; omega
  · intro h; apply hrej; omega
  · intro hl
    constructor
    · intro h; apply hiff.mpr; omega
    · intro h; apply hiff.mpr; omega
  · intro hg h; apply hrej; omega
  · intro env pindexPrev payload coin found hcoin hl
    unfold lookupBct at hl
    rw [hcoin] at hl
    cases hl
    dsimp only
    omega
  · intro env pindexPrev payload found tx foundAt foundAtPrev hcoin htx h0 h1 hl
    exact lookupBct_drill_height env params pindexPrev payload found tx foundAt foundAtPrev
      hcoin htx h0 h1 hl
  · intro env pblock hacc
    obtain ⟨tip, prev, script, vout1, payload, hdest, bond, g1, g2, g3, g4, g5, g6, g7, -, g9,
      -, -⟩ := CheckHiveProof_accept env pblock params hacc
    obtain ⟨tip2, prev2, hc, hmap⟩ := hivePredecessor_pass env pblock _ g1
    cases hc
    exact ⟨tip, prev, script, vout1, payload, bond, hmap, g3, g4, g7, g9⟩

/-- Witness of C7: block height 4 and bond height 1 give depth 3, inside the window
2..7, and the gate passes; the block is accepted. -/
theorem C7_maturity_window_witness :
    CheckHiveProof (demoEnv 250 1 none) (demoBlock 1 1 0) verifierParams = some true ∧
      maturityGate verifierParams 4 1 = Gate.pass () :=
  ⟨by decide,
    (C7_maturity_window verifierParams 4 1 (by decide) (by decide) (by decide)).1.mpr
      (by decide)⟩

/-! ### Steady state of the LWMA retarget -/

theorem divU64_eq (a : Nat) (b : Int) (h0 : 0 < b) (h1 : b < 2 ^ 64) :
    divU64 a b = some (a / b.toNat) := by
  unfold divU64
  have hb : b % 2 ^ 64 = b := Int.emod_eq_of_lt (le_of_lt h0) h1
  rw [hb]
  have : b.toNat ≠ 0 := by omega
  simp [this]

theorem lwmaStep_eq (T N k : Int) (hN0 : 0 < N) (hN1 : N < 2 ^ 64) (hk0 : 0 < k)
    (hk1 : k < 2 ^ 64) (st : LwmaAcc) (b : CBlockIndex) :
    lwmaStep T N k st b = some
      { previousTimestamp :=
          if b.GetBlockTime > st.previousTimestamp then b.GetBlockTime
          else st.previousTimestamp + 1,
        j := st.j + 1,
        sumWeightedSolvetimes := st.sumWeightedSolvetimes +
          min (6 * T) ((if b.GetBlockTime > st.previousTimestamp then b.GetBlockTime
            else st.previousTimestamp + 1) - st.previousTimestamp) * (st.j + 1),
        avgTarget := addU256 st.avgTarget (lwmaTerm N k b) } := by
  unfold lwmaStep lwmaTerm
  simp only [divU64_eq _ N hN0 hN1, divU64_eq _ k hk0 hk1]

theorem lwmaAvgTarget_cons (N k : Int) (b : CBlockIndex) (l : List CBlockIndex) :
    lwmaAvgTarget N k (b :: l) = lwmaTerm N k b + lwmaAvgTarget N k l := by
  simp [lwmaAvgTarget]

theorem lwmaLoop_steady (T N k S : Int) (hN0 : 0 < N) (hN1 : N < 2 ^ 64) (hk0 : 0 < k)
    (hk1 : k < 2 ^ 64) (hS1 : 1 ≤ S) (hS6 : S ≤ 6 * T) (l : List CBlockIndex) (st : LwmaAcc)
    (havg : st.avgTarget < U256)
    (hsteady : SteadyTimes S (st.previousTimestamp + S) l) :
    ∃ st2, lwmaLoop T N k l st = some st2 ∧ st2.j = st.j + l.length ∧
      2 * st2.sumWeightedSolvetimes =
        2 * st.sumWeightedSolvetimes + S * (l.length * (2 * st.j + l.length + 1)) ∧
      st2.avgTarget = (st.avgTarget + lwmaAvgTarget N k l) % U256 := by
  induction l generalizing st with
  | nil =>
    refine ⟨st, rfl, by simp, by simp, ?_⟩
    simp [lwmaAvgTarget, Nat.mod_eq_of_lt havg]
  | cons b rest ih =>
    obtain ⟨hb, hrest⟩ := hsteady
    unfold lwmaLoop
    rw [lwmaStep_eq T N k hN0 hN1 hk0 hk1]
    dsimp only
    have hgt : b.GetBlockTime > st.previousTimestamp := by omega
    rw [if_pos hgt]
    have hmin : min (6 * T) (b.GetBlockTime - st.previousTimestamp) = S := by
      rw [hb]; simp; omega
    rw [hmin]
    obtain ⟨st2, h1, h2, h3, h4⟩ := ih
      { previousTimestamp := b.GetBlockTime, j := st.j + 1,
        sumWeightedSolvetimes := st.sumWeightedSolvetimes + S * (st.j + 1),
        avgTarget := addU256 st.avgTarget (lwmaTerm N k b) }
      (by unfold addU256; exact Nat.mod_lt _ (by unfold U256; positivity))
      (by rw [hb]; exact hrest)
    refine ⟨st2, h1, ?_, ?_, ?_⟩
    · rw [h2]; simp only [List.length_cons]; push_cast; ring
    · rw [h3]; simp only [List.length_cons]; push_cast; ring
    · rw [h4, lwmaAvgTarget_cons]
      dsimp only [addU256]
      rw [Nat.mod_add_mod, Nat.add_assoc]

theorem lwmaWalk_window (powType : Nat) (v : List CBlockIndex) (rest : Chain)
    (acc : List CBlockIndex) (hv : v ≠ [])
    (hwanted : ∀ b ∈ v, b.nVersion < 0x20000000 ∧ b.IsHiveMined = false ∧
      b.GetPoWType = powType) :
    lwmaWalk powType v.length (v ++ rest) acc = LwmaWalk.window (v.reverse ++ acc) := by
  induction v generalizing acc with
  | nil => exact absurd rfl hv
  | cons b v2 ih =>
    obtain ⟨h1, h2, h3⟩ := hwanted b (by simp)
    simp only [List.cons_append]
    unfold lwmaWalk
    rw [if_neg (by omega), if_neg (by simp [h2, h3])]
    cases v2 with
    | nil => simp
    | cons d v3 =>
      rw [if_neg (by simp)]
      simp only [List.cons_append, List.length_cons, Nat.add_sub_cancel]
      have := ih (b :: acc) (by simp) (fun x hx => hwanted x (List.mem_cons_of_mem _ hx))
      simp only [List.cons_append, List.length_cons] at this
      rw [this]
      simp

theorem SetCompact_lt (c : Nat) : SetCompact c < U256 := by
  unfold SetCompact
  dsimp only
  split
  · have h1 : c % 2 ^ 23 < 2 ^ 23 := Nat.mod_lt _ (by norm_num)
    have h2 := Nat.div_le_self (c % 2 ^ 23) (2 ^ (8 * (3 - c / 2 ^ 24 % 256)))
    unfold U256
    omega
  · exact Nat.mod_lt _ (by unfold U256; positivity)

theorem lwmaAvgTarget_mul_le (N k : Int) (w : List CBlockIndex) :
    lwmaAvgTarget N k w * (N.toNat * k.toNat) ≤ (w.map fun b => SetCompact b.nBits).sum := by
  induction w with
  | nil => simp [lwmaAvgTarget]
  | cons b rest ih =>
    rw [lwmaAvgTarget_cons]
    simp only [List.map_cons, List.sum_cons]
    have h1 : lwmaTerm N k b * (N.toNat * k.toNat) ≤ SetCompact b.nBits := by
      unfold lwmaTerm
      calc SetCompact b.nBits / N.toNat / k.toNat * (N.toNat * k.toNat)
          = SetCompact b.nBits / N.toNat / k.toNat * k.toNat * N.toNat := by ring
        _ ≤ SetCompact b.nBits / N.toNat * N.toNat :=
            Nat.mul_le_mul_right _ (Nat.div_mul_le_self _ _)
        _ ≤ SetCompact b.nBits := Nat.div_mul_le_self _ _
    rw [Nat.add_mul]
    omega

theorem sum_SetCompact_le (w : List CBlockIndex) :
    (w.map fun b => SetCompact b.nBits).sum ≤ w.length * (U256 - 1) := by
  induction w with
  | nil => simp
  | cons b rest ih =>
    simp only [List.map_cons, List.sum_cons, List.length_cons]
    have := SetCompact_lt b.nBits
    rw [Nat.add_mul]
    omega

theorem lwmaLoop_window (T N k S t0 : Int) (hN0 : 0 < N) (hN1 : N < 2 ^ 64) (hk0 : 0 < k)
    (hk1 : k < 2 ^ 64) (hS2 : 2 ≤ S) (hT : T = S * 2) (o b2 : CBlockIndex)
    (w : List CBlockIndex) (hsteady : SteadyTimes S t0 (o :: b2 :: w)) :
    ∃ st, lwmaLoop T N k (o :: b2 :: w)
        { previousTimestamp := o.GetBlockTime, j := 0, sumWeightedSolvetimes := 0,
          avgTarget := 0 } = some st ∧
      2 * st.sumWeightedSolvetimes =
        S * ((((o :: b2 :: w).length : Nat) : Int) * (((o :: b2 :: w).length : Nat) + 1) - 2) - 2 ∧
      st.avgTarget = lwmaAvgTarget N k (o :: b2 :: w) % U256 := by
  obtain ⟨ho, hb2, hw⟩ := hsteady
  unfold lwmaLoop
  rw [lwmaStep_eq T N k hN0 hN1 hk0 hk1]
  dsimp only
  unfold lwmaLoop
  rw [lwmaStep_eq T N k hN0 hN1 hk0 hk1]
  dsimp only
  have e1 : (if o.GetBlockTime > o.GetBlockTime then o.GetBlockTime
      else o.GetBlockTime + 1) = o.GetBlockTime + 1 := if_neg (by omega)
  simp only [e1]
  have hgt : b2.GetBlockTime > o.GetBlockTime + 1 := by omega
  rw [if_pos hgt]
  have hmin1 : min (6 * T) (o.GetBlockTime + 1 - o.GetBlockTime) = 1 := by
    rw [hT]; simp; omega
  have hmin2 : min (6 * T) (b2.GetBlockTime - (o.GetBlockTime + 1)) = S - 1 := by
    rw [hT, hb2, ho]; simp; omega
  rw [hmin1, hmin2]
  obtain ⟨st, h1, h2, h3, h4⟩ := lwmaLoop_steady T N k S hN0 hN1 hk0 hk1 (by omega)
    (by rw [hT]; omega) w
    { previousTimestamp := b2.GetBlockTime, j := 0 + 1 + 1,
      sumWeightedSolvetimes := 0 + 1 * (0 + 1) + (S - 1) * (0 + 1 + 1),
      avgTarget := addU256 (addU256 0 (lwmaTerm N k o)) (lwmaTerm N k b2) }
    (by unfold addU256; exact Nat.mod_lt _ (by unfold U256; positivity))
    (by dsimp only; rw [hb2]; exact hw)
  refine ⟨st, h1, ?_, ?_⟩
  · rw [h3]
    simp only [List.length_cons]
    push_cast
    ring
  · rw [h4]
    simp only [addU256, Nat.zero_add, Nat.mod_add_mod, Nat.add_assoc, lwmaAvgTarget_cons]

/-! ### C9 -/

/-- C9, as stated, fails: on `steadyChain` (window 3, constant target `0x1c0fffff`, every
solve-time equal to `nPowTargetSpacing = 150`, no stall escape) the function returns
`0x1c06a863`, well below the window average `0x1c0fffff`. -/
theorem C9_steady_state_not_stable :
    GetNextWorkRequiredLWMA steadyChain 600 demoParams 0 = some 0x1c06a863 ∧
      SetCompact 0x1c06a863 < SetCompact 0x1c0fffff := by
  decide

/-- C9, amended: for a chain whose `N ≥ 2` most recent entries `w` (oldest first) are
all of the requested PoW type, not Hive-mined and of version below `0x20000000`, with
tip height at least `N`, no stall escape, and consecutive window time stamps exactly
`S = nPowTargetSpacing ≥ 2` apart, `GetNextWorkRequiredLWMA` returns the compact encoding
of `min(floor, A * W)`, where `A` is the sum over the window of
`floor(floor(target / N) / k)` with `k = N (N + 1) S` and the weighted solve-time sum is
`W = S (N (N + 1) / 2 - 1) - 1`. As `2 W < k`, the value `A * W` is at most half of the
window's average target: the next target is not the previous average. -/
theorem C9_lwma_steady_state (params : Params) (powType : Nat) (w : List CBlockIndex)
    (rest : Chain) (tip : CBlockIndex) (more : Chain) (pblockTime t0 : Int)
    (hchain : w.reverse ++ rest = tip :: more)
    (hlen : ((w.length : Nat) : Int) = params.lwmaAveragingWindow)
    (hN2 : 2 ≤ params.lwmaAveragingWindow)
    (hS2 : 2 ≤ params.nPowTargetSpacing)
    (hk : params.lwmaAveragingWindow * (params.lwmaAveragingWindow + 1) *
      params.nPowTargetSpacing < 2 ^ 32)
    (hheight : params.lwmaAveragingWindow ≤ tip.nHeight)
    (hstall : params.fPowAllowMinDifficultyBlocks = false ∨
      pblockTime ≤ tip.GetBlockTime + params.nPowTargetSpacing * 2 * 10)
    (hwanted : ∀ b ∈ w, b.nVersion < 0x20000000 ∧ b.IsHiveMined = false ∧
      b.GetPoWType = powType)
    (hsteady : SteadyTimes params.nPowTargetSpacing t0 w) :
    ∃ W : Int,
      2 * W = params.nPowTargetSpacing *
        (params.lwmaAveragingWindow * (params.lwmaAveragingWindow + 1) - 2) - 2 ∧
      GetNextWorkRequiredLWMA (w.reverse ++ rest) pblockTime params powType =
        some (clampCompact
          (lwmaAvgTarget params.lwmaAveragingWindow
            (params.lwmaAveragingWindow * (params.lwmaAveragingWindow + 1) *
              params.nPowTargetSpacing) w * W.toNat)
          (params.powTypeLimits powType)) ∧
      2 * w.length *
        (lwmaAvgTarget params.lwmaAveragingWindow
          (params.lwmaAveragingWindow * (params.lwmaAveragingWindow + 1) *
            params.nPowTargetSpacing) w * W.toNat) ≤
        (w.map fun b => SetCompact b.nBits).sum := by
  generalize hNdef : params.lwmaAveragingWindow = N at *
  generalize hSdef : params.nPowTargetSpacing = S at *
  have hkeq : Int.tdiv (N * (N + 1) * (S * 2)) 2 = N * (N + 1) * S := by
    rw [← mul_assoc]; exact Int.mul_tdiv_cancel _ (by norm_num)
  have hN1 : 0 < N + 1 := by omega
  have hk0 : 0 < N * (N + 1) * S := mul_pos (mul_pos (by omega) hN1) (by omega)
  -- the window has at least two blocks
  obtain ⟨o, b2, w2, hw⟩ : ∃ o b2 w2, w = o :: b2 :: w2 := by
    match w, hlen with
    | [], h => simp at h; omega
    | [_], h => simp at h; omega
    | o :: b2 :: w2, _ => exact ⟨o, b2, w2, rfl⟩
  have hNk : N ≤ N * (N + 1) * S := by
    have h1 : N * 1 ≤ N * (N + 1) := mul_le_mul_of_nonneg_left (by omega) (by omega)
    have h2 : N * (N + 1) * 1 ≤ N * (N + 1) * S :=
      mul_le_mul_of_nonneg_left (by omega) (le_of_lt (mul_pos (by omega) hN1))
    omega
  obtain ⟨st, hloop, hsum, havg⟩ := lwmaLoop_window (S * 2) N (N * (N + 1) * S) S t0
    (by omega) (by omega) hk0 (by omega) hS2 rfl o b2 w2 (hw ▸ hsteady)
  rw [← hw, hlen] at hsum
  rw [← hw] at hloop havg
  -- bounds on the weighted sum
  have hW0 : 0 ≤ st.sumWeightedSolvetimes := by
    have : 2 ≤ N * (N + 1) - 2 := by nlinarith
    nlinarith
  have hW2 : 2 * st.sumWeightedSolvetimes < N * (N + 1) * S := by
    rw [hsum]; nlinarith
  -- bounds on the average
  have hmul := lwmaAvgTarget_mul_le N (N * (N + 1) * S) w
  have hsumle := sum_SetCompact_le w
  have hNnat : N.toNat = w.length := by omega
  have hwpos : 0 < w.length := by omega
  have hknat : 2 * st.sumWeightedSolvetimes.toNat ≤ (N * (N + 1) * S).toNat := by omega
  have hk1nat : 1 ≤ (N * (N + 1) * S).toNat := by omega
  rw [hNnat] at hmul
  have hA : 2 * w.length * (lwmaAvgTarget N (N * (N + 1) * S) w *
      st.sumWeightedSolvetimes.toNat) ≤ (w.map fun b => SetCompact b.nBits).sum := by
    calc 2 * w.length * (lwmaAvgTarget N (N * (N + 1) * S) w *
          st.sumWeightedSolvetimes.toNat)
        = lwmaAvgTarget N (N * (N + 1) * S) w *
            (w.length * (2 * st.sumWeightedSolvetimes.toNat)) := by ring
      _ ≤ lwmaAvgTarget N (N * (N + 1) * S) w * (w.length * (N * (N + 1) * S).toNat) :=
          Nat.mul_le_mul_left _ (Nat.mul_le_mul_left _ hknat)
      _ ≤ _ := hmul
  have hAlt : lwmaAvgTarget N (N * (N + 1) * S) w < U256 := by
    have h1 : lwmaAvgTarget N (N * (N + 1) * S) w * (w.length * 1) ≤
        lwmaAvgTarget N (N * (N + 1) * S) w * (w.length * (N * (N + 1) * S).toNat) :=
      Nat.mul_le_mul_left _ (Nat.mul_le_mul_left _ hk1nat)
    have h2 : lwmaAvgTarget N (N * (N + 1) * S) w * w.length ≤ w.length * (U256 - 1) := by
      rw [Nat.mul_one] at h1; omega
    have h3 : lwmaAvgTarget N (N * (N + 1) * S) w ≤ U256 - 1 := by
      rw [Nat.mul_comm] at h2
      exact Nat.le_of_mul_le_mul_left h2 hwpos
    have : 0 < U256 := by unfold U256; positivity
    omega
  have hAWlt : lwmaAvgTarget N (N * (N + 1) * S) w * st.sumWeightedSolvetimes.toNat < U256 := by
    have h1 : w.length * (2 * (lwmaAvgTarget N (N * (N + 1) * S) w *
        st.sumWeightedSolvetimes.toNat)) ≤ w.length * (U256 - 1) := by
      calc w.length * (2 * (lwmaAvgTarget N (N * (N + 1) * S) w *
            st.sumWeightedSolvetimes.toNat))
          = 2 * w.length * (lwmaAvgTarget N (N * (N + 1) * S) w *
            st.sumWeightedSolvetimes.toNat) := by ring
        _ ≤ _ := le_trans hA hsumle
    have h2 := Nat.le_of_mul_le_mul_left h1 hwpos
    have : 0 < U256 := by unfold U256; positivity
    omega
  refine ⟨st.sumWeightedSolvetimes, hsum, ?_, hA⟩
  -- run the function
  have hwalk := lwmaWalk_window powType w.reverse rest [] (by rw [hw]; simp)
    (fun b hb => hwanted b (List.mem_reverse.mp hb))
  rw [List.length_reverse, List.reverse_reverse, List.append_nil, hchain] at hwalk
  rw [hchain]
  unfold GetNextWorkRequiredLWMA
  dsimp only
  rw [hNdef, hSdef]
  have hst : (params.fPowAllowMinDifficultyBlocks &&
      decide (pblockTime > tip.GetBlockTime + S * 2 * 10)) = false := by
    rcases hstall with h | h
    · rw [h]; rfl
    · have : decide (pblockTime > tip.GetBlockTime + S * 2 * 10) = false := by
        simp; omega
      rw [this]; simp
  rw [hst]
  simp only [Bool.false_eq_true, if_false]
  rw [if_neg (by omega), if_neg (by omega), hNnat, hwalk, hw]
  dsimp only
  rw [← hw, hkeq]
  unfold lwmaFinish
  have ho : o.GetBlockTime = t0 := by
    rw [hw] at hsteady; exact hsteady.1
  rw [hloop]
  dsimp only
  have hmul32 : mulU32 st.avgTarget st.sumWeightedSolvetimes =
      lwmaAvgTarget N (N * (N + 1) * S) w * st.sumWeightedSolvetimes.toNat := by
    unfold mulU32
    rw [havg, Nat.mod_eq_of_lt hAlt]
    have : st.sumWeightedSolvetimes % 2 ^ 32 = st.sumWeightedSolvetimes :=
      Int.emod_eq_of_lt hW0 (by omega)
    rw [this]
    exact Nat.mod_eq_of_lt hAWlt
  rw [hmul32]
  unfold clampCompact limitCompact
  exact (apply_ite some _ _ _).symm

/-- Witness of C9: `steadyChain` with window 3 and spacing 150 gives `2 W = 1498` and the
result is the compact encoding of `A * 749`, clamped to the floor. -/
theorem C9_lwma_steady_state_witness :
    SteadyTimes demoParams.nPowTargetSpacing 150 steadyWindow ∧
      ∃ W : Int,
        2 * W = demoParams.nPowTargetSpacing *
          (demoParams.lwmaAveragingWindow * (demoParams.lwmaAveragingWindow + 1) - 2) - 2 ∧
        GetNextWorkRequiredLWMA (steadyWindow.reverse ++ [powBlock 0 0 0x1c0fffff]) 600
            demoParams 0 =
          some (clampCompact
            (lwmaAvgTarget demoParams.lwmaAveragingWindow
              (demoParams.lwmaAveragingWindow * (demoParams.lwmaAveragingWindow + 1) *
                demoParams.nPowTargetSpacing) steadyWindow * W.toNat)
            (demoParams.powTypeLimits 0)) ∧
        2 * steadyWindow.length *
          (lwmaAvgTarget demoParams.lwmaAveragingWindow
            (demoParams.lwmaAveragingWindow * (demoParams.lwmaAveragingWindow + 1) *
              demoParams.nPowTargetSpacing) steadyWindow * W.toNat) ≤
          (steadyWindow.map fun b => SetCompact b.nBits).sum :=
  ⟨⟨rfl, rfl, rfl, trivial⟩,
    C9_lwma_steady_state demoParams 0 steadyWindow [powBlock 0 0 0x1c0fffff]
      (powBlock 3 450 0x1c0fffff)
      [powBlock 2 300 0x1c0fffff, powBlock 1 150 0x1c0fffff, powBlock 0 0 0x1c0fffff]
      600 150 rfl (by decide) (by decide) (by decide) (by decide) (by decide)
      (Or.inl rfl) (by decide) ⟨rfl, rfl, rfl, trivial⟩⟩

/-! ### C10 -/

theorem SetCompact_clampCompact_le_self (bn limit : Nat) :
    SetCompact (clampCompact bn limit) ≤ bn := by
  unfold clampCompact
  split
  · rename_i h
    refine le_trans (SetCompact_GetCompact_le _) (le_trans (Nat.mod_le _ _) (le_of_lt h))
  · exact le_trans (SetCompact_GetCompact_le _) (Nat.mod_le _ _)

theorem dgw_clamp_eq (T actual : Int) (hT : 0 < T) :
    (if (if actual < Int.tdiv T 3 then Int.tdiv T 3 else actual) > T * 3 then T * 3
      else if actual < Int.tdiv T 3 then Int.tdiv T 3 else actual) = clampTimespan T actual := by
  unfold clampTimespan
  rw [Int.tdiv_eq_ediv (le_of_lt hT) (by norm_num)]
  have h3 : T / 3 ≤ T * 3 := by omega
  split <;> split <;> omega

theorem clampTimespan_bounds (T actual : Int) (hT : 0 < T) :
    T / 3 ≤ clampTimespan T actual ∧ clampTimespan T actual ≤ T * 3 := by
  unfold clampTimespan
  have h3 : T / 3 ≤ T * 3 := by omega
  constructor
  · exact le_max_left _ _
  · exact max_le h3 (min_le_right _ _)

theorem DarkGravityWave_retarget (tip : CBlockIndex) (rest : Chain) (t : Int) (params : Params)
    (last : CBlockIndex) (prev : Chain) (A : Nat) (first : CBlockIndex) (r : Chain)
    (hstall : (params.fPowAllowMinDifficultyBlocks &&
      decide (t > tip.GetBlockTime + params.nPowTargetSpacing * 10)) = false)
    (hskip : (if params.IsHive11Enabled (tip :: rest) = true then skipHive (tip :: rest)
      else some (tip :: rest)) = some (last :: prev))
    (hheight : ¬ last.nHeight - params.lastScryptBlock < 24)
    (hloop : dgwLoop 24 24 1 (last :: prev) 0 = some (A, first :: r)) :
    DarkGravityWave (tip :: rest) t params =
      dgwRetarget params A last.GetBlockTime first.GetBlockTime := by
  unfold DarkGravityWave
  dsimp only
  rw [hstall]
  simp only [Bool.false_eq_true, if_false]
  rw [hskip]
  dsimp only
  rw [if_neg hheight, hloop]

theorem dgwRetarget_eq (params : Params) (A : Nat) (lastTime firstTime : Int)
    (hS0 : 0 < params.nPowTargetSpacing) (hS1 : params.nPowTargetSpacing < 2 ^ 24) :
    dgwRetarget params A lastTime firstTime =
      some (clampCompact
        ((A * (clampTimespan (24 * params.nPowTargetSpacing) (lastTime - firstTime)).toNat)
          % U256 / (24 * params.nPowTargetSpacing).toNat) params.powLimitSHA) := by
  unfold dgwRetarget
  dsimp only
  rw [dgw_clamp_eq _ _ (by omega)]
  obtain ⟨hb0, hb1⟩ := clampTimespan_bounds (24 * params.nPowTargetSpacing)
    (lastTime - firstTime) (by omega)
  rw [divU64_eq _ _ (by omega) (by omega)]
  dsimp only
  unfold mulU32
  rw [Int.emod_eq_of_lt (by omega) (by omega)]

/-- C10, as stated, fails when the product of the running average and the clamped time
span exceeds 256 bits: on `dgwChain 0x20010000 3990` the running average is `2 ^ 248`
and the clamped span is 3840 against `T = 3600`; the product wraps to zero and the
function returns `0` instead of the floor `min(floor, A * 3840 / 3600)`, below
`floor(A / 3)`. -/
theorem C10_product_overflow :
    ValidChain (dgwChain 0x20010000 3990) ∧
      (dgwLoop 24 24 1 (dgwChain 0x20010000 3990) 0).map Prod.fst = some (2 ^ 248) ∧
      clampTimespan (24 * dgwParams.nPowTargetSpacing) (3990 - 150) = 3840 ∧
      DarkGravityWave (dgwChain 0x20010000 3990) 4140 dgwParams = some 0 ∧
      clampCompact (2 ^ 248 * 3840 / 3600) dgwParams.powLimitSHA = 0x1d03ffff ∧
      SetCompact 0 < 2 ^ 248 / 3 := by
  decide

/-- C10, amended: whenever `DarkGravityWave` reaches its retarget step with running
average `A` over the 24 window targets (spacing positive, below `2 ^ 24`), the returned
target is at most `3 A`, whatever the time stamps are; and when `A * 3 T` fits 256 bits
(`T = 24 * nPowTargetSpacing`), the function returns the compact encoding of
`min(floor, A * clamp(actual, T / 3, 3 T) / T)` with
`actual = time(tip) - time(oldest window block)`, a value that before the floor clamp
lies between `floor(A / 3)` and `3 A`. -/
theorem C10_gravity_clamped_factor (tip : CBlockIndex) (rest : Chain) (t : Int)
    (params : Params) (last : CBlockIndex) (prev : Chain) (A : Nat) (first : CBlockIndex)
    (r : Chain)
    (hS0 : 0 < params.nPowTargetSpacing) (hS1 : params.nPowTargetSpacing < 2 ^ 24)
    (hstall : (params.fPowAllowMinDifficultyBlocks &&
      decide (t > tip.GetBlockTime + params.nPowTargetSpacing * 10)) = false)
    (hskip : (if params.IsHive11Enabled (tip :: rest) = true then skipHive (tip :: rest)
      else some (tip :: rest)) = some (last :: prev))
    (hheight : ¬ last.nHeight - params.lastScryptBlock < 24)
    (hloop : dgwLoop 24 24 1 (last :: prev) 0 = some (A, first :: r)) :
    (∃ c, DarkGravityWave (tip :: rest) t params = some c ∧ SetCompact c ≤ 3 * A) ∧
    (A * (3 * (24 * params.nPowTargetSpacing).toNat) < U256 →
      DarkGravityWave (tip :: rest) t params =
        some (clampCompact
          (A * (clampTimespan (24 * params.nPowTargetSpacing)
              (last.GetBlockTime - first.GetBlockTime)).toNat /
            (24 * params.nPowTargetSpacing).toNat) params.powLimitSHA) ∧
      A / 3 ≤ A * (clampTimespan (24 * params.nPowTargetSpacing)
          (last.GetBlockTime - first.GetBlockTime)).toNat /
        (24 * params.nPowTargetSpacing).toNat ∧
      A * (clampTimespan (24 * params.nPowTargetSpacing)
          (last.GetBlockTime - first.GetBlockTime)).toNat /
        (24 * params.nPowTargetSpacing).toNat ≤ 3 * A) := by
  have hrun := DarkGravityWave_retarget tip rest t params last prev A first r hstall hskip
    hheight hloop
  rw [hrun, dgwRetarget_eq params A _ _ hS0 hS1]
  obtain ⟨hb0, hb1⟩ := clampTimespan_bounds (24 * params.nPowTargetSpacing)
    (last.GetBlockTime - first.GetBlockTime) (by omega)
  generalize clampTimespan (24 * params.nPowTargetSpacing)
    (last.GetBlockTime - first.GetBlockTime) = a at *
  generalize hT : (24 * params.nPowTargetSpacing).toNat = T at *
  have hTpos : 0 < T := by omega
  have ha1 : a.toNat ≤ 3 * T := by omega
  have ha0 : T ≤ 3 * a.toNat := by omega
  have hup : A * a.toNat / T ≤ 3 * A := by
    apply Nat.div_le_of_le_mul
    calc A * a.toNat ≤ A * (3 * T) := Nat.mul_le_mul_left _ ha1
      _ = T * (3 * A) := by ring
  have hlow : A / 3 ≤ A * a.toNat / T := by
    rw [Nat.le_div_iff_mul_le hTpos]
    calc A / 3 * T ≤ A / 3 * (3 * a.toNat) := Nat.mul_le_mul_left _ ha0
      _ = A / 3 * 3 * a.toNat := by ring
      _ ≤ A * a.toNat := Nat.mul_le_mul_right _ (Nat.div_mul_le_self _ _)
  constructor
  · refine ⟨_, rfl, ?_⟩
    refine le_trans (SetCompact_clampCompact_le_self _ _) ?_
    exact le_trans (Nat.div_le_div_right (Nat.mod_le _ _)) hup
  · intro hfit
    have hlt : A * a.toNat < U256 :=
      lt_of_le_of_lt (Nat.mul_le_mul_left _ ha1) hfit
    rw [Nat.mod_eq_of_lt hlt]
    exact ⟨rfl, hlow, hup⟩

/-- Witness of C10: on `dgwChain 0x1c0fffff 3600` (running average the constant target,
actual span 3450 against `T = 3600`) the function returns the compact encoding of
`A * 3450 / 3600`. -/
theorem C10_gravity_clamped_factor_witness :
    dgwLoop 24 24 1 (dgwChain 0x1c0fffff 3600) 0 =
        some (SetCompact 0x1c0fffff, [powBlock 1 150 0x1c0fffff, powBlock 0 0 0x1c0fffff]) ∧
      DarkGravityWave (dgwChain 0x1c0fffff 3600) 3750 dgwParams =
        some (clampCompact (SetCompact 0x1c0fffff * 3450 / 3600) dgwParams.powLimitSHA) :=
  ⟨by decide,
    ((C10_gravity_clamped_factor (powBlock 24 3600 0x1c0fffff)
      ((List.range 24).reverse.map fun (i : Nat) => powBlock (Int.ofNat i) (150 * i) 0x1c0fffff)
      3750 dgwParams (powBlock 24 3600 0x1c0fffff)
      ((List.range 24).reverse.map fun (i : Nat) => powBlock (Int.ofNat i) (150 * i) 0x1c0fffff)
      (SetCompact 0x1c0fffff) (powBlock 1 150 0x1c0fffff) [powBlock 0 0 0x1c0fffff]
      (by decide) (by decide) (by decide) (by decide) (by decide) (by decide)).2
      (by decide)).1⟩

/-! ### C12 -/

theorem highestPowLimit_ge (limits : Nat → Nat) (n i : Nat) (hi : i < n) :
    UintToArith256 (limits i) ≤ highestPowLimit limits n := by
  induction n with
  | zero => omega
  | succ n ih =>
    unfold highestPowLimit
    dsimp only
    by_cases hin : i = n
    · subst hin
      split <;> omega
    · have := ih (by omega)
      split <;> omega

theorem highestPowLimit_attained (limits : Nat → Nat) (n : Nat) (hn : 0 < n) :
    ∃ i, i < n ∧ highestPowLimit limits n = UintToArith256 (limits i) := by
  induction n with
  | zero => omega
  | succ n ih =>
    unfold highestPowLimit
    dsimp only
    split
    · exact ⟨n, by omega, rfl⟩
    · rename_i hgt
      cases n with
      | zero =>
        refine ⟨0, by omega, ?_⟩
        simp only [highestPowLimit] at hgt ⊢
        omega
      | succ m =>
        obtain ⟨i, hi, he⟩ := ih (by omega)
        exact ⟨i, by omega, he⟩

/-- C12: `CheckProofOfWork(hash, nBits, params)` returns `true` if and only if `nBits`
unpacks with neither the negative nor the overflow flag to a non-zero target that does
not exceed the largest of the per-type floors `powTypeLimits[i]`, `i < NUM_BLOCK_TYPES`
(that is, it is at most one of them), and the hash as a 256-bit integer is at most that
target. -/
theorem C12_check_proof_of_work_iff (hash nBits : Nat) (params : Params) :
    CheckProofOfWork hash nBits params = true ↔
      SetCompactNegative nBits = false ∧ SetCompactOverflow nBits = false ∧
      SetCompact nBits ≠ 0 ∧
      (∃ i, i < params.NUM_BLOCK_TYPES ∧
        SetCompact nBits ≤ UintToArith256 (params.powTypeLimits i)) ∧
      UintToArith256 hash ≤ SetCompact nBits := by
  unfold CheckProofOfWork
  dsimp only
  constructor
  · intro h
    split at h
    · cases h
    · rename_i hc
      split at h
      · cases h
      · rename_i hh
        simp only [Bool.or_eq_true, decide_eq_true_eq, beq_iff_eq, not_or] at hc
        obtain ⟨⟨⟨h1, h2⟩, h3⟩, h4⟩ := hc
        refine ⟨by simpa using h1, by simpa using h3, h2, ?_, by omega⟩
        have hpos : 0 < params.NUM_BLOCK_TYPES := by
          by_contra hz
          have hz0 : params.NUM_BLOCK_TYPES = 0 := by omega
          rw [hz0] at h4
          simp only [highestPowLimit] at h4
          omega
        obtain ⟨i, hi, he⟩ := highestPowLimit_attained params.powTypeLimits _ hpos
        exact ⟨i, hi, by omega⟩
  · rintro ⟨h1, h2, h3, ⟨i, hi, hle⟩, h5⟩
    have hge := highestPowLimit_ge params.powTypeLimits _ i hi
    rw [if_neg, if_neg]
    · omega
    · simp only [Bool.or_eq_true, decide_eq_true_eq, beq_iff_eq, not_or]
      exact ⟨⟨⟨by simp [h1], h3⟩, by simp [h2]⟩, by omega⟩

/-! ### C14 -/

/-- C14, evaluated at the failing input: the predecessor hash of `orphanBlock` is not
in the block index, and `CheckHiveProof` does not return `false`: it reads
`pindexPrev->nHeight` (line 560) before the null test of line 562, a null dereference. -/
theorem C14_missing_predecessor_dereferenced :
    (demoEnv 250 1 none).mapBlockIndex orphanBlock.hashPrevBlock = [] ∧
      CheckHiveProof (demoEnv 250 1 none) orphanBlock verifierParams = none ∧
      CheckHiveProof (demoEnv 250 1 none) orphanBlock verifierParams ≠ some false := by
  decide

/-! ### C13 -/

theorem coinbaseGate_crash_iff (env : HiveEnv) (pblock : CBlock) :
    coinbaseGate env pblock = Gate.crash ↔ pblock.vtx = [] := by
  constructor
  · intro h
    by_contra hne
    obtain ⟨tx, txs, hv⟩ := List.exists_cons_of_ne_nil hne
    unfold coinbaseGate at h
    rw [hv] at h
    dsimp only at h
    split at h
    · cases h
    · split at h
      · cases h
      · split at h
        · cases h
        · rename_i hlen
          rcases hvo : tx.vout with _ | ⟨v0, _ | ⟨v1, more⟩⟩
          · rw [hvo] at hlen; simp at hlen
          · rw [hvo] at hlen; simp at hlen
          · rw [hvo] at h
            dsimp only at h
            split at h
            · cases h
            · rename_i h144
              have h0 : (0 : Nat) < v0.scriptPubKey.length := by omega
              have h1 : (1 : Nat) < v0.scriptPubKey.length := by omega
              rw [List.getElem?_eq_getElem h0, List.getElem?_eq_getElem h1] at h
              dsimp only at h
              split at h <;> cases h
  · intro h
    unfold coinbaseGate
    rw [h]
    simp

theorem ReadLE32_isSome (script : Bytes) (off : Nat) (h : off + 3 < script.length) :
    ∃ v, ReadLE32 script off = some v := by
  unfold ReadLE32
  rw [List.getElem?_eq_getElem (by omega : off < script.length),
    List.getElem?_eq_getElem (by omega : off + 1 < script.length),
    List.getElem?_eq_getElem (by omega : off + 2 < script.length),
    List.getElem?_eq_getElem (by omega : off + 3 < script.length)]
  exact ⟨_, rfl⟩

theorem parsePayload_pass_iff (env : HiveEnv) (script : Bytes) :
    144 ≤ script.length ↔
      ∃ payload, parsePayload env script = Gate.pass payload ∧
        payload.txidStr.length = 64 ∧ payload.messageSig.length = 65 := by
  constructor
  · intro h
    obtain ⟨n, hn⟩ := ReadLE32_isSome script 3 (by omega)
    obtain ⟨g, hg⟩ := ReadLE32_isSome script 8 (by omega)
    unfold parsePayload
    rw [hn, hg, List.getElem?_eq_getElem (by omega : 12 < script.length)]
    dsimp only
    rw [if_neg (by omega)]
    refine ⟨_, rfl, ?_, ?_⟩
    · simp only [List.length_take, List.length_drop]; omega
    · simp only [List.length_take, List.length_drop]; omega
  · rintro ⟨payload, h, -, -⟩
    unfold parsePayload at h
    split at h
    · split at h
      · cases h
      · omega
    · cases h

/-- C13, evaluated at the failing input: for the block `emptyBlock`, whose transaction
list is empty, `CheckHiveProof` does not return `false`: line 605 reads `vtx[0]` of an
empty vector. That is the only unguarded access of lines 596-687: the coinbase gate
fails exactly on an empty transaction list (the accesses `vout[0]`, `vout[1]` and script
bytes 0-1 are guarded by lines 613 and 619), and every script of at least 144 bytes
parses, the txid being 64 and the signature 65 bytes inside the script. -/
theorem C13_empty_vtx_indexed :
    CheckHiveProof (demoEnv 250 1 none) emptyBlock verifierParams = none ∧
      (∀ (env : HiveEnv) (pblock : CBlock),
        coinbaseGate env pblock = Gate.crash ↔ pblock.vtx = []) ∧
      (∀ (env : HiveEnv) (script : Bytes), 144 ≤ script.length ↔
        ∃ payload, parsePayload env script = Gate.pass payload ∧
          payload.txidStr.length = 64 ∧ payload.messageSig.length = 65) :=
  ⟨by decide, coinbaseGate_crash_iff, parsePayload_pass_iff⟩

/-! ### C17 -/

/-- Counterexample to C17 as stated: with the escape configured (`stallParams`, spacing
150) and the candidate 2250 s = 15 spacings after the tip of `steadyChain`, more than 10
spacings, `GetNextWorkRequiredLWMA` does not return the floor but the averaged target
`0x1c06a863`. -/
theorem C17_stall_at_fifteen_spacings :
    stallParams.fPowAllowMinDifficultyBlocks = true ∧
      (2700 : Int) > (powBlock 3 450 0x1c0fffff).GetBlockTime +
        10 * stallParams.nPowTargetSpacing ∧
      GetNextWorkRequiredLWMA steadyChain 2700 stallParams 0 = some 0x1c06a863 ∧
      limitCompact (stallParams.powTypeLimits 0) = 0x1d00ffff := by
  decide

/-- C17, amended: when `fPowAllowMinDifficultyBlocks` is set and the candidate's
timestamp exceeds the tip's by more than 20 times `nPowTargetSpacing` (10 times the
doubled spacing `T` of line 34), or when the tip height is below `N`,
`GetNextWorkRequiredLWMA` returns the compact floor of the PoW type. -/
theorem C17_lwma_stall_and_short (tip : CBlockIndex) (rest : Chain) (pblockTime : Int)
    (params : Params) (powType : Nat)
    (h : (params.fPowAllowMinDifficultyBlocks = true ∧
          pblockTime > tip.GetBlockTime + 20 * params.nPowTargetSpacing) ∨
        tip.nHeight < params.lwmaAveragingWindow) :
    GetNextWorkRequiredLWMA (tip :: rest) pblockTime params powType =
      some (limitCompact (params.powTypeLimits powType)) := by
  rcases h with ⟨h1, h2⟩ | h
  · unfold GetNextWorkRequiredLWMA
    dsimp only
    rw [if_pos]
    rw [h1, Bool.true_and, decide_eq_true_eq]
    omega
  · exact GetNextWorkRequiredLWMA_short tip rest pblockTime params powType h

/-- Witness of C17: 3001 s = 20 spacings + 1 after the tip of `steadyChain` the escape
returns the floor `0x1d00ffff`. -/
theorem C17_lwma_stall_and_short_witness :
    (stallParams.fPowAllowMinDifficultyBlocks = true ∧
      (3451 : Int) > (powBlock 3 450 0x1c0fffff).GetBlockTime +
        20 * stallParams.nPowTargetSpacing) ∧
      GetNextWorkRequiredLWMA steadyChain 3451 stallParams 0 =
        some (limitCompact (stallParams.powTypeLimits 0)) :=
  ⟨by decide,
    C17_lwma_stall_and_short (powBlock 3 450 0x1c0fffff)
      [powBlock 2 300 0x1c0fffff, powBlock 1 150 0x1c0fffff, powBlock 0 0 0x1c0fffff]
      3451 stallParams 0 (Or.inl (by decide))⟩

/-! ### C18 -/

theorem lastNonMinDifficulty_decomp (interval : Int) (lim : Nat) (chain : Chain)
    (hne : chain ≠ []) :
    ∃ (skipped : List CBlockIndex) (b : CBlockIndex) (more : Chain),
      chain = skipped ++ b :: more ∧
      (∀ s ∈ skipped, Int.tmod s.nHeight interval ≠ 0 ∧ s.nBits = lim) ∧
      (more = [] ∨ Int.tmod b.nHeight interval = 0 ∨ b.nBits ≠ lim) ∧
      lastNonMinDifficulty interval lim chain = some b.nBits := by
  induction chain with
  | nil => exact absurd rfl hne
  | cons b rest ih =>
    cases rest with
    | nil => exact ⟨[], b, [], rfl, by simp, Or.inl rfl, rfl⟩
    | cons c rest2 =>
      unfold lastNonMinDifficulty
      by_cases hc : Int.tmod b.nHeight interval ≠ 0 ∧ b.nBits = lim
      · rw [if_pos hc]
        obtain ⟨skipped, b2, more, hdec, hsk, hstop, hres⟩ := ih (by simp)
        refine ⟨b :: skipped, b2, more, by rw [hdec]; rfl, ?_, hstop, hres⟩
        intro s hs
        rcases List.mem_cons.mp hs with rfl | hs
        · exact hc
        · exact hsk s hs
      · rw [if_neg hc]
        refine ⟨[], b, c :: rest2, rfl, by simp, Or.inr ?_, rfl⟩
        by_cases h0 : Int.tmod b.nHeight interval = 0
        · exact Or.inl h0
        · exact Or.inr fun hb => hc ⟨h0, hb⟩

/-- C18: off an adjustment boundary (`(nHeight + 1) % interval != 0`, interval non-zero)
`GetNextWorkRequiredLTC` returns the tip's `nBits` when the minimum-difficulty escape is
not configured; with the escape configured it returns the compact floor when the
candidate time exceeds the tip time by more than `2 * nPowTargetSpacing`, and otherwise
the `nBits` of the nearest entry `b`, walking back from the tip, that has no predecessor
or sits at a multiple of the interval or whose `nBits` is not the compact floor (every
entry skipped before `b` is off a multiple of the interval and carries the floor). -/
theorem C18_ltc_off_boundary (tip : CBlockIndex) (rest : Chain) (pblockTime : Int)
    (params : Params) (hI : params.DifficultyAdjustmentInterval ≠ 0)
    (hoff : Int.tmod (tip.nHeight + 1) params.DifficultyAdjustmentInterval ≠ 0) :
    (params.fPowAllowMinDifficultyBlocks = false →
      GetNextWorkRequiredLTC (tip :: rest) pblockTime params = some tip.nBits) ∧
    (params.fPowAllowMinDifficultyBlocks = true →
      pblockTime > tip.GetBlockTime + 2 * params.nPowTargetSpacing →
      GetNextWorkRequiredLTC (tip :: rest) pblockTime params =
        some (limitCompact params.powLimit)) ∧
    (params.fPowAllowMinDifficultyBlocks = true →
      ¬ pblockTime > tip.GetBlockTime + 2 * params.nPowTargetSpacing →
      ∃ (skipped : List CBlockIndex) (b : CBlockIndex) (more : Chain),
        tip :: rest = skipped ++ b :: more ∧
        (∀ s ∈ skipped, Int.tmod s.nHeight params.DifficultyAdjustmentInterval ≠ 0 ∧
          s.nBits = limitCompact params.powLimit) ∧
        (more = [] ∨ Int.tmod b.nHeight params.DifficultyAdjustmentInterval = 0 ∨
          b.nBits ≠ limitCompact params.powLimit) ∧
        GetNextWorkRequiredLTC (tip :: rest) pblockTime params = some b.nBits) := by
  have hmul : params.nPowTargetSpacing * 2 = 2 * params.nPowTargetSpacing := by omega
  refine ⟨?_, ?_, ?_⟩
  · intro hf
    unfold GetNextWorkRequiredLTC
    dsimp only
    rw [if_neg hI, if_pos hoff, hf]
    rfl
  · intro hf ht
    unfold GetNextWorkRequiredLTC
    dsimp only
    rw [if_neg hI, if_pos hoff, hf, hmul]
    simp only [if_true]
    rw [if_pos ht]
  · intro hf ht
    obtain ⟨skipped, b, more, hdec, hsk, hstop, hres⟩ :=
      lastNonMinDifficulty_decomp params.DifficultyAdjustmentInterval
        (limitCompact params.powLimit) (tip :: rest) (by simp)
    refine ⟨skipped, b, more, hdec, hsk, hstop, ?_⟩
    unfold GetNextWorkRequiredLTC
    dsimp only
    rw [if_neg hI, if_pos hoff, hf, hmul]
    simp only [if_true]
    rw [if_neg ht]
    exact hres

/-- Witness of C18: the tip of `tightChain` has height 1 with interval 4, off a
boundary, and without the escape the legacy retarget returns its `nBits`. -/
theorem C18_ltc_off_boundary_witness :
    demoParams.DifficultyAdjustmentInterval ≠ 0 ∧
      Int.tmod ((powBlock 1 150 0x1e0ffff0).nHeight + 1)
        demoParams.DifficultyAdjustmentInterval ≠ 0 ∧
      GetNextWorkRequiredLTC tightChain 300 demoParams = some 0x1e0ffff0 :=
  ⟨by decide, by decide,
    (C18_ltc_off_boundary (powBlock 1 150 0x1e0ffff0) [powBlock 0 0 0x1e0ffff0] 300 demoParams
      (by decide) (by decide)).1 rfl⟩

/-! ### C16 -/

theorem hiveBlocksAtTip_eq (chain : Chain) (n : Int)
    (h : ∃ b ∈ chain, b.IsHiveMined = false) :
    hiveBlocksAtTip chain n = some (n + hiveRun chain) := by
  induction chain generalizing n with
  | nil => obtain ⟨b, hb, -⟩ := h; cases hb
  | cons b rest ih =>
    unfold hiveBlocksAtTip hiveRun
    by_cases hb : b.IsHiveMined = true
    · rw [if_pos hb]
      have hrest : ∃ c ∈ rest, c.IsHiveMined = false := by
        obtain ⟨c, hc, hcf⟩ := h
        rcases List.mem_cons.mp hc with rfl | hc
        · rw [hb] at hcf; cases hcf
        · exact ⟨c, hc, hcf⟩
      cases rest with
      | nil => obtain ⟨c, hc, -⟩ := hrest; cases hc
      | cons c rest2 =>
        dsimp only
        rw [ih (n + 1) hrest, List.takeWhile_cons_of_pos (by simpa using hb)]
        unfold hiveRun
        simp only [List.length_cons, Nat.cast_add, Nat.cast_one]
        congr 1
        omega
    · rw [if_neg hb, List.takeWhile_cons_of_neg (by simpa using hb)]
      simp

theorem hiveBlocksAtTip_all (chain : Chain) (n : Int)
    (h : ∀ b ∈ chain, b.IsHiveMined = true) : hiveBlocksAtTip chain n = none := by
  induction chain generalizing n with
  | nil => rfl
  | cons b rest ih =>
    unfold hiveBlocksAtTip
    rw [if_pos (h b (List.mem_cons_self _ _))]
    cases rest with
    | nil => rfl
    | cons c rest2 =>
      dsimp only
      exact ih (n + 1) fun x hx => h x (List.mem_cons_of_mem _ hx)

/-- Counterexample to C16 as stated: on `lateHiveChain` the locked-window (MinotaurX)
activation is not reached, only the Hive 1.1 one, and the predecessor is Hive-mined, so
strict alternation would reject; the gate of lines 575-593 counts a run of 1, below
`maxConsecutiveHiveBlocks = 2`, and passes. -/
theorem C16_run_counted_before_locked_window :
    demoParams.IsMinotaurXEnabled lateHiveChain = false ∧
      demoParams.IsHive11Enabled lateHiveChain = true ∧
      demoParams.IsHiveEnabled lateHiveChain = true ∧
      (hiveBlock 12 1800 0x1e0ffff0).IsHiveMined = true ∧
      hiveRun lateHiveChain = 1 ∧
      hiveRunGate demoParams lateHiveChain = Gate.pass () := by
  decide

/-- C16, amended: with Hive enabled at the predecessor, the run gate of `CheckHiveProof`
is keyed on the Hive 1.1 activation `IsHive11Enabled`. Under it, when some entry of the
chain is not Hive-mined, the block is rejected exactly when the number of consecutive
Hive-mined blocks ending at the predecessor is at or above `maxConsecutiveHiveBlocks`
and passes the gate otherwise (a run down to the first entry fails `assert(pprev)`);
before it, the block is rejected exactly when the predecessor is Hive-mined. -/
theorem C16_run_gate (params : Params) (tip : CBlockIndex) (prev : Chain)
    (hen : params.IsHiveEnabled (tip :: prev) = true) :
    (params.IsHive11Enabled (tip :: prev) = true →
      ((∃ b ∈ tip :: prev, b.IsHiveMined = false) →
        (hiveRunGate params (tip :: prev) = Gate.reject ↔
          (hiveRun (tip :: prev) : Int) ≥ params.maxConsecutiveHiveBlocks) ∧
        (hiveRunGate params (tip :: prev) = Gate.pass () ↔
          (hiveRun (tip :: prev) : Int) < params.maxConsecutiveHiveBlocks)) ∧
      ((∀ b ∈ tip :: prev, b.IsHiveMined = true) →
        hiveRunGate params (tip :: prev) = Gate.crash)) ∧
    (params.IsHive11Enabled (tip :: prev) = false →
      (hiveRunGate params (tip :: prev) = Gate.reject ↔ tip.IsHiveMined = true) ∧
      (hiveRunGate params (tip :: prev) = Gate.pass () ↔ tip.IsHiveMined = false)) := by
  refine ⟨fun h11 => ⟨fun hex => ?_, fun hall => ?_⟩, fun h11 => ?_⟩
  · unfold hiveRunGate
    dsimp only
    rw [hen, h11, hiveBlocksAtTip_eq _ 0 hex, zero_add]
    by_cases hge : (hiveRun (tip :: prev) : Int) ≥ params.maxConsecutiveHiveBlocks
    · have hlt : ¬ (hiveRun (tip :: prev) : Int) < params.maxConsecutiveHiveBlocks := by omega
      simp [hge, hlt]
    · have hlt : (hiveRun (tip :: prev) : Int) < params.maxConsecutiveHiveBlocks := by omega
      simp [hge, hlt]
  · unfold hiveRunGate
    dsimp only
    rw [hen, h11, hiveBlocksAtTip_all _ 0 hall]
    rfl
  · unfold hiveRunGate
    dsimp only
    rw [hen, h11]
    cases hm : tip.IsHiveMined <;> simp

/-- Witness of C16: on `lateHiveChain` (Hive 1.1 active, run of 1, maximum 2) the gate
passes. -/
theorem C16_run_gate_witness :
    demoParams.IsHiveEnabled lateHiveChain = true ∧
      demoParams.IsHive11Enabled lateHiveChain = true ∧
      ((hiveRun lateHiveChain : Int) < demoParams.maxConsecutiveHiveBlocks) ∧
      hiveRunGate demoParams lateHiveChain = Gate.pass () :=
  ⟨by decide, by decide, by decide,
    ((((C16_run_gate demoParams (hiveBlock 12 1800 0x1e0ffff0) [powBlock 11 1650 0x1e0ffff0]
      (by decide)).1 (by decide)).1
        ⟨powBlock 11 1650 0x1e0ffff0, by decide, by decide⟩).2).2 (by decide)⟩

/-! ### C15 -/

theorem lookupDonation_fromTx (env : HiveEnv) (pindexPrev : Chain)
    (payload : AltProofPayload) (tx : CTransaction) :
    (tx.vout.length < 2 →
      lookupDonation env pindexPrev payload (some tx) = Gate.reject) ∧
    (∀ (vout0 vout1 : CTxOut) (more : List CTxOut), tx.vout = vout0 :: vout1 :: more →
      lookupDonation env pindexPrev payload (some tx) =
        if vout1.scriptPubKey ≠ env.scriptPubKeyCF then Gate.reject
        else Gate.pass vout1.nValue) := by
  constructor
  · intro h
    unfold lookupDonation
    dsimp only
    rcases hv : tx.vout with _ | ⟨a, _ | ⟨b, c⟩⟩
    · rfl
    · rfl
    · rw [hv] at h; simp only [List.length_cons] at h; omega
  · intro vout0 vout1 more hv
    unfold lookupDonation
    dsimp only
    rw [hv]

theorem lookupDonation_some (env : HiveEnv) (pindexPrev : Chain)
    (payload : AltProofPayload) (tx : CTransaction) :
    lookupDonation env pindexPrev payload (some tx) =
      match tx.vout[1]? with
      | none => Gate.reject
      | some vout1 =>
        if vout1.scriptPubKey ≠ env.scriptPubKeyCF then Gate.reject
        else Gate.pass vout1.nValue := by
  unfold lookupDonation
  dsimp only
  rcases hv : tx.vout with _ | ⟨a, _ | ⟨b, c⟩⟩ <;> simp

theorem lookupDonation_eq_spec (env : HiveEnv) (params : Params) (pindexPrev : Chain)
    (payload : AltProofPayload) (hview : ConsistentView env pindexPrev payload)
    (found : BctLookup) (hl : lookupBct env params pindexPrev payload = Gate.pass found) :
    lookupDonation env pindexPrev payload found.bct = donationSpec env pindexPrev payload := by
  have hnone : lookupDonation env pindexPrev payload none =
      donationSpec env pindexPrev payload := by
    unfold donationSpec
    cases h1 : env.GetCoin payload.txidStr 1 with
    | some coin =>
      unfold lookupDonation
      dsimp only
      rw [h1]
    | none =>
      cases h2 : env.GetTxByHashAndHeight payload.txidStr payload.bctClaimedHeight
          pindexPrev with
      | none =>
        unfold lookupDonation
        dsimp only
        rw [h1]
        dsimp only
        rw [h2]
      | some r =>
        obtain ⟨tx, fa, fap⟩ := r
        have h3 := lookupDonation_some env pindexPrev payload tx
        dsimp only
        rw [← h3]
        unfold lookupDonation
        dsimp only
        rw [h1]
        dsimp only
        rw [h2]
  unfold lookupBct at hl
  cases h0 : env.GetCoin payload.txidStr 0 with
  | some coin =>
    rw [h0] at hl
    cases hl
    exact hnone
  | none =>
    rw [h0] at hl
    dsimp only at hl
    cases h2 : env.GetTxByHashAndHeight payload.txidStr payload.bctClaimedHeight
        pindexPrev with
    | none =>
      rw [h2] at hl
      cases hl
    | some r =>
      obtain ⟨tx, fa, fap⟩ := r
      rw [h2] at hl
      dsimp only at hl
      rcases hv : tx.vout with _ | ⟨v0, rest⟩
      · rw [hv] at hl
        cases hl
      · rw [hv] at hl
        cases hl
        dsimp only
        rw [lookupDonation_some]
        unfold donationSpec
        cases h1 : env.GetCoin payload.txidStr 1 with
        | none =>
          dsimp only
          rw [h2]
        | some coin =>
          unfold ConsistentView at hview
          rw [h2, h1] at hview
          dsimp only at hview ⊢
          rw [hview]

/-- C15: the bond is taken from the UTXO entry of `(txid, 0)` when that lookup succeeds
(the block database is not consulted), otherwise from output 0 of the transaction that
`GetTxByHashAndHeight(txid, claimed height)` finds, and the block is rejected when both
fail. With the contribution flag set and the two lookups observing one view of the bond
(`ConsistentView`), the donation is resolved in the same order (`donationSpec`): the
UTXO entry of `(txid, 1)` when that lookup succeeds, else output 1 of the transaction
from the block database. The code reads that output from the transaction it already
holds when the bond came from the block database, which gives the same donation. A
found output whose script is not the community fund's, a transaction with fewer than 2
outputs, and a failure of every lookup reject; a rejected resolution never yields
`true`. -/
theorem C15_bond_resolution (env : HiveEnv) (params : Params) (pindexPrev : Chain)
    (payload : AltProofPayload) :
    (∀ coin, env.GetCoin payload.txidStr 0 = some coin →
      lookupBct env params pindexPrev payload =
        Gate.pass { bctValue := coin.nValue, bctScriptPubKey := coin.scriptPubKey,
                    bctFoundHeight := coin.nHeight % 2 ^ 31,
                    bctWasMinotaurXEnabled :=
                      params.IsMinotaurXEnabled (env.chainActive (coin.nHeight % 2 ^ 31)),
                    bct := none }) ∧
    (∀ tx foundAt foundAtPrev vout0 more, env.GetCoin payload.txidStr 0 = none →
      env.GetTxByHashAndHeight payload.txidStr payload.bctClaimedHeight pindexPrev =
        some (tx, foundAt, foundAtPrev) →
      tx.vout = vout0 :: more →
      lookupBct env params pindexPrev payload =
        Gate.pass { bctValue := vout0.nValue, bctScriptPubKey := vout0.scriptPubKey,
                    bctFoundHeight := toUInt32 foundAt.nHeight,
                    bctWasMinotaurXEnabled :=
                      params.IsMinotaurXEnabled (foundAt :: foundAtPrev),
                    bct := some tx }) ∧
    (env.GetCoin payload.txidStr 0 = none →
      env.GetTxByHashAndHeight payload.txidStr payload.bctClaimedHeight pindexPrev = none →
      lookupBct env params pindexPrev payload = Gate.reject ∧
      resolveBond env params pindexPrev payload = Gate.reject) ∧
    (∀ found, lookupBct env params pindexPrev payload = Gate.pass found →
      payload.communityContrib = false →
      resolveBond env params pindexPrev payload =
        Gate.pass { bctValue := found.bctValue, bctScriptPubKey := found.bctScriptPubKey,
                    bctFoundHeight := found.bctFoundHeight }) ∧
    (∀ found, lookupBct env params pindexPrev payload = Gate.pass found →
      payload.communityContrib = true →
      lookupDonation env pindexPrev payload found.bct = Gate.reject →
      resolveBond env params pindexPrev payload = Gate.reject) ∧
    (ConsistentView env pindexPrev payload →
      ∀ found, lookupBct env params pindexPrev payload = Gate.pass found →
        lookupDonation env pindexPrev payload found.bct =
          donationSpec env pindexPrev payload ∧
        (payload.communityContrib = true →
          resolveBond env params pindexPrev payload =
            (donationSpec env pindexPrev payload).bind fun donationAmount =>
              (donationGate params.communityContribFactor found.bctWasMinotaurXEnabled
                  found.bctValue donationAmount).bind fun bctValue =>
                Gate.pass { bctValue := bctValue, bctScriptPubKey := found.bctScriptPubKey,
                            bctFoundHeight := found.bctFoundHeight })) ∧
    (∀ coin, env.GetCoin payload.txidStr 1 = some coin →
      lookupDonation env pindexPrev payload none =
        if coin.scriptPubKey ≠ env.scriptPubKeyCF then Gate.reject
        else Gate.pass coin.nValue) ∧
    (∀ tx foundAt foundAtPrev, env.GetCoin payload.txidStr 1 = none →
      env.GetTxByHashAndHeight payload.txidStr payload.bctClaimedHeight pindexPrev =
        some (tx, foundAt, foundAtPrev) →
      lookupDonation env pindexPrev payload none =
        lookupDonation env pindexPrev payload (some tx)) ∧
    (env.GetCoin payload.txidStr 1 = none →
      env.GetTxByHashAndHeight payload.txidStr payload.bctClaimedHeight pindexPrev = none →
      lookupDonation env pindexPrev payload none = Gate.reject) ∧
    (∀ tx, (tx.vout.length < 2 →
        lookupDonation env pindexPrev payload (some tx) = Gate.reject) ∧
      (∀ (vout0 vout1 : CTxOut) (more : List CTxOut), tx.vout = vout0 :: vout1 :: more →
        lookupDonation env pindexPrev payload (some tx) =
          if vout1.scriptPubKey ≠ env.scriptPubKeyCF then Gate.reject
          else Gate.pass vout1.nValue)) ∧
    (∀ (pblock : CBlock) (tip : CBlockIndex) (prev : Chain) (script : Bytes) (vout1 : CTxOut),
      pindexPrev = tip :: prev →
      env.mapBlockIndex pblock.hashPrevBlock = tip :: prev →
      coinbaseGate env pblock = Gate.pass (script, vout1) →
      parsePayload env script = Gate.pass payload →
      resolveBond env params pindexPrev payload = Gate.reject →
      ∀ b, CheckHiveProof env pblock params = some b → b = false) := by
  refine ⟨?_, ?_, ?_, ?_, ?_, ?_, ?_, ?_, ?_, lookupDonation_fromTx env pindexPrev payload,
    ?_⟩
  · intro coin h
    unfold lookupBct
    rw [h]
  · intro tx foundAt foundAtPrev vout0 more h0 h1 hv
    unfold lookupBct
    rw [h0]
    dsimp only
    rw [h1]
    dsimp only
    rw [hv]
  · intro h0 h1
    have hl : lookupBct env params pindexPrev payload = Gate.reject := by
      unfold lookupBct
      rw [h0]
      dsimp only
      rw [h1]
    refine ⟨hl, ?_⟩
    unfold resolveBond
    rw [hl]
    rfl
  · intro found hl hf
    unfold resolveBond
    rw [hl, hf]
    rfl
  · intro found hl hf hd
    unfold resolveBond
    rw [hl, hf]
    simp only [Gate.bind, if_true]
    rw [hd]
  · intro hview found hl
    have heq := lookupDonation_eq_spec env params pindexPrev payload hview found hl
    refine ⟨heq, ?_⟩
    intro hf
    unfold resolveBond
    rw [hl, hf, ← heq]
    rfl
  · intro coin h
    unfold lookupDonation
    dsimp only
    rw [h]
  · intro tx foundAt foundAtPrev h0 h1
    unfold lookupDonation
    dsimp only
    rw [h0]
    dsimp only
    rw [h1]
  · intro h0 h1
    unfold lookupDonation
    dsimp only
    rw [h0]
    dsimp only
    rw [h1]
  · intro pblock tip prev script vout1 hp hprev hcb hpay hrej b hb
    cases b with
    | false => rfl
    | true =>
      exfalso
      obtain ⟨tip2, prev2, script2, vout2, payload2, hd, bond2, h1, h2, h3, h4, h5, h6, h7, h8,
        -, -, -⟩ := CheckHiveProof_accept env pblock params hb
      obtain ⟨tip3, prev3, hc, hmap⟩ := hivePredecessor_pass env pblock _ h1
      cases hc
      rw [hprev] at hmap
      cases hmap
      rw [hcb] at h3
      cases h3
      rw [hpay] at h4
      cases h4
      rw [hp, h7] at hrej
      cases hrej

/-- Witness of C15: in `drillEnv` output 0 of the bond is spent, so the bond (value 900)
comes from the block database; its output 1 is still in the UTXO set and both lookups
show the same donation 100, which the code reads from the transaction. -/
theorem C15_bond_resolution_witness :
    ConsistentView drillEnv verifierChain (demoPayload 1 1 true) ∧
      drillEnv.GetCoin (demoPayload 1 1 true).txidStr 0 = none ∧
      donationSpec drillEnv verifierChain (demoPayload 1 1 true) = Gate.pass 100 ∧
      lookupDonation drillEnv verifierChain (demoPayload 1 1 true) (some drillTx) =
        donationSpec drillEnv verifierChain (demoPayload 1 1 true) ∧
      resolveBond drillEnv verifierParams verifierChain (demoPayload 1 1 true) =
        Gate.pass { bctValue := 1000, bctScriptPubKey := [0xb0], bctFoundHeight := 1 } :=
  ⟨by decide, by decide, by decide,
    ((C15_bond_resolution drillEnv verifierParams verifierChain
      (demoPayload 1 1 true)).2.2.2.2.2.1 (by decide)
      { bctValue := 900, bctScriptPubKey := [0xb0], bctFoundHeight := 1,
        bctWasMinotaurXEnabled := false, bct := some drillTx } (by decide)).1,
    by decide⟩

/-! ### C20 -/

theorem hive10Walk_cons (params : Params) (b : CBlockIndex) (tl : Chain) (n : Int)
    (htl : tl ≠ []) :
    hive10Walk params (b :: tl) n =
      if b.nHeight < params.minHiveCheckBlock then none
      else if b.IsHiveMined then some (b.nBits, n)
      else hive10Walk params tl (n + 1) := by
  cases tl with
  | nil => exact absurd rfl htl
  | cons c rest => rw [hive10Walk]

theorem hive10Walk_floor (params : Params) (pows : List CBlockIndex) (b : CBlockIndex)
    (more : Chain) (n : Int)
    (hp : ∀ p ∈ pows, p.IsHiveMined = false ∧ ¬ p.nHeight < params.minHiveCheckBlock)
    (hb : more = [] ∨ b.nHeight < params.minHiveCheckBlock) :
    hive10Walk params (pows ++ b :: more) n = none := by
  induction pows generalizing n with
  | nil =>
    rw [List.nil_append]
    cases more with
    | nil => unfold hive10Walk; rfl
    | cons c rest =>
      rcases hb with hb | hb
      · cases hb
      · rw [hive10Walk_cons _ _ _ _ (by simp), if_pos hb]
  | cons p ps ih =>
    obtain ⟨h1, h2⟩ := hp p (List.mem_cons_self _ _)
    rw [List.cons_append, hive10Walk_cons _ _ _ _ (by simp), if_neg h2, h1]
    simp only [Bool.false_eq_true, if_false]
    exact ih (n + 1) fun q hq => hp q (List.mem_cons_of_mem _ hq)

theorem hive10Walk_found (params : Params) (pows : List CBlockIndex) (b : CBlockIndex)
    (more : Chain) (n : Int)
    (hp : ∀ p ∈ pows, p.IsHiveMined = false ∧ ¬ p.nHeight < params.minHiveCheckBlock)
    (hm : more ≠ []) (hh : ¬ b.nHeight < params.minHiveCheckBlock)
    (hb : b.IsHiveMined = true) :
    hive10Walk params (pows ++ b :: more) n = some (b.nBits, n + pows.length) := by
  induction pows generalizing n with
  | nil =>
    rw [List.nil_append, hive10Walk_cons _ _ _ _ hm, if_neg hh, if_pos hb]
    simp
  | cons p ps ih =>
    obtain ⟨h1, h2⟩ := hp p (List.mem_cons_self _ _)
    rw [List.cons_append, hive10Walk_cons _ _ _ _ (by simp), if_neg h2, h1]
    simp only [Bool.false_eq_true, if_false]
    rw [ih (n + 1) fun q hq => hp q (List.mem_cons_of_mem _ hq)]
    simp only [List.length_cons, Nat.cast_add, Nat.cast_one]
    congr 2
    omega

theorem clampCompact_eq_min (bn limit : Nat) :
    clampCompact bn limit = GetCompact (min (UintToArith256 limit) bn) := by
  unfold clampCompact
  split
  · rw [Nat.min_eq_left (by omega)]
  · rw [Nat.min_eq_right (by omega)]

/-- Counterexample to C20 as stated: on `floorHiveChain` the last Hive-mined block
stores the floor `L = 0x0fffff * 2 ^ 232`, one ordinary block follows it (`n = 1`),
`S = 2` and `interval = 15`, so the formula gives the compact encoding `0x200effff` of
`L * 30 / 32`; the product `L * 30` exceeds 256 bits and `GetNextHiveWorkRequired`
returns `0x2006ffff`. -/
theorem C20_product_wraps_at_floor :
    demoParams.IsMinotaurXEnabled floorHiveChain = false ∧
      demoParams.IsHive11Enabled floorHiveChain = false ∧
      SetCompact 0x200fffff ≤ UintToArith256 demoParams.powLimitHive ∧
      GetCompact (min (UintToArith256 demoParams.powLimitHive)
        (SetCompact 0x200fffff * ((15 - 1) * 2 + 1 + 1) / ((15 + 1) * 2))) = 0x200effff ∧
      GetNextHiveWorkRequired floorHiveChain demoParams = some 0x2006ffff := by
  decide

/-- C20, amended: before the Hive 1.1 activation, let the chain be `pows ++ b :: more`
with every entry of `pows` not Hive-mined and at height `>= minHiveCheckBlock`. If `b`
has no predecessor or sits below `minHiveCheckBlock`, `GetNextHiveWorkRequired` returns
the compact floor. If `b` has a predecessor, is at height `>= minHiveCheckBlock` and is
Hive-mined, then with `L` its unpacked target, `n > 0` the length of `pows`,
`S = hiveBlockSpacingTarget > 0`, `interval = hiveTargetAdjustAggression / S`, the
multiplier `m = (interval - 1) * S + n + n` in `[0, 2 ^ 31)`, the divisor
`d = (interval + 1) * S` in `(0, 2 ^ 31)` (both are computed in `int`) and the product
`L * m` below `2 ^ 256`, it returns the compact encoding of `min(floor, L * m / d)`. -/
theorem C20_carry_forward (params : Params) (pows : List CBlockIndex) (b : CBlockIndex)
    (more : Chain)
    (hM : params.IsMinotaurXEnabled (pows ++ b :: more) = false)
    (h11 : params.IsHive11Enabled (pows ++ b :: more) = false)
    (hp : ∀ p ∈ pows, p.IsHiveMined = false ∧ ¬ p.nHeight < params.minHiveCheckBlock) :
    ((more = [] ∨ b.nHeight < params.minHiveCheckBlock) →
      GetNextHiveWorkRequired (pows ++ b :: more) params =
        some (limitCompact params.powLimitHive)) ∧
    (more ≠ [] → ¬ b.nHeight < params.minHiveCheckBlock → b.IsHiveMined = true →
      0 < pows.length → 0 < params.hiveBlockSpacingTarget →
      0 ≤ (Int.tdiv params.hiveTargetAdjustAggression params.hiveBlockSpacingTarget - 1) *
          params.hiveBlockSpacingTarget + pows.length + pows.length →
      (Int.tdiv params.hiveTargetAdjustAggression params.hiveBlockSpacingTarget - 1) *
          params.hiveBlockSpacingTarget + pows.length + pows.length < 2 ^ 31 →
      SetCompact b.nBits *
        ((Int.tdiv params.hiveTargetAdjustAggression params.hiveBlockSpacingTarget - 1) *
          params.hiveBlockSpacingTarget + pows.length + pows.length).toNat < 2 ^ 256 →
      0 < (Int.tdiv params.hiveTargetAdjustAggression params.hiveBlockSpacingTarget + 1) *
          params.hiveBlockSpacingTarget →
      (Int.tdiv params.hiveTargetAdjustAggression params.hiveBlockSpacingTarget + 1) *
          params.hiveBlockSpacingTarget < 2 ^ 31 →
      GetNextHiveWorkRequired (pows ++ b :: more) params =
        some (GetCompact (min (UintToArith256 params.powLimitHive)
          (SetCompact b.nBits *
            ((Int.tdiv params.hiveTargetAdjustAggression params.hiveBlockSpacingTarget - 1) *
              params.hiveBlockSpacingTarget + pows.length + pows.length).toNat /
            ((Int.tdiv params.hiveTargetAdjustAggression params.hiveBlockSpacingTarget + 1) *
              params.hiveBlockSpacingTarget).toNat)))) := by
  have hcons : ∃ t tl, pows ++ b :: more = t :: tl := by
    cases pows with
    | nil => exact ⟨b, more, rfl⟩
    | cons p ps => exact ⟨p, ps ++ b :: more, rfl⟩
  obtain ⟨t, tl, hc⟩ := hcons
  constructor
  · intro hb
    have hw := hive10Walk_floor params pows b more 0 hp hb
    rw [hc] at hw hM h11 ⊢
    unfold GetNextHiveWorkRequired
    simp only [hM, h11, hw, Bool.false_eq_true, if_false]
  · intro hm hh hb hn hS hm0 hm1 hprod hd0 hd1
    have hw := hive10Walk_found params pows b more 0 hp hm hh hb
    rw [zero_add] at hw
    rw [hc] at hw hM h11 ⊢
    unfold GetNextHiveWorkRequired
    simp only [hM, h11, hw, Bool.false_eq_true, if_false]
    have hn0 : ¬ ((pows.length : Int) = 0) := by omega
    have hS0 : ¬ (params.hiveBlockSpacingTarget = 0) := by omega
    rw [if_neg hn0, if_neg hS0]
    generalize Int.tdiv params.hiveTargetAdjustAggression params.hiveBlockSpacingTarget = I
      at hm0 hm1 hprod hd0 hd1 ⊢
    have hI0 : 0 < I + 1 := by
      by_contra hcon
      have : (I + 1) * params.hiveBlockSpacingTarget ≤ 0 :=
        mul_nonpos_of_nonpos_of_nonneg (by omega) (le_of_lt hS)
      omega
    have hI1 : I + 1 ≤ (I + 1) * params.hiveBlockSpacingTarget := by
      have : (I + 1) * 1 ≤ (I + 1) * params.hiveBlockSpacingTarget :=
        Int.mul_le_mul_of_nonneg_left (by omega) (le_of_lt hI0)
      omega
    rw [toInt32_of_bounds I (by omega) (by omega)]
    rw [toInt32_of_bounds ((I - 1) * params.hiveBlockSpacingTarget + (pows.length : Int) +
        (pows.length : Int)) (by omega) hm1,
      toInt32_of_bounds ((I + 1) * params.hiveBlockSpacingTarget) (by omega) hd1]
    rw [divU64_eq _ _ hd0 (by omega)]
    dsimp only
    rw [clampCompact_eq_min]
    congr 3
    unfold mulU32
    rw [Int.emod_eq_of_lt hm0 (by omega), Nat.mod_eq_of_lt (by unfold U256; exact hprod)]

/-- Witness of C20: on the chain `[pow 3, hive 2, pow 1, pow 0]` with stored Hive target
`0x1e0ffff0` the product fits and the result is the compact encoding of
`min(floor, L * 30 / 32)`. -/
theorem C20_carry_forward_witness :
    (demoParams.IsMinotaurXEnabled
        ([powBlock 3 450 0x1e0ffff0] ++ hiveBlock 2 300 0x1e0ffff0 ::
          [powBlock 1 150 0x1e0ffff0, powBlock 0 0 0x1e0ffff0]) = false ∧
      SetCompact 0x1e0ffff0 * 30 < 2 ^ 256) ∧
      GetNextHiveWorkRequired
        ([powBlock 3 450 0x1e0ffff0] ++ hiveBlock 2 300 0x1e0ffff0 ::
          [powBlock 1 150 0x1e0ffff0, powBlock 0 0 0x1e0ffff0]) demoParams =
        some (GetCompact (min (UintToArith256 demoParams.powLimitHive)
          (SetCompact 0x1e0ffff0 * 30 / 32))) :=
  ⟨by decide,
    (C20_carry_forward demoParams [powBlock 3 450 0x1e0ffff0] (hiveBlock 2 300 0x1e0ffff0)
      [powBlock 1 150 0x1e0ffff0, powBlock 0 0 0x1e0ffff0] (by decide) (by decide)
      (by decide)).2 (by decide) (by decide) (by decide) (by decide) (by decide) (by decide)
      (by decide) (by decide) (by decide) (by decide)⟩

/-! ### Bit length -/

theorem bitsAux_pos (fuel x : Nat) (hx : x ≠ 0) (h : x < 2 ^ fuel) : 1 ≤ bitsAux fuel x := by
  have h1 := lt_two_pow_bitsAux fuel x h
  by_contra h0
  have h2 : bitsAux fuel x = 0 := by omega
  rw [h2] at h1
  simp at h1
  exact hx h1

theorem two_pow_le_bitsAux (fuel x : Nat) (hx : x ≠ 0) (h : x < 2 ^ fuel) :
    2 ^ (bitsAux fuel x - 1) ≤ x := by
  induction fuel generalizing x with
  | zero => simp at h; exact absurd h hx
  | succ n ih =>
    unfold bitsAux
    rw [if_neg hx, Nat.add_sub_cancel]
    have h2 : x / 2 < 2 ^ n := by
      rw [pow_succ] at h; omega
    by_cases hz : x / 2 = 0
    · have hb : bitsAux n (x / 2) = 0 := by
        rw [hz]
        cases n with
        | zero => rfl
        | succ m => simp [bitsAux]
      rw [hb]
      simp
      omega
    · have h3 := ih (x / 2) hz h2
      have h4 := bitsAux_pos n (x / 2) hz h2
      have h5 : 2 ^ bitsAux n (x / 2) = 2 ^ (bitsAux n (x / 2) - 1) * 2 := by
        rw [← pow_succ]
        congr 1
        omega
      rw [h5]
      omega

theorem bits_pos (x : Nat) (hx : x % U256 ≠ 0) : 1 ≤ bits x :=
  bitsAux_pos 256 _ hx (mod_U256_lt x)

theorem two_pow_bits_le (x : Nat) (hx : x % U256 ≠ 0) : 2 ^ (bits x - 1) ≤ x % U256 :=
  two_pow_le_bitsAux 256 _ hx (mod_U256_lt x)

theorem bits_zero (x : Nat) (hx : x % U256 = 0) : bits x = 0 := by
  unfold bits
  rw [hx]
  simp [bitsAux]

theorem bits_le_of_lt (x j : Nat) (h : x % U256 < 2 ^ j) : bits x ≤ j := by
  by_cases hx : x % U256 = 0
  · rw [bits_zero x hx]; omega
  · have h1 := two_pow_bits_le x hx
    have h2 : 2 ^ (bits x - 1) < 2 ^ j := lt_of_le_of_lt h1 h
    have h3 := (Nat.pow_lt_pow_iff_right (by norm_num : 1 < 2)).mp h2
    omega

theorem lt_bits_of_le (x j : Nat) (h : 2 ^ j ≤ x % U256) : j < bits x := by
  have h1 := lt_two_pow_bits x
  have h2 : 2 ^ j < 2 ^ bits x := lt_of_le_of_lt h h1
  exact (Nat.pow_lt_pow_iff_right (by norm_num : 1 < 2)).mp h2

theorem bits_mono (x y : Nat) (h : x % U256 ≤ y % U256) : bits x ≤ bits y :=
  bits_le_of_lt x _ (lt_of_le_of_lt h (lt_two_pow_bits y))

theorem SetCompact_mod (c : Nat) : SetCompact c % U256 = SetCompact c :=
  Nat.mod_eq_of_lt (SetCompact_lt c)

theorem UintToArith256_mod (x : Nat) : UintToArith256 x % U256 = UintToArith256 x := by
  unfold UintToArith256
  exact Nat.mod_mod _ _

/-! ### C19 -/

theorem retarget_clamp_eq (T span : Int) (hT : 0 < T) :
    (if (if span < Int.tdiv T 4 then Int.tdiv T 4 else span) > T * 4 then T * 4
      else if span < Int.tdiv T 4 then Int.tdiv T 4 else span) = retargetClamp T span := by
  unfold retargetClamp
  rw [Int.tdiv_eq_ediv (le_of_lt hT) (by norm_num)]
  have h3 : T / 4 ≤ T * 4 := by omega
  split <;> split <;> omega

theorem retargetClamp_bounds (T span : Int) (hT : 0 < T) :
    T / 4 ≤ retargetClamp T span ∧ retargetClamp T span ≤ 4 * T ∧
      0 ≤ retargetClamp T span := by
  unfold retargetClamp
  omega

theorem CalculateNextWorkRequired_eq (tip : CBlockIndex) (t : Int) (params : Params)
    (hR : params.fPowNoRetargeting = false) (hT0 : 0 < params.nPowTargetTimespan)
    (hT1 : 4 * params.nPowTargetTimespan < 2 ^ 32) :
    CalculateNextWorkRequired tip t params =
      some (clampCompact
        (if bits (SetCompact tip.nBits) >
            (bits (UintToArith256 params.powLimit) + 2 ^ 32 - 1) % 2 ^ 32 then
          ((retargetOperand (SetCompact tip.nBits) (UintToArith256 params.powLimit) *
              (retargetClamp params.nPowTargetTimespan (tip.GetBlockTime - t)).toNat % U256 /
            params.nPowTargetTimespan.toNat) * 2) % U256
        else
          retargetOperand (SetCompact tip.nBits) (UintToArith256 params.powLimit) *
              (retargetClamp params.nPowTargetTimespan (tip.GetBlockTime - t)).toNat % U256 /
            params.nPowTargetTimespan.toNat)
        params.powLimit) := by
  obtain ⟨-, ha1, ha0⟩ := retargetClamp_bounds params.nPowTargetTimespan (tip.GetBlockTime - t) hT0
  unfold CalculateNextWorkRequired
  rw [hR]
  simp only [Bool.false_eq_true, if_false, decide_eq_true_eq]
  rw [retarget_clamp_eq _ _ hT0, divU64_eq _ _ hT0 (by omega)]
  dsimp only
  unfold mulU32 retargetOperand
  rw [Int.emod_eq_of_lt ha0 (by omega)]

theorem div_le_four_mul (x a T : Nat) (hT : 0 < T) (ha : a ≤ 4 * T) : x * a / T ≤ 4 * x := by
  have h1 : x * a ≤ 4 * x * T := by
    calc x * a ≤ x * (4 * T) := Nat.mul_le_mul_left _ ha
      _ = 4 * x * T := by ring
  exact le_trans (Nat.div_le_div_right h1) (by rw [Nat.mul_div_cancel _ hT])

theorem quarter_le_div (x a k : Nat) (hk : 0 < k) (ha : k ≤ a) : x / 4 ≤ x * a / (4 * k) := by
  have h1 : x / 4 = x * k / (4 * k) := by
    rw [Nat.mul_div_mul_right _ _ hk]
  rw [h1]
  exact Nat.div_le_div_right (Nat.mul_le_mul_left _ ha)

theorem retargetOperand_le (old pl : Nat) : 2 * retargetOperand old pl ≤ 2 * old := by
  unfold retargetOperand
  split <;> omega

theorem retargetOperand_lt (old pl : Nat) (hold : old % U256 = old) (hpl : pl % U256 = pl)
    (hle : old ≤ pl) : retargetOperand old pl < 2 ^ (bits pl - 1) ∨ old = 0 := by
  by_cases h0 : old = 0
  · exact Or.inr h0
  · left
    have hpl0 : pl % U256 ≠ 0 := by omega
    have hbp := bits_pos pl hpl0
    have hbl := bits_le pl
    have hmono := bits_mono old pl (by omega)
    have hwrap : (bits pl + 2 ^ 32 - 1) % 2 ^ 32 = bits pl - 1 := by omega
    have hlt := lt_two_pow_bits old
    rw [hold] at hlt
    unfold retargetOperand
    rw [hwrap]
    split
    · rename_i hs
      have he : bits old = bits pl := by omega
      rw [he] at hlt
      obtain ⟨k, hk⟩ : ∃ k, bits pl = k + 1 := ⟨bits pl - 1, by omega⟩
      rw [hk, pow_succ] at hlt
      rw [hk, Nat.add_sub_cancel]
      omega
    · rename_i hs
      exact lt_of_lt_of_le hlt (Nat.pow_le_pow_right (by norm_num) (by omega))

theorem retargetOperand_zero (pl : Nat) : retargetOperand 0 pl = 0 := by
  unfold retargetOperand
  split <;> rfl

/-- Counterexample to C19 as stated: with the floor `2 ^ 255 - 1` (`wideParams`,
`T = 600`) and the old target `0x7fffff * 2 ^ 232` within it, the halved target times
the span 600 exceeds 256 bits; for the span `a = T` the formula gives back the old
target `0x207fffff`, and `CalculateNextWorkRequired` returns `0x2000da73`. -/
theorem C19_product_overflows_within_floor :
    wideParams.fPowNoRetargeting = false ∧
      SetCompact 0x207fffff ≤ UintToArith256 wideParams.powLimit ∧
      retargetClamp wideParams.nPowTargetTimespan
        ((powBlock 3 600 0x207fffff).GetBlockTime - 0) = 600 ∧
      2 ^ 256 ≤ retargetOperand (SetCompact 0x207fffff)
        (UintToArith256 wideParams.powLimit) * 600 ∧
      GetCompact (min (UintToArith256 wideParams.powLimit)
        (retargetSpec (SetCompact 0x207fffff) 600 600
          (UintToArith256 wideParams.powLimit))) = 0x207fffff ∧
      CalculateNextWorkRequired (powBlock 3 600 0x207fffff) 0 wideParams =
        some 0x2000da73 := by
  decide

/-- C19, amended: with retargeting enabled, `0 < T = nPowTargetTimespan` and
`4 T < 2 ^ 32`, let `a = clamp(time(tip) - firstBlockTime, T / 4, 4 T)`, `old` the
unpacked tip target and `R` the rescaled target of the spec. (1) When the product of the
(possibly halved) old target and `a`, and `R` itself, stay below `2 ^ 256`,
`CalculateNextWorkRequired` returns the compact encoding of `min(powLimit, R)`. (2) It
always returns a target that is at most 4 times the old one. (3) When `old <= powLimit`
and 4 divides `T`, the value encoded in (1) is at least a quarter of the old target up
to truncation: `old <= 4 * min(powLimit, R) + 7`. (4) The product does not overflow when
`old <= powLimit` and `4 T * 2 ^ (bits(powLimit) - 1) <= 2 ^ 256`. -/
theorem C19_calculate_next_work (tip : CBlockIndex) (t : Int) (params : Params)
    (hR : params.fPowNoRetargeting = false) (hT0 : 0 < params.nPowTargetTimespan)
    (hT1 : 4 * params.nPowTargetTimespan < 2 ^ 32) :
    (retargetOperand (SetCompact tip.nBits) (UintToArith256 params.powLimit) *
        (retargetClamp params.nPowTargetTimespan (tip.GetBlockTime - t)).toNat < 2 ^ 256 →
      retargetSpec (SetCompact tip.nBits)
        (retargetClamp params.nPowTargetTimespan (tip.GetBlockTime - t))
        params.nPowTargetTimespan (UintToArith256 params.powLimit) < 2 ^ 256 →
      CalculateNextWorkRequired tip t params =
        some (GetCompact (min (UintToArith256 params.powLimit)
          (retargetSpec (SetCompact tip.nBits)
            (retargetClamp params.nPowTargetTimespan (tip.GetBlockTime - t))
            params.nPowTargetTimespan (UintToArith256 params.powLimit))))) ∧
    (∃ c, CalculateNextWorkRequired tip t params = some c ∧
      SetCompact c ≤ 4 * SetCompact tip.nBits) ∧
    (SetCompact tip.nBits ≤ UintToArith256 params.powLimit →
      4 ∣ params.nPowTargetTimespan →
      SetCompact tip.nBits ≤
        4 * min (UintToArith256 params.powLimit)
          (retargetSpec (SetCompact tip.nBits)
            (retargetClamp params.nPowTargetTimespan (tip.GetBlockTime - t))
            params.nPowTargetTimespan (UintToArith256 params.powLimit)) + 7) ∧
    (SetCompact tip.nBits ≤ UintToArith256 params.powLimit →
      4 * params.nPowTargetTimespan.toNat *
        2 ^ (bits (UintToArith256 params.powLimit) - 1) ≤ 2 ^ 256 →
      retargetOperand (SetCompact tip.nBits) (UintToArith256 params.powLimit) *
        (retargetClamp params.nPowTargetTimespan (tip.GetBlockTime - t)).toNat <
          2 ^ 256) := by
  have heq := CalculateNextWorkRequired_eq tip t params hR hT0 hT1
  obtain ⟨ha2, ha1, ha0⟩ :=
    retargetClamp_bounds params.nPowTargetTimespan (tip.GetBlockTime - t) hT0
  generalize retargetClamp params.nPowTargetTimespan (tip.GetBlockTime - t) = a at *
  generalize hold : SetCompact tip.nBits = old at *
  have holdm : old % U256 = old := by rw [← hold]; exact SetCompact_mod _
  have hplm := UintToArith256_mod params.powLimit
  generalize hpl : UintToArith256 params.powLimit = pl at *
  generalize hT : params.nPowTargetTimespan = T at *
  have hTn : 0 < T.toNat := by omega
  have han : a.toNat ≤ 4 * T.toNat := by omega
  refine ⟨?_, ?_, ?_, ?_⟩
  · intro hA hB
    rw [heq, clampCompact_eq_min, hpl]
    by_cases hpl0 : pl = 0
    · rw [hpl0, Nat.zero_min, Nat.zero_min]
    · have hbp := bits_pos pl (by omega)
      have hbl := bits_le pl
      have hwrap : (bits pl + 2 ^ 32 - 1) % 2 ^ 32 = bits pl - 1 := by omega
      have hmodA : retargetOperand old pl * a.toNat % U256 =
          retargetOperand old pl * a.toNat := Nat.mod_eq_of_lt (by unfold U256; exact hA)
      rw [hwrap, hmodA]
      unfold retargetSpec at hB ⊢
      unfold retargetOperand
      rw [hwrap]
      by_cases hs : bits old ≤ bits pl - 1
      · rw [if_neg (by omega), if_pos hs, if_neg (by omega)]
      · rw [if_neg hs] at hB
        have hmodB : old / 2 * a.toNat / T.toNat * 2 % U256 =
            2 * (old / 2 * a.toNat / T.toNat) := by
          rw [Nat.mul_comm _ 2]
          exact Nat.mod_eq_of_lt (by unfold U256; exact hB)
        rw [if_pos (by omega), if_neg hs, if_pos (by omega), hmodB]
  · refine ⟨_, heq, le_trans (SetCompact_clampCompact_le_self _ _) ?_⟩
    have hop := retargetOperand_le old pl
    have hq : retargetOperand old pl * a.toNat % U256 / T.toNat ≤
        4 * retargetOperand old pl :=
      le_trans (Nat.div_le_div_right (Nat.mod_le _ _)) (div_le_four_mul _ _ _ hTn han)
    by_cases hs : bits old > (bits pl + 2 ^ 32 - 1) % 2 ^ 32
    · rw [if_pos hs]
      refine le_trans (Nat.mod_le _ _) ?_
      have hop2 : retargetOperand old pl = old / 2 := by
        unfold retargetOperand
        rw [if_pos hs]
      rw [hop2] at hq ⊢
      omega
    · rw [if_neg hs]
      have hop2 : retargetOperand old pl = old := by
        unfold retargetOperand
        rw [if_neg hs]
      rw [hop2] at hq ⊢
      omega
  · intro hle hdvd
    obtain ⟨k, hk⟩ := hdvd
    have hk0 : 0 < k := by omega
    have hTk : T.toNat = 4 * k.toNat := by omega
    have hak : k.toNat ≤ a.toNat := by omega
    have hkn : 0 < k.toNat := by omega
    unfold retargetSpec
    rw [hTk]
    split
    · have h1 := quarter_le_div old a.toNat k.toNat hkn hak
      omega
    · have h1 := quarter_le_div (old / 2) a.toNat k.toNat hkn hak
      omega
  · intro hle hfit
    rcases retargetOperand_lt old pl holdm hplm hle with hlt | h0
    · have h1 : retargetOperand old pl * a.toNat ≤ retargetOperand old pl * (4 * T.toNat) :=
        Nat.mul_le_mul_left _ han
      have h2 : retargetOperand old pl * (4 * T.toNat) <
          2 ^ (bits pl - 1) * (4 * T.toNat) :=
        Nat.mul_lt_mul_of_pos_right hlt (by omega)
      have h3 : 2 ^ (bits pl - 1) * (4 * T.toNat) = 4 * T.toNat * 2 ^ (bits pl - 1) :=
        Nat.mul_comm _ _
      omega
    · rw [h0, retargetOperand_zero, Nat.zero_mul]
      positivity

/-- Witness of C19: for the tip of `tightChain` with `demoParams` (`T = 600`) nothing
overflows and the result is the compact encoding of `min(powLimit, R)`. -/
theorem C19_calculate_next_work_witness :
    (demoParams.fPowNoRetargeting = false ∧ 0 < demoParams.nPowTargetTimespan ∧
      4 * demoParams.nPowTargetTimespan < 2 ^ 32) ∧
      CalculateNextWorkRequired (powBlock 1 150 0x1e0ffff0) 0 demoParams =
        some (GetCompact (min (UintToArith256 demoParams.powLimit)
          (retargetSpec (SetCompact 0x1e0ffff0)
            (retargetClamp demoParams.nPowTargetTimespan
              ((powBlock 1 150 0x1e0ffff0).GetBlockTime - 0))
            demoParams.nPowTargetTimespan (UintToArith256 demoParams.powLimit)))) :=
  ⟨by decide,
    (C19_calculate_next_work (powBlock 1 150 0x1e0ffff0) 0 demoParams (by decide) (by decide)
      (by decide)).1 (by decide) (by decide)⟩

/-! ### Compact encoding: exact round trips -/

theorem GetCompact_mod (x : Nat) : GetCompact (x % U256) = GetCompact x := by
  unfold GetCompact bits
  simp only [Nat.mod_mod]

/-- The size byte computed by `GetCompact` is the number of bytes of the value. -/
theorem nSize_of_bounds (y j : Nat) (hy : y < 2 ^ 256) (hlo : 2 ^ (8 * (j - 1)) ≤ y)
    (hhi : y < 2 ^ (8 * j)) (hj : 1 ≤ j) : (bits y + 7) / 8 = j := by
  have hm : y % U256 = y := Nat.mod_eq_of_lt (by unfold U256; exact hy)
  have h1 := lt_bits_of_le y (8 * (j - 1)) (by rw [hm]; exact hlo)
  have h2 := bits_le_of_lt y (8 * j) (by rw [hm]; exact hhi)
  omega

theorem nSize_bounds (y : Nat) (hy : y < 2 ^ 256) (h0 : y ≠ 0) :
    ∃ j, 1 ≤ j ∧ j ≤ 32 ∧ 2 ^ (8 * (j - 1)) ≤ y ∧ y < 2 ^ (8 * j) ∧ (bits y + 7) / 8 = j := by
  have hm : y % U256 = y := Nat.mod_eq_of_lt (by unfold U256; exact hy)
  have hb := bits_le y
  have hp := bits_pos y (by rw [hm]; exact h0)
  have hlo := two_pow_bits_le y (by rw [hm]; exact h0)
  have hhi := lt_two_pow_bits y
  rw [hm] at hlo hhi
  refine ⟨(bits y + 7) / 8, by omega, by omega, ?_, ?_, rfl⟩
  · exact le_trans (Nat.pow_le_pow_right (by norm_num) (by omega)) hlo
  · exact lt_of_lt_of_le hhi (Nat.pow_le_pow_right (by norm_num) (by omega))

/-- The packing of a value of exactly `j` bytes: `q` is its top three bytes. -/
theorem GetCompact_of_bounds (y j : Nat) (hy : y < 2 ^ 256) (hlo : 2 ^ (8 * (j - 1)) ≤ y)
    (hhi : y < 2 ^ (8 * j)) (hj : 1 ≤ j) :
    ∃ q, q < 2 ^ 24 ∧ 2 ^ 16 ≤ q ∧ (j ≤ 3 → q = y * 2 ^ (8 * (3 - j))) ∧
      (3 < j → q = y / 2 ^ (8 * (j - 3))) ∧
      GetCompact y = if 2 ^ 23 ≤ q then q / 2 ^ 8 + (j + 1) * 2 ^ 24 else q + j * 2 ^ 24 := by
  have hm : y % U256 = y := Nat.mod_eq_of_lt (by unfold U256; exact hy)
  have hn := nSize_of_bounds y j hy hlo hhi hj
  unfold GetCompact
  simp only [hn, hm]
  by_cases h3 : j ≤ 3
  · refine ⟨y * 2 ^ (8 * (3 - j)), ?_, ?_, fun _ => rfl, fun h => by omega, ?_⟩
    · interval_cases j <;> norm_num at hlo hhi ⊢ <;> omega
    · interval_cases j <;> norm_num at hlo hhi ⊢ <;> omega
    · rw [if_pos h3]
      have hq : y * 2 ^ (8 * (3 - j)) < 2 ^ 24 := by
        interval_cases j <;> norm_num at hlo hhi ⊢ <;> omega
      generalize y * 2 ^ (8 * (3 - j)) = q at *
      have hq32 : q % 2 ^ 32 = q := Nat.mod_eq_of_lt (by omega)
      rw [hq32]
      by_cases hbit : 2 ^ 23 ≤ q
      · rw [if_pos (by omega), if_pos hbit]
      · rw [if_neg (by omega), if_neg hbit]
  · have hlt : y / 2 ^ (8 * (j - 3)) < 2 ^ 24 := by
      apply Nat.div_lt_of_lt_mul
      rw [← pow_add]
      have : 8 * (j - 3) + 24 = 8 * j := by omega
      rw [this]; exact hhi
    have hge : 2 ^ 16 ≤ y / 2 ^ (8 * (j - 3)) := by
      rw [Nat.le_div_iff_mul_le (by positivity), ← pow_add]
      have : 16 + 8 * (j - 3) = 8 * (j - 1) := by omega
      rw [this]; exact hlo
    refine ⟨y / 2 ^ (8 * (j - 3)), hlt, hge, fun h => absurd h h3, fun _ => rfl, ?_⟩
    rw [if_neg h3]
    generalize y / 2 ^ (8 * (j - 3)) = q at *
    have hq32 : q % 2 ^ 32 = q := Nat.mod_eq_of_lt (by omega)
    rw [hq32]
    by_cases hbit : 2 ^ 23 ≤ q
    · rw [if_pos (by omega), if_pos hbit]
    · rw [if_neg (by omega), if_neg hbit]

/-- The overflow flag of `SetCompact` is set exactly when the unreduced value
`nWord * 256 ^ (nSize - 3)` does not fit 256 bits. -/
theorem SetCompactOverflow_iff (c : Nat) :
    SetCompactOverflow c = true ↔
      3 < c / 2 ^ 24 % 256 ∧ 2 ^ 256 ≤ c % 2 ^ 23 * 2 ^ (8 * (c / 2 ^ 24 % 256 - 3)) := by
  have hw : c % 2 ^ 23 < 2 ^ 23 := Nat.mod_lt _ (by norm_num)
  have hs : c / 2 ^ 24 % 256 < 256 := Nat.mod_lt _ (by norm_num)
  unfold SetCompactOverflow compactWord
  generalize c % 2 ^ 23 = w at *
  generalize c / 2 ^ 24 % 256 = s at *
  dsimp only
  by_cases h3 : s ≤ 3
  · rw [if_pos h3]
    have h34 : ¬ s > 34 := by omega
    have h33 : ¬ s > 33 := by omega
    have h32 : ¬ s > 32 := by omega
    simp [h34, h33, h32]
    omega
  · rw [if_neg h3]
    by_cases h32 : s ≤ 32
    · have hpow : 2 ^ (8 * (s - 3)) ≤ 2 ^ 232 :=
        Nat.pow_le_pow_right (by norm_num) (by omega)
      have hprod : w * 2 ^ (8 * (s - 3)) < 2 ^ 256 := by
        calc w * 2 ^ (8 * (s - 3)) ≤ w * 2 ^ 232 := Nat.mul_le_mul_left _ hpow
          _ < 2 ^ 23 * 2 ^ 232 := Nat.mul_lt_mul_of_pos_right hw (by positivity)
          _ ≤ 2 ^ 256 := by norm_num
      have h34 : ¬ s > 34 := by omega
      have h33 : ¬ s > 33 := by omega
      have h32b : ¬ s > 32 := by omega
      simp [h34, h33, h32b]
      omega
    · by_cases h33 : s = 33
      · subst h33
        norm_num
        omega
      · by_cases h34 : s = 34
        · subst h34
          norm_num
          omega
        · have h35 : s > 34 := by omega
          have hpow : 2 ^ 256 ≤ 2 ^ (8 * (s - 3)) :=
            Nat.pow_le_pow_right (by norm_num) (by omega)
          simp only [h35, decide_True, Bool.true_or, Bool.and_true, bne_iff_ne, ne_eq]
          constructor
          · intro hw0
            refine ⟨by omega, ?_⟩
            calc 2 ^ 256 ≤ 2 ^ (8 * (s - 3)) := hpow
              _ ≤ w * 2 ^ (8 * (s - 3)) := Nat.le_mul_of_pos_left _ (by omega)
          · rintro ⟨-, h⟩ hw0
            rw [hw0, Nat.zero_mul] at h
            norm_num at h

/-- A value with at most 23 significant bits above a byte boundary packs and unpacks
to itself. -/
theorem SetCompact_GetCompact_of_dvd (y k : Nat) (hy : y < 2 ^ 256) (hk : 2 ^ (8 * k) ∣ y)
    (hyk : y < 2 ^ (8 * k + 23)) : SetCompact (GetCompact y) = y := by
  by_cases h0 : y = 0
  · rw [h0]; exact SetCompact_GetCompact_zero
  · obtain ⟨j, hj1, hj32, hlo, hhi, -⟩ := nSize_bounds y hy h0
    obtain ⟨q, hq24, hq16, hqs, hql, hc⟩ := GetCompact_of_bounds y j hy hlo hhi hj1
    have hjk : j ≤ k + 3 := by
      have h1 : 2 ^ (8 * (j - 1)) < 2 ^ (8 * k + 23) := lt_of_le_of_lt hlo hyk
      have h2 := (Nat.pow_lt_pow_iff_right (by norm_num : 1 < 2)).mp h1
      omega
    rw [hc]
    by_cases hbit : 2 ^ 23 ≤ q
    · rw [if_pos hbit, SetCompact_enc (q / 2 ^ 8) (j + 1) (by omega) (by omega)]
      have hjk2 : j ≤ k + 2 := by
        by_contra hcon
        have hj : j = k + 3 := by omega
        by_cases h3 : j ≤ 3
        · have hk0 : k = 0 := by omega
          have hj3 : j = 3 := by omega
          have := hqs h3
          rw [hj3] at this
          rw [hk0] at hyk
          norm_num at this hyk
          omega
        · have hq := hql (by omega)
          have hk3 : j - 3 = k := by omega
          rw [hk3] at hq
          have : y / 2 ^ (8 * k) < 2 ^ 23 := by
            apply Nat.div_lt_of_lt_mul
            rw [← pow_add]
            exact hyk
          omega
      by_cases h2 : j + 1 ≤ 3
      · rw [if_pos h2]
        have hq := hqs (by omega)
        interval_cases j <;> norm_num at hq ⊢ <;> omega
      · rw [if_neg h2]
        by_cases h3 : j = 3
        · subst h3
          have hq := hqs (by omega)
          have hk1 : 1 ≤ k := by omega
          have hd : 2 ^ 8 ∣ y :=
            dvd_trans (pow_dvd_pow 2 (by omega : 8 ≤ 8 * k)) hk
          norm_num at hq hd ⊢
          rw [hq]
          have := Nat.div_mul_cancel hd
          rw [this]
          exact Nat.mod_eq_of_lt (by unfold U256; exact hy)
        · have hq := hql (by omega)
          have hd : 2 ^ (8 * (j + 1 - 3)) ∣ y :=
            dvd_trans (pow_dvd_pow 2 (by omega : 8 * (j + 1 - 3) ≤ 8 * k)) hk
          have he : y / 2 ^ (8 * (j - 3)) / 2 ^ 8 = y / 2 ^ (8 * (j + 1 - 3)) := by
            rw [Nat.div_div_eq_div_mul, ← pow_add]
            congr 2
            omega
          rw [hq, he, Nat.div_mul_cancel hd]
          exact Nat.mod_eq_of_lt (by unfold U256; exact hy)
    · rw [if_neg hbit, SetCompact_enc q j (by omega) (by omega)]
      by_cases h3 : j ≤ 3
      · rw [if_pos h3, hqs h3]
        exact Nat.mul_div_cancel _ (by positivity)
      · rw [if_neg h3, hql (by omega)]
        have hd : 2 ^ (8 * (j - 3)) ∣ y :=
          dvd_trans (pow_dvd_pow 2 (by omega : 8 * (j - 3) ≤ 8 * k)) hk
        rw [Nat.div_mul_cancel hd]
        exact Nat.mod_eq_of_lt (by unfold U256; exact hy)

/-- Every value that unpacks from a compact encoding without the overflow flag packs
and unpacks to itself. -/
theorem SetCompact_GetCompact_SetCompact (c : Nat) (hov : SetCompactOverflow c = false) :
    SetCompact (GetCompact (SetCompact c)) = SetCompact c := by
  have hw : c % 2 ^ 23 < 2 ^ 23 := Nat.mod_lt _ (by norm_num)
  have hnov : ¬ (3 < c / 2 ^ 24 % 256 ∧
      2 ^ 256 ≤ c % 2 ^ 23 * 2 ^ (8 * (c / 2 ^ 24 % 256 - 3))) := by
    rw [← SetCompactOverflow_iff, hov]
    simp
  by_cases h3 : c / 2 ^ 24 % 256 ≤ 3
  · have hx : SetCompact c = c % 2 ^ 23 / 2 ^ (8 * (3 - c / 2 ^ 24 % 256)) := by
      unfold SetCompact
      dsimp only
      rw [if_pos h3]
    have hle := Nat.div_le_self (c % 2 ^ 23) (2 ^ (8 * (3 - c / 2 ^ 24 % 256)))
    rw [← hx] at hle
    exact SetCompact_GetCompact_of_dvd _ 0 (by omega) (by simp) (by omega)
  · have hfit : c % 2 ^ 23 * 2 ^ (8 * (c / 2 ^ 24 % 256 - 3)) < 2 ^ 256 := by
      by_contra hcon
      exact hnov ⟨by omega, by omega⟩
    have hx : SetCompact c = c % 2 ^ 23 * 2 ^ (8 * (c / 2 ^ 24 % 256 - 3)) := by
      unfold SetCompact
      dsimp only
      rw [if_neg h3]
      exact Nat.mod_eq_of_lt (by unfold U256; exact hfit)
    rw [hx]
    refine SetCompact_GetCompact_of_dvd _ (c / 2 ^ 24 % 256 - 3) hfit (dvd_mul_left _ _) ?_
    rw [Nat.add_comm, pow_add]
    exact Nat.mul_lt_mul_of_pos_right hw (by positivity)

theorem SetCompactOverflow_GetCompact (x : Nat) : SetCompactOverflow (GetCompact x) = false := by
  obtain ⟨m, s, h, hm, hs, hle⟩ := GetCompact_form x
  have hy := mod_U256_lt x
  by_contra hcon
  have ht : SetCompactOverflow (GetCompact x) = true := by
    cases hb : SetCompactOverflow (GetCompact x)
    · exact absurd hb hcon
    · rfl
  rw [SetCompactOverflow_iff, h] at ht
  have h1 : (m + s * 2 ^ 24) / 2 ^ 24 % 256 = s := by omega
  have h2 : (m + s * 2 ^ 24) % 2 ^ 23 = m := by omega
  rw [h1, h2] at ht
  obtain ⟨h3, hbig⟩ := ht
  rw [if_neg (by omega)] at hle
  omega

/-- Every packing is canonical. -/
theorem CanonicalCompact_GetCompact (x : Nat) : CanonicalCompact (GetCompact x) := by
  have hov := SetCompactOverflow_GetCompact x
  rw [← GetCompact_mod] at hov ⊢
  have hy := mod_U256_lt x
  generalize x % U256 = y at *
  by_cases h0 : y = 0
  · left; rw [h0]; exact GetCompact_zero
  · right
    obtain ⟨j, hj1, hj32, hlo, hhi, -⟩ := nSize_bounds y hy h0
    obtain ⟨q, hq24, hq16, hqs, hql, hc⟩ := GetCompact_of_bounds y j hy hlo hhi hj1
    refine ⟨?_, ?_, ?_, ?_, hov⟩
    · rw [hc]; split <;> omega
    · rw [hc]; split <;> omega
    · rw [hc]; split <;> omega
    · rw [hc]
      by_cases hbit : 2 ^ 23 ≤ q
      · rw [if_pos hbit]
        have e1 : (q / 2 ^ 8 + (j + 1) * 2 ^ 24) / 2 ^ 24 = j + 1 := by omega
        have e2 : (q / 2 ^ 8 + (j + 1) * 2 ^ 24) % 2 ^ 24 = q / 2 ^ 8 := by omega
        rw [e1, e2]
        intro hj3
        have hq := hqs (by omega)
        interval_cases j <;> norm_num at hq ⊢
        omega
      · rw [if_neg hbit]
        have e1 : (q + j * 2 ^ 24) / 2 ^ 24 = j := by omega
        have e2 : (q + j * 2 ^ 24) % 2 ^ 24 = q := by omega
        rw [e1, e2]
        intro hj3
        rw [hqs hj3]
        exact dvd_mul_left _ _

/-- A canonical compact value unpacks and packs to itself. -/
theorem GetCompact_SetCompact_of_canonical (c : Nat) (h : CanonicalCompact c) :
    GetCompact (SetCompact c) = c := by
  rcases h with h0 | ⟨hc32, hm23, hm15, hdiv, hov⟩
  · rw [h0]; decide
  · have hnov : ¬ (3 < c / 2 ^ 24 % 256 ∧
        2 ^ 256 ≤ c % 2 ^ 23 * 2 ^ (8 * (c / 2 ^ 24 % 256 - 3))) := by
      rw [← SetCompactOverflow_iff, hov]
      simp
    have e1 : c / 2 ^ 24 % 256 = c / 2 ^ 24 := by omega
    have e2 : c % 2 ^ 23 = c % 2 ^ 24 := by omega
    rw [e1, e2] at hnov
    have hc : c = c % 2 ^ 24 + c / 2 ^ 24 * 2 ^ 24 := by omega
    have hs256 : c / 2 ^ 24 < 256 := by omega
    generalize c % 2 ^ 24 = m at *
    generalize c / 2 ^ 24 = s at *
    rw [hc, SetCompact_enc m s hm23 hs256]
    by_cases h3 : s ≤ 3
    · rw [if_pos h3]
      have hd := hdiv h3
      by_cases h16 : m < 2 ^ 16
      · have hs1 : 2 ≤ s := by
          interval_cases s <;> norm_num at hd ⊢ <;> omega
        obtain ⟨q, hq24, hq16, hqs, -, hg⟩ :=
          GetCompact_of_bounds (m / 2 ^ (8 * (3 - s))) (s - 1)
            (lt_of_le_of_lt (Nat.div_le_self _ _) (by omega))
            (by interval_cases s <;> norm_num at hd ⊢ <;> omega)
            (by interval_cases s <;> norm_num at hd ⊢ <;> omega)
            (by omega)
        have hq := hqs (by omega)
        rw [hg]
        have hs2 : s - 1 + 1 = s := by omega
        rw [hs2]
        interval_cases s <;> norm_num at hd hq ⊢ <;> split <;> omega
      · have hs1 : 1 ≤ s := by
          by_contra hcon
          have hs0 : s = 0 := by omega
          rw [hs0] at hd
          norm_num at hd
          omega
        obtain ⟨q, hq24, hq16, hqs, -, hg⟩ :=
          GetCompact_of_bounds (m / 2 ^ (8 * (3 - s))) s
            (lt_of_le_of_lt (Nat.div_le_self _ _) (by omega))
            (by interval_cases s <;> norm_num at hd ⊢ <;> omega)
            (by interval_cases s <;> norm_num at hd ⊢ <;> omega)
            hs1
        have hq := hqs h3
        rw [hg]
        interval_cases s <;> norm_num at hd hq ⊢ <;> split <;> omega
    · rw [if_neg h3]
      have hfit : m * 2 ^ (8 * (s - 3)) < 2 ^ 256 := by
        by_contra hcon
        exact hnov ⟨by omega, by omega⟩
      rw [Nat.mod_eq_of_lt (by unfold U256; exact hfit)]
      have hP : 0 < 2 ^ (8 * (s - 3)) := by positivity
      by_cases h16 : m < 2 ^ 16
      · have hlo : 2 ^ (8 * (s - 1 - 1)) ≤ m * 2 ^ (8 * (s - 3)) := by
          have e : 8 * (s - 1 - 1) = 8 + 8 * (s - 3) := by omega
          rw [e, pow_add]
          exact Nat.mul_le_mul_right _ (by omega)
        have hhi : m * 2 ^ (8 * (s - 3)) < 2 ^ (8 * (s - 1)) := by
          have e : 8 * (s - 1) = 16 + 8 * (s - 3) := by omega
          rw [e, pow_add]
          exact Nat.mul_lt_mul_of_pos_right h16 hP
        obtain ⟨q, hq24, hq16, hqs, hql, hg⟩ :=
          GetCompact_of_bounds (m * 2 ^ (8 * (s - 3))) (s - 1) hfit hlo hhi (by omega)
        rw [hg]
        have hs2 : s - 1 + 1 = s := by omega
        rw [hs2]
        have hq : q = m * 2 ^ 8 := by
          by_cases h4 : s = 4
          · have := hqs (by omega)
            rw [h4] at this
            norm_num at this ⊢
            exact this
          · have := hql (by omega)
            have e : 8 * (s - 3) = 8 + 8 * (s - 1 - 3) := by omega
            rw [e, pow_add, ← Nat.mul_assoc, Nat.mul_div_cancel _ (by positivity)] at this
            exact this
        rw [hq]
        rw [if_pos (by omega)]
        norm_num
      · have hlo : 2 ^ (8 * (s - 1)) ≤ m * 2 ^ (8 * (s - 3)) := by
          have e : 8 * (s - 1) = 16 + 8 * (s - 3) := by omega
          rw [e, pow_add]
          exact Nat.mul_le_mul_right _ (by omega)
        have hhi : m * 2 ^ (8 * (s - 3)) < 2 ^ (8 * s) := by
          have e : 8 * s = 24 + 8 * (s - 3) := by omega
          rw [e, pow_add]
          exact Nat.mul_lt_mul_of_pos_right (by omega) hP
        obtain ⟨q, hq24, hq16, -, hql, hg⟩ :=
          GetCompact_of_bounds (m * 2 ^ (8 * (s - 3))) s hfit hlo hhi (by omega)
        rw [hg]
        have hq : q = m := by
          rw [hql (by omega)]
          exact Nat.mul_div_cancel _ hP
        rw [hq, if_neg (by omega)]

theorem SetCompactNegative_iff (c : Nat) :
    SetCompactNegative c = true ↔
      c / 2 ^ 23 % 2 = 1 ∧ c % 2 ^ 23 / 2 ^ (8 * (3 - c / 2 ^ 24 % 256)) ≠ 0 := by
  unfold SetCompactNegative compactWord
  dsimp only
  by_cases h3 : c / 2 ^ 24 % 256 ≤ 3
  · rw [if_pos h3]
    simp only [Bool.and_eq_true, bne_iff_ne, ne_eq, beq_iff_eq]
    exact And.comm
  · rw [if_neg h3]
    have e : 3 - c / 2 ^ 24 % 256 = 0 := by omega
    rw [e]
    simp only [Bool.and_eq_true, bne_iff_ne, ne_eq, beq_iff_eq, Nat.mul_zero, pow_zero,
      Nat.div_one]
    exact And.comm

/-! ### C11 -/

/-- C11: (1) every value that a compact encoding unpacks to without the negative and
overflow flags packs and unpacks to itself, `SetCompact(GetCompact(x)) = x`; these are
the values below `2 ^ 256` with at most 23 significant bits above a byte boundary (2).
(3) Every canonical (minimal) non-negative, non-overflowing compact value `c` unpacks
and packs to itself, `GetCompact(SetCompact(c)) = c`, and (4) every packing is such a
value. (5) Unpacking sets the negative flag exactly when the sign bit is set on a
non-zero mantissa (the mantissa as aligned for sizes below 3), and (6) the overflow flag
exactly when the mantissa shifted by the exponent does not fit 256 bits. -/
theorem C11_compact_round_trip (c x k : Nat) :
    (SetCompactNegative c = false → SetCompactOverflow c = false →
      SetCompact (GetCompact (SetCompact c)) = SetCompact c) ∧
    (x < 2 ^ 256 → 2 ^ (8 * k) ∣ x → x < 2 ^ (8 * k + 23) →
      SetCompact (GetCompact x) = x) ∧
    (CanonicalCompact c → GetCompact (SetCompact c) = c) ∧
    (CanonicalCompact (GetCompact x) ∧ SetCompactNegative (GetCompact x) = false ∧
      SetCompactOverflow (GetCompact x) = false) ∧
    (SetCompactNegative c = true ↔
      c / 2 ^ 23 % 2 = 1 ∧ c % 2 ^ 23 / 2 ^ (8 * (3 - c / 2 ^ 24 % 256)) ≠ 0) ∧
    (SetCompactOverflow c = true ↔
      3 < c / 2 ^ 24 % 256 ∧
        2 ^ 256 ≤ c % 2 ^ 23 * 2 ^ (8 * (c / 2 ^ 24 % 256 - 3))) :=
  ⟨fun _ hov => SetCompact_GetCompact_SetCompact c hov,
    fun hx hk hxk => SetCompact_GetCompact_of_dvd x k hx hk hxk,
    GetCompact_SetCompact_of_canonical c,
    ⟨CanonicalCompact_GetCompact x, SetCompactNegative_GetCompact x,
      SetCompactOverflow_GetCompact x⟩,
    SetCompactNegative_iff c, SetCompactOverflow_iff c⟩

/-- Witness of C11: `0x1e0ffff0` is canonical and unpacks and packs to itself; its value
`0x0ffff0 * 2 ^ 216` packs and unpacks to itself. -/
theorem C11_compact_round_trip_witness :
    (CanonicalCompact 0x1e0ffff0 ∧ SetCompactNegative 0x1e0ffff0 = false ∧
      SetCompactOverflow 0x1e0ffff0 = false) ∧
      GetCompact (SetCompact 0x1e0ffff0) = 0x1e0ffff0 ∧
      SetCompact (GetCompact (SetCompact 0x1e0ffff0)) = SetCompact 0x1e0ffff0 :=
  ⟨by decide, (C11_compact_round_trip 0x1e0ffff0 0 0).2.2.1 (by decide),
    (C11_compact_round_trip 0x1e0ffff0 0 0).1 (by decide) (by decide)⟩

/-! ### C26 -/

theorem drop_of_getElem? (l : Chain) (n : Nat) (a : CBlockIndex) (h : l[n]? = some a) :
    ∃ r, l.drop n = a :: r := by
  induction l generalizing n with
  | nil => simp at h
  | cons b rest ih =>
    cases n with
    | zero =>
      simp at h
      exact ⟨rest, by simp [h]⟩
    | succ m =>
      simp at h
      obtain ⟨r, hr⟩ := ih m h
      exact ⟨r, by simpa using hr⟩

/-- C26: at an adjustment boundary (`(nHeight + 1) % I = 0`, `I > 0`)
`GetNextWorkRequiredLTC` returns `CalculateNextWorkRequired(tip, time)` where `time` is
the time of the ancestor `I - 1` entries before the tip when `nHeight + 1 = I` (the
first retarget) and of the ancestor `I` entries before the tip otherwise; on a
structurally valid chain that ancestor exists. -/
theorem C26_ltc_boundary (tip : CBlockIndex) (rest : Chain) (pblockTime : Int)
    (params : Params) (hI : 0 < params.DifficultyAdjustmentInterval)
    (hb : Int.tmod (tip.nHeight + 1) params.DifficultyAdjustmentInterval = 0) :
    (tip.nHeight + 1 = params.DifficultyAdjustmentInterval →
      ∀ anc, (tip :: rest)[(params.DifficultyAdjustmentInterval - 1).toNat]? = some anc →
        GetNextWorkRequiredLTC (tip :: rest) pblockTime params =
          CalculateNextWorkRequired tip anc.GetBlockTime params) ∧
    (tip.nHeight + 1 ≠ params.DifficultyAdjustmentInterval →
      ∀ anc, (tip :: rest)[params.DifficultyAdjustmentInterval.toNat]? = some anc →
        GetNextWorkRequiredLTC (tip :: rest) pblockTime params =
          CalculateNextWorkRequired tip anc.GetBlockTime params) ∧
    (ValidChain (tip :: rest) →
      ∃ anc, (tip :: rest)[(if tip.nHeight + 1 ≠ params.DifficultyAdjustmentInterval
        then params.DifficultyAdjustmentInterval
        else params.DifficultyAdjustmentInterval - 1).toNat]? = some anc) := by
  have hne : ¬ params.DifficultyAdjustmentInterval = 0 := by omega
  have hnb : ¬ Int.tmod (tip.nHeight + 1) params.DifficultyAdjustmentInterval ≠ 0 := by
    rw [hb]; simp
  refine ⟨?_, ?_, ?_⟩
  · intro hfirst anc hanc
    obtain ⟨r, hr⟩ := drop_of_getElem? _ _ _ hanc
    unfold GetNextWorkRequiredLTC
    dsimp only
    rw [if_neg hne, if_neg hnb, if_neg (by rw [hfirst]; simp), hr]
  · intro hfirst anc hanc
    obtain ⟨r, hr⟩ := drop_of_getElem? _ _ _ hanc
    unfold GetNextWorkRequiredLTC
    dsimp only
    rw [if_neg hne, if_neg hnb, if_pos hfirst, hr]
  · intro hv
    have hlen := ValidChain_length rest tip hv
    have hh := ValidChain_height_nonneg rest tip hv
    have hgo := goback_le_height tip.nHeight params.DifficultyAdjustmentInterval hh hI hb
    have hlt : (if tip.nHeight + 1 ≠ params.DifficultyAdjustmentInterval
        then params.DifficultyAdjustmentInterval
        else params.DifficultyAdjustmentInterval - 1).toNat < (tip :: rest).length := by
      omega
    exact ⟨_, List.getElem?_eq_getElem hlt⟩

/-- Witness of C26: with interval 4 the tip of `verifierChain` has height 3, the first
boundary; the elapsed time is measured from the ancestor 3 entries back, the genesis. -/
theorem C26_ltc_boundary_witness :
    (0 < demoParams.DifficultyAdjustmentInterval ∧
      Int.tmod ((powBlock 3 450 0x1e0ffff0).nHeight + 1)
        demoParams.DifficultyAdjustmentInterval = 0) ∧
      GetNextWorkRequiredLTC verifierChain 600 demoParams =
        CalculateNextWorkRequired (powBlock 3 450 0x1e0ffff0)
          (powBlock 0 0 0x1e0ffff0).GetBlockTime demoParams :=
  ⟨by decide,
    (C26_ltc_boundary (powBlock 3 450 0x1e0ffff0)
      [powBlock 2 300 0x1e0ffff0, powBlock 1 150 0x1e0ffff0, powBlock 0 0 0x1e0ffff0]
      600 demoParams (by decide) (by decide)).1 (by decide) (powBlock 0 0 0x1e0ffff0)
      (by decide)⟩

/-! ### The moving-average Hive walks -/

theorem hiveCount_cons (b : CBlockIndex) (l : List CBlockIndex) :
    hiveCount (b :: l) = (if b.IsHiveMined then 1 else 0) + hiveCount l := by
  unfold hiveCount
  cases hb : b.IsHiveMined <;> simp [List.filter_cons, hb]
  omega

theorem hiveSum_cons (b : CBlockIndex) (l : List CBlockIndex) :
    hiveSum (b :: l) = (if b.IsHiveMined then SetCompact b.nBits else 0) + hiveSum l := by
  unfold hiveSum
  cases hb : b.IsHiveMined <;> simp [List.filter_cons, hb]

theorem hiveCount_nil : hiveCount [] = 0 := rfl

theorem hiveSum_nil : hiveSum [] = 0 := rfl

theorem hiveAccStep_eq (b : CBlockIndex) (st : HiveAcc) (hst : st.beeHashTarget < U256) :
    hiveAccStep b st =
      ⟨(st.beeHashTarget + (if b.IsHiveMined then SetCompact b.nBits else 0)) % U256,
        st.hiveBlockCount + (if b.IsHiveMined then 1 else 0), st.totalBlockCount + 1⟩ := by
  unfold hiveAccStep
  cases hb : b.IsHiveMined
  · simp [Nat.mod_eq_of_lt hst]
  · simp [addU256]

theorem hive11Walk_cons (params : Params) (b : CBlockIndex) (tl : Chain) (st : HiveAcc)
    (htl : tl ≠ []) :
    hive11Walk params (b :: tl) st =
      if st.hiveBlockCount < params.hiveDifficultyWindow ∧
          b.nHeight ≥ params.minHiveCheckBlock then
        hive11Walk params tl (hiveAccStep b st)
      else st := by
  cases tl with
  | nil => exact absurd rfl htl
  | cons c rest => rw [hive11Walk]

theorem hive12Walk_cons (params : Params) (b : CBlockIndex) (tl : Chain) (st : HiveAcc)
    (htl : tl ≠ []) :
    hive12Walk params (b :: tl) st =
      if st.hiveBlockCount < params.hiveDifficultyWindow ∧
          params.IsMinotaurXEnabled (b :: tl) = true then
        hive12Walk params tl (hiveAccStep b st)
      else st := by
  cases tl with
  | nil => exact absurd rfl htl
  | cons c rest => rw [hive12Walk]

/-- The walk of `GetNextHive11WorkRequired` over `walked ++ stop :: more`: it walks the
entries of `walked` and stops on `stop`. -/
theorem hive11Walk_walked (params : Params) (walked : List CBlockIndex) (stop : CBlockIndex)
    (more : Chain) (st : HiveAcc) (hst : st.beeHashTarget < U256)
    (hcount : ∀ k, k < walked.length →
      st.hiveBlockCount + (hiveCount (walked.take k) : Int) < params.hiveDifficultyWindow)
    (hheight : ∀ e ∈ walked, e.nHeight ≥ params.minHiveCheckBlock)
    (hstop : ¬ (st.hiveBlockCount + (hiveCount walked : Int) < params.hiveDifficultyWindow) ∨
      more = [] ∨ stop.nHeight < params.minHiveCheckBlock) :
    hive11Walk params (walked ++ stop :: more) st =
      ⟨(st.beeHashTarget + hiveSum walked) % U256,
        st.hiveBlockCount + (hiveCount walked : Int),
        st.totalBlockCount + (walked.length : Int)⟩ := by
  induction walked generalizing st with
  | nil =>
    rw [List.nil_append]
    have hw : hive11Walk params (stop :: more) st = st := by
      cases more with
      | nil => unfold hive11Walk; rfl
      | cons c r =>
        rw [hive11Walk_cons _ _ _ _ (by simp), if_neg]
        rintro ⟨h1, h2⟩
        rw [hiveCount_nil, Nat.cast_zero, add_zero] at hstop
        rcases hstop with h | h | h
        · exact h h1
        · cases h
        · omega
    rw [hw, hiveSum_nil, hiveCount_nil, Nat.add_zero, Nat.mod_eq_of_lt hst]
    cases st
    simp
  | cons b w ih =>
    have h0 := hcount 0 (by simp)
    rw [List.take_zero, hiveCount_nil, Nat.cast_zero, add_zero] at h0
    have hb := hheight b (List.mem_cons_self _ _)
    rw [List.cons_append, hive11Walk_cons _ _ _ _ (by simp), if_pos ⟨h0, hb⟩,
      hiveAccStep_eq b st hst]
    rw [ih]
    · rw [hiveSum_cons, hiveCount_cons]
      dsimp only
      rw [Nat.mod_add_mod, Nat.add_assoc]
      congr 1
      · cases b.IsHiveMined <;> simp
        omega
      · simp only [List.length_cons]
        push_cast
        omega
    · exact Nat.mod_lt _ (by unfold U256; positivity)
    · intro k hk
      have := hcount (k + 1) (by simp; omega)
      rw [List.take_succ_cons, hiveCount_cons] at this
      dsimp only
      cases hbb : b.IsHiveMined <;> simp [hbb] at this ⊢ <;> omega
    · exact fun e he => hheight e (List.mem_cons_of_mem _ he)
    · rcases hstop with h | h | h
      · left
        rw [hiveCount_cons] at h
        dsimp only
        cases hbb : b.IsHiveMined <;> simp [hbb] at h ⊢ <;> omega
      · exact Or.inr (Or.inl h)
      · exact Or.inr (Or.inr h)

/-- The walk of `GetNextHive12WorkRequired` over `walked ++ stop :: more`: it walks the
entries of `walked` and stops on `stop`. -/
theorem hive12Walk_walked (params : Params) (walked : List CBlockIndex) (stop : CBlockIndex)
    (more : Chain) (st : HiveAcc) (hst : st.beeHashTarget < U256)
    (hcount : ∀ k, k < walked.length →
      st.hiveBlockCount + (hiveCount (walked.take k) : Int) < params.hiveDifficultyWindow)
    (hmx : ∀ k, k < walked.length →
      params.IsMinotaurXEnabled (walked.drop k ++ stop :: more) = true)
    (hstop : ¬ (st.hiveBlockCount + (hiveCount walked : Int) < params.hiveDifficultyWindow) ∨
      more = [] ∨ params.IsMinotaurXEnabled (stop :: more) = false) :
    hive12Walk params (walked ++ stop :: more) st =
      ⟨(st.beeHashTarget + hiveSum walked) % U256,
        st.hiveBlockCount + (hiveCount walked : Int),
        st.totalBlockCount + (walked.length : Int)⟩ := by
  induction walked generalizing st with
  | nil =>
    rw [List.nil_append]
    have hw : hive12Walk params (stop :: more) st = st := by
      cases more with
      | nil => unfold hive12Walk; rfl
      | cons c r =>
        rw [hive12Walk_cons _ _ _ _ (by simp), if_neg]
        rintro ⟨h1, h2⟩
        rw [hiveCount_nil, Nat.cast_zero, add_zero] at hstop
        rcases hstop with h | h | h
        · exact h h1
        · cases h
        · rw [h] at h2; cases h2
    rw [hw, hiveSum_nil, hiveCount_nil, Nat.add_zero, Nat.mod_eq_of_lt hst]
    cases st
    simp
  | cons b w ih =>
    have h0 := hcount 0 (by simp)
    rw [List.take_zero, hiveCount_nil, Nat.cast_zero, add_zero] at h0
    have hb := hmx 0 (by simp)
    rw [List.drop_zero, List.cons_append] at hb
    rw [List.cons_append, hive12Walk_cons _ _ _ _ (by simp), if_pos ⟨h0, hb⟩,
      hiveAccStep_eq b st hst]
    rw [ih]
    · rw [hiveSum_cons, hiveCount_cons]
      dsimp only
      rw [Nat.mod_add_mod, Nat.add_assoc]
      congr 1
      · cases b.IsHiveMined <;> simp
        omega
      · simp only [List.length_cons]
        push_cast
        omega
    · exact Nat.mod_lt _ (by unfold U256; positivity)
    · intro k hk
      have := hcount (k + 1) (by simp; omega)
      rw [List.take_succ_cons, hiveCount_cons] at this
      dsimp only
      cases hbb : b.IsHiveMined <;> simp [hbb] at this ⊢ <;> omega
    · intro k hk
      have := hmx (k + 1) (by simp; omega)
      rw [List.drop_succ_cons] at this
      exact this
    · rcases hstop with h | h | h
      · left
        rw [hiveCount_cons] at h
        dsimp only
        cases hbb : b.IsHiveMined <;> simp [hbb] at h ⊢ <;> omega
      · exact Or.inr (Or.inl h)
      · exact Or.inr (Or.inr h)

theorem GetNextHive11WorkRequired_walked (params : Params) (walked : List CBlockIndex)
    (stop : CBlockIndex) (more : Chain)
    (hcount : ∀ k, k < walked.length →
      (hiveCount (walked.take k) : Int) < params.hiveDifficultyWindow)
    (hheight : ∀ e ∈ walked, e.nHeight ≥ params.minHiveCheckBlock)
    (hstop : ¬ ((hiveCount walked : Int) < params.hiveDifficultyWindow) ∨
      more = [] ∨ stop.nHeight < params.minHiveCheckBlock) :
    GetNextHive11WorkRequired (walked ++ stop :: more) params =
      if (hiveCount walked : Int) = 0 then some (limitCompact params.powLimitHive)
      else hiveRescale params ⟨hiveSum walked % U256, hiveCount walked, walked.length⟩ := by
  have hw := hive11Walk_walked params walked stop more ⟨0, 0, 0⟩
    (by unfold U256; positivity)
    (fun k hk => by simpa using hcount k hk) hheight (by simpa using hstop)
  simp only [Nat.zero_add, zero_add] at hw
  have hc : ∃ t tl, walked ++ stop :: more = t :: tl := by
    cases walked with
    | nil => exact ⟨stop, more, rfl⟩
    | cons p ps => exact ⟨p, ps ++ stop :: more, rfl⟩
  obtain ⟨t, tl, hc⟩ := hc
  rw [hc] at hw ⊢
  unfold GetNextHive11WorkRequired
  simp only [hw]

theorem GetNextHive12WorkRequired_walked (params : Params) (walked : List CBlockIndex)
    (stop : CBlockIndex) (more : Chain)
    (hcount : ∀ k, k < walked.length →
      (hiveCount (walked.take k) : Int) < params.hiveDifficultyWindow)
    (hmx : ∀ k, k < walked.length →
      params.IsMinotaurXEnabled (walked.drop k ++ stop :: more) = true)
    (hstop : ¬ ((hiveCount walked : Int) < params.hiveDifficultyWindow) ∨
      more = [] ∨ params.IsMinotaurXEnabled (stop :: more) = false) :
    GetNextHive12WorkRequired (walked ++ stop :: more) params =
      if (hiveCount walked : Int) < params.hiveDifficultyWindow then
        some (limitCompact params.powLimitHive)
      else hiveRescale params ⟨hiveSum walked % U256, hiveCount walked, walked.length⟩ := by
  have hw := hive12Walk_walked params walked stop more ⟨0, 0, 0⟩
    (by unfold U256; positivity)
    (fun k hk => by simpa using hcount k hk) hmx (by simpa using hstop)
  simp only [Nat.zero_add, zero_add] at hw
  have hc : ∃ t tl, walked ++ stop :: more = t :: tl := by
    cases walked with
    | nil => exact ⟨stop, more, rfl⟩
    | cons p ps => exact ⟨p, ps ++ stop :: more, rfl⟩
  obtain ⟨t, tl, hc⟩ := hc
  rw [hc] at hw ⊢
  unfold GetNextHive12WorkRequired
  simp only [hw]

/-- Every non-empty chain splits into the entries the walk of
`GetNextHive11WorkRequired` walks and the entry it stops on. -/
theorem hive11Walk_split (params : Params) (chain : Chain) (hne : chain ≠ []) (h0 : Int) :
    ∃ (walked : List CBlockIndex) (stop : CBlockIndex) (more : Chain),
      chain = walked ++ stop :: more ∧
      (∀ k, k < walked.length →
        h0 + (hiveCount (walked.take k) : Int) < params.hiveDifficultyWindow) ∧
      (∀ e ∈ walked, e.nHeight ≥ params.minHiveCheckBlock) ∧
      (¬ (h0 + (hiveCount walked : Int) < params.hiveDifficultyWindow) ∨
        more = [] ∨ stop.nHeight < params.minHiveCheckBlock) := by
  induction chain generalizing h0 with
  | nil => exact absurd rfl hne
  | cons b rest ih =>
    cases rest with
    | nil =>
      exact ⟨[], b, [], rfl, fun k hk => by simp at hk, fun e he => by simp at he,
        Or.inr (Or.inl rfl)⟩
    | cons c r =>
      by_cases hcond : h0 < params.hiveDifficultyWindow ∧ b.nHeight ≥ params.minHiveCheckBlock
      · obtain ⟨walked, stop, more, hdec, hcnt, hht, hst⟩ :=
          ih (by simp) (h0 + (if b.IsHiveMined then 1 else 0))
        refine ⟨b :: walked, stop, more, by rw [hdec]; rfl, ?_, ?_, ?_⟩
        · intro k hk
          cases k with
          | zero =>
            rw [List.take_zero, hiveCount_nil]
            simpa using hcond.1
          | succ k =>
            have := hcnt k (by simpa using hk)
            rw [List.take_succ_cons, hiveCount_cons]
            cases hbb : b.IsHiveMined <;> simp [hbb] at this ⊢ <;> omega
        · intro e he
          rcases List.mem_cons.mp he with rfl | he
          · exact hcond.2
          · exact hht e he
        · rcases hst with h | h | h
          · left
            rw [hiveCount_cons]
            cases hbb : b.IsHiveMined <;> simp [hbb] at h ⊢ <;> omega
          · exact Or.inr (Or.inl h)
          · exact Or.inr (Or.inr h)
      · refine ⟨[], b, c :: r, rfl, fun k hk => by simp at hk, fun e he => by simp at he, ?_⟩
        rw [hiveCount_nil, Nat.cast_zero, add_zero]
        by_cases h1 : h0 < params.hiveDifficultyWindow
        · right; right
          by_contra h2
          exact hcond ⟨h1, by omega⟩
        · exact Or.inl h1

/-! ### C21 -/

theorem hiveRescale_eq (params : Params) (sum h total : Nat) (hh : 0 < h)
    (hS : 0 < params.hiveBlockSpacingTarget)
    (hhS : (h : Int) * params.hiveBlockSpacingTarget < 2 ^ 31)
    (htot : (total : Int) < 2 ^ 32) (hprod : sum / h * total < 2 ^ 256) :
    hiveRescale params ⟨sum, h, total⟩ =
      some (GetCompact (min (UintToArith256 params.powLimitHive)
        (sum / h * total / (h * params.hiveBlockSpacingTarget.toNat)))) := by
  obtain ⟨s, hs⟩ : ∃ s : Nat, params.hiveBlockSpacingTarget = (s : Int) :=
    ⟨params.hiveBlockSpacingTarget.toNat, by omega⟩
  have hs0 : 0 < s := by omega
  have hh64 : (h : Int) < 2 ^ 64 := by
    rw [hs] at hhS
    have : (h : Int) * 1 ≤ (h : Int) * (s : Int) :=
      Int.mul_le_mul_of_nonneg_left (by omega) (by omega)
    omega
  have hpos : 0 < (h : Int) * params.hiveBlockSpacingTarget := by
    rw [hs]
    have : (0 : Int) < (h : Int) := by omega
    positivity
  unfold hiveRescale
  dsimp only
  rw [divU64_eq _ _ (by omega) hh64]
  dsimp only
  rw [toInt32_of_bounds _ (by omega) hhS]
  rw [divU64_eq _ _ hpos (by omega)]
  dsimp only
  rw [clampCompact_eq_min]
  unfold mulU32
  rw [Int.emod_eq_of_lt (by omega) htot, Int.toNat_ofNat, Int.toNat_ofNat,
    Nat.mod_eq_of_lt (by unfold U256; exact hprod)]
  have e : ((h : Int) * params.hiveBlockSpacingTarget).toNat =
      h * params.hiveBlockSpacingTarget.toNat := by
    rw [hs]
    rw [← Nat.cast_mul, Int.toNat_ofNat, Int.toNat_ofNat]
  rw [e]

/-- Counterexample to C21 as stated: on `sparseHiveChain` the walk finds `h = 2`
Hive-mined blocks, both at the floor target, among `total = 17` entries walked; the
formula gives `min(floor, avg * 17 / 4)`, the floor `0x200fffff`, but the 256-bit product
`avg * 17` wraps and `GetNextHive11WorkRequired` returns `0x2003fffb`. -/
theorem C21_product_wraps :
    hiveCount (sparseHiveChain.take 17) = 2 ∧ (sparseHiveChain.take 17).length = 17 ∧
      sparseHiveChain.drop 17 = [powBlock 0 0 0x1e0ffff0] ∧
      GetCompact (min (UintToArith256 demoParams.powLimitHive)
        (hiveSum (sparseHiveChain.take 17) / 2 * 17 / (2 * 2))) = 0x200fffff ∧
      GetNextHive11WorkRequired sparseHiveChain demoParams = some 0x2003fffb := by
  decide

/-- C21, amended: let the chain be `walked ++ stop :: more`, where every entry of
`walked` is at height `>= minHiveCheckBlock` and is preceded in `walked` by fewer than
`hiveDifficultyWindow` Hive-mined entries, and the walk stops on `stop` (the window is
full, or `stop` has no predecessor, or its height is below `minHiveCheckBlock`); every
non-empty chain splits so. With `h` the number of Hive-mined entries of `walked`, `sum`
the sum of their unpacked targets and `total` the length of `walked`,
`GetNextHive11WorkRequired` returns the floor if `h = 0`, and otherwise, for a window
partly or wholly filled, the compact encoding of
`min(floor, floor(floor(sum / h) * total / (h * hiveBlockSpacingTarget)))`, provided
`sum` and the product `floor(sum / h) * total` fit 256 bits, the spacing is positive and
`total` and the divisor `h * hiveBlockSpacingTarget`, which the code keeps in `int`, are
below `2 ^ 31`. -/
theorem C21_hive11_sma (params : Params) (walked : List CBlockIndex) (stop : CBlockIndex)
    (more : Chain)
    (hcount : ∀ k, k < walked.length →
      (hiveCount (walked.take k) : Int) < params.hiveDifficultyWindow)
    (hheight : ∀ e ∈ walked, e.nHeight ≥ params.minHiveCheckBlock)
    (hstop : ¬ ((hiveCount walked : Int) < params.hiveDifficultyWindow) ∨
      more = [] ∨ stop.nHeight < params.minHiveCheckBlock) :
    (hiveCount walked = 0 →
      GetNextHive11WorkRequired (walked ++ stop :: more) params =
        some (limitCompact params.powLimitHive)) ∧
    (0 < hiveCount walked → 0 < params.hiveBlockSpacingTarget →
      (hiveCount walked : Int) * params.hiveBlockSpacingTarget < 2 ^ 31 →
      (walked.length : Int) < 2 ^ 31 →
      hiveSum walked < 2 ^ 256 →
      hiveSum walked / hiveCount walked * walked.length < 2 ^ 256 →
      GetNextHive11WorkRequired (walked ++ stop :: more) params =
        some (GetCompact (min (UintToArith256 params.powLimitHive)
          (hiveSum walked / hiveCount walked * walked.length /
            (hiveCount walked * params.hiveBlockSpacingTarget.toNat))))) ∧
    (∀ chain : Chain, chain ≠ [] →
      ∃ (walked2 : List CBlockIndex) (stop2 : CBlockIndex) (more2 : Chain),
        chain = walked2 ++ stop2 :: more2 ∧
        (∀ k, k < walked2.length →
          (hiveCount (walked2.take k) : Int) < params.hiveDifficultyWindow) ∧
        (∀ e ∈ walked2, e.nHeight ≥ params.minHiveCheckBlock) ∧
        (¬ ((hiveCount walked2 : Int) < params.hiveDifficultyWindow) ∨
          more2 = [] ∨ stop2.nHeight < params.minHiveCheckBlock)) := by
  have hres := GetNextHive11WorkRequired_walked params walked stop more hcount hheight hstop
  refine ⟨?_, ?_, ?_⟩
  · intro h0
    rw [hres, if_pos (by rw [h0]; rfl)]
  · intro hh hS hhS htot hsum hprod
    rw [hres, if_neg (by omega), Nat.mod_eq_of_lt (by unfold U256; exact hsum)]
    exact hiveRescale_eq params _ _ _ hh hS hhS (by omega) hprod
  · intro chain hne
    obtain ⟨w, s, m, h1, h2, h3, h4⟩ := hive11Walk_split params chain hne 0
    exact ⟨w, s, m, h1, fun k hk => by simpa using h2 k hk, h3, by simpa using h4⟩

/-- Witness of C21: on `lockedChain` the window of 2 is filled within 3 entries walked;
nothing wraps and the result is the compact encoding of `min(floor, avg * 3 / 4)`. -/
theorem C21_hive11_sma_witness :
    GetNextHive11WorkRequired lockedChain demoParams =
      some (GetCompact (min (UintToArith256 demoParams.powLimitHive)
        (hiveSum (lockedChain.take 3) / 2 * 3 / (2 * 2)))) :=
  (C21_hive11_sma demoParams (lockedChain.take 3) (powBlock 20 3000 0x1e0ffff0)
    [powBlock 19 2850 0x1e0ffff0] (by decide) (by decide) (by decide)).2.1
    (by decide) (by decide) (by decide) (by decide) (by decide) (by decide)

/-! ### C22 -/

/-- C22: let the chain be `walked ++ stop :: more`, every entry of `walked` preceded in
`walked` by fewer than `hiveDifficultyWindow` Hive-mined entries and with MinotaurX
enabled at it. (1) If the walk stops on `stop` because it has no predecessor or
MinotaurX is not enabled at it, and fewer than `hiveDifficultyWindow` Hive-mined entries
were found, `GetNextHive12WorkRequired` returns the floor. (2) If the whole window
(`hiveDifficultyWindow > 0` Hive-mined entries) was found and every walked entry also
has height `>= minHiveCheckBlock`, `GetNextHive12WorkRequired` returns exactly what
`GetNextHive11WorkRequired` returns for the same tip. -/
theorem C22_locked_window (params : Params) (walked : List CBlockIndex) (stop : CBlockIndex)
    (more : Chain)
    (hcount : ∀ k, k < walked.length →
      (hiveCount (walked.take k) : Int) < params.hiveDifficultyWindow)
    (hmx : ∀ k, k < walked.length →
      params.IsMinotaurXEnabled (walked.drop k ++ stop :: more) = true) :
    ((more = [] ∨ params.IsMinotaurXEnabled (stop :: more) = false) →
      (hiveCount walked : Int) < params.hiveDifficultyWindow →
      GetNextHive12WorkRequired (walked ++ stop :: more) params =
        some (limitCompact params.powLimitHive)) ∧
    ((hiveCount walked : Int) = params.hiveDifficultyWindow →
      0 < params.hiveDifficultyWindow →
      (∀ e ∈ walked, e.nHeight ≥ params.minHiveCheckBlock) →
      GetNextHive12WorkRequired (walked ++ stop :: more) params =
        GetNextHive11WorkRequired (walked ++ stop :: more) params) := by
  refine ⟨?_, ?_⟩
  · intro hstop hlt
    rw [GetNextHive12WorkRequired_walked params walked stop more hcount hmx (Or.inr hstop),
      if_pos hlt]
  · intro hfull hpos hheight
    rw [GetNextHive12WorkRequired_walked params walked stop more hcount hmx
        (Or.inl (by omega)),
      GetNextHive11WorkRequired_walked params walked stop more hcount hheight
        (Or.inl (by omega)),
      if_neg (by omega), if_neg (by omega)]

/-- Witness of C22: on `lockedChain` (MinotaurX enabled from height 20, window 2) the
window is found within the three most recent entries and both variants return
`0x1e0bfff4`. -/
theorem C22_locked_window_witness :
    GetNextHive11WorkRequired lockedChain demoParams = some 0x1e0bfff4 ∧
      GetNextHive12WorkRequired lockedChain demoParams =
        GetNextHive11WorkRequired lockedChain demoParams :=
  ⟨by decide,
    (C22_locked_window demoParams (lockedChain.take 3) (powBlock 20 3000 0x1e0ffff0)
      [powBlock 19 2850 0x1e0ffff0] (by decide) (by decide)).2 (by decide) (by decide)
      (by decide)⟩

/-! ### C24 -/

theorem lwmaWalk_cons (powType need : Nat) (b : CBlockIndex) (tl : Chain)
    (acc : List CBlockIndex) (htl : tl ≠ []) :
    lwmaWalk powType need (b :: tl) acc =
      if b.nVersion ≥ 0x20000000 then LwmaWalk.forkpoint
      else if (b.IsHiveMined || b.GetPoWType != powType) = true then
        lwmaWalk powType need tl acc
      else if need ≤ 1 then LwmaWalk.window (b :: acc)
      else lwmaWalk powType (need - 1) tl (b :: acc) := by
  cases tl with
  | nil => exact absurd rfl htl
  | cons c rest => rw [lwmaWalk]

/-- The walk of lines 60-82 over `seg ++ x :: rest`, all entries of `seg` below the fork
version: it skips the entries of `seg` that are Hive-mined or of another PoW type and
collects the others. -/
theorem lwmaWalk_collect (powType need : Nat) (seg : List CBlockIndex) (x : CBlockIndex)
    (rest : Chain) (acc : List CBlockIndex)
    (hver : ∀ b ∈ seg, b.nVersion < 0x20000000) :
    (x.nVersion ≥ 0x20000000 → wantedCount powType seg < need →
      lwmaWalk powType need (seg ++ x :: rest) acc = LwmaWalk.forkpoint) ∧
    (x.nVersion < 0x20000000 → (x.IsHiveMined || x.GetPoWType != powType) = false →
      wantedCount powType seg + 1 = need →
      lwmaWalk powType need (seg ++ x :: rest) acc =
        LwmaWalk.window (x :: (seg.filter fun b =>
          !(b.IsHiveMined || b.GetPoWType != powType)).reverse ++ acc)) := by
  induction seg generalizing need acc with
  | nil =>
    constructor
    · intro hx _
      rw [List.nil_append]
      unfold lwmaWalk
      rw [if_pos hx]
    · intro hx hw hn
      rw [List.nil_append]
      unfold lwmaWalk
      have hn1 : need ≤ 1 := by
        simp only [wantedCount, List.filter_nil, List.length_nil] at hn
        omega
      rw [if_neg (by omega), if_neg (by rw [hw]; simp), if_pos hn1]
      simp
  | cons b s ih =>
    have hb := hver b (List.mem_cons_self _ _)
    have hs : ∀ c ∈ s, c.nVersion < 0x20000000 := fun c hc => hver c (List.mem_cons_of_mem _ hc)
    rw [List.cons_append, lwmaWalk_cons _ _ _ _ _ (by simp), if_neg (by omega)]
    by_cases hskip : (b.IsHiveMined || b.GetPoWType != powType) = true
    · rw [if_pos hskip, wantedCount_cons_skip powType b s hskip,
        List.filter_cons_of_neg (by simp [hskip])]
      exact ih need acc hs
    · rw [if_neg hskip, wantedCount_cons_take powType b s hskip,
        List.filter_cons_of_pos (by simpa using hskip)]
      constructor
      · intro hx hlt
        rw [if_neg (by omega)]
        exact (ih (need - 1) (b :: acc) hs).1 hx (by omega)
      · intro hx hw hn
        rw [if_neg (by omega)]
        rw [(ih (need - 1) (b :: acc) hs).2 hx hw (by omega)]
        simp

/-- Counterexample to C24 as stated: on `mixedChain` (window 3, tip height 4, no stall
escape) the walk meets the Hive-mined entry of height 3 after collecting one block; it
does not return the floor `0x1d00ffff` but skips the entry, collects the blocks of
heights 4, 2 and 1 and returns `0x1c0aa863`. -/
theorem C24_hive_block_skipped :
    (hiveBlock 3 450 0x1c0fffff).IsHiveMined = true ∧
      lwmaWalk 0 3 mixedChain [] = LwmaWalk.window
        [powBlock 1 150 0x1c0fffff, powBlock 2 300 0x1c0fffff, powBlock 4 600 0x1c0fffff] ∧
      limitCompact (demoParams.powTypeLimits 0) = 0x1d00ffff ∧
      GetNextWorkRequiredLWMA mixedChain 750 demoParams 0 = some 0x1c0aa863 := by
  decide

/-- C24, amended: with `N >= 1`, tip height `>= N` and no stall escape, let the chain be
`seg ++ x :: rest` with every entry of `seg` of version below `0x20000000`. (1) If `x`
has version `>= 0x20000000` and `seg` holds fewer than `N` blocks of the requested PoW
type that are not Hive-mined, `GetNextWorkRequiredLWMA` returns the floor. (2) If `x` is
the `N`-th such block, the walk skips the Hive-mined entries and the entries of another
PoW type of `seg` and collects exactly the `N` most recent blocks of the requested type
that are not Hive-mined; `x`, the oldest of them, supplies the starting timestamp of
lines 83-117. -/
theorem C24_lwma_window (params : Params) (powType : Nat) (seg : List CBlockIndex)
    (x : CBlockIndex) (rest : Chain) (tip : CBlockIndex) (more : Chain) (pblockTime : Int)
    (hchain : seg ++ x :: rest = tip :: more)
    (hN : 1 ≤ params.lwmaAveragingWindow)
    (hheight : params.lwmaAveragingWindow ≤ tip.nHeight)
    (hstall : params.fPowAllowMinDifficultyBlocks = false ∨
      pblockTime ≤ tip.GetBlockTime + params.nPowTargetSpacing * 2 * 10)
    (hver : ∀ b ∈ seg, b.nVersion < 0x20000000) :
    (x.nVersion ≥ 0x20000000 →
      (wantedCount powType seg : Int) < params.lwmaAveragingWindow →
      GetNextWorkRequiredLWMA (seg ++ x :: rest) pblockTime params powType =
        some (limitCompact (params.powTypeLimits powType))) ∧
    (x.nVersion < 0x20000000 → (x.IsHiveMined || x.GetPoWType != powType) = false →
      (wantedCount powType seg : Int) + 1 = params.lwmaAveragingWindow →
      lwmaWalk powType params.lwmaAveragingWindow.toNat (seg ++ x :: rest) [] =
        LwmaWalk.window (x :: (seg.filter fun b =>
          !(b.IsHiveMined || b.GetPoWType != powType)).reverse) ∧
      GetNextWorkRequiredLWMA (seg ++ x :: rest) pblockTime params powType =
        lwmaFinish (params.nPowTargetSpacing * 2) params.lwmaAveragingWindow
          (Int.tdiv (params.lwmaAveragingWindow * (params.lwmaAveragingWindow + 1) *
            (params.nPowTargetSpacing * 2)) 2)
          (params.powTypeLimits powType) x.GetBlockTime
          (x :: (seg.filter fun b =>
            !(b.IsHiveMined || b.GetPoWType != powType)).reverse)) := by
  have hst : (params.fPowAllowMinDifficultyBlocks &&
      decide (pblockTime > tip.GetBlockTime + params.nPowTargetSpacing * 2 * 10)) = false := by
    rcases hstall with h | h
    · rw [h]; rfl
    · have : decide (pblockTime > tip.GetBlockTime + params.nPowTargetSpacing * 2 * 10)
          = false := by simpa using h
      rw [this]; simp
  obtain ⟨hfork, hwin⟩ :=
    lwmaWalk_collect powType params.lwmaAveragingWindow.toNat seg x rest [] hver
  constructor
  · intro hx hlt
    have hw := hfork hx (by omega)
    rw [hchain] at hw ⊢
    unfold GetNextWorkRequiredLWMA
    simp only [hst, Bool.false_eq_true, if_false]
    rw [if_neg (by omega), if_neg (by omega), hw]
  · intro hx hwant hn
    have hw := hwin hx hwant (by omega)
    rw [List.append_nil] at hw
    refine ⟨hw, ?_⟩
    rw [hchain] at hw ⊢
    unfold GetNextWorkRequiredLWMA
    simp only [hst, Bool.false_eq_true, if_false]
    rw [if_neg (by omega), if_neg (by omega), hw]

/-- Witness of C24: on `mixedChain` with window 3 the segment of heights 4, 3, 2 holds two
wanted blocks and the entry of height 1 is the third; the window is the blocks of
heights 1, 2, 4. -/
theorem C24_lwma_window_witness :
    lwmaWalk 0 demoParams.lwmaAveragingWindow.toNat mixedChain [] =
      LwmaWalk.window
        [powBlock 1 150 0x1c0fffff, powBlock 2 300 0x1c0fffff, powBlock 4 600 0x1c0fffff] :=
  ((C24_lwma_window demoParams 0
    [powBlock 4 600 0x1c0fffff, hiveBlock 3 450 0x1c0fffff, powBlock 2 300 0x1c0fffff]
    (powBlock 1 150 0x1c0fffff) [powBlock 0 0 0x1c0fffff] (powBlock 4 600 0x1c0fffff)
    [hiveBlock 3 450 0x1c0fffff, powBlock 2 300 0x1c0fffff, powBlock 1 150 0x1c0fffff,
      powBlock 0 0 0x1c0fffff] 750 rfl (by decide) (by decide) (Or.inl rfl)
    (by decide)).2 (by decide) (by decide) (by decide)).1

/-! ### The forward loop of `GetNextWorkRequiredLWMA` -/

theorem lwmaLoop_general (T N k : Int) (hN0 : 0 < N) (hN1 : N < 2 ^ 64) (hk0 : 0 < k)
    (hk1 : k < 2 ^ 64) (l : List CBlockIndex) (st : LwmaAcc) (havg : st.avgTarget < U256) :
    ∃ st2, lwmaLoop T N k l st = some st2 ∧ st2.j = st.j + l.length ∧
      st2.sumWeightedSolvetimes = st.sumWeightedSolvetimes +
        weightedSum st.j (lwmaSolvetimes (6 * T) st.previousTimestamp l) ∧
      st2.avgTarget = (st.avgTarget + lwmaAvgTarget N k l) % U256 := by
  induction l generalizing st with
  | nil =>
    refine ⟨st, rfl, by simp, by simp [lwmaSolvetimes, weightedSum], ?_⟩
    simp [lwmaAvgTarget, Nat.mod_eq_of_lt havg]
  | cons b rest ih =>
    unfold lwmaLoop
    rw [lwmaStep_eq T N k hN0 hN1 hk0 hk1]
    dsimp only
    obtain ⟨st2, h1, h2, h3, h4⟩ := ih
      { previousTimestamp :=
          if b.GetBlockTime > st.previousTimestamp then b.GetBlockTime
          else st.previousTimestamp + 1,
        j := st.j + 1,
        sumWeightedSolvetimes := st.sumWeightedSolvetimes +
          min (6 * T) ((if b.GetBlockTime > st.previousTimestamp then b.GetBlockTime
            else st.previousTimestamp + 1) - st.previousTimestamp) * (st.j + 1),
        avgTarget := addU256 st.avgTarget (lwmaTerm N k b) }
      (by unfold addU256; exact Nat.mod_lt _ (by unfold U256; positivity))
    refine ⟨st2, h1, ?_, ?_, ?_⟩
    · rw [h2]; simp only [List.length_cons]; push_cast; ring
    · rw [h3]
      simp only [lwmaSolvetimes, weightedSum]
      ring
    · rw [h4, lwmaAvgTarget_cons]
      dsimp only [addU256]
      rw [Nat.mod_add_mod, Nat.add_assoc]

theorem lwmaSolvetimes_bounds (c : Int) (hc : 1 ≤ c) (prev : Int) (l : List CBlockIndex) :
    ∀ s ∈ lwmaSolvetimes c prev l, 1 ≤ s ∧ s ≤ c := by
  induction l generalizing prev with
  | nil => intro s hs; simp [lwmaSolvetimes] at hs
  | cons b rest ih =>
    intro s hs
    simp only [lwmaSolvetimes, List.mem_cons] at hs
    rcases hs with rfl | hs
    · constructor
      · split <;> omega
      · exact min_le_left _ _
    · exact ih _ s hs

theorem lwmaSolvetimes_length (c prev : Int) (l : List CBlockIndex) :
    (lwmaSolvetimes c prev l).length = l.length := by
  induction l generalizing prev with
  | nil => rfl
  | cons b rest ih => simp [lwmaSolvetimes, ih]

theorem weightedSum_bounds (c : Int) (ss : List Int) (j : Int) (hj : 0 ≤ j)
    (hs : ∀ s ∈ ss, 1 ≤ s ∧ s ≤ c) :
    (ss.length : Int) * (2 * j + ss.length + 1) ≤ 2 * weightedSum j ss ∧
      2 * weightedSum j ss ≤ c * ((ss.length : Int) * (2 * j + ss.length + 1)) := by
  induction ss generalizing j with
  | nil => simp [weightedSum]
  | cons s rest ih =>
    obtain ⟨hs1, hsc⟩ := hs s (List.mem_cons_self _ _)
    obtain ⟨hlo, hhi⟩ := ih (j + 1) (by omega) fun x hx => hs x (List.mem_cons_of_mem _ hx)
    simp only [weightedSum, List.length_cons]
    push_cast
    have hm : (0 : Int) ≤ (rest.length : Int) := Int.natCast_nonneg _
    constructor
    · nlinarith
    · nlinarith

theorem lwmaWalk_window_length (powType need : Nat) (chain : Chain) (acc l : List CBlockIndex)
    (hneed : 1 ≤ need) (h : lwmaWalk powType need chain acc = LwmaWalk.window l) :
    l.length = need + acc.length := by
  induction chain generalizing need acc with
  | nil => unfold lwmaWalk at h; cases h
  | cons b prev ih =>
    unfold lwmaWalk at h
    split at h
    · cases h
    · split at h
      · split at h
        · cases h
        · exact ih need acc hneed h
      · split at h
        · cases h
          simp only [List.length_cons]
          omega
        · split at h
          · cases h
          · have := ih (need - 1) (b :: acc) (by omega) h
            simp only [List.length_cons] at this
            omega

theorem lwmaFinish_eq (T N k : Int) (hN0 : 0 < N) (hN1 : N < 2 ^ 64) (hk0 : 0 < k)
    (hk1 : k < 2 ^ 64) (limit : Nat) (o : CBlockIndex) (w : List CBlockIndex) :
    lwmaFinish T N k limit o.GetBlockTime (o :: w) =
      some (clampCompact
        (mulU32 (lwmaAvgTarget N k (o :: w) % U256)
          (weightedSum 0 (lwmaSolvetimes (6 * T) o.GetBlockTime (o :: w)))) limit) := by
  obtain ⟨st, h1, -, h3, h4⟩ := lwmaLoop_general T N k hN0 hN1 hk0 hk1 (o :: w)
    ⟨o.GetBlockTime, 0, 0, 0⟩ (by unfold U256; positivity)
  simp only [Nat.zero_add, zero_add] at h3 h4
  unfold lwmaFinish
  rw [h1]
  dsimp only
  rw [h3, h4]
  unfold clampCompact limitCompact
  exact (apply_ite some _ _ _).symm

theorem lwma_weight_bounds (T : Int) (hT : 0 < T) (o : CBlockIndex) (w : List CBlockIndex) :
    (∀ s ∈ lwmaSolvetimes (6 * T) o.GetBlockTime (o :: w), 1 ≤ s ∧ s ≤ 6 * T) ∧
    (lwmaSolvetimes (6 * T) o.GetBlockTime (o :: w)).head? = some 1 ∧
    (((o :: w).length : Nat) : Int) * (((o :: w).length : Nat) + 1) ≤
      2 * weightedSum 0 (lwmaSolvetimes (6 * T) o.GetBlockTime (o :: w)) ∧
    2 * weightedSum 0 (lwmaSolvetimes (6 * T) o.GetBlockTime (o :: w)) ≤
      2 + 6 * T * ((((o :: w).length : Nat) : Int) * (((o :: w).length : Nat) + 1) - 2) := by
  have hall := lwmaSolvetimes_bounds (6 * T) (by omega) o.GetBlockTime (o :: w)
  have hfirst : lwmaSolvetimes (6 * T) o.GetBlockTime (o :: w) =
      1 :: lwmaSolvetimes (6 * T) (o.GetBlockTime + 1) w := by
    simp only [lwmaSolvetimes]
    rw [if_neg (by omega)]
    congr 1
    have : o.GetBlockTime + 1 - o.GetBlockTime = 1 := by omega
    rw [this]
    exact min_eq_right (by omega)
  refine ⟨hall, by rw [hfirst]; rfl, ?_⟩
  rw [hfirst]
  obtain ⟨hlo, hhi⟩ := weightedSum_bounds (6 * T)
    (lwmaSolvetimes (6 * T) (o.GetBlockTime + 1) w) 1 (by omega)
    (lwmaSolvetimes_bounds (6 * T) (by omega) _ w)
  rw [lwmaSolvetimes_length] at hlo hhi
  simp only [weightedSum, List.length_cons]
  push_cast
  have hm : (0 : Int) ≤ (w.length : Int) := Int.natCast_nonneg _
  constructor
  · nlinarith
  · nlinarith

/-! ### C29 -/

/-- C29: in `GetNextWorkRequiredLWMA` (spacing positive, `N >= 1`), for the window
`o :: w` (oldest first) that the walk collects and whatever its time stamps are, every
solve-time used by the forward loop lies in `[1, 6 T]` with `T = 2 * nPowTargetSpacing`,
the oldest block contributes the solve-time 1, the window has `N` blocks, and the
weighted sum `W` the loop ends with satisfies
`N (N + 1) / 2 <= W <= 1 + 6 T (N (N + 1) / 2 - 1)`; it is not zero. -/
theorem C29_lwma_solvetimes (params : Params) (powType : Nat) (chain : Chain)
    (o : CBlockIndex) (w : List CBlockIndex)
    (hS : 0 < params.nPowTargetSpacing) (hN : 1 ≤ params.lwmaAveragingWindow)
    (hk : params.lwmaAveragingWindow * (params.lwmaAveragingWindow + 1) *
      params.nPowTargetSpacing < 2 ^ 63)
    (hwalk : lwmaWalk powType params.lwmaAveragingWindow.toNat chain [] =
      LwmaWalk.window (o :: w)) :
    (((o :: w).length : Nat) : Int) = params.lwmaAveragingWindow ∧
    (∀ s ∈ lwmaSolvetimes (6 * (params.nPowTargetSpacing * 2)) o.GetBlockTime (o :: w),
      1 ≤ s ∧ s ≤ 6 * (params.nPowTargetSpacing * 2)) ∧
    (lwmaSolvetimes (6 * (params.nPowTargetSpacing * 2)) o.GetBlockTime (o :: w)).head? =
      some 1 ∧
    ∃ st, lwmaLoop (params.nPowTargetSpacing * 2) params.lwmaAveragingWindow
        (Int.tdiv (params.lwmaAveragingWindow * (params.lwmaAveragingWindow + 1) *
          (params.nPowTargetSpacing * 2)) 2) (o :: w)
        ⟨o.GetBlockTime, 0, 0, 0⟩ = some st ∧
      st.sumWeightedSolvetimes =
        weightedSum 0
          (lwmaSolvetimes (6 * (params.nPowTargetSpacing * 2)) o.GetBlockTime (o :: w)) ∧
      params.lwmaAveragingWindow * (params.lwmaAveragingWindow + 1) ≤
        2 * st.sumWeightedSolvetimes ∧
      2 * st.sumWeightedSolvetimes ≤
        2 + 6 * (params.nPowTargetSpacing * 2) *
          (params.lwmaAveragingWindow * (params.lwmaAveragingWindow + 1) - 2) ∧
      st.sumWeightedSolvetimes ≠ 0 := by
  have hlen := lwmaWalk_window_length powType _ chain [] _ (by omega) hwalk
  have hlenN : (((o :: w).length : Nat) : Int) = params.lwmaAveragingWindow := by
    rw [hlen]; simp only [List.length_nil, Nat.add_zero]; omega
  generalize hNdef : params.lwmaAveragingWindow = N at *
  generalize hSdef : params.nPowTargetSpacing = S at *
  have hkeq : Int.tdiv (N * (N + 1) * (S * 2)) 2 = N * (N + 1) * S := by
    rw [← mul_assoc]; exact Int.mul_tdiv_cancel _ (by norm_num)
  have hN1 : 0 < N + 1 := by omega
  have hk0 : 0 < N * (N + 1) * S := mul_pos (mul_pos (by omega) hN1) (by omega)
  have hNk : N ≤ N * (N + 1) * S := by
    have h1 : N * 1 ≤ N * (N + 1) := mul_le_mul_of_nonneg_left (by omega) (by omega)
    have h2 : N * (N + 1) * 1 ≤ N * (N + 1) * S :=
      mul_le_mul_of_nonneg_left (by omega) (le_of_lt (mul_pos (by omega) hN1))
    omega
  obtain ⟨hall, hhead, hlo, hhi⟩ := lwma_weight_bounds (S * 2) (by omega) o w
  rw [hlenN] at hlo hhi
  obtain ⟨st, h1, -, h3, -⟩ := lwmaLoop_general (S * 2) N (N * (N + 1) * S) (by omega)
    (by omega) hk0 (by omega) (o :: w) ⟨o.GetBlockTime, 0, 0, 0⟩ (by unfold U256; positivity)
  simp only [zero_add] at h3
  refine ⟨hlenN, hall, hhead, st, by rw [hkeq]; exact h1, h3, by rw [h3]; exact hlo,
    by rw [h3]; exact hhi, ?_⟩
  have hpos : 2 ≤ N * (N + 1) := by nlinarith
  rw [h3]
  omega

/-- Witness of C29: on `steadyChain` (window 3, spacing 150) the solve-times are 1, 149
and 150 and `W = 749`, between 6 and 9001. -/
theorem C29_lwma_solvetimes_witness :
    lwmaSolvetimes (6 * (demoParams.nPowTargetSpacing * 2))
        (powBlock 1 150 0x1c0fffff).GetBlockTime steadyWindow = [1, 149, 150] ∧
      ∃ st, lwmaLoop (demoParams.nPowTargetSpacing * 2) demoParams.lwmaAveragingWindow
          (Int.tdiv (demoParams.lwmaAveragingWindow * (demoParams.lwmaAveragingWindow + 1) *
            (demoParams.nPowTargetSpacing * 2)) 2) steadyWindow
          ⟨(powBlock 1 150 0x1c0fffff).GetBlockTime, 0, 0, 0⟩ = some st ∧
        st.sumWeightedSolvetimes ≠ 0 := by
  refine ⟨by decide, ?_⟩
  obtain ⟨-, -, -, st, h1, -, -, -, h5⟩ :=
    C29_lwma_solvetimes demoParams 0 steadyChain (powBlock 1 150 0x1c0fffff)
      [powBlock 2 300 0x1c0fffff, powBlock 3 450 0x1c0fffff] (by decide) (by decide)
      (by decide) (by decide)
  exact ⟨st, h1, h5⟩

/-! ### C25 -/

/-- Counterexample to C25 as stated: on `steadyChain` (window 3, `nPowTargetSpacing`
150, all solve-times within 6 spacings) the formula with the normalising constant
`N (N + 1) / 2 * nPowTargetSpacing = 900` gives `0x1c0d50c7`; the function divides by
`k = N (N + 1) / 2 * T` with `T = 2 * nPowTargetSpacing`, that is 1800, and returns
`0x1c06a863`. -/
theorem C25_normaliser_uses_doubled_spacing :
    lwmaWalk 0 demoParams.lwmaAveragingWindow.toNat steadyChain [] =
        LwmaWalk.window steadyWindow ∧
      lwmaSolvetimes (6 * demoParams.nPowTargetSpacing) 150 steadyWindow = [1, 149, 150] ∧
      3 * (3 + 1) / 2 * demoParams.nPowTargetSpacing = 900 ∧
      GetCompact (min (UintToArith256 (demoParams.powTypeLimits 0))
        (lwmaAvgTarget 3 900 steadyWindow *
          (weightedSum 0 (lwmaSolvetimes (6 * demoParams.nPowTargetSpacing) 150
            steadyWindow)).toNat)) = 0x1c0d50c7 ∧
      GetNextWorkRequiredLWMA steadyChain 600 demoParams 0 = some 0x1c06a863 := by
  decide

/-- C25, amended: for the window `o :: w` (oldest first) that the walk collects (spacing
positive, `N >= 1`, tip height `>= N`, no stall escape), with `T = 2 *
nPowTargetSpacing`, `W` the sum of the solve-times weighted 1 for the oldest block to
`N` for the newest, each solve-time limited to `6 T`, and `avg` the sum over the window
of `floor(floor(target / N) / k)` with `k = N (N + 1) / 2 * T`, the function returns the
compact encoding of `min(floor, avg * W)` provided the product fits 256 bits; in general
it returns the clamp of the product reduced to 256 bits. -/
theorem C25_lwma_formula (params : Params) (powType : Nat) (tip : CBlockIndex)
    (more : Chain) (pblockTime : Int) (o : CBlockIndex) (w : List CBlockIndex)
    (hS : 0 < params.nPowTargetSpacing) (hN : 1 ≤ params.lwmaAveragingWindow)
    (hk : 6 * (params.lwmaAveragingWindow * (params.lwmaAveragingWindow + 1) *
      params.nPowTargetSpacing) < 2 ^ 32)
    (hheight : params.lwmaAveragingWindow ≤ tip.nHeight)
    (hstall : params.fPowAllowMinDifficultyBlocks = false ∨
      pblockTime ≤ tip.GetBlockTime + params.nPowTargetSpacing * 2 * 10)
    (hwalk : lwmaWalk powType params.lwmaAveragingWindow.toNat (tip :: more) [] =
      LwmaWalk.window (o :: w)) :
    GetNextWorkRequiredLWMA (tip :: more) pblockTime params powType =
      some (clampCompact
        ((lwmaAvgTarget params.lwmaAveragingWindow
            (params.lwmaAveragingWindow * (params.lwmaAveragingWindow + 1) *
              params.nPowTargetSpacing) (o :: w) % U256 *
          (weightedSum 0 (lwmaSolvetimes (6 * (params.nPowTargetSpacing * 2))
            o.GetBlockTime (o :: w))).toNat) % U256)
        (params.powTypeLimits powType)) ∧
    (lwmaAvgTarget params.lwmaAveragingWindow
        (params.lwmaAveragingWindow * (params.lwmaAveragingWindow + 1) *
          params.nPowTargetSpacing) (o :: w) *
      (weightedSum 0 (lwmaSolvetimes (6 * (params.nPowTargetSpacing * 2))
        o.GetBlockTime (o :: w))).toNat < 2 ^ 256 →
      GetNextWorkRequiredLWMA (tip :: more) pblockTime params powType =
        some (GetCompact (min (UintToArith256 (params.powTypeLimits powType))
          (lwmaAvgTarget params.lwmaAveragingWindow
              (params.lwmaAveragingWindow * (params.lwmaAveragingWindow + 1) *
                params.nPowTargetSpacing) (o :: w) *
            (weightedSum 0 (lwmaSolvetimes (6 * (params.nPowTargetSpacing * 2))
              o.GetBlockTime (o :: w))).toNat)))) := by
  have hlen := lwmaWalk_window_length powType _ (tip :: more) [] _ (by omega) hwalk
  have hlenN : (((o :: w).length : Nat) : Int) = params.lwmaAveragingWindow := by
    rw [hlen]; simp only [List.length_nil, Nat.add_zero]; omega
  have hst : (params.fPowAllowMinDifficultyBlocks &&
      decide (pblockTime > tip.GetBlockTime + params.nPowTargetSpacing * 2 * 10)) = false := by
    rcases hstall with h | h
    · rw [h]; rfl
    · have : decide (pblockTime > tip.GetBlockTime + params.nPowTargetSpacing * 2 * 10)
          = false := by simpa using h
      rw [this]; simp
  have hrun : GetNextWorkRequiredLWMA (tip :: more) pblockTime params powType =
      lwmaFinish (params.nPowTargetSpacing * 2) params.lwmaAveragingWindow
        (Int.tdiv (params.lwmaAveragingWindow * (params.lwmaAveragingWindow + 1) *
          (params.nPowTargetSpacing * 2)) 2)
        (params.powTypeLimits powType) o.GetBlockTime (o :: w) := by
    unfold GetNextWorkRequiredLWMA
    simp only [hst, Bool.false_eq_true, if_false]
    rw [if_neg (by omega), if_neg (by omega), hwalk]
  generalize hNdef : params.lwmaAveragingWindow = N at *
  generalize hSdef : params.nPowTargetSpacing = S at *
  have hkeq : Int.tdiv (N * (N + 1) * (S * 2)) 2 = N * (N + 1) * S := by
    rw [← mul_assoc]; exact Int.mul_tdiv_cancel _ (by norm_num)
  have hN1 : 0 < N + 1 := by omega
  have hk0 : 0 < N * (N + 1) * S := mul_pos (mul_pos (by omega) hN1) (by omega)
  have hNk : N ≤ N * (N + 1) * S := by
    have h1 : N * 1 ≤ N * (N + 1) := mul_le_mul_of_nonneg_left (by omega) (by omega)
    have h2 : N * (N + 1) * 1 ≤ N * (N + 1) * S :=
      mul_le_mul_of_nonneg_left (by omega) (le_of_lt (mul_pos (by omega) hN1))
    omega
  obtain ⟨-, -, hlo, hhi⟩ := lwma_weight_bounds (S * 2) (by omega) o w
  rw [hlenN] at hlo hhi
  have hexp : 6 * (S * 2) * (N * (N + 1) - 2) = 12 * (N * (N + 1) * S) - 24 * S := by ring
  rw [hexp] at hhi
  have hpos : 2 ≤ N * (N + 1) := by nlinarith
  rw [hkeq, lwmaFinish_eq (S * 2) N (N * (N + 1) * S) (by omega) (by omega) hk0 (by omega)]
    at hrun
  generalize weightedSum 0 (lwmaSolvetimes (6 * (S * 2)) o.GetBlockTime (o :: w)) = W at *
  have hW0 : 1 ≤ W := by omega
  have hW1 : W < 2 ^ 32 := by omega
  have hmul : ∀ a : Nat, mulU32 a W = a * W.toNat % U256 := by
    intro a
    unfold mulU32
    rw [Int.emod_eq_of_lt (by omega) hW1]
  rw [hmul] at hrun
  refine ⟨hrun, ?_⟩
  intro hfit
  have hWn : 1 ≤ W.toNat := by omega
  have havg : lwmaAvgTarget N (N * (N + 1) * S) (o :: w) < U256 := by
    have : lwmaAvgTarget N (N * (N + 1) * S) (o :: w) * 1 ≤
        lwmaAvgTarget N (N * (N + 1) * S) (o :: w) * W.toNat := Nat.mul_le_mul_left _ hWn
    unfold U256
    omega
  rw [hrun, Nat.mod_eq_of_lt havg, Nat.mod_eq_of_lt (by unfold U256; exact hfit),
    clampCompact_eq_min]

/-- Witness of C25: on `steadyChain` the function returns the compact encoding of
`min(floor, avg * W)` with `k = 1800` and `W = 749`, the value `0x1c06a863`. -/
theorem C25_lwma_formula_witness :
    GetNextWorkRequiredLWMA steadyChain 600 demoParams 0 =
        some (GetCompact (min (UintToArith256 (demoParams.powTypeLimits 0))
          (lwmaAvgTarget 3 1800 steadyWindow * 749))) ∧
      GetCompact (min (UintToArith256 (demoParams.powTypeLimits 0))
        (lwmaAvgTarget 3 1800 steadyWindow * 749)) = 0x1c06a863 :=
  ⟨(C25_lwma_formula demoParams 0 (powBlock 3 450 0x1c0fffff)
      [powBlock 2 300 0x1c0fffff, powBlock 1 150 0x1c0fffff, powBlock 0 0 0x1c0fffff] 600
      (powBlock 1 150 0x1c0fffff) [powBlock 2 300 0x1c0fffff, powBlock 3 450 0x1c0fffff]
      (by decide) (by decide) (by decide) (by decide) (Or.inl rfl) (by decide)).2
      (by decide),
    by decide⟩

/-! ### The running average of `DarkGravityWave` -/

theorem skipHive_hive (b : CBlockIndex) (tl : Chain) (hb : b.IsHiveMined = true)
    (htl : tl ≠ []) : skipHive (b :: tl) = skipHive tl := by
  cases tl with
  | nil => exact absurd rfl htl
  | cons c r => rw [skipHive, if_pos hb]

theorem powTargets_cons_hive (b : CBlockIndex) (l : List CBlockIndex)
    (hb : b.IsHiveMined = true) : powTargets (b :: l) = powTargets l := by
  unfold powTargets
  rw [List.filter_cons_of_neg (by simp [hb])]

theorem powTargets_cons_pow (b : CBlockIndex) (l : List CBlockIndex)
    (hb : b.IsHiveMined = false) :
    powTargets (b :: l) = SetCompact b.nBits :: powTargets l := by
  unfold powTargets
  rw [List.filter_cons_of_pos (by simp [hb])]
  rfl

theorem dgwStep_eq (M n avg t : Nat) (hM : 25 * M < 2 ^ 256) (hn : n ≤ 24)
    (havg : n = 1 ∨ avg ≤ M) (ht : t ≤ M) :
    (if n = 1 then t else addU256 (mulU32 avg (n : Int)) t / (n + 1)) = dgwAvgStep n avg t ∧
      dgwAvgStep n avg t ≤ M := by
  unfold dgwAvgStep
  by_cases h1 : n = 1
  · rw [if_pos h1, if_pos h1]
    exact ⟨rfl, ht⟩
  · rw [if_neg h1, if_neg h1]
    have ha : avg ≤ M := by
      rcases havg with h | h
      · exact absurd h h1
      · exact h
    have hmul : avg * n ≤ M * n := Nat.mul_le_mul_right _ ha
    have hMn : M * n ≤ M * 24 := Nat.mul_le_mul_left _ hn
    have hmod : ((n : Int) % 2 ^ 32).toNat = n := by omega
    have hsum : avg * n + t ≤ (n + 1) * M := by
      have : (n + 1) * M = M * n + M := by ring
      omega
    constructor
    · unfold addU256 mulU32
      rw [hmod, Nat.mod_eq_of_lt (by unfold U256; omega),
        Nat.mod_eq_of_lt (by unfold U256; omega)]
    · exact Nat.div_le_of_le_mul hsum

/-- The loop of lines 148-168 on a chain `pre ++ first :: r` in which `first` is the
last block of the window: the running average follows the recurrence of the spec on the
targets of the entries that are not Hive-mined, and `pindex` ends on `first`. -/
theorem dgwLoop_window (M : Nat) (hM : 25 * M < 2 ^ 256) (pre : List CBlockIndex)
    (first : CBlockIndex) (r : Chain) (left n avg : Nat)
    (hn : n + left = 25) (hn1 : 1 ≤ n) (hpre : powCount pre + 1 = left)
    (hfirst : first.IsHiveMined = false)
    (hbound : ∀ t ∈ powTargets (pre ++ [first]), t ≤ M)
    (havg : n = 1 ∨ avg ≤ M) :
    dgwLoop 24 left n (pre ++ first :: r) avg =
      some (dgwAvgFrom n avg (powTargets (pre ++ [first])), first :: r) := by
  induction pre generalizing left n avg with
  | nil =>
    have hl : left = 1 := by rw [powCount_nil] at hpre; omega
    subst hl
    have hn24 : n = 24 := by omega
    have hstep := dgwStep_eq M n avg (SetCompact first.nBits) hM (by omega) havg
      (hbound _ (by rw [List.nil_append, powTargets_cons_pow _ _ hfirst]; simp))
    rw [List.nil_append, List.nil_append, powTargets_cons_pow _ _ hfirst]
    unfold dgwLoop
    rw [skipHive_pow first r hfirst]
    dsimp only
    rw [hstep.1, if_neg (by omega)]
    unfold dgwLoop
    simp [powTargets, dgwAvgFrom]
  | cons b p ih =>
    rw [List.cons_append, List.cons_append]
    obtain ⟨l, hl⟩ : ∃ l, left = l + 1 := ⟨left - 1, by omega⟩
    subst hl
    by_cases hb : b.IsHiveMined = true
    · rw [powTargets_cons_hive _ _ hb]
      rw [powCount_cons_hive b p hb] at hpre
      have hrec := ih (l + 1) n avg hn hn1 hpre
        (fun t ht => hbound t (by
          rw [List.cons_append, powTargets_cons_hive _ _ hb]; exact ht)) havg
      rw [← hrec]
      unfold dgwLoop
      rw [skipHive_hive b _ hb (by simp)]
    · have hbf : b.IsHiveMined = false := by simpa using hb
      rw [powTargets_cons_pow _ _ hbf]
      rw [powCount_cons_pow b p hbf] at hpre
      have hstep := dgwStep_eq M n avg (SetCompact b.nBits) hM (by omega) havg
        (hbound _ (by rw [List.cons_append, powTargets_cons_pow _ _ hbf]; simp))
      have hrec := ih l (n + 1) (dgwAvgStep n avg (SetCompact b.nBits)) (by omega) (by omega)
        (by omega)
        (fun t ht => hbound t (by
          rw [List.cons_append, powTargets_cons_pow _ _ hbf]
          exact List.mem_cons_of_mem _ ht)) (Or.inr hstep.2)
      unfold dgwLoop
      rw [skipHive_pow b _ hbf]
      dsimp only
      rw [hstep.1, if_pos (by omega)]
      cases hp : p ++ first :: r with
      | nil => simp at hp
      | cons d q =>
        dsimp only
        rw [← hp, hrec]
        rfl

/-! ### C27 -/

theorem powTargets_length_append (pre : List CBlockIndex) (first : CBlockIndex)
    (hfirst : first.IsHiveMined = false) :
    (powTargets (pre ++ [first])).length = powCount pre + 1 := by
  unfold powTargets powCount
  rw [List.length_map, List.filter_append, List.length_append,
    List.filter_cons_of_pos (by simp [hfirst])]
  simp

/-- Counterexample to C27 as stated: on a chain of 25 ordinary blocks that all store
the target `0x0fffff * 2 ^ 232` (`0x200fffff`) the recurrence of the claim keeps the
average at that target, but the 256-bit intermediate `avg * n + t` wraps from `n = 16`
on and the loop of `DarkGravityWave` ends on a different value. -/
theorem C27_intermediate_wraps :
    (∀ t ∈ powTargets ((dgwChain 0x200fffff 3600).take 24), t = SetCompact 0x200fffff) ∧
      dgwAvgFrom 1 0 (powTargets ((dgwChain 0x200fffff 3600).take 24)) =
        SetCompact 0x200fffff ∧
      2 ^ 256 ≤ SetCompact 0x200fffff * 16 + SetCompact 0x200fffff ∧
      (dgwLoop 24 24 1 (dgwChain 0x200fffff 3600) 0).map Prod.fst ≠
        some (SetCompact 0x200fffff) := by
  decide

/-- C27, amended: let the chain at the start of the loop be `pre ++ first :: r`, where
`pre` holds 23 entries that are not Hive-mined and `first` is not Hive-mined, and let
every one of these 24 window targets `t` satisfy `25 t < 2 ^ 256`. Then the loop of lines
148-168 ends on `first` with the running average of the recurrence `avg_1 = t_1`,
`avg_n = floor((avg_{n-1} * n + t_n) / (n + 1))`, and `DarkGravityWave` retargets from
it. It is not the arithmetic mean: on `skewChain` (targets 2400, 24, ..., 24) the running
average is 207 and the mean is 123. -/
theorem C27_running_average (pre : List CBlockIndex) (first : CBlockIndex) (r : Chain)
    (hpre : powCount pre = 23) (hfirst : first.IsHiveMined = false)
    (hbound : ∀ t ∈ powTargets (pre ++ [first]), 25 * t < 2 ^ 256) :
    (powTargets (pre ++ [first])).length = 24 ∧
    dgwLoop 24 24 1 (pre ++ first :: r) 0 =
      some (dgwAvgFrom 1 0 (powTargets (pre ++ [first])), first :: r) ∧
    (∀ (tip : CBlockIndex) (rest : Chain) (t : Int) (params : Params) (last : CBlockIndex)
      (prev : Chain),
      (params.fPowAllowMinDifficultyBlocks &&
        decide (t > tip.GetBlockTime + params.nPowTargetSpacing * 10)) = false →
      (if params.IsHive11Enabled (tip :: rest) = true then skipHive (tip :: rest)
        else some (tip :: rest)) = some (last :: prev) →
      last :: prev = pre ++ first :: r →
      ¬ last.nHeight - params.lastScryptBlock < 24 →
      DarkGravityWave (tip :: rest) t params =
        dgwRetarget params (dgwAvgFrom 1 0 (powTargets (pre ++ [first])))
          last.GetBlockTime first.GetBlockTime) ∧
    ((dgwLoop 24 24 1 skewChain 0).map Prod.fst = some 207 ∧
      dgwAvgFrom 1 0 (powTargets (skewChain.take 24)) = 207 ∧
      (powTargets (skewChain.take 24)).sum / 24 = 123) := by
  have hloop := dgwLoop_window ((2 ^ 256 - 1) / 25) (by norm_num) pre first r 24 1 0
    (by norm_num) (by norm_num) (by omega) hfirst
    (fun t ht => by
      have := hbound t ht
      omega)
    (Or.inl rfl)
  refine ⟨by rw [powTargets_length_append pre first hfirst, hpre], hloop, ?_, by decide⟩
  intro tip rest t params last prev hstall hskip hchain hheight
  exact DarkGravityWave_retarget tip rest t params last prev _ first r hstall hskip hheight
    (by rw [hchain]; exact hloop)

/-- Witness of C27: `skewChain` splits into 23 ordinary blocks and the 24th, all targets
small; the loop ends with the running average of the recurrence. -/
theorem C27_running_average_witness :
    dgwLoop 24 24 1 skewChain 0 =
      some (dgwAvgFrom 1 0 (powTargets (skewChain.take 24)), skewChain.drop 23) :=
  (C27_running_average (skewChain.take 23) (powBlock 1 150 0x01180000)
    [powBlock 0 0 0x01180000] (by decide) (by decide) (by decide)).2.1

/-! ### C30 -/

theorem dgwAvgFrom_const (t : Nat) (ts : List Nat) (n avg : Nat) (hn : 1 ≤ n)
    (havg : n = 1 ∨ avg = t) (hts : ∀ x ∈ ts, x = t) (hne : ts ≠ []) :
    dgwAvgFrom n avg ts = t := by
  induction ts generalizing n avg with
  | nil => exact absurd rfl hne
  | cons x rest ih =>
    have hx := hts x (List.mem_cons_self _ _)
    have hstep : dgwAvgStep n avg x = t := by
      unfold dgwAvgStep
      rw [hx]
      by_cases h1 : n = 1
      · rw [if_pos h1]
      · rw [if_neg h1]
        rcases havg with h | h
        · exact absurd h h1
        · rw [h]
          have : t * n + t = t * (n + 1) := by ring
          rw [this]
          exact Nat.mul_div_cancel _ (by omega)
    unfold dgwAvgFrom
    rw [hstep]
    cases rest with
    | nil => rfl
    | cons y r2 =>
      exact ih (n + 1) t (by omega) (Or.inr rfl)
        (fun z hz => hts z (List.mem_cons_of_mem _ hz)) (by simp)

theorem SteadyTimes_last (S t0 : Int) (l : List CBlockIndex) (z : CBlockIndex)
    (h : SteadyTimes S t0 (l ++ [z])) : z.GetBlockTime = t0 + l.length * S := by
  induction l generalizing t0 with
  | nil =>
    simp only [List.nil_append, SteadyTimes] at h
    simp [h.1]
  | cons a l ih =>
    simp only [List.cons_append, SteadyTimes] at h
    have := ih (t0 + S) h.2
    rw [this]
    simp only [List.length_cons]
    push_cast
    ring

theorem powCount_of_all_pow (l : List CBlockIndex) (h : ∀ b ∈ l, b.IsHiveMined = false) :
    powCount l = l.length := by
  induction l with
  | nil => rfl
  | cons b rest ih =>
    rw [powCount_cons_pow b rest (h b (List.mem_cons_self _ _)),
      ih fun x hx => h x (List.mem_cons_of_mem _ hx)]
    simp

theorem powTargets_of_all (tgt : Nat) (l : List CBlockIndex)
    (htgt : ∀ b ∈ l, SetCompact b.nBits = tgt) : ∀ x ∈ powTargets l, x = tgt := by
  intro x hx
  unfold powTargets at hx
  obtain ⟨b, hb, hbx⟩ := List.mem_map.mp hx
  rw [← hbx]
  exact htgt b (List.mem_filter.mp hb).1

/-- Counterexample to C30 as stated: with the minimum-difficulty escape configured
(`dgwStallParams`), the chain of 25 ordinary blocks that all store `0x1c0fffff` with
time stamps 150 s apart, and a candidate 1501 s after the tip, `DarkGravityWave` returns
the floor `0x1d03ffff`, not the compact encoding `0x1c0f5554` of `t * 23 S / (24 S)`. -/
theorem C30_stalled_candidate_gets_floor :
    ValidChain (dgwChain 0x1c0fffff 3600) ∧
      SetCompact 0x1c0fffff ≤ UintToArith256 dgwStallParams.powLimitSHA ∧
      SteadyTimes dgwStallParams.nPowTargetSpacing 150
        ((dgwChain 0x1c0fffff 3600).take 24).reverse ∧
      GetCompact (SetCompact 0x1c0fffff * (23 * 150) / (24 * 150)) = 0x1c0f5554 ∧
      DarkGravityWave (dgwChain 0x1c0fffff 3600) 5101 dgwStallParams = some 0x1d03ffff := by
  decide

/-- C30, amended: let the 24 most recent entries `pre ++ [first]` of the chain be
ordinary blocks with the same target `t <= powLimitSHA` and time stamps exactly
`S = nPowTargetSpacing` apart (`0 < S < 2 ^ 24`), the tip at least 24 blocks past
`lastScryptBlock`, and let the minimum-difficulty escape not apply (flag unset, or the
candidate at most `10 S` after the tip). With `25 t` and `t * 23 S` below `2 ^ 256`,
`DarkGravityWave` returns the compact encoding of `floor(t * 23 S / (24 S))`, which
unpacks to a value strictly below `t` whenever `t >= 1`. -/
theorem C30_gravity_steady_state (tip : CBlockIndex) (rest : Chain) (pblockTime : Int)
    (params : Params) (pre : List CBlockIndex) (first : CBlockIndex) (r : Chain)
    (tgt : Nat)
    (hchain : tip :: rest = pre ++ first :: r) (hlen : pre.length = 23)
    (hpow : ∀ b ∈ pre ++ [first], b.IsHiveMined = false)
    (htgt : ∀ b ∈ pre ++ [first], SetCompact b.nBits = tgt)
    (hsteady : SteadyTimes params.nPowTargetSpacing first.GetBlockTime
      (pre ++ [first]).reverse)
    (hS0 : 0 < params.nPowTargetSpacing) (hS1 : params.nPowTargetSpacing < 2 ^ 24)
    (hfloor : tgt ≤ UintToArith256 params.powLimitSHA)
    (h25 : 25 * tgt < 2 ^ 256)
    (hprod : tgt * (23 * params.nPowTargetSpacing).toNat < 2 ^ 256)
    (hheight : 24 ≤ tip.nHeight - params.lastScryptBlock)
    (hstall : params.fPowAllowMinDifficultyBlocks = false ∨
      pblockTime ≤ tip.GetBlockTime + params.nPowTargetSpacing * 10) :
    DarkGravityWave (tip :: rest) pblockTime params =
      some (GetCompact (tgt * (23 * params.nPowTargetSpacing).toNat /
        (24 * params.nPowTargetSpacing).toNat)) ∧
    (1 ≤ tgt →
      SetCompact (GetCompact (tgt * (23 * params.nPowTargetSpacing).toNat /
        (24 * params.nPowTargetSpacing).toNat)) < tgt) := by
  obtain ⟨p, hp⟩ : ∃ p, pre = tip :: p := by
    cases pre with
    | nil => simp at hlen
    | cons a p =>
      rw [List.cons_append] at hchain
      exact ⟨p, by rw [(List.cons.inj hchain).1]⟩
  have htip : tip.IsHiveMined = false := hpow tip (by rw [hp]; simp)
  have hfirst : first.IsHiveMined = false := hpow first (by simp)
  have hprepow : ∀ b ∈ pre, b.IsHiveMined = false :=
    fun b hb => hpow b (List.mem_append_left _ hb)
  have hst : (params.fPowAllowMinDifficultyBlocks &&
      decide (pblockTime > tip.GetBlockTime + params.nPowTargetSpacing * 10)) = false := by
    rcases hstall with h | h
    · rw [h]; rfl
    · have : decide (pblockTime > tip.GetBlockTime + params.nPowTargetSpacing * 10)
          = false := by simpa using h
      rw [this]; simp
  have hskip : (if params.IsHive11Enabled (tip :: rest) = true then skipHive (tip :: rest)
      else some (tip :: rest)) = some (tip :: rest) := by
    split
    · exact skipHive_pow tip rest htip
    · rfl
  have hall := powTargets_of_all tgt (pre ++ [first]) htgt
  have hloop := dgwLoop_window tgt h25 pre first r 24 1 0 (by norm_num) (by norm_num)
    (by rw [powCount_of_all_pow pre hprepow, hlen]) hfirst
    (fun t ht => le_of_eq (hall t ht)) (Or.inl rfl)
  have hne : powTargets (pre ++ [first]) ≠ [] := by
    intro h
    have := powTargets_length_append pre first hfirst
    rw [h] at this
    simp at this
  rw [dgwAvgFrom_const tgt _ 1 0 (by norm_num) (Or.inl rfl) hall hne] at hloop
  have hrun := DarkGravityWave_retarget tip rest pblockTime params tip rest tgt first r hst
    hskip (by omega) (by rw [hchain]; exact hloop)
  have hspan : tip.GetBlockTime - first.GetBlockTime = 23 * params.nPowTargetSpacing := by
    have hrev : (pre ++ [first]).reverse = (first :: p.reverse) ++ [tip] := by
      rw [hp]; simp
    rw [hrev] at hsteady
    have := SteadyTimes_last _ _ _ _ hsteady
    have hpl : (first :: p.reverse).length = 23 := by
      rw [hp] at hlen
      simp only [List.length_cons, List.length_reverse] at hlen ⊢
      omega
    rw [hpl] at this
    push_cast at this
    omega
  rw [dgwRetarget_eq params tgt _ _ hS0 hS1, hspan] at hrun
  have hclamp : clampTimespan (24 * params.nPowTargetSpacing)
      (23 * params.nPowTargetSpacing) = 23 * params.nPowTargetSpacing := by
    unfold clampTimespan
    omega
  rw [hclamp, Nat.mod_eq_of_lt (by unfold U256; exact hprod), clampCompact_eq_min] at hrun
  generalize hS : params.nPowTargetSpacing = S at *
  have ha : (23 * S).toNat < (24 * S).toNat := by omega
  have hb : 0 < (24 * S).toNat := by omega
  have hle : tgt * (23 * S).toNat / (24 * S).toNat ≤ tgt := by
    apply Nat.div_le_of_le_mul
    rw [Nat.mul_comm (24 * S).toNat tgt]
    exact Nat.mul_le_mul_left _ (le_of_lt ha)
  rw [Nat.min_eq_right (le_trans hle hfloor)] at hrun
  refine ⟨hrun, ?_⟩
  intro h1
  have hlt : tgt * (23 * S).toNat / (24 * S).toNat < tgt := by
    apply Nat.div_lt_of_lt_mul
    rw [Nat.mul_comm (24 * S).toNat tgt]
    exact Nat.mul_lt_mul_of_pos_left ha (by omega)
  exact lt_of_le_of_lt (le_trans (SetCompact_GetCompact_le _) (Nat.mod_le _ _)) hlt

/-- Witness of C30: the steady chain of 25 blocks storing `0x1c0fffff`, spacing 150,
with the candidate 150 s after the tip: the result is `0x1c0f5554`. -/
theorem C30_gravity_steady_state_witness :
    DarkGravityWave (dgwChain 0x1c0fffff 3600) 3750 dgwParams =
        some (GetCompact (SetCompact 0x1c0fffff * (23 * dgwParams.nPowTargetSpacing).toNat /
          (24 * dgwParams.nPowTargetSpacing).toNat)) ∧
      GetCompact (SetCompact 0x1c0fffff * (23 * dgwParams.nPowTargetSpacing).toNat /
        (24 * dgwParams.nPowTargetSpacing).toNat) = 0x1c0f5554 :=
  ⟨(C30_gravity_steady_state (powBlock 24 3600 0x1c0fffff)
      ((List.range 24).reverse.map fun (i : Nat) =>
        powBlock (Int.ofNat i) (150 * i) 0x1c0fffff)
      3750 dgwParams ((dgwChain 0x1c0fffff 3600).take 23) (powBlock 1 150 0x1c0fffff)
      [powBlock 0 0 0x1c0fffff] (SetCompact 0x1c0fffff) (by decide) (by decide) (by decide)
      (by decide) (by decide) (by decide) (by decide) (by decide) (by decide) (by decide)
      (by decide) (Or.inl rfl)).1,
    by decide⟩

/-! ### C28 -/

/-- Packing and unpacking rounds a 256-bit value down to a multiple of `256 ^ k`, where
`k = 0` for values below `2 ^ 23` and `2 ^ (8 k + 15) <= y < 2 ^ (8 k + 23)` otherwise. -/
theorem SetCompact_GetCompact_floor (y : Nat) (hy : y < 2 ^ 256) :
    ∃ k, y < 2 ^ (8 * k + 23) ∧ (k = 0 ∨ 2 ^ (8 * k + 15) ≤ y) ∧
      SetCompact (GetCompact y) = y / 2 ^ (8 * k) * 2 ^ (8 * k) := by
  by_cases h0 : y = 0
  · refine ⟨0, by rw [h0]; norm_num, Or.inl rfl, ?_⟩
    rw [h0, SetCompact_GetCompact_zero]
    simp
  obtain ⟨j, hj1, hj32, hlo, hhi, -⟩ := nSize_bounds y hy h0
  obtain ⟨q, hq24, hq16, hqs, hql, hc⟩ := GetCompact_of_bounds y j hy hlo hhi hj1
  rw [hc]
  by_cases h3 : j ≤ 3
  · have hq := hqs h3
    by_cases hbit : 2 ^ 23 ≤ q
    · rw [if_pos hbit, SetCompact_enc (q / 2 ^ 8) (j + 1) (by omega) (by omega)]
      interval_cases j
      · refine ⟨0, by norm_num at hhi ⊢; omega, Or.inl rfl, ?_⟩
        norm_num at hq hhi ⊢
        omega
      · refine ⟨0, by norm_num at hhi ⊢; omega, Or.inl rfl, ?_⟩
        norm_num at hq hhi ⊢
        omega
      · refine ⟨1, by norm_num at hhi ⊢; omega, Or.inr (by norm_num at hq hbit ⊢; omega), ?_⟩
        norm_num at hq hhi ⊢
        rw [hq]
        unfold U256
        omega
    · rw [if_neg hbit, SetCompact_enc q j (by omega) (by omega), if_pos h3]
      have hyq : y ≤ q := by
        rw [hq]
        exact Nat.le_mul_of_pos_right _ (by positivity)
      refine ⟨0, by norm_num at hbit ⊢; omega, Or.inl rfl, ?_⟩
      rw [hq]
      simp only [Nat.mul_zero, pow_zero, Nat.div_one, Nat.mul_one]
      exact Nat.mul_div_cancel _ (by positivity)
  · have hq := hql (by omega)
    have hqle : q * 2 ^ (8 * (j - 3)) ≤ y := by rw [hq]; exact Nat.div_mul_le_self _ _
    have hylt : y < (q + 1) * 2 ^ (8 * (j - 3)) := by
      rw [hq, Nat.mul_comm]
      exact Nat.lt_mul_div_succ y (by positivity)
    by_cases hbit : 2 ^ 23 ≤ q
    · rw [if_pos hbit, SetCompact_enc (q / 2 ^ 8) (j + 1) (by omega) (by omega),
        if_neg (by omega)]
      have he : j + 1 - 3 = j - 2 := by omega
      have hqq : q / 2 ^ 8 = y / 2 ^ (8 * (j - 2)) := by
        rw [hq, Nat.div_div_eq_div_mul, ← pow_add]
        congr 2
        omega
      rw [he, hqq]
      have hle : y / 2 ^ (8 * (j - 2)) * 2 ^ (8 * (j - 2)) ≤ y := Nat.div_mul_le_self _ _
      rw [Nat.mod_eq_of_lt (by unfold U256; omega)]
      refine ⟨j - 2, ?_, Or.inr ?_, rfl⟩
      · exact lt_of_lt_of_le hhi (Nat.pow_le_pow_right (by norm_num) (by omega))
      · calc 2 ^ (8 * (j - 2) + 15) = 2 ^ 23 * 2 ^ (8 * (j - 3)) := by
              rw [← pow_add]
              congr 1
              omega
          _ ≤ q * 2 ^ (8 * (j - 3)) := Nat.mul_le_mul_right _ hbit
          _ ≤ y := hqle
    · rw [if_neg hbit, SetCompact_enc q j (by omega) (by omega), if_neg h3,
        Nat.mod_eq_of_lt (by unfold U256; omega), hq]
      refine ⟨j - 3, ?_, Or.inr ?_, rfl⟩
      · calc y < (q + 1) * 2 ^ (8 * (j - 3)) := hylt
          _ ≤ 2 ^ 23 * 2 ^ (8 * (j - 3)) := Nat.mul_le_mul_right _ (by omega)
          _ = 2 ^ (8 * (j - 3) + 23) := by
              rw [← pow_add]
              congr 1
              omega
      · exact le_trans (Nat.pow_le_pow_right (by norm_num) (by omega)) hlo

/-- Packing followed by unpacking is monotone on 256-bit values. -/
theorem SetCompact_GetCompact_mono (x y : Nat) (hxy : x ≤ y) (hy : y < 2 ^ 256) :
    SetCompact (GetCompact x) ≤ SetCompact (GetCompact y) := by
  obtain ⟨kx, hx1, hx2, hx3⟩ := SetCompact_GetCompact_floor x (by omega)
  obtain ⟨ky, hy1, hy2, hy3⟩ := SetCompact_GetCompact_floor y hy
  rw [hx3, hy3]
  rcases Nat.lt_trichotomy kx ky with h | h | h
  · have hky : 2 ^ (8 * ky + 15) ≤ y := by
      rcases hy2 with h0 | h0
      · omega
      · exact h0
    have hstep : 2 ^ (8 * kx + 23) ≤ 2 ^ (8 * ky + 15) :=
      Nat.pow_le_pow_right (by norm_num) (by omega)
    have hdvd : 2 ^ (8 * ky + 15) ≤ y / 2 ^ (8 * ky) * 2 ^ (8 * ky) := by
      have e : 2 ^ (8 * ky + 15) = 2 ^ 15 * 2 ^ (8 * ky) := by
        rw [← pow_add]
        congr 1
        omega
      rw [e]
      apply Nat.mul_le_mul_right
      rw [Nat.le_div_iff_mul_le (by positivity), ← e]
      exact hky
    have hxle : x / 2 ^ (8 * kx) * 2 ^ (8 * kx) ≤ x := Nat.div_mul_le_self _ _
    omega
  · rw [h]
    exact Nat.mul_le_mul_right _ (Nat.div_le_div_right hxy)
  · exfalso
    have hkx : 2 ^ (8 * kx + 15) ≤ x := by
      rcases hx2 with h0 | h0
      · omega
      · exact h0
    have hstep : 2 ^ (8 * ky + 23) ≤ 2 ^ (8 * kx + 15) :=
      Nat.pow_le_pow_right (by norm_num) (by omega)
    omega

theorem dgwAvgFrom_le (M : Nat) (ts : List Nat) (n avg : Nat)
    (havg : n = 1 ∨ avg ≤ M) (hts : ∀ x ∈ ts, x ≤ M) (hne : ts ≠ []) :
    dgwAvgFrom n avg ts ≤ M := by
  induction ts generalizing n avg with
  | nil => exact absurd rfl hne
  | cons x rest ih =>
    have hx := hts x (List.mem_cons_self _ _)
    have hstep : dgwAvgStep n avg x ≤ M := by
      unfold dgwAvgStep
      by_cases h1 : n = 1
      · rw [if_pos h1]; exact hx
      · rw [if_neg h1]
        rcases havg with h | h
        · exact absurd h h1
        · apply Nat.div_le_of_le_mul
          nlinarith
    unfold dgwAvgFrom
    cases rest with
    | nil => exact hstep
    | cons y r2 =>
      exact ih (n + 1) _ (Or.inr hstep)
        (fun z hz => hts z (List.mem_cons_of_mem _ hz)) (by simp)

/-- Counterexample to C28 as stated, in two pairs of runs with equal window targets and
parameters. First pair: all targets `2 ^ 248`; over the span 3450 the product with the
running average wraps to a value above the floor and the floor `0x1d03ffff` is returned,
over the longer span 3840 it wraps to zero and `0` is returned. Second pair, with the
minimum-difficulty escape configured and the candidate at time 7350: the chain whose tip
is at 3600 (span 3450) gets the floor `0x1d03ffff`, the chain whose tip is at 7200
(span 7050) gets the lower target `0x1c1f5553`. -/
theorem C28_longer_span_lower_target :
    (powTargets ((dgwChain 0x20010000 3600).take 24) =
        powTargets ((dgwChain 0x20010000 3990).take 24) ∧
      DarkGravityWave (dgwChain 0x20010000 3600) 3750 dgwParams = some 0x1d03ffff ∧
      DarkGravityWave (dgwChain 0x20010000 3990) 4140 dgwParams = some 0 ∧
      SetCompact 0 < SetCompact 0x1d03ffff) ∧
    (powTargets ((dgwChain 0x1c0fffff 3600).take 24) =
        powTargets ((dgwChain 0x1c0fffff 7200).take 24) ∧
      DarkGravityWave (dgwChain 0x1c0fffff 3600) 7350 dgwStallParams = some 0x1d03ffff ∧
      DarkGravityWave (dgwChain 0x1c0fffff 7200) 7350 dgwStallParams = some 0x1c1f5553 ∧
      SetCompact 0x1c1f5553 < SetCompact 0x1d03ffff) := by
  decide

/-- C28, amended: take two runs of `DarkGravityWave` under the same parameters
(`0 < nPowTargetSpacing < 2 ^ 24`) whose chains, after the skip of Hive-mined tips, are
`last :: p ++ first :: r` with `first` the 24th ordinary block, and whose 24 window
targets are the same, all at most `M` with `M * 72 S < 2 ^ 256` (no 256-bit wrap). If the
first run does not take the minimum-difficulty escape, its `last` is at least 24 blocks
past `lastScryptBlock`, and its time span `last - first` is at most that of the second
run, then both runs return a value and the second target is at least the first. -/
theorem C28_gravity_monotone (params : Params) (M : Nat)
    (tip1 : CBlockIndex) (rest1 : Chain) (t1 : Int) (last1 : CBlockIndex)
    (p1 : List CBlockIndex) (first1 : CBlockIndex) (r1 : Chain)
    (tip2 : CBlockIndex) (rest2 : Chain) (t2 : Int) (last2 : CBlockIndex)
    (p2 : List CBlockIndex) (first2 : CBlockIndex) (r2 : Chain)
    (hS0 : 0 < params.nPowTargetSpacing) (hS1 : params.nPowTargetSpacing < 2 ^ 24)
    (hstall1 : (params.fPowAllowMinDifficultyBlocks &&
      decide (t1 > tip1.GetBlockTime + params.nPowTargetSpacing * 10)) = false)
    (hskip1 : (if params.IsHive11Enabled (tip1 :: rest1) = true then skipHive (tip1 :: rest1)
      else some (tip1 :: rest1)) = some (last1 :: p1 ++ first1 :: r1))
    (hskip2 : (if params.IsHive11Enabled (tip2 :: rest2) = true then skipHive (tip2 :: rest2)
      else some (tip2 :: rest2)) = some (last2 :: p2 ++ first2 :: r2))
    (hheight1 : 24 ≤ last1.nHeight - params.lastScryptBlock)
    (hpre1 : powCount (last1 :: p1) = 23) (hfirst1 : first1.IsHiveMined = false)
    (hpre2 : powCount (last2 :: p2) = 23) (hfirst2 : first2.IsHiveMined = false)
    (hsame : powTargets (last1 :: p1 ++ [first1]) = powTargets (last2 :: p2 ++ [first2]))
    (hbound : ∀ t ∈ powTargets (last1 :: p1 ++ [first1]), t ≤ M)
    (hM : M * (72 * params.nPowTargetSpacing).toNat < 2 ^ 256)
    (hspan : last1.GetBlockTime - first1.GetBlockTime ≤
      last2.GetBlockTime - first2.GetBlockTime) :
    ∃ c1 c2, DarkGravityWave (tip1 :: rest1) t1 params = some c1 ∧
      DarkGravityWave (tip2 :: rest2) t2 params = some c2 ∧
      SetCompact c1 ≤ SetCompact c2 := by
  have h72 : 72 ≤ (72 * params.nPowTargetSpacing).toNat := by omega
  have h25 : 25 * M < 2 ^ 256 := by
    have : M * 25 ≤ M * (72 * params.nPowTargetSpacing).toNat :=
      Nat.mul_le_mul_left _ (by omega)
    omega
  have hloop1 := dgwLoop_window M h25 (last1 :: p1) first1 r1 24 1 0 (by norm_num)
    (by norm_num) (by omega) hfirst1 hbound (Or.inl rfl)
  have hloop2 := dgwLoop_window M h25 (last2 :: p2) first2 r2 24 1 0 (by norm_num)
    (by norm_num) (by omega) hfirst2 (by rw [← hsame]; exact hbound) (Or.inl rfl)
  rw [← hsame] at hloop2
  have hne : powTargets (last1 :: p1 ++ [first1]) ≠ [] := by
    intro h
    have := powTargets_length_append (last1 :: p1) first1 hfirst1
    rw [h] at this
    simp at this
  have hA := dgwAvgFrom_le M _ 1 0 (Or.inl rfl) hbound hne
  generalize dgwAvgFrom 1 0 (powTargets (last1 :: p1 ++ [first1])) = A at hloop1 hloop2 hA
  have hF : UintToArith256 params.powLimitSHA < 2 ^ 256 := by
    unfold UintToArith256 U256
    exact Nat.mod_lt _ (by norm_num)
  have hrun1 := DarkGravityWave_retarget tip1 rest1 t1 params last1 (p1 ++ first1 :: r1) A
    first1 r1 hstall1 hskip1 (by omega) hloop1
  rw [dgwRetarget_eq params A _ _ hS0 hS1, clampCompact_eq_min] at hrun1
  obtain ⟨hc1lo, hc1hi⟩ := clampTimespan_bounds (24 * params.nPowTargetSpacing)
    (last1.GetBlockTime - first1.GetBlockTime) (by omega)
  suffices h : ∃ c2, DarkGravityWave (tip2 :: rest2) t2 params = some c2 ∧
      SetCompact (GetCompact (min (UintToArith256 params.powLimitSHA)
        (A * (clampTimespan (24 * params.nPowTargetSpacing)
          (last1.GetBlockTime - first1.GetBlockTime)).toNat % U256 /
            (24 * params.nPowTargetSpacing).toNat))) ≤ SetCompact c2 by
    obtain ⟨c2, h2, h3⟩ := h
    exact ⟨_, c2, hrun1, h2, h3⟩
  by_cases hregular : (params.fPowAllowMinDifficultyBlocks &&
      decide (t2 > tip2.GetBlockTime + params.nPowTargetSpacing * 10)) = false ∧
      ¬ last2.nHeight - params.lastScryptBlock < 24
  · have hrun2 := DarkGravityWave_retarget tip2 rest2 t2 params last2 (p2 ++ first2 :: r2) A
      first2 r2 hregular.1 hskip2 hregular.2 hloop2
    rw [dgwRetarget_eq params A _ _ hS0 hS1, clampCompact_eq_min] at hrun2
    obtain ⟨hc2lo, hc2hi⟩ := clampTimespan_bounds (24 * params.nPowTargetSpacing)
      (last2.GetBlockTime - first2.GetBlockTime) (by omega)
    have hmono : clampTimespan (24 * params.nPowTargetSpacing)
        (last1.GetBlockTime - first1.GetBlockTime) ≤
        clampTimespan (24 * params.nPowTargetSpacing)
          (last2.GetBlockTime - first2.GetBlockTime) := by
      unfold clampTimespan
      omega
    refine ⟨_, hrun2, ?_⟩
    generalize clampTimespan (24 * params.nPowTargetSpacing)
      (last1.GetBlockTime - first1.GetBlockTime) = c1 at *
    generalize clampTimespan (24 * params.nPowTargetSpacing)
      (last2.GetBlockTime - first2.GetBlockTime) = c2 at *
    have hle1 : c1.toNat ≤ c2.toNat := by omega
    have hle2 : c2.toNat ≤ (72 * params.nPowTargetSpacing).toNat := by omega
    have hp2 : A * c2.toNat < 2 ^ 256 :=
      lt_of_le_of_lt (Nat.mul_le_mul hA hle2) hM
    have hp1 : A * c1.toNat < 2 ^ 256 :=
      lt_of_le_of_lt (Nat.mul_le_mul_left _ hle1) hp2
    rw [Nat.mod_eq_of_lt (by unfold U256; exact hp1),
      Nat.mod_eq_of_lt (by unfold U256; exact hp2)]
    apply SetCompact_GetCompact_mono
    · exact min_le_min (le_refl _)
        (Nat.div_le_div_right (Nat.mul_le_mul_left _ hle1))
    · exact lt_of_le_of_lt (Nat.min_le_left _ _) hF
  · have hrun2 : DarkGravityWave (tip2 :: rest2) t2 params =
        some (limitCompact params.powLimitSHA) := by
      unfold DarkGravityWave
      dsimp only
      by_cases hst : (params.fPowAllowMinDifficultyBlocks &&
          decide (t2 > tip2.GetBlockTime + params.nPowTargetSpacing * 10)) = true
      · rw [if_pos hst]
      · rw [if_neg hst, hskip2]
        have hlow : last2.nHeight - params.lastScryptBlock < 24 := by
          by_contra hcon
          exact hregular ⟨by simpa using hst, hcon⟩
        simp only [List.cons_append]
        rw [if_pos hlow]
    refine ⟨_, hrun2, ?_⟩
    unfold limitCompact
    apply SetCompact_GetCompact_mono
    · exact Nat.min_le_left _ _
    · exact hF

/-- Witness of C28: the steady chain with targets `0x1c0fffff`, once with its tip at
3600 and once with its tip at 7200. -/
theorem C28_gravity_monotone_witness :
    ∃ c1 c2, DarkGravityWave (dgwChain 0x1c0fffff 3600) 3750 dgwParams = some c1 ∧
      DarkGravityWave (dgwChain 0x1c0fffff 7200) 7350 dgwParams = some c2 ∧
      SetCompact c1 ≤ SetCompact c2 :=
  C28_gravity_monotone dgwParams (SetCompact 0x1c0fffff)
    (powBlock 24 3600 0x1c0fffff) (dgwChain 0x1c0fffff 3600).tail 3750
    (powBlock 24 3600 0x1c0fffff) ((dgwChain 0x1c0fffff 3600).tail.take 22)
    (powBlock 1 150 0x1c0fffff) [powBlock 0 0 0x1c0fffff]
    (powBlock 24 7200 0x1c0fffff) (dgwChain 0x1c0fffff 7200).tail 7350
    (powBlock 24 7200 0x1c0fffff) ((dgwChain 0x1c0fffff 7200).tail.take 22)
    (powBlock 1 150 0x1c0fffff) [powBlock 0 0 0x1c0fffff]
    (by decide) (by decide) (by decide) (by decide) (by decide) (by decide) (by decide)
    (by decide) (by decide) (by decide) (by decide) (by decide) (by decide) (by decide)

/-! ### C23 -/

/-- A fuelled walk whose steps agree with a function defined along the chain ends
within as many visited entries as the chain has, on the value of that function. -/
theorem walkFuel_eq {σ ρ : Type} (body : CBlockIndex → Chain → σ → WalkStep σ ρ)
    (atNull : σ → ρ) (Inv : σ → Prop) (f : Chain → σ → ρ)
    (hnil : ∀ s, Inv s → f [] s = atNull s)
    (hinv : ∀ b prev s s2, Inv s → body b prev s = WalkStep.move s2 → Inv s2)
    (hcons : ∀ b prev s, Inv s → f (b :: prev) s = (body b prev s).finish (f prev)) :
    ∀ (chain : Chain) (fuel : Nat) (s : σ), Inv s → chain.length ≤ fuel →
      walkFuel body atNull fuel chain s = some (f chain s) := by
  intro chain
  induction chain with
  | nil =>
    intro fuel s hs _
    cases fuel <;> simp [walkFuel, hnil s hs]
  | cons b prev ih =>
    intro fuel s hs hlen
    cases fuel with
    | zero => simp at hlen
    | succ k =>
      rw [walkFuel, hcons b prev s hs]
      cases hb : body b prev s with
      | done r => rfl
      | move s2 =>
        simp only [WalkStep.finish]
        exact ih k s2 (hinv b prev s s2 hs hb) (by simp only [List.length_cons] at hlen; omega)

theorem lwmaBody_walk (powType : Nat) (chain : Chain) (fuel need : Nat)
    (acc : List CBlockIndex) (h : chain.length ≤ fuel) :
    walkFuel (lwmaBody powType) (fun _ => LwmaWalk.assertFailed) fuel chain (need, acc) =
      some (lwmaWalk powType need chain acc) := by
  refine walkFuel_eq (lwmaBody powType) _ (fun _ => True)
    (fun c s => lwmaWalk powType s.1 c s.2) ?_ ?_ ?_ chain fuel (need, acc) trivial h
  · intro s _
    dsimp only
    rw [lwmaWalk]
  · intros
    trivial
  · intro b prev s _
    dsimp only
    unfold lwmaBody
    cases prev <;> rw [lwmaWalk] <;> split <;> try rfl
    all_goals split <;> try rfl
    all_goals split <;> rfl

theorem skipHiveBody_walk (chain : Chain) (fuel : Nat) (h : chain.length ≤ fuel) :
    walkFuel skipHiveBody (fun _ => none) fuel chain () = some (skipHive chain) := by
  refine walkFuel_eq skipHiveBody _ (fun _ => True) (fun c _ => skipHive c) ?_ ?_ ?_
    chain fuel () trivial h
  · intro s _
    dsimp only
    rw [skipHive]
  · intros
    trivial
  · intro b prev s _
    dsimp only
    unfold skipHiveBody
    cases prev <;> by_cases hb : b.IsHiveMined = true <;>
      simp [skipHive, hb, WalkStep.finish]

theorem hiveBlocksAtTipBody_walk (chain : Chain) (fuel : Nat) (n : Int)
    (h : chain.length ≤ fuel) :
    walkFuel hiveBlocksAtTipBody (fun _ => none) fuel chain n =
      some (hiveBlocksAtTip chain n) := by
  refine walkFuel_eq hiveBlocksAtTipBody _ (fun _ => True) (fun c s => hiveBlocksAtTip c s)
    ?_ ?_ ?_ chain fuel n trivial h
  · intro s _
    dsimp only
    rw [hiveBlocksAtTip]
  · intros
    trivial
  · intro b prev s _
    dsimp only
    unfold hiveBlocksAtTipBody
    cases prev <;> by_cases hb : b.IsHiveMined = true <;>
      simp [hiveBlocksAtTip, hb, WalkStep.finish]

theorem lastNonMinBody_walk (interval : Int) (limit : Nat) (chain : Chain) (fuel : Nat)
    (h : chain.length ≤ fuel) :
    walkFuel (lastNonMinBody interval limit) (fun _ => none) fuel chain () =
      some (lastNonMinDifficulty interval limit chain) := by
  refine walkFuel_eq (lastNonMinBody interval limit) _ (fun _ => True)
    (fun c _ => lastNonMinDifficulty interval limit c) ?_ ?_ ?_ chain fuel () trivial h
  · intro s _
    dsimp only
    rw [lastNonMinDifficulty]
  · intros
    trivial
  · intro b prev s _
    dsimp only
    unfold lastNonMinBody
    cases prev with
    | nil => rw [lastNonMinDifficulty]; rfl
    | cons c r =>
      rw [lastNonMinDifficulty]
      dsimp only
      split <;> rfl

theorem gobackBody_walk (chain : Chain) (fuel n : Nat) (h : chain.length ≤ fuel) :
    walkFuel gobackBody (fun _ => []) fuel chain n = some (chain.drop n) := by
  refine walkFuel_eq gobackBody _ (fun _ => True) (fun c s => c.drop s) ?_ ?_ ?_
    chain fuel n trivial h
  · intro s _
    dsimp only
    simp
  · intros
    trivial
  · intro b prev s _
    dsimp only
    unfold gobackBody
    cases s with
    | zero => rfl
    | succ k => rfl

theorem hive10Body_walk (params : Params) (chain : Chain) (fuel : Nat) (n : Int)
    (h : chain.length ≤ fuel) :
    walkFuel (hive10Body params) (fun _ => none) fuel chain n =
      some (hive10Walk params chain n) := by
  refine walkFuel_eq (hive10Body params) _ (fun _ => True)
    (fun c s => hive10Walk params c s) ?_ ?_ ?_ chain fuel n trivial h
  · intro s _
    dsimp only
    rw [hive10Walk]
    intro b c rest hbc
    cases hbc
  · intros
    trivial
  · intro b prev s _
    dsimp only
    unfold hive10Body
    cases prev with
    | nil => unfold hive10Walk; rfl
    | cons c r =>
      rw [hive10Walk]
      dsimp only
      split
      · rfl
      · split <;> rfl

theorem hive11Body_walk (params : Params) (chain : Chain) (fuel : Nat) (st : HiveAcc)
    (h : chain.length ≤ fuel) :
    walkFuel (hive11Body params) (fun s => s) fuel chain st =
      some (hive11Walk params chain st) := by
  refine walkFuel_eq (hive11Body params) _ (fun _ => True)
    (fun c s => hive11Walk params c s) ?_ ?_ ?_ chain fuel st trivial h
  · intro s _
    dsimp only
    unfold hive11Walk
    rfl
  · intros
    trivial
  · intro b prev s _
    dsimp only
    unfold hive11Body
    cases prev with
    | nil => unfold hive11Walk; rfl
    | cons c r =>
      rw [hive11Walk]
      dsimp only
      split <;> rfl

theorem hive12Body_walk (params : Params) (chain : Chain) (fuel : Nat) (st : HiveAcc)
    (h : chain.length ≤ fuel) :
    walkFuel (hive12Body params) (fun s => s) fuel chain st =
      some (hive12Walk params chain st) := by
  refine walkFuel_eq (hive12Body params) _ (fun _ => True)
    (fun c s => hive12Walk params c s) ?_ ?_ ?_ chain fuel st trivial h
  · intro s _
    dsimp only
    unfold hive12Walk
    rfl
  · intros
    trivial
  · intro b prev s _
    dsimp only
    unfold hive12Body
    cases prev with
    | nil => unfold hive12Walk; rfl
    | cons c r =>
      rw [hive12Walk]
      dsimp only
      split <;> rfl

theorem dgwBody_walk (chain : Chain) (fuel : Nat) (h : chain.length ≤ fuel) :
    walkFuel (dgwBody 24) (fun _ => none) fuel chain (1, 0) =
      some (dgwLoop 24 24 1 chain 0) := by
  refine walkFuel_eq (dgwBody 24) _ (fun s => 1 ≤ s.1 ∧ s.1 ≤ 24)
    (fun c s => dgwLoop 24 (25 - s.1) s.1 c s.2) ?_ ?_ ?_ chain fuel (1, 0)
    ⟨le_refl _, by norm_num⟩ h
  · rintro ⟨n, avg⟩ ⟨h1, h24⟩
    dsimp only at h1 h24 ⊢
    obtain ⟨l, hl⟩ : ∃ l, 25 - n = l + 1 := ⟨24 - n, by omega⟩
    rw [hl]
    unfold dgwLoop
    rfl
  · rintro b prev ⟨n, avg⟩ ⟨n2, avg2⟩ ⟨h1, h24⟩ hstep
    dsimp only at h1 h24 ⊢
    unfold dgwBody at hstep
    dsimp only at hstep
    split at hstep
    · cases prev with
      | nil => cases hstep
      | cons c r =>
        dsimp only at hstep
        cases hstep
        exact ⟨h1, h24⟩
    · split at hstep
      · cases prev with
        | nil => cases hstep
        | cons c r =>
          dsimp only at hstep
          cases hstep
          omega
      · cases hstep
  · rintro b prev ⟨n, avg⟩ ⟨h1, h24⟩
    dsimp only at h1 h24 ⊢
    obtain ⟨l, hl⟩ : ∃ l, 25 - n = l + 1 := ⟨24 - n, by omega⟩
    rw [hl]
    unfold dgwBody
    dsimp only
    by_cases hb : b.IsHiveMined = true
    · rw [if_pos hb]
      cases prev with
      | nil =>
        unfold dgwLoop
        simp [skipHive, hb, WalkStep.finish]
      | cons c r =>
        simp only [WalkStep.finish]
        rw [hl]
        unfold dgwLoop
        rw [skipHive_hive b _ hb (by simp)]
    · have hbf : b.IsHiveMined = false := by simpa using hb
      rw [if_neg hb]
      by_cases h24e : n = 24
      · have hl0 : l = 0 := by omega
        subst hl0
        subst h24e
        unfold dgwLoop
        rw [skipHive_pow b _ hbf]
        simp [dgwLoop, WalkStep.finish]
      · rw [if_pos h24e]
        cases prev with
        | nil =>
          unfold dgwLoop
          rw [skipHive_pow b _ hbf]
          simp [h24e, WalkStep.finish]
        | cons c r =>
          simp only [WalkStep.finish]
          have hl2 : 25 - (n + 1) = l := by omega
          rw [hl2]
          rw [dgwLoop, skipHive_pow b _ hbf]
          simp [h24e]

/-- C23: on a structurally valid chain `tip :: rest` (heights fall by one down to the
genesis at height 0) every backward walk of the core, run as a loop with a budget of
`height(tip) + 1` visited entries, ends within the budget on the value of the walk:
the LWMA window collection, the hive-skipping loop and the averaging loop of
`DarkGravityWave`, the legacy minimum-difficulty walk and interval walk, the three
Hive retarget walks, and the run count of `CheckHiveProof`. -/
theorem C23_walks_terminate (tip : CBlockIndex) (rest : Chain)
    (hv : ValidChain (tip :: rest)) (params : Params) (powType need : Nat)
    (acc : List CBlockIndex) (interval : Int) (limit goback : Nat) (n : Int)
    (st : HiveAcc) :
    walkFuel (lwmaBody powType) (fun _ => LwmaWalk.assertFailed) (tip.nHeight + 1).toNat
        (tip :: rest) (need, acc) = some (lwmaWalk powType need (tip :: rest) acc) ∧
      walkFuel skipHiveBody (fun _ => none) (tip.nHeight + 1).toNat (tip :: rest) () =
        some (skipHive (tip :: rest)) ∧
      walkFuel (dgwBody 24) (fun _ => none) (tip.nHeight + 1).toNat (tip :: rest) (1, 0) =
        some (dgwLoop 24 24 1 (tip :: rest) 0) ∧
      walkFuel (lastNonMinBody interval limit) (fun _ => none) (tip.nHeight + 1).toNat
        (tip :: rest) () = some (lastNonMinDifficulty interval limit (tip :: rest)) ∧
      walkFuel gobackBody (fun _ => []) (tip.nHeight + 1).toNat (tip :: rest) goback =
        some ((tip :: rest).drop goback) ∧
      walkFuel (hive10Body params) (fun _ => none) (tip.nHeight + 1).toNat (tip :: rest) n =
        some (hive10Walk params (tip :: rest) n) ∧
      walkFuel (hive11Body params) (fun s => s) (tip.nHeight + 1).toNat (tip :: rest) st =
        some (hive11Walk params (tip :: rest) st) ∧
      walkFuel (hive12Body params) (fun s => s) (tip.nHeight + 1).toNat (tip :: rest) st =
        some (hive12Walk params (tip :: rest) st) ∧
      walkFuel hiveBlocksAtTipBody (fun _ => none) (tip.nHeight + 1).toNat (tip :: rest) n =
        some (hiveBlocksAtTip (tip :: rest) n) := by
  have hlen : (tip :: rest).length ≤ (tip.nHeight + 1).toNat := by
    have := ValidChain_length rest tip hv
    omega
  exact ⟨lwmaBody_walk powType _ _ need acc hlen, skipHiveBody_walk _ _ hlen,
    dgwBody_walk _ _ hlen, lastNonMinBody_walk interval limit _ _ hlen,
    gobackBody_walk _ _ goback hlen, hive10Body_walk params _ _ n hlen,
    hive11Body_walk params _ _ st hlen, hive12Body_walk params _ _ st hlen,
    hiveBlocksAtTipBody_walk _ _ n hlen⟩

/-- Witness of C23: the five-entry `mixedChain` (heights 4 to 0) with a budget of five
visited entries; a budget of four is not enough for an interval walk of five steps. -/
theorem C23_walks_terminate_witness :
    (walkFuel (lwmaBody 0) (fun _ => LwmaWalk.assertFailed) 5 mixedChain (3, []) =
        some (lwmaWalk 0 3 mixedChain []) ∧
      walkFuel gobackBody (fun _ => []) 5 mixedChain 5 = some (mixedChain.drop 5)) ∧
    walkFuel gobackBody (fun _ => []) 4 mixedChain 5 = none :=
  ⟨⟨(C23_walks_terminate (powBlock 4 600 0x1c0fffff) mixedChain.tail (by decide)
        demoParams 0 3 [] 4 0 5 0 ⟨0, 0, 0⟩).1,
      (C23_walks_terminate (powBlock 4 600 0x1c0fffff) mixedChain.tail (by decide)
        demoParams 0 3 [] 4 0 5 0 ⟨0, 0, 0⟩).2.2.2.2.1⟩,
    by decide⟩

/-! ### C31 -/

theorem ValidChain_drop (n : Nat) (tip : CBlockIndex) (rest : Chain)
    (hv : ValidChain (tip :: rest)) (hn : n ≤ rest.length) :
    ∃ anc r, (tip :: rest).drop n = anc :: r ∧ anc.nHeight = tip.nHeight - n := by
  induction n generalizing tip rest with
  | zero => exact ⟨tip, rest, rfl, by simp⟩
  | succ k ih =>
    cases rest with
    | nil => simp at hn
    | cons c r2 =>
      obtain ⟨h1, h2⟩ := hv
      obtain ⟨anc, r, hd, hh⟩ := ih c r2 h2 (by simp only [List.length_cons] at hn; omega)
      refine ⟨anc, r, by simpa using hd, ?_⟩
      rw [hh, h1]
      push_cast
      ring

/-- C31: on a structurally valid chain, for an adjustment interval `I >= 1` and a tip
with `(nHeight + 1) % I = 0`, stepping back `blockstogoback` predecessors (`I - 1` when
`nHeight + 1 = I`, else `I`) ends on an existing entry, of height
`nHeight - blockstogoback >= 0`: the loop of lines 241-242, run with a budget of
`nHeight + 1` visited entries, ends on that entry, and `GetNextWorkRequiredLTC` passes
`assert(pindexFirst)` and hands its time stamp to `CalculateNextWorkRequired`. -/
theorem C31_first_block_exists (tip : CBlockIndex) (rest : Chain) (pblockTime : Int)
    (params : Params) (hv : ValidChain (tip :: rest))
    (hI : 1 ≤ params.DifficultyAdjustmentInterval)
    (hb : Int.tmod (tip.nHeight + 1) params.DifficultyAdjustmentInterval = 0) :
    ∃ (anc : CBlockIndex) (r : Chain),
      (tip :: rest).drop (if tip.nHeight + 1 ≠ params.DifficultyAdjustmentInterval
        then params.DifficultyAdjustmentInterval
        else params.DifficultyAdjustmentInterval - 1).toNat = anc :: r ∧
      anc.nHeight = tip.nHeight - (if tip.nHeight + 1 ≠ params.DifficultyAdjustmentInterval
        then params.DifficultyAdjustmentInterval
        else params.DifficultyAdjustmentInterval - 1) ∧
      0 ≤ anc.nHeight ∧
      walkFuel gobackBody (fun _ => []) (tip.nHeight + 1).toNat (tip :: rest)
        (if tip.nHeight + 1 ≠ params.DifficultyAdjustmentInterval
          then params.DifficultyAdjustmentInterval
          else params.DifficultyAdjustmentInterval - 1).toNat = some (anc :: r) ∧
      GetNextWorkRequiredLTC (tip :: rest) pblockTime params =
        CalculateNextWorkRequired tip anc.GetBlockTime params := by
  have hlen := ValidChain_length rest tip hv
  have hh := ValidChain_height_nonneg rest tip hv
  have hgo := goback_le_height tip.nHeight params.DifficultyAdjustmentInterval hh
    (by omega) hb
  have hfuel : (tip :: rest).length ≤ (tip.nHeight + 1).toNat := by omega
  have hwalk := gobackBody_walk (tip :: rest) (tip.nHeight + 1).toNat
    (if tip.nHeight + 1 ≠ params.DifficultyAdjustmentInterval
      then params.DifficultyAdjustmentInterval
      else params.DifficultyAdjustmentInterval - 1).toNat hfuel
  have hltc : GetNextWorkRequiredLTC (tip :: rest) pblockTime params =
      match (tip :: rest).drop (if tip.nHeight + 1 ≠ params.DifficultyAdjustmentInterval
        then params.DifficultyAdjustmentInterval
        else params.DifficultyAdjustmentInterval - 1).toNat with
      | [] => none
      | pindexFirst :: _ => CalculateNextWorkRequired tip pindexFirst.GetBlockTime params := by
    unfold GetNextWorkRequiredLTC
    dsimp only
    rw [if_neg (by omega), if_neg (by rw [hb]; simp)]
  generalize hg : (if tip.nHeight + 1 ≠ params.DifficultyAdjustmentInterval
      then params.DifficultyAdjustmentInterval
      else params.DifficultyAdjustmentInterval - 1) = g at hgo hwalk hltc ⊢
  have hg0 : 0 ≤ g := by
    rw [← hg]
    split <;> omega
  simp only [List.length_cons] at hlen
  push_cast at hlen
  obtain ⟨anc, r, hd, hanc⟩ := ValidChain_drop g.toNat tip rest hv (by omega)
  have hcast : ((g.toNat : Nat) : Int) = g := Int.toNat_of_nonneg hg0
  rw [hcast] at hanc
  refine ⟨anc, r, hd, hanc, by omega, by rw [hwalk, hd], ?_⟩
  rw [hltc, hd]

/-- Witness of C31: with interval 4 the tip of `verifierChain` has height 3, the first
boundary; three steps back end on the genesis entry. -/
theorem C31_first_block_exists_witness :
    ∃ (anc : CBlockIndex) (r : Chain),
      verifierChain.drop 3 = anc :: r ∧ anc.nHeight = 3 - 3 ∧ 0 ≤ anc.nHeight ∧
      walkFuel gobackBody (fun _ => []) 4 verifierChain 3 = some (anc :: r) ∧
      GetNextWorkRequiredLTC verifierChain 600 demoParams =
        CalculateNextWorkRequired (powBlock 3 450 0x1e0ffff0) anc.GetBlockTime demoParams :=
  C31_first_block_exists (powBlock 3 450 0x1e0ffff0)
    [powBlock 2 300 0x1e0ffff0, powBlock 1 150 0x1e0ffff0, powBlock 0 0 0x1e0ffff0]
    600 demoParams (by decide) (by decide) (by decide)

/-! ### C32 -/

theorem hiveRescale_steady (params : Params) (sum h total : Nat) (hh : 0 < h)
    (hS : 0 < params.hiveBlockSpacingTarget)
    (hhS : (h : Int) * params.hiveBlockSpacingTarget < 2 ^ 31)
    (htot : (total : Int) < 2 ^ 32) (hprod : sum / h * total < 2 ^ 256)
    (hsteady : total = h * params.hiveBlockSpacingTarget.toNat) :
    hiveRescale params ⟨sum, h, total⟩ =
      some (GetCompact (min (UintToArith256 params.powLimitHive) (sum / h))) := by
  rw [hiveRescale_eq params sum h total hh hS hhS htot hprod, hsteady]
  rw [Nat.mul_div_cancel _ (Nat.mul_pos hh (by omega))]

theorem hiveRescale_mono (params : Params) (sum h n1 n2 : Nat) (hh : 0 < h)
    (hS : 0 < params.hiveBlockSpacingTarget)
    (hhS : (h : Int) * params.hiveBlockSpacingTarget < 2 ^ 31)
    (hn : n1 ≤ n2) (htot : (n2 : Int) < 2 ^ 32) (hprod : sum / h * n2 < 2 ^ 256) :
    ∃ c1 c2, hiveRescale params ⟨sum, h, n1⟩ = some c1 ∧
      hiveRescale params ⟨sum, h, n2⟩ = some c2 ∧ SetCompact c1 ≤ SetCompact c2 := by
  have hprod1 : sum / h * n1 < 2 ^ 256 :=
    lt_of_le_of_lt (Nat.mul_le_mul_left _ hn) hprod
  refine ⟨_, _, hiveRescale_eq params sum h n1 hh hS hhS (by omega) hprod1,
    hiveRescale_eq params sum h n2 hh hS hhS htot hprod, ?_⟩
  apply SetCompact_GetCompact_mono
  · exact min_le_min (le_refl _)
      (Nat.div_le_div_right (Nat.mul_le_mul_left _ hn))
  · refine lt_of_le_of_lt (Nat.min_le_left _ _) ?_
    unfold UintToArith256 U256
    exact Nat.mod_lt _ (by norm_num)

/-- Counterexample to C32 as stated, for both of its parts. Steady state: with a window
of 9 and a spacing target of 2, the walk on `denseHiveChain` finds 9 Hive-mined blocks at
the floor among `18 = 9 * 2` entries; the plain average packs to `0x200fffff`, but the
256-bit product `avg * 18` wraps and `GetNextHive11WorkRequired` returns `0x2001c71b`.
Monotonicity: `shortHiveChain` and `sparseHiveChain` hold the same two found targets
among 4 and among 17 entries walked; the shorter walk returns `0x200fffff`, the longer
one, whose product wraps, the lower target `0x2003fffb`. -/
theorem C32_steady_state_wraps :
    (Hive11Walked denseParams (denseHiveChain.take 18) (powBlock 0 0 0x1e0ffff0) [] ∧
      denseHiveChain = denseHiveChain.take 18 ++ [powBlock 0 0 0x1e0ffff0] ∧
      hiveCount (denseHiveChain.take 18) = 9 ∧
      (denseHiveChain.take 18).length = 9 * denseParams.hiveBlockSpacingTarget.toNat ∧
      GetCompact (min (UintToArith256 denseParams.powLimitHive)
        (hiveSum (denseHiveChain.take 18) / 9)) = 0x200fffff ∧
      GetNextHive11WorkRequired denseHiveChain denseParams = some 0x2001c71b) ∧
    (Hive11Walked demoParams (shortHiveChain.take 4) (powBlock 0 0 0x1e0ffff0) [] ∧
      Hive11Walked demoParams (sparseHiveChain.take 17) (powBlock 0 0 0x1e0ffff0) [] ∧
      hiveSum (shortHiveChain.take 4) = hiveSum (sparseHiveChain.take 17) ∧
      hiveCount (shortHiveChain.take 4) = hiveCount (sparseHiveChain.take 17) ∧
      GetNextHive11WorkRequired shortHiveChain demoParams = some 0x200fffff ∧
      GetNextHive11WorkRequired sparseHiveChain demoParams = some 0x2003fffb ∧
      SetCompact 0x2003fffb < SetCompact 0x200fffff) := by
  decide

/-- C32, amended: let the walk of `GetNextHive11WorkRequired` (of
`GetNextHive12WorkRequired`) run over the entries `walked` of the chain
`walked ++ stop :: more`, finding `h > 0` Hive-mined blocks whose unpacked targets sum
to `sum < 2 ^ 256`, with a positive spacing target and the divisor
`h * hiveBlockSpacingTarget`, which the code keeps in `int`, below `2 ^ 31` (entries
walked below `2 ^ 31` too). Steady state: if
`walked` has `h * hiveBlockSpacingTarget` entries and `floor(sum / h)` times that number
fits 256 bits, the result is the compact encoding of `min(floor, floor(sum / h))`
(for Hive 1.2: once the window is filled). Monotonicity: a second walk with the same
sum and count of found targets over at least as many entries, whose product fits
256 bits, returns a target that is at least the first. -/
theorem C32_hive_sma_steady (params : Params) (walked : List CBlockIndex)
    (stop : CBlockIndex) (more : Chain) (walked2 : List CBlockIndex) (stop2 : CBlockIndex)
    (more2 : Chain)
    (hh : 0 < hiveCount walked) (hS : 0 < params.hiveBlockSpacingTarget)
    (hhS : (hiveCount walked : Int) * params.hiveBlockSpacingTarget < 2 ^ 31)
    (hsum : hiveSum walked < 2 ^ 256) :
    (walked.length = hiveCount walked * params.hiveBlockSpacingTarget.toNat →
      (walked.length : Int) < 2 ^ 31 →
      hiveSum walked / hiveCount walked * walked.length < 2 ^ 256 →
      (Hive11Walked params walked stop more →
        GetNextHive11WorkRequired (walked ++ stop :: more) params =
          some (GetCompact (min (UintToArith256 params.powLimitHive)
            (hiveSum walked / hiveCount walked)))) ∧
      (Hive12Walked params walked stop more →
        ¬ ((hiveCount walked : Int) < params.hiveDifficultyWindow) →
        GetNextHive12WorkRequired (walked ++ stop :: more) params =
          some (GetCompact (min (UintToArith256 params.powLimitHive)
            (hiveSum walked / hiveCount walked))))) ∧
    (hiveSum walked2 = hiveSum walked → hiveCount walked2 = hiveCount walked →
      walked.length ≤ walked2.length → (walked2.length : Int) < 2 ^ 31 →
      hiveSum walked / hiveCount walked * walked2.length < 2 ^ 256 →
      (Hive11Walked params walked stop more → Hive11Walked params walked2 stop2 more2 →
        ∃ c1 c2, GetNextHive11WorkRequired (walked ++ stop :: more) params = some c1 ∧
          GetNextHive11WorkRequired (walked2 ++ stop2 :: more2) params = some c2 ∧
          SetCompact c1 ≤ SetCompact c2) ∧
      (Hive12Walked params walked stop more → Hive12Walked params walked2 stop2 more2 →
        ∃ c1 c2, GetNextHive12WorkRequired (walked ++ stop :: more) params = some c1 ∧
          GetNextHive12WorkRequired (walked2 ++ stop2 :: more2) params = some c2 ∧
          SetCompact c1 ≤ SetCompact c2)) := by
  have hmod : hiveSum walked % U256 = hiveSum walked :=
    Nat.mod_eq_of_lt (by unfold U256; exact hsum)
  have hne : ¬ ((hiveCount walked : Int) = 0) := by omega
  constructor
  · intro hsteady htot hprod
    have hres := hiveRescale_steady params (hiveSum walked) (hiveCount walked) walked.length
      hh hS hhS (by omega) hprod hsteady
    constructor
    · intro hw
      rw [GetNextHive11WorkRequired_walked params walked stop more hw.1 hw.2.1 hw.2.2,
        if_neg hne, hmod]
      exact hres
    · intro hw hfull
      rw [GetNextHive12WorkRequired_walked params walked stop more hw.1 hw.2.1 hw.2.2,
        if_neg hfull, hmod]
      exact hres
  · intro hs2 hc2 hlen htot hprod
    obtain ⟨c1, c2, h1, h2, hle⟩ := hiveRescale_mono params (hiveSum walked)
      (hiveCount walked) walked.length walked2.length hh hS hhS hlen (by omega) hprod
    constructor
    · intro hw hw2
      refine ⟨c1, c2, ?_, ?_, hle⟩
      · rw [GetNextHive11WorkRequired_walked params walked stop more hw.1 hw.2.1 hw.2.2,
          if_neg hne, hmod]
        exact h1
      · rw [GetNextHive11WorkRequired_walked params walked2 stop2 more2 hw2.1 hw2.2.1
          hw2.2.2, hs2, hc2, if_neg hne, hmod]
        exact h2
    · intro hw hw2
      rw [GetNextHive12WorkRequired_walked params walked stop more hw.1 hw.2.1 hw.2.2,
        GetNextHive12WorkRequired_walked params walked2 stop2 more2 hw2.1 hw2.2.1 hw2.2.2,
        hs2, hc2, hmod]
      by_cases hfull : (hiveCount walked : Int) < params.hiveDifficultyWindow
      · rw [if_pos hfull, if_pos hfull]
        exact ⟨_, _, rfl, rfl, le_refl _⟩
      · rw [if_neg hfull, if_neg hfull]
        exact ⟨c1, c2, h1, h2, hle⟩

/-- Witness of C32: on `shortHiveChain` the walk of Hive 1.1 finds its two Hive-mined
blocks, both at the floor target, among `4 = 2 * 2` entries, and returns the compact
encoding `0x200fffff` of their average. -/
theorem C32_hive_sma_steady_witness :
    GetNextHive11WorkRequired shortHiveChain demoParams =
        some (GetCompact (min (UintToArith256 demoParams.powLimitHive)
          (hiveSum (shortHiveChain.take 4) / hiveCount (shortHiveChain.take 4)))) ∧
      GetCompact (min (UintToArith256 demoParams.powLimitHive)
        (hiveSum (shortHiveChain.take 4) / hiveCount (shortHiveChain.take 4))) = 0x200fffff :=
  ⟨((C32_hive_sma_steady demoParams (shortHiveChain.take 4) (powBlock 0 0 0x1e0ffff0) []
      (shortHiveChain.take 4) (powBlock 0 0 0x1e0ffff0) [] (by decide) (by decide)
      (by decide) (by decide)).1 (by decide) (by decide) (by decide)).1 (by decide),
    by decide⟩

/-! ### C33 -/

theorem CellAdds_refl (x : Int) : CellAdds x x 0 := by
  unfold CellAdds
  refine ⟨by simp, fun h => h⟩

theorem CellAdds_trans (a b c d1 d2 : Int) (h1 : CellAdds a b d1) (h2 : CellAdds b c d2) :
    CellAdds a c (d1 + d2) := by
  unfold CellAdds at *
  obtain ⟨m1, r1⟩ := h1
  obtain ⟨m2, r2⟩ := h2
  refine ⟨by omega, fun h => r2 (r1 h)⟩

theorem CellAdds_step (x d : Int) : CellAdds x (toInt32 (x + d)) d := by
  unfold CellAdds toInt32
  constructor
  · split <;> omega
  · intro _
    split <;> omega

theorem CellAdds_zero (new d : Int) (h : CellAdds 0 new d) : new = toInt32 d := by
  unfold CellAdds at h
  obtain ⟨hm, hr⟩ := h
  have := hr ⟨by norm_num, by norm_num⟩
  unfold toInt32
  split <;> omega

theorem graphLoop_apply (tipHeight total mat u : Int) (n : Nat) (j : Int)
    (g : Int → BeePopGraphPoint) (p : Int)
    (hlo : -2 ^ 31 ≤ j - tipHeight) (hhi : j + (n : Int) - tipHeight ≤ 2 ^ 31) :
    (¬ (0 < p ∧ p < total) → graphLoop tipHeight total mat u n j g p = g p) ∧
    CellAdds (g p).immaturePop (graphLoop tipHeight total mat u n j g p).immaturePop
      (if 0 < p ∧ p < total ∧ j ≤ p + tipHeight ∧ p + tipHeight < j + n ∧
        p + tipHeight < mat then u else 0) ∧
    CellAdds (g p).maturePop (graphLoop tipHeight total mat u n j g p).maturePop
      (if 0 < p ∧ p < total ∧ j ≤ p + tipHeight ∧ p + tipHeight < j + n ∧
        ¬ p + tipHeight < mat then u else 0) := by
  induction n generalizing j g with
  | zero =>
    rw [graphLoop]
    have h1 : ¬ (0 < p ∧ p < total ∧ j ≤ p + tipHeight ∧ p + tipHeight < j + ((0 : Nat) : Int) ∧
        p + tipHeight < mat) := by push_cast; omega
    have h2 : ¬ (0 < p ∧ p < total ∧ j ≤ p + tipHeight ∧ p + tipHeight < j + ((0 : Nat) : Int) ∧
        ¬ p + tipHeight < mat) := by push_cast; omega
    rw [if_neg h1, if_neg h2]
    exact ⟨fun _ => rfl, CellAdds_refl _, CellAdds_refl _⟩
  | succ k ih =>
    have hpos : toInt32 (j - tipHeight) = j - tipHeight :=
      toInt32_of_bounds _ hlo (by push_cast at hhi; omega)
    rw [graphLoop]
    simp only [hpos]
    obtain ⟨i1, i2, i3⟩ := ih (j + 1)
      (if j - tipHeight > 0 ∧ j - tipHeight < total then
        addPop g (j - tipHeight) (decide (j < mat)) u else g)
      (by omega) (by push_cast at hhi; omega)
    by_cases hp : p = j - tipHeight
    · have hj : p + tipHeight = j := by omega
      have hz1 : ¬ (0 < p ∧ p < total ∧ j + 1 ≤ p + tipHeight ∧
          p + tipHeight < j + 1 + (k : Int) ∧ p + tipHeight < mat) := by omega
      have hz2 : ¬ (0 < p ∧ p < total ∧ j + 1 ≤ p + tipHeight ∧
          p + tipHeight < j + 1 + (k : Int) ∧ ¬ p + tipHeight < mat) := by omega
      rw [if_neg hz1] at i2
      rw [if_neg hz2] at i3
      by_cases hin : 0 < p ∧ p < total
      · have hin2 : j - tipHeight > 0 ∧ j - tipHeight < total := by rw [← hp]; exact hin
        rw [if_pos hin2] at i1 i2 i3 ⊢
        have hg2 : addPop g (j - tipHeight) (decide (j < mat)) u p =
            if j < mat then ⟨toInt32 ((g p).immaturePop + u), (g p).maturePop⟩
            else ⟨(g p).immaturePop, toInt32 ((g p).maturePop + u)⟩ := by
          unfold addPop
          rw [if_pos hp]
          by_cases hm : j < mat
          · rw [if_pos (by simpa using hm), if_pos hm]
          · rw [if_neg (by simpa using hm), if_neg hm]
        rw [hg2] at i2 i3
        refine ⟨fun h => absurd hin h, ?_, ?_⟩
        · by_cases hm : j < mat
          · have hc : 0 < p ∧ p < total ∧ j ≤ p + tipHeight ∧
                p + tipHeight < j + ((k + 1 : Nat) : Int) ∧ p + tipHeight < mat := by
              push_cast; omega
            rw [if_pos hc]
            rw [if_pos hm] at i2
            have := CellAdds_trans _ _ _ _ _ (CellAdds_step (g p).immaturePop u) i2
            simpa using this
          · have hc : ¬ (0 < p ∧ p < total ∧ j ≤ p + tipHeight ∧
                p + tipHeight < j + ((k + 1 : Nat) : Int) ∧ p + tipHeight < mat) := by omega
            rw [if_neg hc]
            rw [if_neg hm] at i2
            exact i2
        · by_cases hm : j < mat
          · have hc : ¬ (0 < p ∧ p < total ∧ j ≤ p + tipHeight ∧
                p + tipHeight < j + ((k + 1 : Nat) : Int) ∧ ¬ p + tipHeight < mat) := by omega
            rw [if_neg hc]
            rw [if_pos hm] at i3
            exact i3
          · have hc : 0 < p ∧ p < total ∧ j ≤ p + tipHeight ∧
                p + tipHeight < j + ((k + 1 : Nat) : Int) ∧ ¬ p + tipHeight < mat := by
              push_cast; omega
            rw [if_pos hc]
            rw [if_neg hm] at i3
            have := CellAdds_trans _ _ _ _ _ (CellAdds_step (g p).maturePop u) i3
            simpa using this
      · have hin2 : ¬ (j - tipHeight > 0 ∧ j - tipHeight < total) := by rw [← hp]; exact hin
        rw [if_neg hin2] at i1 i2 i3 ⊢
        have hc1 : ¬ (0 < p ∧ p < total ∧ j ≤ p + tipHeight ∧
            p + tipHeight < j + ((k + 1 : Nat) : Int) ∧ p + tipHeight < mat) := by omega
        have hc2 : ¬ (0 < p ∧ p < total ∧ j ≤ p + tipHeight ∧
            p + tipHeight < j + ((k + 1 : Nat) : Int) ∧ ¬ p + tipHeight < mat) := by omega
        rw [if_neg hc1, if_neg hc2]
        exact ⟨i1, i2, i3⟩
    · have hg2 : (if j - tipHeight > 0 ∧ j - tipHeight < total then
          addPop g (j - tipHeight) (decide (j < mat)) u else g) p = g p := by
        split
        · unfold addPop
          rw [if_neg hp]
        · rfl
      rw [hg2] at i1 i2 i3
      have hiff1 : (0 < p ∧ p < total ∧ j + 1 ≤ p + tipHeight ∧
          p + tipHeight < j + 1 + (k : Int) ∧ p + tipHeight < mat) ↔
          (0 < p ∧ p < total ∧ j ≤ p + tipHeight ∧
            p + tipHeight < j + ((k + 1 : Nat) : Int) ∧ p + tipHeight < mat) := by
        push_cast
        constructor <;> intro h <;> omega
      have hiff2 : (0 < p ∧ p < total ∧ j + 1 ≤ p + tipHeight ∧
          p + tipHeight < j + 1 + (k : Int) ∧ ¬ p + tipHeight < mat) ↔
          (0 < p ∧ p < total ∧ j ≤ p + tipHeight ∧
            p + tipHeight < j + ((k + 1 : Nat) : Int) ∧ ¬ p + tipHeight < mat) := by
        push_cast
        constructor <;> intro h <;> omega
      rw [if_congr hiff1 rfl rfl] at i2
      rw [if_congr hiff2 rfl rfl] at i3
      exact ⟨i1, i2, i3⟩

theorem ScanAdds_refl (params : Params) (recalcGraph : Bool) (tipHeight : Int)
    (st : HiveInfo) : ScanAdds params recalcGraph tipHeight st st [] := by
  unfold ScanAdds
  simp only [List.map_nil, List.sum_nil]
  exact ⟨CellAdds_refl _, CellAdds_refl _, CellAdds_refl _, CellAdds_refl _, trivial,
    fun _ _ => trivial, fun _ _ => trivial, fun _ _ => ⟨CellAdds_refl _, CellAdds_refl _⟩⟩

theorem ScanAdds_trans (params : Params) (recalcGraph : Bool) (tipHeight : Int)
    (st st1 st2 : HiveInfo) (l1 l2 : List CountedBct)
    (h1 : ScanAdds params recalcGraph tipHeight st st1 l1)
    (h2 : ScanAdds params recalcGraph tipHeight st1 st2 l2) :
    ScanAdds params recalcGraph tipHeight st st2 (l1 ++ l2) := by
  obtain ⟨a1, a2, a3, a4, a5, a6, a7, a8⟩ := h1
  obtain ⟨b1, b2, b3, b4, b5, b6, b7, b8⟩ := h2
  unfold ScanAdds
  simp only [List.map_append, List.sum_append]
  refine ⟨CellAdds_trans _ _ _ _ _ a1 b1, CellAdds_trans _ _ _ _ _ a2 b2,
    CellAdds_trans _ _ _ _ _ a3 b3, CellAdds_trans _ _ _ _ _ a4 b4, by rw [b5, a5], ?_, ?_, ?_⟩
  · intro h p
    rw [b6 h p, a6 h p]
  · intro p hp
    rw [b7 p hp, a7 p hp]
  · intro h p
    exact ⟨CellAdds_trans _ _ _ _ _ (a8 h p).1 (b8 h p).1,
      CellAdds_trans _ _ _ _ _ (a8 h p).2 (b8 h p).2⟩

theorem scanBeeCount_spec (env : ScanEnv) (params : Params) (pindexPrev : Chain)
    (blockHeight : Int) (tx : CTransaction)
    (hfactor : params.communityContribFactor ≠ 0)
    (hcost : params.GetBeeCost blockHeight ≠ 0)
    (hfit : ∀ u, specUnits env params pindexPrev blockHeight tx = some u →
      -2 ^ 31 ≤ u ∧ u < 2 ^ 31) :
    scanBeeCount env params pindexPrev (params.GetBeeCost blockHeight) tx =
      some (specUnits env params pindexPrev blockHeight tx) := by
  unfold scanBeeCount specUnits at *
  cases hb : env.IsBCT tx with
  | none => rfl
  | some fee =>
    rw [hb] at hfit
    dsimp only at hfit ⊢
    cases ho : tx.vout[1]? with
    | none =>
      rw [ho] at hfit
      dsimp only at hfit ⊢
      obtain ⟨h0, h1⟩ := hfit _ rfl
      unfold scanBeeCountOf
      rw [if_neg hcost, toInt32_of_bounds _ h0 h1]
    | some out1 =>
      rw [ho] at hfit
      dsimp only at hfit ⊢
      by_cases hcf : out1.scriptPubKey = env.scriptPubKeyCF
      · simp only [if_pos hcf] at hfit ⊢
        rw [if_neg hfactor]
        have hexp : (if params.IsMinotaurXEnabled pindexPrev = true then
            Int.tdiv (fee + out1.nValue) params.communityContribFactor +
              Int.tdiv (fee + out1.nValue) params.communityContribFactor / 2
            else Int.tdiv (fee + out1.nValue) params.communityContribFactor) =
            expectedDonation params.communityContribFactor
              (params.IsMinotaurXEnabled pindexPrev) fee out1.nValue := by
          unfold expectedDonation
          rfl
        rw [hexp]
        by_cases hd : out1.nValue ≠ expectedDonation params.communityContribFactor
            (params.IsMinotaurXEnabled pindexPrev) fee out1.nValue
        · simp only [if_pos hd]
        · simp only [if_neg hd] at hfit ⊢
          obtain ⟨h0, h1⟩ := hfit _ rfl
          unfold scanBeeCountOf
          rw [if_neg hcost, toInt32_of_bounds _ h0 h1]
      · simp only [if_neg hcf] at hfit ⊢
        obtain ⟨h0, h1⟩ := hfit _ rfl
        unfold scanBeeCountOf
        rw [if_neg hcost, toInt32_of_bounds _ h0 h1]

theorem scanTx_adds (env : ScanEnv) (params : Params) (recalcGraph : Bool)
    (pindexPrev : Chain) (i blockHeight tipHeight : Int) (st : HiveInfo) (tx : CTransaction)
    (hfactor : params.communityContribFactor ≠ 0)
    (hcost : params.GetBeeCost blockHeight ≠ 0)
    (hfit : ∀ u, specUnits env params pindexPrev blockHeight tx = some u →
      -2 ^ 31 ≤ u ∧ u < 2 ^ 31)
    (hr : recalcGraph = true → 0 ≤ params.beeGestationBlocks ∧ 0 ≤ params.beeLifespanBlocks ∧
      0 ≤ blockHeight ∧ blockHeight ≤ tipHeight ∧
      tipHeight + (params.beeLifespanBlocks + params.beeGestationBlocks) < 2 ^ 31) :
    ∃ st2, scanTx env params recalcGraph pindexPrev i blockHeight tipHeight st tx = some st2 ∧
      ScanAdds params recalcGraph tipHeight st st2
        ((specUnits env params pindexPrev blockHeight tx).map
          fun u => (⟨i, blockHeight, u⟩ : CountedBct)).toList := by
  unfold scanTx
  dsimp only
  rw [scanBeeCount_spec env params pindexPrev blockHeight tx hfactor hcost hfit]
  cases hs : specUnits env params pindexPrev blockHeight tx with
  | none => exact ⟨st, rfl, ScanAdds_refl _ _ _ _⟩
  | some u =>
    dsimp only
    have htot : ∀ (g : Int → BeePopGraphPoint),
        CellAdds st.immatureBees
          (if i < params.beeGestationBlocks then
            (⟨toInt32 (st.immatureBees + u), toInt32 (st.immatureBCTs + 1), st.matureBees,
              st.matureBCTs, st.potentialLifespanRewards, g⟩ : HiveInfo)
          else ⟨st.immatureBees, st.immatureBCTs, toInt32 (st.matureBees + u),
              toInt32 (st.matureBCTs + 1), st.potentialLifespanRewards, g⟩).immatureBees
          (immBeesOf params ⟨i, blockHeight, u⟩) ∧
        CellAdds st.immatureBCTs
          (if i < params.beeGestationBlocks then
            (⟨toInt32 (st.immatureBees + u), toInt32 (st.immatureBCTs + 1), st.matureBees,
              st.matureBCTs, st.potentialLifespanRewards, g⟩ : HiveInfo)
          else ⟨st.immatureBees, st.immatureBCTs, toInt32 (st.matureBees + u),
              toInt32 (st.matureBCTs + 1), st.potentialLifespanRewards, g⟩).immatureBCTs
          (immBCTsOf params ⟨i, blockHeight, u⟩) ∧
        CellAdds st.matureBees
          (if i < params.beeGestationBlocks then
            (⟨toInt32 (st.immatureBees + u), toInt32 (st.immatureBCTs + 1), st.matureBees,
              st.matureBCTs, st.potentialLifespanRewards, g⟩ : HiveInfo)
          else ⟨st.immatureBees, st.immatureBCTs, toInt32 (st.matureBees + u),
              toInt32 (st.matureBCTs + 1), st.potentialLifespanRewards, g⟩).matureBees
          (matBeesOf params ⟨i, blockHeight, u⟩) ∧
        CellAdds st.matureBCTs
          (if i < params.beeGestationBlocks then
            (⟨toInt32 (st.immatureBees + u), toInt32 (st.immatureBCTs + 1), st.matureBees,
              st.matureBCTs, st.potentialLifespanRewards, g⟩ : HiveInfo)
          else ⟨st.immatureBees, st.immatureBCTs, toInt32 (st.matureBees + u),
              toInt32 (st.matureBCTs + 1), st.potentialLifespanRewards, g⟩).matureBCTs
          (matBCTsOf params ⟨i, blockHeight, u⟩) ∧
        (if i < params.beeGestationBlocks then
            (⟨toInt32 (st.immatureBees + u), toInt32 (st.immatureBCTs + 1), st.matureBees,
              st.matureBCTs, st.potentialLifespanRewards, g⟩ : HiveInfo)
          else ⟨st.immatureBees, st.immatureBCTs, toInt32 (st.matureBees + u),
              toInt32 (st.matureBCTs + 1), st.potentialLifespanRewards, g⟩
          ).potentialLifespanRewards = st.potentialLifespanRewards := by
      intro g
      unfold immBeesOf immBCTsOf matBeesOf matBCTsOf
      by_cases hi : i < params.beeGestationBlocks
      · simp only [hi, if_true]
        exact ⟨CellAdds_step _ _, CellAdds_step _ _, CellAdds_refl _, CellAdds_refl _, trivial⟩
      · simp only [hi, if_false]
        exact ⟨CellAdds_refl _, CellAdds_refl _, CellAdds_step _ _, CellAdds_step _ _, trivial⟩
    have hgraph : recalcGraph = true → ∀ (g : Int → BeePopGraphPoint) (p : Int),
        (¬ (0 < p ∧ p < params.beeLifespanBlocks + params.beeGestationBlocks) →
          graphLoop tipHeight (params.beeLifespanBlocks + params.beeGestationBlocks)
            (blockHeight + params.beeGestationBlocks) u
            (blockHeight + params.beeGestationBlocks + params.beeLifespanBlocks -
              blockHeight).toNat blockHeight g p = g p) ∧
        CellAdds (g p).immaturePop
          (graphLoop tipHeight (params.beeLifespanBlocks + params.beeGestationBlocks)
            (blockHeight + params.beeGestationBlocks) u
            (blockHeight + params.beeGestationBlocks + params.beeLifespanBlocks -
              blockHeight).toNat blockHeight g p).immaturePop
          (graphImmOf params tipHeight p ⟨i, blockHeight, u⟩) ∧
        CellAdds (g p).maturePop
          (graphLoop tipHeight (params.beeLifespanBlocks + params.beeGestationBlocks)
            (blockHeight + params.beeGestationBlocks) u
            (blockHeight + params.beeGestationBlocks + params.beeLifespanBlocks -
              blockHeight).toNat blockHeight g p).maturePop
          (graphMatOf params tipHeight p ⟨i, blockHeight, u⟩) := by
      intro hrec g p
      obtain ⟨hg0, hl0, hh0, hht, hsum⟩ := hr hrec
      obtain ⟨q1, q2, q3⟩ := graphLoop_apply tipHeight
        (params.beeLifespanBlocks + params.beeGestationBlocks)
        (blockHeight + params.beeGestationBlocks) u
        (blockHeight + params.beeGestationBlocks + params.beeLifespanBlocks -
          blockHeight).toNat blockHeight g p (by omega) (by omega)
      unfold graphImmOf graphMatOf
      dsimp only
      have hiff1 : (0 < p ∧ p < params.beeLifespanBlocks + params.beeGestationBlocks ∧
          blockHeight ≤ p + tipHeight ∧ p + tipHeight < blockHeight +
            ((blockHeight + params.beeGestationBlocks + params.beeLifespanBlocks -
              blockHeight).toNat : Int) ∧
          p + tipHeight < blockHeight + params.beeGestationBlocks) ↔
          (0 < p ∧ p < params.beeLifespanBlocks + params.beeGestationBlocks ∧
            blockHeight ≤ p + tipHeight ∧
            p + tipHeight < blockHeight + params.beeGestationBlocks +
              params.beeLifespanBlocks ∧
            p + tipHeight < blockHeight + params.beeGestationBlocks) := by
        constructor <;> intro h <;> omega
      have hiff2 : (0 < p ∧ p < params.beeLifespanBlocks + params.beeGestationBlocks ∧
          blockHeight ≤ p + tipHeight ∧ p + tipHeight < blockHeight +
            ((blockHeight + params.beeGestationBlocks + params.beeLifespanBlocks -
              blockHeight).toNat : Int) ∧
          ¬ p + tipHeight < blockHeight + params.beeGestationBlocks) ↔
          (0 < p ∧ p < params.beeLifespanBlocks + params.beeGestationBlocks ∧
            blockHeight ≤ p + tipHeight ∧
            p + tipHeight < blockHeight + params.beeGestationBlocks +
              params.beeLifespanBlocks ∧
            ¬ p + tipHeight < blockHeight + params.beeGestationBlocks) := by
        constructor <;> intro h <;> omega
      rw [if_congr hiff1 rfl rfl] at q2
      rw [if_congr hiff2 rfl rfl] at q3
      exact ⟨q1, q2, q3⟩
    cases recalcGraph with
    | false =>
      refine ⟨_, rfl, ?_⟩
      obtain ⟨t1, t2, t3, t4, t5⟩ := htot st.beePopGraph
      unfold ScanAdds
      simp only [Option.map_some', Option.toList_some, List.map_cons, List.map_nil,
        List.sum_cons, List.sum_nil, add_zero]
      refine ⟨t1, t2, t3, t4, t5, ?_, ?_, ?_⟩
      · intro _ p
        by_cases hi : i < params.beeGestationBlocks
        · simp only [hi, if_true]
        · simp only [hi, if_false]
      · intro p _
        by_cases hi : i < params.beeGestationBlocks
        · simp only [hi, if_true]
        · simp only [hi, if_false]
      · intro h
        cases h
    | true =>
      obtain ⟨hg0, hl0, hh0, hht, hsum⟩ := hr rfl
      have e1 : toInt32 (params.beeLifespanBlocks + params.beeGestationBlocks) =
          params.beeLifespanBlocks + params.beeGestationBlocks :=
        toInt32_of_bounds _ (by omega) (by omega)
      have e2 : toInt32 (blockHeight + params.beeGestationBlocks) =
          blockHeight + params.beeGestationBlocks :=
        toInt32_of_bounds _ (by omega) (by omega)
      have e3 : toInt32 (blockHeight + params.beeGestationBlocks + params.beeLifespanBlocks) =
          blockHeight + params.beeGestationBlocks + params.beeLifespanBlocks :=
        toInt32_of_bounds _ (by omega) (by omega)
      rw [e2, e3, e1]
      refine ⟨_, rfl, ?_⟩
      unfold ScanAdds
      simp only [Option.map_some', Option.toList_some, List.map_cons, List.map_nil,
        List.sum_cons, List.sum_nil, add_zero]
      have hst1 : (if i < params.beeGestationBlocks then
            (⟨toInt32 (st.immatureBees + u), toInt32 (st.immatureBCTs + 1), st.matureBees,
              st.matureBCTs, st.potentialLifespanRewards, st.beePopGraph⟩ : HiveInfo)
          else ⟨st.immatureBees, st.immatureBCTs, toInt32 (st.matureBees + u),
              toInt32 (st.matureBCTs + 1), st.potentialLifespanRewards,
              st.beePopGraph⟩).beePopGraph = st.beePopGraph := by
        by_cases hi : i < params.beeGestationBlocks
        · simp only [hi, if_true]
        · simp only [hi, if_false]
      obtain ⟨t1, t2, t3, t4, t5⟩ := htot st.beePopGraph
      refine ⟨t1, t2, t3, t4, t5, ?_, ?_, ?_⟩
      · intro h
        cases h
      · intro p hp
        rw [hst1]
        exact (hgraph rfl _ p).1 hp
      · intro _ p
        rw [hst1]
        exact (hgraph rfl _ p).2

theorem filterMap_cons_toList {α β : Type} (f : α → Option β) (a : α) (l : List α) :
    (a :: l).filterMap f = (f a).toList ++ l.filterMap f := by
  cases hf : f a <;> simp [List.filterMap_cons, hf]

theorem scanTxs_adds (env : ScanEnv) (params : Params) (recalcGraph : Bool)
    (pindexPrev : Chain) (i blockHeight tipHeight : Int)
    (hfactor : params.communityContribFactor ≠ 0)
    (hcost : params.GetBeeCost blockHeight ≠ 0) (vtx : List CTransaction) (st : HiveInfo)
    (hfit : ∀ tx ∈ vtx, ∀ u, specUnits env params pindexPrev blockHeight tx = some u →
      -2 ^ 31 ≤ u ∧ u < 2 ^ 31)
    (hr : recalcGraph = true → 0 ≤ params.beeGestationBlocks ∧ 0 ≤ params.beeLifespanBlocks ∧
      0 ≤ blockHeight ∧ blockHeight ≤ tipHeight ∧
      tipHeight + (params.beeLifespanBlocks + params.beeGestationBlocks) < 2 ^ 31) :
    ∃ st2, scanTxs env params recalcGraph pindexPrev i blockHeight tipHeight vtx st = some st2 ∧
      ScanAdds params recalcGraph tipHeight st st2
        (vtx.filterMap fun tx =>
          (specUnits env params pindexPrev blockHeight tx).map
            fun u => (⟨i, blockHeight, u⟩ : CountedBct)) := by
  induction vtx generalizing st with
  | nil => exact ⟨st, rfl, ScanAdds_refl _ _ _ _⟩
  | cons tx more ih =>
    obtain ⟨st1, h1, a1⟩ := scanTx_adds env params recalcGraph pindexPrev i blockHeight
      tipHeight st tx hfactor hcost (hfit tx (List.mem_cons_self _ _)) hr
    obtain ⟨st2, h2, a2⟩ := ih st1 (fun t ht => hfit t (List.mem_cons_of_mem _ ht))
    refine ⟨st2, ?_, ?_⟩
    · rw [scanTxs, h1]
      exact h2
    · rw [filterMap_cons_toList]
      exact ScanAdds_trans _ _ _ _ _ _ _ _ a1 a2

theorem scannedEntries_nil (n : Nat) (i : Int) : scannedEntries n i [] = [] := by
  cases n <;> rfl

theorem scanLoop_adds (env : ScanEnv) (params : Params) (recalcGraph : Bool)
    (tipHeight : Int) (hfactor : params.communityContribFactor ≠ 0) (n : Nat) (i : Int)
    (b : CBlockIndex) (prev : Chain) (st : HiveInfo)
    (hread : ∀ e ∈ scannedEntries n i (b :: prev), ScanReadable env params e.2)
    (hfit : ∀ c ∈ countedBcts env params (scannedEntries n i (b :: prev)),
      -2 ^ 31 ≤ c.units ∧ c.units < 2 ^ 31)
    (hr : recalcGraph = true → 0 ≤ params.beeGestationBlocks ∧ 0 ≤ params.beeLifespanBlocks ∧
      ValidChain (b :: prev) ∧ b.nHeight ≤ tipHeight ∧
      tipHeight + (params.beeLifespanBlocks + params.beeGestationBlocks) < 2 ^ 31) :
    ∃ st2, scanLoop env params recalcGraph tipHeight n i (b :: prev) st = some (true, st2) ∧
      ScanAdds params recalcGraph tipHeight st st2
        (countedBcts env params (scannedEntries n i (b :: prev))) := by
  induction n generalizing i b prev st with
  | zero => exact ⟨st, rfl, ScanAdds_refl _ _ _ _⟩
  | succ k ih =>
    have hent : scannedEntries (k + 1) i (b :: prev) =
        (i, b :: prev) :: scannedEntries k (i + 1) prev := rfl
    rw [hent] at hread hfit ⊢
    have hcb : countedBcts env params ((i, b :: prev) :: scannedEntries k (i + 1) prev) =
        countedInEntry env params i (b :: prev) ++
          countedBcts env params (scannedEntries k (i + 1) prev) := rfl
    rw [hcb] at hfit ⊢
    obtain ⟨hpruned, hdata⟩ : ScanReadable env params (b :: prev) :=
      hread _ (List.mem_cons_self _ _)
    have hrest : ∀ st2, ScanAdds params recalcGraph tipHeight st st2
          (countedInEntry env params i (b :: prev)) →
        ∃ st3, (match prev with
          | [] => some (true, st2)
          | _ :: _ => scanLoop env params recalcGraph tipHeight k (i + 1) prev st2) =
          some (true, st3) ∧
        ScanAdds params recalcGraph tipHeight st st3
          (countedInEntry env params i (b :: prev) ++
            countedBcts env params (scannedEntries k (i + 1) prev)) := by
      intro st2 h2
      cases prev with
      | nil =>
        refine ⟨st2, rfl, ?_⟩
        rw [scannedEntries_nil]
        have : countedBcts env params [] = [] := rfl
        rw [this, List.append_nil]
        exact h2
      | cons c r =>
        obtain ⟨st3, h3, a3⟩ := ih (i + 1) c r st2
          (fun e he => hread e (List.mem_cons_of_mem _ he))
          (fun x hx => hfit x (List.mem_append_right _ hx))
          (fun hrec => by
            obtain ⟨hg0, hl0, hv, hht, hsum⟩ := hr hrec
            obtain ⟨hv1, hv2⟩ := hv
            exact ⟨hg0, hl0, hv2, by omega, hsum⟩)
        exact ⟨st3, h3, ScanAdds_trans _ _ _ _ _ _ _ _ h2 a3⟩
    rw [scanLoop, if_neg (by rw [hpruned]; simp)]
    cases hb : b.IsHiveMined with
    | true =>
      have hc : countedInEntry env params i (b :: prev) = [] := by
        simp [countedInEntry, hb]
      obtain ⟨st3, h3, a3⟩ := hrest st (by rw [hc]; exact ScanAdds_refl _ _ _ _)
      refine ⟨st3, ?_, a3⟩
      simp only [Bool.not_true, Bool.false_eq_true, if_false]
      exact h3
    | false =>
      obtain ⟨hsome, hcost⟩ := hdata hb
      obtain ⟨block, hblock⟩ := Option.isSome_iff_exists.mp hsome
      have hc : countedInEntry env params i (b :: prev) =
          block.vtx.filterMap fun tx =>
            (specUnits env params (b :: prev) b.nHeight tx).map
              fun u => (⟨i, b.nHeight, u⟩ : CountedBct) := by
        simp [countedInEntry, hb, hblock]
      obtain ⟨st1, h1, a1⟩ := scanTxs_adds env params recalcGraph (b :: prev) i b.nHeight
        tipHeight hfactor hcost block.vtx st (by
          intro tx htx u hu
          apply hfit ⟨i, b.nHeight, u⟩
          apply List.mem_append_left
          rw [hc]
          exact List.mem_filterMap.mpr ⟨tx, htx, by rw [hu]; rfl⟩)
        (fun hrec => by
          obtain ⟨hg0, hl0, hv, hht, hsum⟩ := hr hrec
          exact ⟨hg0, hl0, ValidChain_height_nonneg prev b hv, hht, hsum⟩)
      obtain ⟨st3, h3, a3⟩ := hrest st1 (by rw [hc]; exact a1)
      refine ⟨st3, ?_, a3⟩
      simp only [Bool.not_false, if_true, hblock, h1]
      exact h3

/-- Counterexample to C33 as stated: the tip block of `scanEnv 214748364800` holds a
bond of fee `2 ^ 31 * 100` at bee cost 100, so that the counted bonds of the tip are
worth `10 + 2 ^ 31` units in the words of the claim; the code narrows the quotient to
`int` (`int beeCount = beeFeePaid / beeCost`) and `immatureBees` ends at
`10 - 2 ^ 31`. Nothing is pruned or unreadable and the node is not in initial
download. -/
theorem C33_bee_count_narrowed :
    (scanEnv 214748364800).IsInitialBlockDownload = false ∧
      (∀ e ∈ scannedEntries 7 0 (scanEnv 214748364800).Tip,
        ScanReadable (scanEnv 214748364800) verifierParams e.2) ∧
      countedBcts (scanEnv 214748364800) verifierParams
          (scannedEntries 7 0 (scanEnv 214748364800).Tip) =
        [⟨0, 3, 10⟩, ⟨0, 3, 2147483648⟩, ⟨2, 1, 2⟩] ∧
      ((countedBcts (scanEnv 214748364800) verifierParams
          (scannedEntries 7 0 (scanEnv 214748364800).Tip)).map
        (immBeesOf verifierParams)).sum = 2147483658 ∧
      (GetNetworkHiveInfo (scanEnv 214748364800) verifierParams false emptyGraph).map
          (fun r => (r.1, r.2.immatureBees, r.2.immatureBCTs)) =
        some (true, -2147483638, 2) := by
  decide

/-- C33, amended: let the tip exist, the typical spacing in use be non-zero, the node not
be in initial download, every scanned entry be readable with a non-zero bee cost,
`communityContribFactor` be non-zero, gestation and lifespan be non-negative with a sum
that fits an `int`, and the unit count of every counted bonding transaction fit an
`int`; with `recalcGraph` let moreover `gestation + lifespan` be at most the 40960
entries of `beePopGraph`, the active chain be structurally valid and
`tipHeight + gestation + lifespan` fit an `int`. Then `GetNetworkHiveInfo` returns
`true`, and over the `gestation + lifespan` entries ending at the tip
(`scannedEntries`), with Hive-mined blocks skipped and a bonding transaction counted
unless its community-fund output differs from the expected donation (`countedBcts`,
`specUnits`), each counted transaction found `i` entries below the tip adds its units
and one transaction to the immature totals iff `i < beeGestationBlocks`, else to the
mature totals, every total being the sum kept in 32 bits (the sum itself when it fits an
`int`, `toInt32_of_bounds`); with `recalcGraph` the graph entry at each position `p` of
`[0, gestation + lifespan)` is, in 32 bits, the sum of the units of the counted
transactions of height `h` with `p = j - tipHeight` for a `j` in
`[h, h + gestation + lifespan)` and `0 < p`, as immature iff `j < h + gestation`, and the
other entries are left as they were; without `recalcGraph` the graph is left as it
was. -/
theorem C33_network_hive_info (env : ScanEnv) (params : Params) (recalcGraph : Bool)
    (graph0 : Int → BeePopGraphPoint) (tip : CBlockIndex) (rest : Chain)
    (htip : env.Tip = tip :: rest)
    (htyp : (if params.IsHive11Enabled env.Tip = true
      then env.hiveBlockSpacingTargetTypical_1_1
      else env.hiveBlockSpacingTargetTypical) ≠ 0)
    (hibd : env.IsInitialBlockDownload = false)
    (hfactor : params.communityContribFactor ≠ 0)
    (hg0 : 0 ≤ params.beeGestationBlocks) (hl0 : 0 ≤ params.beeLifespanBlocks)
    (htot : params.beeLifespanBlocks + params.beeGestationBlocks < 2 ^ 31)
    (hgraph : recalcGraph = true →
      params.beeLifespanBlocks + params.beeGestationBlocks ≤ 1024 * 40 ∧
      ValidChain env.Tip ∧
      tip.nHeight + (params.beeLifespanBlocks + params.beeGestationBlocks) < 2 ^ 31)
    (hread : ∀ e ∈ scannedEntries (params.beeLifespanBlocks + params.beeGestationBlocks).toNat
      0 env.Tip, ScanReadable env params e.2)
    (hfit : ∀ c ∈ countedBcts env params
      (scannedEntries (params.beeLifespanBlocks + params.beeGestationBlocks).toNat 0 env.Tip),
      -2 ^ 31 ≤ c.units ∧ c.units < 2 ^ 31) :
    ∃ info, GetNetworkHiveInfo env params recalcGraph graph0 = some (true, info) ∧
      info.immatureBees = toInt32 ((countedBcts env params (scannedEntries
        (params.beeLifespanBlocks + params.beeGestationBlocks).toNat 0 env.Tip)).map
          (immBeesOf params)).sum ∧
      info.immatureBCTs = toInt32 ((countedBcts env params (scannedEntries
        (params.beeLifespanBlocks + params.beeGestationBlocks).toNat 0 env.Tip)).map
          (immBCTsOf params)).sum ∧
      info.matureBees = toInt32 ((countedBcts env params (scannedEntries
        (params.beeLifespanBlocks + params.beeGestationBlocks).toNat 0 env.Tip)).map
          (matBeesOf params)).sum ∧
      info.matureBCTs = toInt32 ((countedBcts env params (scannedEntries
        (params.beeLifespanBlocks + params.beeGestationBlocks).toNat 0 env.Tip)).map
          (matBCTsOf params)).sum ∧
      ∀ p, (info.beePopGraph p).immaturePop =
          (if recalcGraph = true ∧ 0 ≤ p ∧
              p < params.beeLifespanBlocks + params.beeGestationBlocks then
            toInt32 ((countedBcts env params (scannedEntries
              (params.beeLifespanBlocks + params.beeGestationBlocks).toNat 0 env.Tip)).map
                (graphImmOf params tip.nHeight p)).sum
          else (graph0 p).immaturePop) ∧
        (info.beePopGraph p).maturePop =
          (if recalcGraph = true ∧ 0 ≤ p ∧
              p < params.beeLifespanBlocks + params.beeGestationBlocks then
            toInt32 ((countedBcts env params (scannedEntries
              (params.beeLifespanBlocks + params.beeGestationBlocks).toNat 0 env.Tip)).map
                (graphMatOf params tip.nHeight p)).sum
          else (graph0 p).maturePop) := by
  rw [htip] at htyp hread hfit hgraph ⊢
  generalize hL : countedBcts env params (scannedEntries
    (params.beeLifespanBlocks + params.beeGestationBlocks).toNat 0 (tip :: rest)) = L
  have hloop : ∀ st, ∃ st2, scanLoop env params recalcGraph tip.nHeight
      (params.beeLifespanBlocks + params.beeGestationBlocks).toNat 0 (tip :: rest) st =
        some (true, st2) ∧ ScanAdds params recalcGraph tip.nHeight st st2 L := by
    intro st
    rw [← hL]
    exact scanLoop_adds env params recalcGraph tip.nHeight hfactor _ 0 tip rest st hread hfit
      (fun hrec => ⟨hg0, hl0, (hgraph hrec).2.1, le_refl _, (hgraph hrec).2.2⟩)
  have e1 : toInt32 (params.beeLifespanBlocks + params.beeGestationBlocks) =
      params.beeLifespanBlocks + params.beeGestationBlocks :=
    toInt32_of_bounds _ (by omega) htot
  have hguard : (recalcGraph && decide (params.beeLifespanBlocks + params.beeGestationBlocks >
      1024 * 40)) = false := by
    cases hrec : recalcGraph with
    | false => rfl
    | true =>
      have := (hgraph hrec).1
      simp only [Bool.true_and, decide_eq_false_iff_not]
      omega
  unfold GetNetworkHiveInfo
  rw [e1]
  dsimp only
  rw [htip]
  dsimp only
  rw [if_neg htyp, hguard, hibd]
  simp only [Bool.false_eq_true, if_false]
  obtain ⟨st2, h2, a1, a2, a3, a4, -, a6, a7, a8⟩ := hloop
    ⟨0, 0, 0, 0, Int.tdiv (params.beeLifespanBlocks *
        (if params.IsMinotaurXEnabled (tip :: rest) = true then
          env.GetBlockSubsidy tip.nHeight + env.GetBlockSubsidy tip.nHeight / 2
        else env.GetBlockSubsidy tip.nHeight))
      (if params.IsHive11Enabled (tip :: rest) = true
        then env.hiveBlockSpacingTargetTypical_1_1
        else env.hiveBlockSpacingTargetTypical),
      if recalcGraph = true then
        fun q => if 0 ≤ q ∧ q < params.beeLifespanBlocks + params.beeGestationBlocks
          then ⟨0, 0⟩ else graph0 q
      else graph0⟩
  refine ⟨st2, h2, CellAdds_zero _ _ a1, CellAdds_zero _ _ a2, CellAdds_zero _ _ a3,
    CellAdds_zero _ _ a4, ?_⟩
  intro p
  dsimp only at a6 a7 a8
  cases recalcGraph with
  | false =>
    have hc : ¬ (false = true ∧ 0 ≤ p ∧
        p < params.beeLifespanBlocks + params.beeGestationBlocks) := by simp
    rw [if_neg hc, if_neg hc, a6 rfl p]
    simp
  | true =>
    simp only [if_true] at a7 a8
    by_cases hp : 0 ≤ p ∧ p < params.beeLifespanBlocks + params.beeGestationBlocks
    · have hc : true = true ∧ 0 ≤ p ∧
          p < params.beeLifespanBlocks + params.beeGestationBlocks := ⟨rfl, hp⟩
      rw [if_pos hc, if_pos hc]
      obtain ⟨g1, g2⟩ := a8 trivial p
      rw [if_pos hp] at g1 g2
      exact ⟨CellAdds_zero _ _ g1, CellAdds_zero _ _ g2⟩
    · have hc : ¬ (true = true ∧ 0 ≤ p ∧
          p < params.beeLifespanBlocks + params.beeGestationBlocks) := fun h => hp h.2
      rw [if_neg hc, if_neg hc, a7 p (fun h => hp ⟨le_of_lt h.1, h.2⟩), if_neg hp]
      exact ⟨rfl, rfl⟩

/-- Witness of C33: in `scanEnv 300` with gestation 2, lifespan 5 and bee cost 100 the
tip holds bonds worth 10 and 3 units, counted as immature, and the block two entries
below holds one counted bond worth 2 units, counted as mature. -/
theorem C33_network_hive_info_witness :
    ∃ info, GetNetworkHiveInfo (scanEnv 300) verifierParams true emptyGraph =
        some (true, info) ∧
      info.immatureBees = 13 ∧ info.immatureBCTs = 2 ∧ info.matureBees = 2 ∧
      info.matureBCTs = 1 ∧
      (info.beePopGraph 1).immaturePop = 13 ∧ (info.beePopGraph 1).maturePop = 2 := by
  obtain ⟨info, h, h1, h2, h3, h4, h5⟩ := C33_network_hive_info (scanEnv 300) verifierParams
    true emptyGraph (powBlock 3 450 0x1e0ffff0)
    [hiveBlock 2 300 0x1e0ffff0, powBlock 1 150 0x1e0ffff0, powBlock 0 0 0x1e0ffff0]
    rfl (by decide) rfl (by decide) (by decide) (by decide) (by decide)
    (fun _ => by decide) (by decide) (by decide)
  refine ⟨info, h, ?_, ?_, ?_, ?_, ?_, ?_⟩
  · rw [h1]; decide
  · rw [h2]; decide
  · rw [h3]; decide
  · rw [h4]; decide
  · rw [(h5 1).1]; decide
  · rw [(h5 1).2]; decide

end PlexHive
